import Mathlib

/-!
# Entity map lifecycle (`Code/Engine/Entity/EntityMap.cpp`)

A shallow embedding of `EE::EntityModel::EntityMap` and the properties of its
lifecycle state machine.

Conventions of the embedding

* Entities live on a heap addressed by `EntityPtr`; the map stores pointers.
  Dereferencing a pointer that is not live is undefined behaviour and makes the
  operation fail (`none`).
* `EE_ASSERT` / `EE_UNREACHABLE_CODE` are fatal: an operation whose assertion
  fails returns `none`.  An operation that returns `some` ran to completion with
  every assertion on its path satisfied.
* The task system runs a batch to completion before the caller continues, and
  the work items of a batch are independent, so a batch is embedded as a
  sequential pass over the work list in index order.
* The recursive mutex and the main-thread / valid-context assertions are not
  represented: one thread, a valid context.
* Container sizes are assumed to fit the 32-bit indices the source casts them to.
* `StringID` is identified with the string it was built from (no hash collisions).
-/

namespace EE.EntityModel

/-! ## Identifiers, strings, vectors -/

/-- Address of a heap-allocated `Entity`. -/
abbrev EntityPtr := Nat

/-- The null pointer. -/
def nullptr : EntityPtr := 0

/-- Entity identifier (`EntityID`). -/
abbrev EntityID := Nat

/-- Map identifier (`EntityMapID`); the cleared / invalid id is `0`. -/
abbrev EntityMapID := Nat

/-- An `InlineString`: a sequence of characters. -/
abbrev InlineString := List Char

/-- A `StringID`, identified with its characters. -/
abbrev StringID := List Char

/-- `EE_ASSERT( cond )`: fatal when the condition is false. -/
def EE_ASSERT (cond : Bool) : Option Unit := if cond then some () else none

/-- `VectorContains( vector, value )`. -/
def VectorContains {α : Type} [DecidableEq α] (v : List α) (x : α) : Bool := decide (x ∈ v)

/-- `VectorFindIndex( vector, value, predicate )`: index of the first element that
satisfies the predicate, `none` for `InvalidIndex`. -/
def VectorFindIndex {α : Type} (p : α → Bool) : List α → Option Nat
  | [] => none
  | x :: xs => if p x then some 0 else (VectorFindIndex p xs).map (· + 1)

/-- `vector::erase_unsorted( position )`: the last element is moved into the
position and the vector shrinks by one. -/
def erase_unsorted {α : Type} (v : List α) (i : Nat) : List α :=
  match v.getLast? with
  | none => v
  | some back => if i < v.length then (v.set i back).dropLast else v

/-- `vector::erase_first_unsorted( value )`: `erase_unsorted` at the first
occurrence of the value, nothing when the value is absent. -/
def erase_first_unsorted {α : Type} [DecidableEq α] (v : List α) (x : α) : List α :=
  match VectorFindIndex (fun y => decide (y = x)) v with
  | none => v
  | some i => erase_unsorted v i

/-- `vector::erase_first( value )`: order-preserving removal of the first occurrence. -/
def erase_first {α : Type} [DecidableEq α] (v : List α) (x : α) : List α := v.erase x

/-! ## Hash maps (`THashMap`) as association lists with unique keys -/

/-- `hash_map::find( key )`. -/
def THashMap.find {κ ν : Type} [DecidableEq κ] (m : List (κ × ν)) (k : κ) : Option ν :=
  match m with
  | [] => none
  | (k', v) :: rest => if k' = k then some v else THashMap.find rest k

/-- `hash_map::insert( pair )`: nothing is inserted when the key is already present. -/
def THashMap.insert {κ ν : Type} [DecidableEq κ] (m : List (κ × ν)) (k : κ) (v : ν) :
    List (κ × ν) :=
  match THashMap.find m k with
  | some _ => m
  | none => m ++ [(k, v)]

/-- `hash_map::erase( iterator )` for the iterator that `find( key )` returned. -/
def THashMap.erase {κ ν : Type} [DecidableEq κ] (m : List (κ × ν)) (k : κ) : List (κ × ν) :=
  match m with
  | [] => []
  | (k', v) :: rest => if k' = k then rest else (k', v) :: THashMap.erase rest k

/-! ## Unique entity names (development tools only) -/

/-- Decimal digits of a number, most significant first (`fuel` bounds the number
of digits produced). -/
def decimalDigits : Nat → Nat → List Char
  | 0, _ => []
  | fuel + 1, n =>
    if n < 10 then [Char.ofNat (48 + n)]
    else decimalDigits fuel (n / 10) ++ [Char.ofNat (48 + n % 10)]

/-- What `sprintf` produces for the conversion `%03u` applied
to a 32-bit argument: the unsigned decimal value, zero-padded on the left to at
least three characters. -/
def sprintf_03u (value : Nat) : List Char :=
  let v := value % 2 ^ 32
  let ds := decimalDigits (v + 1) v
  List.replicate (3 - ds.length) '0' ++ ds

/-- `isdigit`. -/
def isdigit (c : Char) : Bool := decide ('0' ≤ c) && decide (c ≤ '9')

/-- `GenerateUniqueName( baseName, counterValue )`. -/
def GenerateUniqueName (baseName : InlineString) (counterValue : Nat) : InlineString :=
  if baseName.length > 3
      ∧ isdigit (baseName.getD (baseName.length - 1) ' ') = true
      ∧ isdigit (baseName.getD (baseName.length - 2) ' ') = true
      ∧ isdigit (baseName.getD (baseName.length - 3) ' ') = true then
    baseName.take (baseName.length - 3) ++ sprintf_03u counterValue
  else
    baseName ++ [' '] ++ sprintf_03u counterValue

/-- `StringID::IsValid`: a string id built from a non-empty string. -/
def StringID.IsValid (s : StringID) : Bool := !s.isEmpty

/-- The `while ( !isUniqueName )` loop of `GenerateUniqueEntityNameID`; `fuel`
bounds the number of lookups, `counter` is the `uint32_t` counter. -/
def GenerateUniqueEntityNameID.loop {ν : Type} (nameLookupMap : List (StringID × ν))
    (desiredName : InlineString) : Nat → StringID → Nat → Option StringID
  | 0, _, _ => none
  | fuel + 1, finalNameID, counter =>
    if (THashMap.find nameLookupMap finalNameID).isNone then some finalNameID
    else GenerateUniqueEntityNameID.loop nameLookupMap desiredName fuel
      (GenerateUniqueName desiredName counter) ((counter + 1) % 2 ^ 32)

/-- `EntityMap::GenerateUniqueEntityNameID( desiredNameID )` against the name
lookup map.  The loop is given one lookup more than there are candidates needed
to escape a lookup map of this size. -/
def GenerateUniqueEntityNameID {ν : Type} (nameLookupMap : List (StringID × ν))
    (desiredNameID : StringID) : Option StringID := do
  EE_ASSERT (StringID.IsValid desiredNameID)
  GenerateUniqueEntityNameID.loop nameLookupMap desiredNameID (nameLookupMap.length + 2)
    desiredNameID 0

/-! ## Entities -/

/-- `Entity::Status`. -/
inductive Entity.Status where
  | Unloaded
  | Loaded
  | Activated
  deriving DecidableEq, Repr

/-- Modelled from the spec: the `Entity` class (`Engine/Entity/Entity.h`) is not
part of the sources at hand.  The spec describes an entity as "an object with
components, its own load/activate state, and identity", treated by the map as
"an opaque state-holder exposing load/activate/deactivate/unload operations and
a state query".  The fields are the members that `EntityMap.cpp` reads and
writes, plus the spatial flag behind `IsSpatialEntity()`. -/
structure Entity where
  m_ID : EntityID
  m_mapID : EntityMapID
  m_name : StringID
  m_status : Entity.Status
  m_isSpatialEntity : Bool
  m_pParentSpatialEntity : Option EntityPtr
  m_attachedEntities : List EntityPtr
  deriving DecidableEq, Repr

/-- `Entity::IsAddedToMap`: the recorded map id is valid. -/
def Entity.IsAddedToMap (e : Entity) : Bool := e.m_mapID != 0

/-- `Entity::IsActivated`. -/
def Entity.IsActivated (e : Entity) : Bool := decide (e.m_status = Entity.Status.Activated)

/-- `Entity::IsLoaded`. -/
def Entity.IsLoaded (e : Entity) : Bool := decide (e.m_status = Entity.Status.Loaded)

/-- `Entity::IsUnloaded`. -/
def Entity.IsUnloaded (e : Entity) : Bool := decide (e.m_status = Entity.Status.Unloaded)

/-- `Entity::HasRequestedComponentLoad`: the entity left the unloaded state. -/
def Entity.HasRequestedComponentLoad (e : Entity) : Bool :=
  decide (e.m_status ≠ Entity.Status.Unloaded)

/-- `Entity::IsSpatialEntity`. -/
def Entity.IsSpatialEntity (e : Entity) : Bool := e.m_isSpatialEntity

/-- `Entity::HasSpatialParent`. -/
def Entity.HasSpatialParent (e : Entity) : Bool := e.m_pParentSpatialEntity.isSome

/-! ## The heap of entities -/

/-- The live entities, by address. -/
abbrev Heap := List (EntityPtr × Entity)

/-- Dereference: the entity at an address, `none` when the address is not live. -/
def Heap.read (h : Heap) (p : EntityPtr) : Option Entity :=
  match h with
  | [] => none
  | (q, e) :: rest => if q = p then some e else Heap.read rest p

/-- Update the entity at an address in place. -/
def Heap.modify (h : Heap) (p : EntityPtr) (f : Entity → Entity) : Heap :=
  h.map fun x => if x.1 = p then (x.1, f x.2) else x

/-- `EE::Delete( pEntity )`: the address is no longer live. -/
def Heap.free (h : Heap) (p : EntityPtr) : Heap :=
  h.filter fun x => decide (x.1 ≠ p)

/-- Whether the chain of spatial parents that starts at `child` passes through
`ancestor`, following at most `fuel` parent links. -/
def Heap.isAttachedTo (h : Heap) : Nat → EntityPtr → EntityPtr → Bool
  | 0, _, _ => false
  | fuel + 1, ancestor, child =>
    match Heap.read h child with
    | none => false
    | some e =>
      match e.m_pParentSpatialEntity with
      | none => false
      | some q => decide (q = ancestor) || Heap.isAttachedTo h fuel ancestor q

/-- Modelled from the spec: `Entity::LoadComponents` requests the load of the
entity's components; the entity leaves the unloaded state. -/
def Entity.LoadComponents (h : Heap) (p : EntityPtr) : Heap :=
  Heap.modify h p fun e => { e with m_status := Entity.Status.Loaded }

/-- Modelled from the spec: `Entity::UnloadComponents` returns the entity to the
unloaded state. -/
def Entity.UnloadComponents (h : Heap) (p : EntityPtr) : Heap :=
  Heap.modify h p fun e => { e with m_status := Entity.Status.Unloaded }

/-- Modelled from the spec: `Entity::Activate` makes a loaded entity activated. -/
def Entity.Activate (h : Heap) (p : EntityPtr) : Heap :=
  Heap.modify h p fun e => { e with m_status := Entity.Status.Activated }

/-- Modelled from the spec: `Entity::Deactivate`.  An entity that is spatially
attached to another entity has its deactivation driven by its parent ("their
parent drives their deactivation"): deactivating an entity returns it, and every
activated entity attached to it directly or through a chain of spatial parents,
to the loaded state.  A chain of parents in a heap of `n` entities is followed
for `n` links, which reaches every ancestor. -/
def Entity.Deactivate (h : Heap) (p : EntityPtr) : Heap :=
  h.map fun x =>
    if (decide (x.1 = p) || Heap.isAttachedTo h h.length p x.1) && x.2.IsActivated then
      (x.1, { x.2 with m_status := Entity.Status.Loaded })
    else x

/-- Modelled from the spec: `Entity::ClearSpatialParent`: the child has no
spatial parent any more and is no longer among the attached entities of its
former parent. -/
def Entity.ClearSpatialParent (h : Heap) (child : EntityPtr) : Option Heap := do
  let c ← Heap.read h child
  let h1 :=
    match c.m_pParentSpatialEntity with
    | none => h
    | some old =>
      Heap.modify h old fun e =>
        { e with m_attachedEntities := e.m_attachedEntities.filter fun q => decide (q ≠ child) }
  some (Heap.modify h1 child fun e => { e with m_pParentSpatialEntity := none })

/-- Modelled from the spec: `Entity::SetSpatialParent`: the child is detached
from its former parent and attached to the new one. -/
def Entity.SetSpatialParent (h : Heap) (child newParent : EntityPtr) : Option Heap := do
  let h1 ← Entity.ClearSpatialParent h child
  let _ ← Heap.read h1 newParent
  let h2 := Heap.modify h1 newParent fun e =>
    { e with m_attachedEntities := e.m_attachedEntities ++ [child] }
  some (Heap.modify h2 child fun e => { e with m_pParentSpatialEntity := some newParent })

/-! ## The map -/

/-- `EntityMap::Status`. -/
inductive EntityMap.Status where
  | LoadFailed
  | Unloaded
  | MapDescriptorLoading
  | MapEntitiesLoading
  | Loaded
  | Activated
  deriving DecidableEq, Repr

/-- `EntityMap::RemovalRequest`. -/
structure RemovalRequest where
  m_pEntity : EntityPtr
  m_shouldDestroy : Bool
  deriving DecidableEq, Repr

/-- Modelled from the spec: the resource handle `TResourcePtr<EntityMapDescriptor>`
is declared outside the sources at hand.  The map itself only depends on whether
the resource was requested: `WasRequested()` is set by `LoadResource` and cleared
by `UnloadResource`. -/
structure MapDescPtr where
  m_wasRequested : Bool
  deriving DecidableEq, Repr

/-- `TResourcePtr::WasRequested`. -/
def MapDescPtr.WasRequested (p : MapDescPtr) : Bool := p.m_wasRequested

/-- The members of `EntityMap`. -/
structure EntityMap where
  m_ID : EntityMapID
  m_entities : List EntityPtr
  m_entityIDLookupMap : List (EntityID × EntityPtr)
  m_entityNameLookupMap : List (StringID × EntityPtr)
  m_pMapDesc : MapDescPtr
  m_entitiesToLoad : List EntityPtr
  m_entitiesCurrentlyLoading : List EntityPtr
  m_entitiesToRemove : List RemovalRequest
  m_entitiesToHotReload : List EntityPtr
  m_editedEntities : List EntityPtr
  m_status : EntityMap.Status
  m_isUnloadRequested : Bool
  m_isMapInstantiated : Bool
  m_isTransientMap : Bool
  deriving DecidableEq, Repr

/-- Calls that leave the map: entity operations, deletions and resource requests,
in the order they are issued. -/
inductive Event where
  | LoadResource
  | UnloadResource
  | LoadComponents (p : EntityPtr)
  | UnloadComponents (p : EntityPtr)
  | Activate (p : EntityPtr)
  | Deactivate (p : EntityPtr)
  | UpdateEntityState (p : EntityPtr)
  | EndComponentEditing (p : EntityPtr)
  | ComponentEditingDeactivate (p : EntityPtr) (componentID : Nat)
  | ComponentEditingUnload (p : EntityPtr) (componentID : Nat)
  | SetSpatialParent (child newParent : EntityPtr)
  | ClearSpatialParent (child : EntityPtr)
  | Delete (p : EntityPtr)
  deriving DecidableEq, Repr

/-- The program state: the build configuration, the heap of entities, one map,
and the calls issued so far. -/
structure World where
  EE_DEVELOPMENT_TOOLS : Bool
  heap : Heap
  map : EntityMap
  trace : List Event
  deriving DecidableEq, Repr

/-- Modelled from the spec: what the resource system reports for the map
descriptor when the handle is polled ("is loading / loaded / failed"), and
whether the loaded descriptor is valid. -/
inductive ResourceLoadState where
  | Loading
  | Failed
  | Loaded (isValid : Bool)
  deriving DecidableEq, Repr

/-- `TResourcePtr::IsLoading`. -/
def ResourceLoadState.IsLoading : ResourceLoadState → Bool
  | ResourceLoadState.Loading => true
  | _ => false

/-- `TResourcePtr::HasLoadingFailed`. -/
def ResourceLoadState.HasLoadingFailed : ResourceLoadState → Bool
  | ResourceLoadState.Failed => true
  | _ => false

/-- `TResourcePtr::IsLoaded`. -/
def ResourceLoadState.IsLoaded : ResourceLoadState → Bool
  | ResourceLoadState.Loaded _ => true
  | _ => false

/-- `EntityMapDescriptor::IsValid` of the loaded descriptor. -/
def ResourceLoadState.IsValid : ResourceLoadState → Bool
  | ResourceLoadState.Loaded v => v
  | _ => false

/-- The collaborators an update pass consumes (`EntityLoadingContext` and
`ActivationContext`): what the resource system reports for the descriptor, the
entities `Serializer::CreateEntities` allocates for it, and, for each entity,
whether `Entity::UpdateEntityState` reports in this pass that the entity is no
longer loading. -/
structure EntityLoadingContext where
  mapDesc : ResourceLoadState
  createdEntities : List (EntityPtr × Entity)
  updateEntityState : EntityPtr → Bool

/-- `EntityMap::EntityMap()`: a transient map. -/
def EntityMap.mkTransient (id : EntityMapID) : EntityMap :=
  { m_ID := id, m_entities := [], m_entityIDLookupMap := [], m_entityNameLookupMap := [],
    m_pMapDesc := { m_wasRequested := false }, m_entitiesToLoad := [],
    m_entitiesCurrentlyLoading := [], m_entitiesToRemove := [], m_entitiesToHotReload := [],
    m_editedEntities := [], m_status := EntityMap.Status.Unloaded,
    m_isUnloadRequested := false, m_isMapInstantiated := false, m_isTransientMap := true }

/-- `EntityMap::EntityMap( ResourceID mapResourceID )`: a map bound to a descriptor. -/
def EntityMap.mkFromResource (id : EntityMapID) : EntityMap :=
  { EntityMap.mkTransient id with m_isTransientMap := false }

/-- `EntityMap::IsActivated`. -/
def EntityMap.IsActivated (m : EntityMap) : Bool :=
  decide (m.m_status = EntityMap.Status.Activated)

/-- `EntityMap::IsUnloaded`. -/
def EntityMap.IsUnloaded (m : EntityMap) : Bool :=
  decide (m.m_status = EntityMap.Status.Unloaded)

/-- `EntityMap::FindEntity( entityID )`: the id lookup, `none` for `nullptr`. -/
def EntityMap.FindEntity (m : EntityMap) (entityID : EntityID) : Option EntityPtr :=
  THashMap.find m.m_entityIDLookupMap entityID

/-- `EntityMap::ContainsEntity( entityID )`. -/
def EntityMap.ContainsEntity (m : EntityMap) (entityID : EntityID) : Bool :=
  (m.FindEntity entityID).isSome

/-- Record a call that leaves the map. -/
def World.emit (w : World) (ev : Event) : World := { w with trace := w.trace ++ [ev] }

/-! ## Calls into an entity

Each call dereferences the entity pointer, so it fails on a pointer that is not
live; it is recorded in the trace. -/

/-- `pEntity->LoadComponents( loadingContext )`. -/
def call_LoadComponents (w : World) (p : EntityPtr) : Option World := do
  let _ ← Heap.read w.heap p
  some { w with heap := Entity.LoadComponents w.heap p,
                trace := w.trace ++ [Event.LoadComponents p] }

/-- `pEntity->UnloadComponents( loadingContext )`. -/
def call_UnloadComponents (w : World) (p : EntityPtr) : Option World := do
  let _ ← Heap.read w.heap p
  some { w with heap := Entity.UnloadComponents w.heap p,
                trace := w.trace ++ [Event.UnloadComponents p] }

/-- `pEntity->Activate( activationContext )`. -/
def call_Activate (w : World) (p : EntityPtr) : Option World := do
  let _ ← Heap.read w.heap p
  some { w with heap := Entity.Activate w.heap p, trace := w.trace ++ [Event.Activate p] }

/-- `pEntity->Deactivate( activationContext )`. -/
def call_Deactivate (w : World) (p : EntityPtr) : Option World := do
  let _ ← Heap.read w.heap p
  some { w with heap := Entity.Deactivate w.heap p, trace := w.trace ++ [Event.Deactivate p] }

/-- `pAttachedEntity->SetSpatialParent( pParent )`. -/
def call_SetSpatialParent (w : World) (child newParent : EntityPtr) : Option World := do
  let h ← Entity.SetSpatialParent w.heap child newParent
  some { w with heap := h, trace := w.trace ++ [Event.SetSpatialParent child newParent] }

/-- `pAttachedEntity->ClearSpatialParent()`. -/
def call_ClearSpatialParent (w : World) (child : EntityPtr) : Option World := do
  let h ← Entity.ClearSpatialParent w.heap child
  some { w with heap := h, trace := w.trace ++ [Event.ClearSpatialParent child] }

/-- `EE::Delete( pEntity )`: the entity must be live, and is not afterwards. -/
def call_Delete (w : World) (p : EntityPtr) : Option World := do
  let _ ← Heap.read w.heap p
  some { w with heap := Heap.free w.heap p, trace := w.trace ++ [Event.Delete p] }

/-- `ResourceSystem::LoadResource( m_pMapDesc )`. -/
def call_LoadResource (w : World) : World :=
  { w with map := { w.map with m_pMapDesc := { m_wasRequested := true } },
           trace := w.trace ++ [Event.LoadResource] }

/-- `ResourceSystem::UnloadResource( m_pMapDesc )`. -/
def call_UnloadResource (w : World) : World :=
  { w with map := { w.map with m_pMapDesc := { m_wasRequested := false } },
           trace := w.trace ++ [Event.UnloadResource] }

/-! ## Adding and removing entities -/

/-- The spatial-parent check of `AddEntity` (development tools): a spatial parent
must already be in the map. -/
def AddEntity.checkSpatialParent (w : World) (e : Entity) : Option Unit :=
  match e.m_pParentSpatialEntity with
  | some pParent => do
    let parent ← Heap.read w.heap pParent
    EE_ASSERT (w.map.ContainsEntity parent.m_ID)
  | none => some ()

/-- The entity validation of `AddEntity`: with development tools the spatial
parent is checked and the name is made unique; without them the name is kept. -/
def AddEntity.validate (w : World) (e : Entity) : Option StringID :=
  if w.EE_DEVELOPMENT_TOOLS then do
    AddEntity.checkSpatialParent w e
    GenerateUniqueEntityNameID w.map.m_entityNameLookupMap e.m_name
  else some e.m_name

/-- `EntityMap::AddEntity( pEntity )`. -/
def AddEntity (w : World) (pEntity : EntityPtr) : Option World := do
  EE_ASSERT (decide (pEntity ≠ nullptr))
  let e ← Heap.read w.heap pEntity
  EE_ASSERT (!e.IsAddedToMap && !e.HasRequestedComponentLoad)
  EE_ASSERT (!VectorContains w.map.m_entitiesToLoad pEntity)
  let name ← AddEntity.validate w e
  some { w with
    heap := Heap.modify w.heap pEntity fun x => { x with m_name := name, m_mapID := w.map.m_ID },
    map := { w.map with
      m_entities := w.map.m_entities ++ [pEntity],
      m_entitiesToLoad := w.map.m_entitiesToLoad ++ [pEntity],
      m_entityIDLookupMap := THashMap.insert w.map.m_entityIDLookupMap e.m_ID pEntity,
      m_entityNameLookupMap :=
        if w.EE_DEVELOPMENT_TOOLS then
          THashMap.insert w.map.m_entityNameLookupMap name pEntity
        else w.map.m_entityNameLookupMap } }

/-- `EntityMap::AddEntities( entities, offsetTransform )`; the offset transform
acts on the world transform of the entities, which the map never reads. -/
def AddEntities (w : World) (entities : List EntityPtr) : Option World :=
  entities.foldlM AddEntity w

/-- The storage of `pEntityToRemove->m_attachedEntities` after a call that leaves
the vector holding `live`, when its slots held `slots` before the call.  The
vector is edited in place: `erase` moves the later elements down and
`emplace_back` writes the slot past the end, so the slots past the new end keep
what they held. -/
def RemoveEntityInternal.slots (slots live : List EntityPtr) : List EntityPtr :=
  live ++ slots.drop live.length

/-- The range-based `for ( auto pAttachedEntity : pEntityToRemove->m_attachedEntities )`.
`begin()` and `end()` are taken once, before the first iteration, so the body runs
once for each element the vector held at that time, on the element that the slot
it has come to holds when it gets there, while the calls in the body edit the
same vector.  `n` counts the iterations left and `i` is the slot. -/
def RemoveEntityInternal.forEachAttached (pEntityToRemove : EntityPtr)
    (body : World → EntityPtr → Option World) :
    Nat → Nat → List EntityPtr → World → Option World
  | 0, _, _, w => some w
  | n + 1, i, slots, w => do
    let pAttachedEntity ← slots[i]?
    let w1 ← body w pAttachedEntity
    let e1 ← Heap.read w1.heap pEntityToRemove
    RemoveEntityInternal.forEachAttached pEntityToRemove body n (i + 1)
      (RemoveEntityInternal.slots slots e1.m_attachedEntities) w1

/-- The body `pAttachedEntity->SetSpatialParent( pEntityToRemove->m_pParentSpatialEntity )`:
the parent of the removed entity is read at each iteration. -/
def RemoveEntityInternal.setParent (pEntityToRemove : EntityPtr) (w : World)
    (pAttachedEntity : EntityPtr) : Option World := do
  let e ← Heap.read w.heap pEntityToRemove
  let pParent ← e.m_pParentSpatialEntity
  call_SetSpatialParent w pAttachedEntity pParent

/-- The spatial-hierarchy block of `RemoveEntityInternal`: one loop over the
attached entities of the removed entity, which re-parents them to the parent of
the removed entity when it has one and clears their parent when it has none. -/
def RemoveEntityInternal.reparent (w : World) (pEntityToRemove : EntityPtr) (e : Entity) :
    Option World :=
  if e.m_attachedEntities.isEmpty then some w
  else
    match e.m_pParentSpatialEntity with
    | some _ =>
      RemoveEntityInternal.forEachAttached pEntityToRemove
        (RemoveEntityInternal.setParent pEntityToRemove)
        e.m_attachedEntities.length 0 e.m_attachedEntities w
    | none =>
      RemoveEntityInternal.forEachAttached pEntityToRemove call_ClearSpatialParent
        e.m_attachedEntities.length 0 e.m_attachedEntities w

/-- The name-lookup block of `RemoveEntityInternal` (development tools): the
name must be found, and its entry is erased. -/
def RemoveEntityInternal.eraseName (w : World) (name : StringID) :
    Option (List (StringID × EntityPtr)) :=
  if w.EE_DEVELOPMENT_TOOLS then do
    let _ ← THashMap.find w.map.m_entityNameLookupMap name
    some (THashMap.erase w.map.m_entityNameLookupMap name)
  else some w.map.m_entityNameLookupMap

/-- The add-queue branch of `RemoveEntityInternal`: the load request at
`entityIdx` is cancelled and the queued entity deleted on request. -/
def RemoveEntityInternal.cancelLoad (w : World) (entityIdx : Nat)
    (destroyEntityOnceRemoved : Bool) : Option (World × Option EntityPtr) := do
  let pEntityToRemove ← w.map.m_entitiesToLoad[entityIdx]?
  let w1 : World := { w with map := { w.map with
    m_entitiesToLoad := erase_unsorted w.map.m_entitiesToLoad entityIdx } }
  if destroyEntityOnceRemoved then (call_Delete w1 pEntityToRemove).map fun w2 => (w2, none)
  else some (w1, some pEntityToRemove)

/-- The queue-removal branch of `RemoveEntityInternal`; on a map that is not
instantiated it is `EE_UNREACHABLE_CODE`. -/
def RemoveEntityInternal.queueRemoval (w : World) (pEntityToRemove : EntityPtr)
    (destroyEntityOnceRemoved : Bool) : Option (World × Option EntityPtr) :=
  if w.map.m_isMapInstantiated then
    some ({ w with map := { w.map with
        m_entitiesToRemove := w.map.m_entitiesToRemove ++
          [{ m_pEntity := pEntityToRemove, m_shouldDestroy := destroyEntityOnceRemoved }] } },
      if destroyEntityOnceRemoved then none else some pEntityToRemove)
  else none

/-- The predicate of the add-queue search of `RemoveEntityInternal`,
`pEntity->GetID() == entityID`. -/
def queuedWithID (h : Heap) (entityID : EntityID) (q : EntityPtr) : Bool :=
  match Heap.read h q with
  | some x => decide (x.m_ID = entityID)
  | none => false

/-- The schedule-unload block of `RemoveEntityInternal`: the add queue is searched
for an entity with the id. -/
def RemoveEntityInternal.scheduleUnload (w : World) (pEntityToRemove : EntityPtr)
    (entityID : EntityID) (destroyEntityOnceRemoved : Bool) :
    Option (World × Option EntityPtr) :=
  match VectorFindIndex (queuedWithID w.heap entityID) w.map.m_entitiesToLoad with
  | some entityIdx => RemoveEntityInternal.cancelLoad w entityIdx destroyEntityOnceRemoved
  | none => RemoveEntityInternal.queueRemoval w pEntityToRemove destroyEntityOnceRemoved

/-- `EntityMap::RemoveEntityInternal( entityID, destroyEntityOnceRemoved )`; the
result carries the returned pointer, `none` for `nullptr`. -/
def RemoveEntityInternal (w : World) (entityID : EntityID) (destroyEntityOnceRemoved : Bool) :
    Option (World × Option EntityPtr) := do
  -- Handle spatial hierarchy
  let pEntityToRemove ← w.map.FindEntity entityID
  let e ← Heap.read w.heap pEntityToRemove
  let w1 ← RemoveEntityInternal.reparent w pEntityToRemove e
  -- Remove from map and from the internal lookup maps
  let e1 ← Heap.read w1.heap pEntityToRemove
  let _ ← THashMap.find w1.map.m_entityIDLookupMap e1.m_ID
  let nameLookup ← RemoveEntityInternal.eraseName w1 e1.m_name
  -- Schedule unload
  RemoveEntityInternal.scheduleUnload
    { w1 with map := { w1.map with
        m_entities := erase_first_unsorted w1.map.m_entities pEntityToRemove,
        m_entityIDLookupMap := THashMap.erase w1.map.m_entityIDLookupMap e1.m_ID,
        m_entityNameLookupMap := nameLookup } }
    pEntityToRemove entityID destroyEntityOnceRemoved

/-- `EntityMap::RemoveEntity( entityID )`: the result is asserted non-null. -/
def RemoveEntity (w : World) (entityID : EntityID) : Option (World × EntityPtr) := do
  let r ← RemoveEntityInternal w entityID false
  let pEntityToRemove ← r.2
  some (r.1, pEntityToRemove)

/-- `EntityMap::DestroyEntity( entityID )`. -/
def DestroyEntity (w : World) (entityID : EntityID) : Option World := do
  let r ← RemoveEntityInternal w entityID true
  some r.1

/-- The delete loop of `DestroyAllEntities`: one entity. -/
def DestroyAllEntities.deleteEntity (w : World) (p : EntityPtr) : Option World := do
  let e ← Heap.read w.heap p
  EE_ASSERT e.IsUnloaded
  call_Delete w p

/-- `EntityMap::DestroyAllEntities()`. -/
def DestroyAllEntities (w : World) : Option World := do
  EE_ASSERT w.map.m_entitiesToLoad.isEmpty
  EE_ASSERT w.map.m_entitiesToRemove.isEmpty
  let w1 ← w.map.m_entities.foldlM DestroyAllEntities.deleteEntity w
  some { w1 with map := { w1.map with
    m_entities := [], m_entityIDLookupMap := [],
    m_entityNameLookupMap :=
      if w1.EE_DEVELOPMENT_TOOLS then [] else w1.map.m_entityNameLookupMap } }

/-! ## Load, unload, activation -/

/-- `EntityMap::Load( loadingContext )`. -/
def Load (w : World) : Option World := do
  EE_ASSERT (decide (w.map.m_status = EntityMap.Status.Unloaded))
  if w.map.m_isTransientMap then
    some { w with map := { w.map with
      m_status := EntityMap.Status.Loaded, m_isMapInstantiated := true } }
  else
    some { call_LoadResource w with map := { (call_LoadResource w).map with
      m_status := EntityMap.Status.MapDescriptorLoading } }

/-- `EntityMap::Unload( loadingContext )`. -/
def Unload (w : World) : Option World := do
  EE_ASSERT (decide (w.map.m_status ≠ EntityMap.Status.Unloaded))
  some { w with map := { w.map with m_isUnloadRequested := true } }

/-- One work item of `EntityActivationTask::ExecuteRange`. -/
def EntityActivationTask.item (w : World) (p : EntityPtr) : Option World := do
  let e ← Heap.read w.heap p
  if e.IsLoaded then call_Activate w p else some w

/-- `EntityMap::Activate( activationContext )`. -/
def Activate (w : World) : Option World := do
  EE_ASSERT (decide (w.map.m_status = EntityMap.Status.Loaded))
  let w1 ← w.map.m_entities.foldlM EntityActivationTask.item w
  some { w1 with map := { w1.map with m_status := EntityMap.Status.Activated } }

/-- One work item of `EntityDeactivationTask::ExecuteRange`. -/
def EntityDeactivationTask.item (w : World) (p : EntityPtr) : Option World := do
  let e ← Heap.read w.heap p
  if e.IsActivated && (!e.IsSpatialEntity || !e.HasSpatialParent) then call_Deactivate w p
  else some w

/-- `EntityMap::Deactivate( activationContext )`. -/
def Deactivate (w : World) : Option World := do
  EE_ASSERT (decide (w.map.m_status = EntityMap.Status.Activated))
  let w1 ← w.map.m_entities.foldlM EntityDeactivationTask.item w
  some { w1 with map := { w1.map with m_status := EntityMap.Status.Loaded } }

/-- `EntityMap::OnEntityStateUpdated( pEntity )`. -/
def OnEntityStateUpdated (w : World) (pEntity : EntityPtr) : Option World := do
  let e ← Heap.read w.heap pEntity
  if e.m_mapID = w.map.m_ID then do
    EE_ASSERT (w.map.FindEntity e.m_ID).isSome
    if VectorContains w.map.m_entitiesCurrentlyLoading pEntity then some w
    else
      some { w with map := { w.map with
        m_entitiesCurrentlyLoading := w.map.m_entitiesCurrentlyLoading ++ [pEntity] } }
  else some w

/-! ## The update pass -/

/-- The unload-entities loop of `ProcessMapUnloadRequest`: one entity. -/
def ProcessMapUnloadRequest.unloadEntity (w : World) (p : EntityPtr) : Option World := do
  let e ← Heap.read w.heap p
  EE_ASSERT (!e.IsActivated)
  call_UnloadComponents w p

/-- The `if ( m_isMapInstantiated )` block of `ProcessMapUnloadRequest`: the
components of every entity are unloaded and the entities destroyed. -/
def ProcessMapUnloadRequest.destroyInstantiated (w : World) : Option World :=
  if w.map.m_isMapInstantiated then do
    let w1 ← w.map.m_entities.foldlM ProcessMapUnloadRequest.unloadEntity w
    let w2 ← DestroyAllEntities w1
    some { w2 with map := { w2.map with m_isMapInstantiated := false } }
  else some w

/-- The `if ( m_status != Status::LoadFailed )` block of `ProcessMapUnloadRequest`. -/
def ProcessMapUnloadRequest.unloadEntities (w : World) : Option World :=
  if w.map.m_status ≠ EntityMap.Status.LoadFailed then do
    let w1 ← ProcessMapUnloadRequest.destroyInstantiated w
    -- Clear all internal entity lists
    some { w1 with map := { w1.map with
      m_entitiesToLoad := [], m_entitiesCurrentlyLoading := [], m_entitiesToRemove := [] } }
  else some w

/-- The map-resource block of `ProcessMapUnloadRequest`. -/
def ProcessMapUnloadRequest.unloadResource (w : World) : World :=
  if !w.map.m_isTransientMap && w.map.m_pMapDesc.WasRequested then call_UnloadResource w
  else w

/-- `EntityMap::ProcessMapUnloadRequest( loadingContext, activationContext )`. -/
def ProcessMapUnloadRequest (w : World) : Option (World × Bool) := do
  EE_ASSERT w.map.m_isUnloadRequested
  -- Ensure that we deactivate all entities properly
  if w.map.IsActivated then (Deactivate w).map fun w1 => (w1, false)
  else
    -- Map is deactivated so we are safe to unload and destroy all entities
    (ProcessMapUnloadRequest.unloadEntities w).map fun w1 =>
      ({ ProcessMapUnloadRequest.unloadResource w1 with
          map := { (ProcessMapUnloadRequest.unloadResource w1).map with
            m_status := EntityMap.Status.Unloaded, m_isUnloadRequested := false } }, true)

/-- The objects `Serializer::CreateEntities` allocates become live; the allocator
hands out addresses that are not live yet, each once. -/
def allocateEntities (h : Heap) (created : List (EntityPtr × Entity)) : Option Heap :=
  if (created.all fun x => (Heap.read h x.1).isNone) && decide (created.map Prod.fst).Nodup then
    some (h ++ created)
  else none

/-- The valid-descriptor block of `ProcessMapLoading`: the described entities are
created and added, and the map becomes instantiated. -/
def ProcessMapLoading.instantiate (w : World) (ctx : EntityLoadingContext) : Option World := do
  -- Create all required entities
  let heap ← allocateEntities w.heap ctx.createdEntities
  -- Add entities
  let w1 ← (ctx.createdEntities.map Prod.fst).foldlM AddEntity { w with heap := heap }
  some { w1 with map := { w1.map with
    m_isMapInstantiated := true, m_status := EntityMap.Status.MapEntitiesLoading } }

/-- The outcome of a descriptor that is no longer loading, in `ProcessMapLoading`. -/
def ProcessMapLoading.finish (w : World) (ctx : EntityLoadingContext) : Option World :=
  if ctx.mapDesc.HasLoadingFailed then
    some { w with map := { w.map with m_status := EntityMap.Status.LoadFailed } }
  else if ctx.mapDesc.IsLoaded then
    if ctx.mapDesc.IsValid then ProcessMapLoading.instantiate w ctx
    else
      -- Invalid map data is treated as a failed load
      some { w with map := { w.map with m_status := EntityMap.Status.LoadFailed } }
  else some w

/-- `EntityMap::ProcessMapLoading( loadingContext, activationContext )`. -/
def ProcessMapLoading (w : World) (ctx : EntityLoadingContext) : Option (World × Bool) := do
  EE_ASSERT (decide (w.map.m_status = EntityMap.Status.MapDescriptorLoading))
  EE_ASSERT (!w.map.m_isTransientMap)
  if ctx.mapDesc.IsLoading then some (w, false)
  else
    -- Release map resource ptr once loading has completed
    (ProcessMapLoading.finish w ctx).map fun w1 => (call_UnloadResource w1, true)

/-- The edited-entities loop of `ProcessEntityAdditionAndRemoval` (development
tools): one entity. -/
def ProcessEntityAdditionAndRemoval.endEditing (w : World) (p : EntityPtr) : Option World := do
  let _ ← Heap.read w.heap p
  EE_ASSERT (!VectorContains w.map.m_entitiesCurrentlyLoading p)
  some { w with
    trace := w.trace ++ [Event.EndComponentEditing p],
    map := { w.map with
      m_entitiesCurrentlyLoading := w.map.m_entitiesCurrentlyLoading ++ [p] } }

/-- The edited-entities block of `ProcessEntityAdditionAndRemoval` (development
tools). -/
def ProcessEntityAdditionAndRemoval.editedEntities (w : World) : Option World :=
  if w.EE_DEVELOPMENT_TOOLS then
    (w.map.m_editedEntities.foldlM ProcessEntityAdditionAndRemoval.endEditing w).map fun w1 =>
      { w1 with map := { w1.map with m_editedEntities := [] } }
  else some w

/-- The `if ( removalRequest.m_shouldDestroy )` of the removal loop. -/
def ProcessEntityAdditionAndRemoval.destroyIfRequested (w : World) (request : RemovalRequest) :
    Option World :=
  if request.m_shouldDestroy then call_Delete w request.m_pEntity else some w

/-- The `else` branch of the removal loop for the request at index `i`: the
entity leaves the loading list, is unloaded, detached from the map and deleted on
request, and the request is dropped. -/
def ProcessEntityAdditionAndRemoval.removeEntity (w : World) (i : Nat)
    (removalRequest : RemovalRequest) : Option World := do
  -- Unload components and remove from collection
  let w1 ← call_UnloadComponents
    { w with map := { w.map with
        m_entitiesCurrentlyLoading :=
          erase_first_unsorted w.map.m_entitiesCurrentlyLoading removalRequest.m_pEntity } }
    removalRequest.m_pEntity
  -- Destroy the entity if this is a destruction request
  let w2 ← ProcessEntityAdditionAndRemoval.destroyIfRequested
    { w1 with
      heap := Heap.modify w1.heap removalRequest.m_pEntity fun x => { x with m_mapID := 0 },
      map := { w1.map with
        m_entities := erase_first w1.map.m_entities removalRequest.m_pEntity } }
    removalRequest
  -- Remove the request from the list
  some { w2 with map := { w2.map with
    m_entitiesToRemove := erase_unsorted w2.map.m_entitiesToRemove i } }

/-- The body of the removal loop of `ProcessEntityAdditionAndRemoval` for the
request at index `i`. -/
def ProcessEntityAdditionAndRemoval.removalStep (w : World) (i : Nat) : Option World := do
  let removalRequest ← w.map.m_entitiesToRemove[i]?
  let e ← Heap.read w.heap removalRequest.m_pEntity
  -- Deactivate if activated
  if e.IsActivated then call_Deactivate w removalRequest.m_pEntity
  else ProcessEntityAdditionAndRemoval.removeEntity w i removalRequest

/-- The removal loop `for ( i = size - 1; i >= 0; i-- )`, entered with `n = size`. -/
def ProcessEntityAdditionAndRemoval.removalLoop : Nat → World → Option World
  | 0, w => some w
  | i + 1, w => do
    let w1 ← ProcessEntityAdditionAndRemoval.removalStep w i
    ProcessEntityAdditionAndRemoval.removalLoop i w1

/-- The load-request loop of `ProcessEntityAdditionAndRemoval`: one entity. -/
def ProcessEntityAdditionAndRemoval.requestLoad (w : World) (pEntityToAdd : EntityPtr) :
    Option World := do
  let e ← Heap.read w.heap pEntityToAdd
  EE_ASSERT (decide (pEntityToAdd ≠ nullptr) && decide (e.m_mapID = w.map.m_ID)
    && !e.IsActivated)
  -- Request component load
  let w1 ← call_LoadComponents w pEntityToAdd
  EE_ASSERT (!VectorContains w1.map.m_entitiesCurrentlyLoading pEntityToAdd)
  some { w1 with map := { w1.map with
    m_entitiesCurrentlyLoading := w1.map.m_entitiesCurrentlyLoading ++ [pEntityToAdd] } }

/-- The loading block of `ProcessEntityAdditionAndRemoval`: it waits until the
map is instantiated. -/
def ProcessEntityAdditionAndRemoval.loading (w : World) : Option World :=
  if w.map.m_isMapInstantiated then
    (w.map.m_entitiesToLoad.foldlM ProcessEntityAdditionAndRemoval.requestLoad w).map fun w1 =>
      { w1 with map := { w1.map with m_entitiesToLoad := [] } }
  else some w

/-- `EntityMap::ProcessEntityAdditionAndRemoval( loadingContext, activationContext )`. -/
def ProcessEntityAdditionAndRemoval (w : World) : Option World := do
  let w1 ← ProcessEntityAdditionAndRemoval.editedEntities w
  let w2 ← ProcessEntityAdditionAndRemoval.removalLoop w1.map.m_entitiesToRemove.length w1
  ProcessEntityAdditionAndRemoval.loading w2

/-- One work item of `EntityLoadingTask::ExecuteRange`; the second component
collects `m_stillLoadingEntities`.  The assertion on the components of an entity
that finished is internal to the entity and not represented. -/
def EntityLoadingTask.item (ctx : EntityLoadingContext) (isActivated : Bool)
    (acc : World × List EntityPtr) (p : EntityPtr) : Option (World × List EntityPtr) := do
  let e ← Heap.read acc.1.heap p
  if ctx.updateEntityState p then
    -- If the map is activated, immediately activate any entities that finish loading
    if isActivated && e.IsLoaded then
      (call_Activate { acc.1 with trace := acc.1.trace ++ [Event.UpdateEntityState p] } p).map
        fun w2 => (w2, acc.2)
    else some ({ acc.1 with trace := acc.1.trace ++ [Event.UpdateEntityState p] }, acc.2)
  else
    -- Entity is still loading
    some ({ acc.1 with trace := acc.1.trace ++ [Event.UpdateEntityState p] }, acc.2 ++ [p])

/-- The batch of `ProcessEntityLoadingAndActivation`: every entity of the loading
list is updated, and the entities that still need loading replace the list. -/
def ProcessEntityLoadingAndActivation.batch (w : World) (ctx : EntityLoadingContext) :
    Option World :=
  if w.map.m_entitiesCurrentlyLoading.isEmpty then some w
  else
    (w.map.m_entitiesCurrentlyLoading.foldlM
        (EntityLoadingTask.item ctx w.map.IsActivated) (w, [])).map fun r =>
      { r.1 with map := { r.1.map with m_entitiesCurrentlyLoading := r.2 } }

/-- The end of `ProcessEntityLoadingAndActivation`: a map in the entity loading
stage becomes loaded once all loads completed. -/
def ProcessEntityLoadingAndActivation.finish (w : World) : Option World :=
  if w.map.m_status = EntityMap.Status.MapEntitiesLoading
      ∧ w.map.m_entitiesCurrentlyLoading.isEmpty = true then do
    EE_ASSERT (!w.map.m_isTransientMap)
    some { w with map := { w.map with m_status := EntityMap.Status.Loaded } }
  else some w

/-- `EntityMap::ProcessEntityLoadingAndActivation( loadingContext, activationContext )`. -/
def ProcessEntityLoadingAndActivation (w : World) (ctx : EntityLoadingContext) :
    Option (World × Bool) := do
  let w1 ← ProcessEntityLoadingAndActivation.batch w ctx
  let w2 ← ProcessEntityLoadingAndActivation.finish w1
  some (w2, w2.map.m_entitiesCurrentlyLoading.isEmpty)

/-- The last two steps of `UpdateState`. -/
def UpdateState.processEntities (w : World) (ctx : EntityLoadingContext) :
    Option (World × Bool) := do
  let w1 ← ProcessEntityAdditionAndRemoval w
  ProcessEntityLoadingAndActivation w1 ctx

/-- `UpdateState` from the descriptor step on: wait for the map descriptor to
finish loading, then process the entities. -/
def UpdateState.processLoading (w : World) (ctx : EntityLoadingContext) :
    Option (World × Bool) :=
  if w.map.m_status = EntityMap.Status.MapDescriptorLoading then do
    let r ← ProcessMapLoading w ctx
    if r.2 then UpdateState.processEntities r.1 ctx else some (r.1, false)
  else UpdateState.processEntities w ctx

/-- `UpdateState` from the unload step on: process the unload request and return
immediately if it is not completed. -/
def UpdateState.processUnload (w : World) (ctx : EntityLoadingContext) :
    Option (World × Bool) :=
  if w.map.m_isUnloadRequested then do
    let r ← ProcessMapUnloadRequest w
    if r.2 then UpdateState.processLoading r.1 ctx else some (r.1, false)
  else UpdateState.processLoading w ctx

/-- `EntityMap::UpdateState( loadingContext, activationContext )`; the second
component is the returned flag. -/
def UpdateState (w : World) (ctx : EntityLoadingContext) : Option (World × Bool) := do
  EE_ASSERT (!w.EE_DEVELOPMENT_TOOLS || w.map.m_entitiesToHotReload.isEmpty)
  UpdateState.processUnload w ctx

/-! ## Development tools: renaming, component editing, hot reload

These member functions exist only under `EE_DEVELOPMENT_TOOLS`; without
development tools they cannot be called. -/

/-- Component identifier (`ComponentID`). -/
abbrev ComponentID := Nat

/-- `EntityMap::RenameEntity( pEntity, newNameID )`. -/
def RenameEntity (w : World) (pEntity : EntityPtr) (newNameID : StringID) : Option World :=
  if w.EE_DEVELOPMENT_TOOLS then do
    EE_ASSERT (decide (pEntity ≠ nullptr))
    let e ← Heap.read w.heap pEntity
    EE_ASSERT (decide (e.m_mapID = w.map.m_ID))
    -- Remove from lookup map
    let _ ← THashMap.find w.map.m_entityNameLookupMap e.m_name
    -- Rename
    let name ← GenerateUniqueEntityNameID
      (THashMap.erase w.map.m_entityNameLookupMap e.m_name) newNameID
    -- Add to lookup map
    some { w with
      heap := Heap.modify w.heap pEntity fun x => { x with m_name := name },
      map := { w.map with
        m_entityNameLookupMap :=
          THashMap.insert (THashMap.erase w.map.m_entityNameLookupMap e.m_name) name pEntity } }
  else none

/-- `EntityMap::ComponentEditingDeactivate( activationContext, entityID,
componentID )`; the call into the entity acts on one of its components, which
the map never reads. -/
def ComponentEditingDeactivate (w : World) (entityID : EntityID) (componentID : ComponentID) :
    Option World :=
  if w.EE_DEVELOPMENT_TOOLS then do
    let pEntity ← w.map.FindEntity entityID
    let _ ← Heap.read w.heap pEntity
    some { w with
      trace := w.trace ++ [Event.ComponentEditingDeactivate pEntity componentID],
      map := { w.map with
        m_editedEntities :=
          if VectorContains w.map.m_editedEntities pEntity then w.map.m_editedEntities
          else w.map.m_editedEntities ++ [pEntity] } }
  else none

/-- `EntityMap::ComponentEditingUnload( loadingContext, entityID, componentID )`. -/
def ComponentEditingUnload (w : World) (entityID : EntityID) (componentID : ComponentID) :
    Option World :=
  if w.EE_DEVELOPMENT_TOOLS then do
    let pEntity ← w.map.FindEntity entityID
    EE_ASSERT (VectorContains w.map.m_editedEntities pEntity)
    let _ ← Heap.read w.heap pEntity
    some { w with trace := w.trace ++ [Event.ComponentEditingUnload pEntity componentID] }
  else none

/-- The second loop of `HotReloadDeactivateEntities`: one entity. -/
def HotReloadDeactivateEntities.deactivate (w : World) (pEntityToHotReload : EntityPtr) :
    Option World := do
  let e ← Heap.read w.heap pEntityToHotReload
  if e.IsActivated then call_Deactivate w pEntityToHotReload else some w

/-- `EntityMap::HotReloadDeactivateEntities( activationContext, usersToReload )`;
a requester is given by the id `EntityID( requesterID.GetID() )`. -/
def HotReloadDeactivateEntities (w : World) (usersToReload : List EntityID) : Option World :=
  if w.EE_DEVELOPMENT_TOOLS then do
    EE_ASSERT (!usersToReload.isEmpty)
    EE_ASSERT w.map.m_entitiesToHotReload.isEmpty
    -- Generate list of entities to be reloaded
    let found := usersToReload.filterMap fun requesterID => w.map.FindEntity requesterID
    -- Request deactivation for any entities that are activated
    (w.map.m_entitiesToHotReload ++ found).foldlM HotReloadDeactivateEntities.deactivate
      { w with map := { w.map with
          m_entitiesToHotReload := w.map.m_entitiesToHotReload ++ found } }
  else none

/-- The loop of `HotReloadUnloadEntities`: one entity. -/
def HotReloadUnloadEntities.unload (w : World) (pEntityToHotReload : EntityPtr) :
    Option World := do
  let e ← Heap.read w.heap pEntityToHotReload
  EE_ASSERT (!e.IsActivated)
  -- We might still be loading this entity so remove it from the loading requests
  call_UnloadComponents
    { w with map := { w.map with
        m_entitiesCurrentlyLoading :=
          erase_first_unsorted w.map.m_entitiesCurrentlyLoading pEntityToHotReload } }
    pEntityToHotReload

/-- `EntityMap::HotReloadUnloadEntities( loadingContext )`. -/
def HotReloadUnloadEntities (w : World) : Option World :=
  if w.EE_DEVELOPMENT_TOOLS then
    w.map.m_entitiesToHotReload.foldlM HotReloadUnloadEntities.unload w
  else none

/-- The loop of `HotReloadLoadEntities`: one entity. -/
def HotReloadLoadEntities.load (w : World) (pEntityToHotReload : EntityPtr) : Option World := do
  let e ← Heap.read w.heap pEntityToHotReload
  EE_ASSERT e.IsUnloaded
  let w1 ← call_LoadComponents w pEntityToHotReload
  some { w1 with map := { w1.map with
    m_entitiesCurrentlyLoading := w1.map.m_entitiesCurrentlyLoading ++ [pEntityToHotReload] } }

/-- `EntityMap::HotReloadLoadEntities( loadingContext )`. -/
def HotReloadLoadEntities (w : World) : Option World :=
  if w.EE_DEVELOPMENT_TOOLS then
    (w.map.m_entitiesToHotReload.foldlM HotReloadLoadEntities.load w).map fun w1 =>
      { w1 with map := { w1.map with m_entitiesToHotReload := [] } }
  else none

/-- `EntityMap::AddEntityCollection( pTaskSystem, typeRegistry, entityCollectionDesc,
offsetTransform )`: the entities `Serializer::CreateEntities` allocates for the
collection are added. -/
def AddEntityCollection (w : World) (createdEntities : List (EntityPtr × Entity)) :
    Option World := do
  let heap ← allocateEntities w.heap createdEntities
  AddEntities { w with heap := heap } (createdEntities.map Prod.fst)

/-! ## Assignment -/

/-- `EntityMap::operator=( EntityMap const& map )`, as a function of `*this` and
the source map. -/
def EntityMap.copyAssign (EE_DEVELOPMENT_TOOLS : Bool) (self map : EntityMap) :
    Option EntityMap := do
  -- Only allow copy constructor for unloaded maps
  EE_ASSERT (decide (self.m_status = EntityMap.Status.Unloaded)
    && decide (map.m_status = EntityMap.Status.Unloaded))
  EE_ASSERT (!EE_DEVELOPMENT_TOOLS || map.m_entitiesToHotReload.isEmpty)
  some { self with m_pMapDesc := map.m_pMapDesc, m_isTransientMap := map.m_isTransientMap }

/-- `EntityMap::operator=( EntityMap&& map )`, as a function of `*this` and the
source map: the first component is `*this` afterwards, the second the source
map.  The entity list and the id lookup map are swapped; the loading list is
moved, which leaves the source's list empty, and the moved-from resource handle
is taken to keep its value. -/
def EntityMap.moveAssign (EE_DEVELOPMENT_TOOLS : Bool) (self map : EntityMap) :
    Option (EntityMap × EntityMap) := do
  EE_ASSERT (!EE_DEVELOPMENT_TOOLS || map.m_entitiesToHotReload.isEmpty)
  some
    ({ self with
        m_ID := map.m_ID,
        m_entities := map.m_entities,
        m_entityIDLookupMap := map.m_entityIDLookupMap,
        m_pMapDesc := map.m_pMapDesc,
        m_entitiesCurrentlyLoading := map.m_entitiesCurrentlyLoading,
        m_status := map.m_status,
        m_isUnloadRequested := map.m_isUnloadRequested,
        m_isMapInstantiated := map.m_isMapInstantiated,
        m_isTransientMap := map.m_isTransientMap },
      -- Clear source map
      { map with
        m_entities := self.m_entities,
        m_entityIDLookupMap := self.m_entityIDLookupMap,
        m_entitiesCurrentlyLoading := [],
        m_ID := 0,
        m_status := EntityMap.Status.Unloaded,
        m_isMapInstantiated := false,
        m_isUnloadRequested := false })

/-! ## Predicates used in the statements -/

/-- The members of an entity that the map reads, apart from the spatial hierarchy. -/
def Entity.core (e : Entity) : EntityID × EntityMapID × StringID × Entity.Status × Bool :=
  (e.m_ID, e.m_mapID, e.m_name, e.m_status, e.m_isSpatialEntity)

/-- Two heaps with the same live addresses whose entities differ in the spatial
hierarchy only. -/
def Heap.SameCore (h h' : Heap) : Prop :=
  ∀ q, (Heap.read h' q).map Entity.core = (Heap.read h q).map Entity.core

/-- The parts of the program state that neither the per-pass addition / removal
processing nor the loading batch writes. -/
def MapFixed (w w' : World) : Prop :=
  w'.EE_DEVELOPMENT_TOOLS = w.EE_DEVELOPMENT_TOOLS
  ∧ w'.map.m_ID = w.map.m_ID
  ∧ w'.map.m_status = w.map.m_status
  ∧ w'.map.m_isUnloadRequested = w.map.m_isUnloadRequested
  ∧ w'.map.m_isMapInstantiated = w.map.m_isMapInstantiated
  ∧ w'.map.m_isTransientMap = w.map.m_isTransientMap
  ∧ w'.map.m_pMapDesc = w.map.m_pMapDesc
  ∧ w'.map.m_entityIDLookupMap = w.map.m_entityIDLookupMap
  ∧ w'.map.m_entityNameLookupMap = w.map.m_entityNameLookupMap
  ∧ w'.map.m_entitiesToHotReload = w.map.m_entitiesToHotReload

/-- The entity used in the examples: unmapped, unloaded, not attached. -/
def exampleEntity (id : EntityID) (name : StringID) : Entity :=
  { m_ID := id, m_mapID := 0, m_name := name, m_status := Entity.Status.Unloaded,
    m_isSpatialEntity := false, m_pParentSpatialEntity := none, m_attachedEntities := [] }

/-- A map of two entities named "Foo" and "Foo001", with development tools, and a
third entity named "Foo" that is not yet in the map. -/
def exampleWorldFoo : World :=
  { EE_DEVELOPMENT_TOOLS := true,
    heap := [(1, { exampleEntity 11 "Foo".toList with m_mapID := 7 }),
             (2, { exampleEntity 12 "Foo001".toList with m_mapID := 7 }),
             (3, exampleEntity 13 "Foo".toList)],
    map := { EntityMap.mkTransient 7 with
      m_entities := [1, 2], m_entitiesToLoad := [1, 2],
      m_entityIDLookupMap := [(11, 1), (12, 2)],
      m_entityNameLookupMap := [("Foo".toList, 1), ("Foo001".toList, 2)] },
    trace := [] }

/-- A freshly constructed transient map, with development tools, next to three
entities that are not in any map. -/
def exampleWorldFresh : World :=
  { EE_DEVELOPMENT_TOOLS := true,
    heap := [(1, exampleEntity 11 "Foo".toList), (2, exampleEntity 12 "Foo".toList),
             (3, exampleEntity 13 "Bar".toList)],
    map := EntityMap.mkTransient 7,
    trace := [] }

/-- A context in which the descriptor is still loading and every entity reports
`finished` from its state update. -/
def exampleContext (finished : Bool) : EntityLoadingContext :=
  { mapDesc := ResourceLoadState.Loading, createdEntities := [],
    updateEntityState := fun _ => finished }

/-- The state after an operation that is known to succeed. -/
def World.after (r : Option World) : World :=
  r.getD { EE_DEVELOPMENT_TOOLS := false, heap := [], map := EntityMap.mkTransient 0, trace := [] }

/-- The state and flag after an update pass that is known to succeed. -/
def World.afterPass (r : Option (World × Bool)) : World × Bool :=
  r.getD ({ EE_DEVELOPMENT_TOOLS := false, heap := [], map := EntityMap.mkTransient 0,
            trace := [] }, false)

/-- The lookup maps mirror the entity list: the id lookup map has as many
entries as there are entities and each of its entries leads to a member of the
entity list that is live and carries the id; with development tools the same
holds for the name lookup map. -/
def IndexMirrors (w : World) : Prop :=
  w.map.m_entityIDLookupMap.length = w.map.m_entities.length
  ∧ (∀ id p, (id, p) ∈ w.map.m_entityIDLookupMap →
      p ∈ w.map.m_entities ∧ ∃ e, Heap.read w.heap p = some e ∧ e.m_ID = id)
  ∧ (w.EE_DEVELOPMENT_TOOLS = true →
      w.map.m_entityNameLookupMap.length = w.map.m_entities.length
      ∧ ∀ name p, (name, p) ∈ w.map.m_entityNameLookupMap →
          p ∈ w.map.m_entities ∧ ∃ e, Heap.read w.heap p = some e ∧ e.m_name = name)

/-- The ids of the live entities are pairwise distinct. -/
def Heap.DistinctIDs (h : Heap) : Prop :=
  ∀ p q e1 e2, Heap.read h p = some e1 → Heap.read h q = some e2 → e1.m_ID = e2.m_ID → p = q

/-- The invariant behind `IndexMirrors` for a map that is only subject to
`AddEntity` / `RemoveEntity` / `DestroyEntity`: every entity is still queued. -/
def AddRemoveInv (w : World) : Prop :=
  IndexMirrors w
  ∧ (w.map.m_entityIDLookupMap.map Prod.fst).Nodup
  ∧ w.map.m_entities.Nodup
  ∧ w.map.m_entitiesToLoad.Nodup
  ∧ (∀ p ∈ w.map.m_entities, p ∈ w.map.m_entitiesToLoad)
  ∧ Heap.DistinctIDs w.heap
  ∧ (w.EE_DEVELOPMENT_TOOLS = true →
      (w.map.m_entityNameLookupMap.map Prod.fst).Nodup
      ∧ ∀ p ∈ w.map.m_entities, ∃ e, Heap.read w.heap p = some e
          ∧ THashMap.find w.map.m_entityNameLookupMap e.m_name = some p)

/-- A call of `AddEntity`, `RemoveEntity` or `DestroyEntity`. -/
inductive MapCall where
  | AddEntity (pEntity : EntityPtr)
  | RemoveEntity (entityID : EntityID)
  | DestroyEntity (entityID : EntityID)
  deriving DecidableEq, Repr

/-- Run one call; `none` when its precondition fails. -/
def MapCall.run (w : World) : MapCall → Option World
  | MapCall.AddEntity pEntity => EE.EntityModel.AddEntity w pEntity
  | MapCall.RemoveEntity entityID => (EE.EntityModel.RemoveEntity w entityID).map Prod.fst
  | MapCall.DestroyEntity entityID => EE.EntityModel.DestroyEntity w entityID

/-- Run a sequence of calls, each within its precondition. -/
def runCalls (w : World) (calls : List MapCall) : Option World :=
  calls.foldlM MapCall.run w

/-- The two fresh entities of `exampleWorldFresh` named "Foo", added to the map. -/
def exampleWorldQueued : World := World.after (AddEntities exampleWorldFresh [1, 2])

/-- No entity is created between two states: the entity list only loses members
and every address that is live afterwards was live before. -/
def NoEntityCreated (w w' : World) : Prop :=
  w'.map.m_entities.Sublist w.map.m_entities
  ∧ ∀ p, (Heap.read w'.heap p).isSome = true → (Heap.read w.heap p).isSome = true

/-- A non-transient map whose descriptor is loading, reached by `Load`. -/
def exampleWorldDescriptor : World :=
  World.after (Load { exampleWorldFresh with map := EntityMap.mkFromResource 7 })

/-- A context in which the descriptor failed to load. -/
def exampleContextFailed : EntityLoadingContext :=
  { mapDesc := ResourceLoadState.Failed, createdEntities := [],
    updateEntityState := fun _ => true }

/-- A non-transient map whose descriptor failed to load (status LoadFailed), to
which the caller then added an entity and on which an unload was requested. -/
def exampleWorldLoadFailedUnload : World :=
  World.after (Unload (World.after (AddEntity
    (World.afterPass (UpdateState exampleWorldDescriptor exampleContextFailed)).1 1)))

/-- A non-transient map whose descriptor is still loading, to which the caller
added an entity and on which an unload was requested. -/
def exampleWorldDescriptorUnload : World :=
  World.after (Unload (World.after (AddEntity exampleWorldDescriptor 1)))

/-- A loaded transient map with two loaded entities. -/
def exampleWorldLoaded : World :=
  (World.afterPass (UpdateState (World.after (Load exampleWorldQueued)) (exampleContext true))).1

/-- Between two heaps nothing changed but some activated entities going back to
the loaded state. -/
def Heap.Quieter (h h' : Heap) : Prop :=
  h'.length = h.length
  ∧ ∀ q, Heap.read h' q = Heap.read h q
      ∨ ∃ e, Heap.read h q = some e ∧ e.IsActivated = true
          ∧ Heap.read h' q = some { e with m_status := Entity.Status.Loaded }

/-- The entity at `c` is attached, directly or through a chain of spatial
parents, to an activated entity of the list that has no spatial parent. -/
def Heap.hasActivatedRoot (h : Heap) (entities : List EntityPtr) (c : EntityPtr) : Prop :=
  ∃ r ∈ entities, ∃ er, Heap.read h r = some er ∧ er.IsActivated = true
    ∧ er.m_pParentSpatialEntity = none ∧ Heap.isAttachedTo h h.length r c = true

/-- An activated transient map with two activated entities. -/
def exampleWorldActivated : World := World.after (Activate exampleWorldLoaded)

/-- An activated map to which the caller added a third entity, and on which an
unload was then requested. -/
def exampleWorldActivatedAddUnload : World :=
  World.after (Unload (World.after (AddEntity exampleWorldActivated 3)))

/-- The number a string of decimal digits denotes. -/
def decimalValue (cs : List Char) : Nat :=
  cs.foldl (fun acc c => acc * 10 + (c.toNat - 48)) 0

/-- The ids recorded on an entity: its own id and the id of the map it was added
to. -/
def Entity.membership (e : Entity) : EntityID × EntityMapID := (e.m_ID, e.m_mapID)

/-- The invariant behind the agreement of the id lookup map with the membership
recorded on the entities.  The map has a valid id; every entry of the id lookup
map leads to a live entity that carries the id of the entry and records this
map's id; no id is entered twice; and the entities whose removal is queued are
pairwise distinct, live, still record this map's id, and are neither queued for
loading nor entered in the id lookup map. -/
def MembershipInv (w : World) : Prop :=
  w.map.m_ID ≠ 0
  ∧ (∀ id p, (id, p) ∈ w.map.m_entityIDLookupMap →
      ∃ e, Heap.read w.heap p = some e ∧ e.m_ID = id ∧ e.m_mapID = w.map.m_ID)
  ∧ (w.map.m_entityIDLookupMap.map Prod.fst).Nodup
  ∧ (w.map.m_entitiesToRemove.map RemovalRequest.m_pEntity).Nodup
  ∧ (∀ r ∈ w.map.m_entitiesToRemove,
      (∃ e, Heap.read w.heap r.m_pEntity = some e ∧ e.m_mapID = w.map.m_ID)
      ∧ r.m_pEntity ∉ w.map.m_entitiesToLoad
      ∧ ∀ id, (id, r.m_pEntity) ∉ w.map.m_entityIDLookupMap)

/-- A call of one of the operations of the map. -/
inductive MapOp where
  | AddEntity (pEntity : EntityPtr)
  | RemoveEntity (entityID : EntityID)
  | DestroyEntity (entityID : EntityID)
  | Load
  | Unload
  | Activate
  | Deactivate
  | OnEntityStateUpdated (pEntity : EntityPtr)
  | UpdateState (ctx : EntityLoadingContext)

/-- Run one operation; `none` when its precondition fails. -/
def MapOp.run (w : World) : MapOp → Option World
  | MapOp.AddEntity pEntity => EE.EntityModel.AddEntity w pEntity
  | MapOp.RemoveEntity entityID => (EE.EntityModel.RemoveEntity w entityID).map Prod.fst
  | MapOp.DestroyEntity entityID => EE.EntityModel.DestroyEntity w entityID
  | MapOp.Load => EE.EntityModel.Load w
  | MapOp.Unload => EE.EntityModel.Unload w
  | MapOp.Activate => EE.EntityModel.Activate w
  | MapOp.Deactivate => EE.EntityModel.Deactivate w
  | MapOp.OnEntityStateUpdated pEntity => EE.EntityModel.OnEntityStateUpdated w pEntity
  | MapOp.UpdateState ctx => (EE.EntityModel.UpdateState w ctx).map Prod.fst

/-- Run a sequence of operations, each within its precondition. -/
def runOps (w : World) (ops : List MapOp) : Option World :=
  ops.foldlM MapOp.run w

/-- A sequence of operations on the fresh transient map: two entities are added,
the map is loaded and updated, one entity is removed and a third one added, with
one more update. -/
def exampleOps : List MapOp :=
  [MapOp.AddEntity 1, MapOp.AddEntity 2, MapOp.Load, MapOp.UpdateState (exampleContext true),
   MapOp.RemoveEntity 12, MapOp.AddEntity 3]

/-- The spec's words for the test of `GenerateUniqueName`: the base name "ends in
three decimal digits". -/
def endsInThreeDigits (baseName : InlineString) : Bool :=
  decide (3 ≤ baseName.length) && (baseName.drop (baseName.length - 3)).all isdigit

/-- `GenerateUniqueName` as the spec words it: a base name that ends in three
decimal digits has these three characters replaced by the zero-padded counter,
any other base name is followed by a space and the zero-padded counter. -/
def GenerateUniqueName_spec (baseName : InlineString) (counterValue : Nat) : InlineString :=
  if endsInThreeDigits baseName then
    baseName.take (baseName.length - 3) ++ sprintf_03u counterValue
  else
    baseName ++ [' '] ++ sprintf_03u counterValue

/-- A name lookup map that holds "Foo" and every name `GenerateUniqueName` can
derive from "Foo" with a 32-bit counter. -/
def exampleFullNameIndex : List (StringID × EntityPtr) :=
  ("Foo".toList, 1) :: (List.range (2 ^ 32)).map fun c => (GenerateUniqueName "Foo".toList c, 1)

/-- A fresh transient map, with development tools, next to an entity at 1 and a
spatial entity at 2 that is attached to it; neither is in the map. -/
def exampleWorldAttached : World :=
  { exampleWorldFresh with
    heap := [(1, { exampleEntity 11 "Foo".toList with
                     m_isSpatialEntity := true, m_attachedEntities := [2] }),
             (2, { exampleEntity 12 "Bar".toList with
                     m_isSpatialEntity := true, m_pParentSpatialEntity := some 1 })] }

/-- A call of one of the operations the map exposes to its callers: the
operations of `MapOp`, the bulk additions, and the operations that exist with
development tools only. -/
inductive PublicOp where
  | core (op : MapOp)
  | AddEntities (entities : List EntityPtr)
  | AddEntityCollection (createdEntities : List (EntityPtr × Entity))
  | RenameEntity (pEntity : EntityPtr) (newNameID : StringID)
  | ComponentEditingDeactivate (entityID : EntityID) (componentID : ComponentID)
  | ComponentEditingUnload (entityID : EntityID) (componentID : ComponentID)
  | HotReloadDeactivateEntities (usersToReload : List EntityID)
  | HotReloadUnloadEntities
  | HotReloadLoadEntities

/-- Run one exposed operation; `none` when its precondition fails. -/
def PublicOp.run (w : World) : PublicOp → Option World
  | PublicOp.core op => MapOp.run w op
  | PublicOp.AddEntities entities => EE.EntityModel.AddEntities w entities
  | PublicOp.AddEntityCollection createdEntities =>
    EE.EntityModel.AddEntityCollection w createdEntities
  | PublicOp.RenameEntity pEntity newNameID => EE.EntityModel.RenameEntity w pEntity newNameID
  | PublicOp.ComponentEditingDeactivate entityID componentID =>
    EE.EntityModel.ComponentEditingDeactivate w entityID componentID
  | PublicOp.ComponentEditingUnload entityID componentID =>
    EE.EntityModel.ComponentEditingUnload w entityID componentID
  | PublicOp.HotReloadDeactivateEntities usersToReload =>
    EE.EntityModel.HotReloadDeactivateEntities w usersToReload
  | PublicOp.HotReloadUnloadEntities => EE.EntityModel.HotReloadUnloadEntities w
  | PublicOp.HotReloadLoadEntities => EE.EntityModel.HotReloadLoadEntities w

/-- Run a sequence of exposed operations, each within its precondition. -/
def runPublic (w : World) (ops : List PublicOp) : Option World :=
  ops.foldlM PublicOp.run w

/-- The states a map can be in: a freshly constructed map (either constructor),
the result of an exposed operation called within its precondition, and the
result of a copy or move assignment from another such map (for the move, also
the source map afterwards).  Between the calls the rest of the program may
change the entities in any way. -/
inductive Reachable : World → Prop
  | fresh (w : World) (id : EntityMapID)
      (h : w.map = EntityMap.mkTransient id ∨ w.map = EntityMap.mkFromResource id) :
      Reachable w
  | op (w w' : World) (c : PublicOp) (hw : Reachable w) (h : PublicOp.run w c = some w') :
      Reachable w'
  | environment (w : World) (heap : Heap) (hw : Reachable w) : Reachable { w with heap := heap }
  | copyAssign (w src : World) (m : EntityMap) (hw : Reachable w) (hsrc : Reachable src)
      (h : EntityMap.copyAssign w.EE_DEVELOPMENT_TOOLS w.map src.map = some m) :
      Reachable { w with map := m }
  | moveAssign (w src : World) (r : EntityMap × EntityMap) (hw : Reachable w)
      (hsrc : Reachable src)
      (h : EntityMap.moveAssign w.EE_DEVELOPMENT_TOOLS w.map src.map = some r) :
      Reachable { w with map := r.1 }
  | movedFrom (w src : World) (r : EntityMap × EntityMap) (hw : Reachable w)
      (hsrc : Reachable src)
      (h : EntityMap.moveAssign w.EE_DEVELOPMENT_TOOLS w.map src.map = some r) :
      Reachable { src with map := r.2 }

/-- The instantiated flag agrees with the status: a map is instantiated exactly
in the statuses MapEntitiesLoading, Loaded and Activated. -/
def StatusInst (m : EntityMap) : Prop :=
  m.m_isMapInstantiated = true ↔
    (m.m_status = EntityMap.Status.MapEntitiesLoading
      ∨ m.m_status = EntityMap.Status.Loaded
      ∨ m.m_status = EntityMap.Status.Activated)

/-- The calls issued between two states include no component-load request. -/
def NoLoadRequest (w w' : World) : Prop :=
  ∃ evs, w'.trace = w.trace ++ evs ∧ ∀ p, Event.LoadComponents p ∉ evs

/-- Between two states the lifecycle of the map, its id lookup map, the queues
`toLoad` and `toRemove` and the ids recorded on the entities are the same. -/
def QueuesFixed (w w' : World) : Prop :=
  w'.map.m_ID = w.map.m_ID
  ∧ w'.map.m_status = w.map.m_status
  ∧ w'.map.m_isMapInstantiated = w.map.m_isMapInstantiated
  ∧ w'.map.m_isUnloadRequested = w.map.m_isUnloadRequested
  ∧ w'.map.m_entityIDLookupMap = w.map.m_entityIDLookupMap
  ∧ w'.map.m_entitiesToRemove = w.map.m_entitiesToRemove
  ∧ w'.map.m_entitiesToLoad = w.map.m_entitiesToLoad
  ∧ ∀ q, (Heap.read w'.heap q).map Entity.membership
      = (Heap.read w.heap q).map Entity.membership

/-- A sequence of exposed operations on the fresh transient map: the operations
of `exampleOps`, which leave one request in `toRemove` and one entity in
`toLoad`, followed by the renaming of a member. -/
def examplePublicOps : List PublicOp :=
  exampleOps.map PublicOp.core ++ [PublicOp.RenameEntity 1 "Baz".toList]

/-- The operations that take a fresh non-transient map to the status LoadFailed:
`Load`, then an update pass in which the descriptor reports failure. -/
def exampleFailingOps : List PublicOp :=
  [PublicOp.core MapOp.Load, PublicOp.core (MapOp.UpdateState exampleContextFailed)]

/-- A non-transient map whose descriptor failed to load, with one entity added
afterwards by the caller. -/
def exampleWorldLoadFailed : World :=
  World.after (runPublic { exampleWorldFresh with map := EntityMap.mkFromResource 7 }
    (exampleFailingOps ++ [PublicOp.core (MapOp.AddEntity 1)]))

/-- Between two states the map has the same id and is of the same kind
(transient or bound to a descriptor). -/
def IdentityFixed (w w' : World) : Prop :=
  w'.map.m_ID = w.map.m_ID ∧ w'.map.m_isTransientMap = w.map.m_isTransientMap

/-- The states the map passes through when it is loaded and unloaded again: a
fresh transient map with the valid id 7, `Load`, `Unload`, and one update pass,
which completes the unload path. -/
def exampleUnloadOps : List PublicOp :=
  [PublicOp.core MapOp.Load, PublicOp.core MapOp.Unload,
   PublicOp.core (MapOp.UpdateState (exampleContext true))]

/-- A map is not transient while its descriptor is loading. -/
def DescriptorInv (m : EntityMap) : Prop :=
  m.m_status = EntityMap.Status.MapDescriptorLoading → m.m_isTransientMap = false

/-- A freshly constructed map bound to a descriptor, with development tools,
next to three entities that are not in any map. -/
def exampleWorldFreshResource : World :=
  { exampleWorldFresh with map := EntityMap.mkFromResource 7 }

/-- Calls on a fresh map bound to a descriptor: `Load`, an entity is added while
the descriptor is loading, `Unload`, and the update pass that completes the
unload path. -/
def exampleStrandedOps : List PublicOp :=
  [PublicOp.core MapOp.Load, PublicOp.core (MapOp.AddEntity 1), PublicOp.core MapOp.Unload,
   PublicOp.core (MapOp.UpdateState (exampleContext true))]

/-- Calls on a fresh transient map: two entities are added, the map is loaded and
updated, then a third entity is added and `Unload` is called before the next
update pass. -/
def examplePendingAddOps : List PublicOp :=
  [PublicOp.AddEntities [1, 2], PublicOp.core MapOp.Load,
   PublicOp.core (MapOp.UpdateState (exampleContext true)),
   PublicOp.core (MapOp.AddEntity 3), PublicOp.core MapOp.Unload]

/-- Calls on a fresh transient map: two entities are added, the map is loaded and
updated, then one entity is removed and `Unload` is called before the next update
pass. -/
def examplePendingRemoveOps : List PublicOp :=
  [PublicOp.AddEntities [1, 2], PublicOp.core MapOp.Load,
   PublicOp.core (MapOp.UpdateState (exampleContext true)),
   PublicOp.core (MapOp.RemoveEntity 12), PublicOp.core MapOp.Unload]

/-- Modelled from the spec: the lock-free completion queue
(`Threading::LockFreeQueue`, declared outside the sources at hand) holds the
entities the work items pushed.  It is read after the blocking batch has
completed, when no worker touches it any more, so `size_approx` is the number of
entities in the queue. -/
def LockFreeQueue.size_approx (queue : List EntityPtr) : Nat := queue.length

/-- Modelled from the spec: `try_dequeue_bulk( data, max )` takes at most `max`
entities out of the queue; the entities taken are the result, and their number
is what the call returns. -/
def LockFreeQueue.try_dequeue_bulk (queue : List EntityPtr) (max : Nat) : List EntityPtr :=
  queue.take max

/-- The fan-in of `ProcessEntityLoadingAndActivation`: the loading list is resized
to the number of entities that still need loading and filled from the queue, and
the number of entities dequeued is asserted to be that number.  The result is the
new loading list. -/
def ProcessEntityLoadingAndActivation.drain (m_stillLoadingEntities : List EntityPtr) :
    Option (List EntityPtr) := do
  -- Track the number of entities that still need loading
  let numEntitiesStillLoading := LockFreeQueue.size_approx m_stillLoadingEntities
  let dequeued := LockFreeQueue.try_dequeue_bulk m_stillLoadingEntities numEntitiesStillLoading
  EE_ASSERT (decide (numEntitiesStillLoading = dequeued.length))
  some dequeued

/-- A loaded transient map with three entities in the loading list: the entities
were added, the map loaded, and in the update pass every entity reported that it
is still loading. -/
def exampleWorldLoading : World :=
  World.after (runPublic exampleWorldFresh
    [PublicOp.AddEntities [1, 2, 3], PublicOp.core MapOp.Load,
     PublicOp.core (MapOp.UpdateState (exampleContext false))])

/-- A context in which the entity at address 2 reports that it is still loading
and every other entity that it finished. -/
def exampleContextMixed : EntityLoadingContext :=
  { mapDesc := ResourceLoadState.Loading, createdEntities := [],
    updateEntityState := fun p => decide (p ≠ 2) }

/-- The hot-reload sequence as the caller runs it: `HotReloadDeactivateEntities`,
`HotReloadUnloadEntities` and `HotReloadLoadEntities`, in this order. -/
def HotReloadSequence (w : World) (usersToReload : List EntityID) : Option World := do
  let w1 ← HotReloadDeactivateEntities w usersToReload
  let w2 ← HotReloadUnloadEntities w1
  HotReloadLoadEntities w2

/-- A step of a caller that runs the three hot-reload calls as a sequence: an
exposed operation other than these three calls, or the hot-reload sequence for a
list of requesters. -/
inductive SessionOp where
  | core (op : MapOp)
  | AddEntities (entities : List EntityPtr)
  | AddEntityCollection (createdEntities : List (EntityPtr × Entity))
  | RenameEntity (pEntity : EntityPtr) (newNameID : StringID)
  | ComponentEditingDeactivate (entityID : EntityID) (componentID : ComponentID)
  | ComponentEditingUnload (entityID : EntityID) (componentID : ComponentID)
  | HotReloadSequence (usersToReload : List EntityID)

/-- Run one step of a caller; `none` when a precondition fails. -/
def SessionOp.run (w : World) : SessionOp → Option World
  | SessionOp.core op => MapOp.run w op
  | SessionOp.AddEntities entities => EE.EntityModel.AddEntities w entities
  | SessionOp.AddEntityCollection createdEntities =>
    EE.EntityModel.AddEntityCollection w createdEntities
  | SessionOp.RenameEntity pEntity newNameID => EE.EntityModel.RenameEntity w pEntity newNameID
  | SessionOp.ComponentEditingDeactivate entityID componentID =>
    EE.EntityModel.ComponentEditingDeactivate w entityID componentID
  | SessionOp.ComponentEditingUnload entityID componentID =>
    EE.EntityModel.ComponentEditingUnload w entityID componentID
  | SessionOp.HotReloadSequence usersToReload =>
    EE.EntityModel.HotReloadSequence w usersToReload

/-- Run a sequence of steps of a caller, each within its precondition. -/
def runSession (w : World) (steps : List SessionOp) : Option World :=
  steps.foldlM SessionOp.run w

/-- Steps on the fresh transient map: two entities are added, the map is loaded
and updated, the entity with id 11 is hot-reloaded, a state-update notification
arrives for it, and a pass runs in which every entity is still loading. -/
def exampleSession : List SessionOp :=
  [SessionOp.AddEntities [1, 2], SessionOp.core MapOp.Load,
   SessionOp.core (MapOp.UpdateState (exampleContext true)),
   SessionOp.HotReloadSequence [11],
   SessionOp.core (MapOp.OnEntityStateUpdated 1),
   SessionOp.core (MapOp.UpdateState (exampleContext false))]

/-- The state with another list of removal requests. -/
def World.withToRemove (w : World) (requests : List RemovalRequest) : World :=
  { w with map := { w.map with m_entitiesToRemove := requests } }

/-- The removal processing of one request as the spec words it: "an activated
entity is first deactivated and left for the next pass"; "once not activated, the
entity is pulled out of the concurrent-loading worklist if present, has its
components unloaded, is detached from the map's `entities` set and cleared of map
ownership, is deleted if destroy-flag is set, and the request is dropped".  The
second component collects the requests that are left for the next pass. -/
def removalPass_spec.request (acc : World × List RemovalRequest) (request : RemovalRequest) :
    Option (World × List RemovalRequest) := do
  let e ← Heap.read acc.1.heap request.m_pEntity
  if e.IsActivated then do
    let w1 ← call_Deactivate acc.1 request.m_pEntity
    some (w1, acc.2 ++ [request])
  else do
    let w1 ← call_UnloadComponents
      { acc.1 with map := { acc.1.map with
          m_entitiesCurrentlyLoading :=
            erase_first_unsorted acc.1.map.m_entitiesCurrentlyLoading request.m_pEntity } }
      request.m_pEntity
    let w2 : World :=
      { w1 with
        heap := Heap.modify w1.heap request.m_pEntity fun x => { x with m_mapID := 0 },
        map := { w1.map with m_entities := erase_first w1.map.m_entities request.m_pEntity } }
    let w3 ← if request.m_shouldDestroy then call_Delete w2 request.m_pEntity else some w2
    some (w3, acc.2)

/-- The removal pass as the spec words it: every request that `toRemove` holds at
the start of the pass is processed once, from the back of the list to the front;
the result is the state, in which the requests are not touched, and the requests
left for the next pass. -/
def removalPass_spec (w : World) : Option (World × List RemovalRequest) :=
  w.map.m_entitiesToRemove.reverse.foldlM removalPass_spec.request (w, [])

/-- An activated map with two removals pending: a third entity was added and is
still loading when its destruction is requested, and the removal of an activated
entity is requested after it. -/
def exampleWorldRemovals : World :=
  World.after (runPublic exampleWorldActivated
    [PublicOp.core (MapOp.AddEntity 3), PublicOp.core (MapOp.UpdateState (exampleContext false)),
     PublicOp.core (MapOp.DestroyEntity 13), PublicOp.core (MapOp.RemoveEntity 12)])

/-- A context in which the descriptor has loaded and is valid, with two entity
descriptors: the entities created for them are not yet live, unmapped and
unloaded, and the second one is still loading after its state update. -/
def exampleContextLoaded : EntityLoadingContext :=
  { mapDesc := ResourceLoadState.Loaded true,
    createdEntities := [(4, exampleEntity 14 "Baz".toList), (5, exampleEntity 15 "Baz".toList)],
    updateEntityState := fun p => decide (p ≠ 5) }

/-- A map in the entity loading stage: the pass in which the descriptor reports
loaded and valid has run, and the second created entity is still loading. -/
def exampleWorldEntitiesLoading : World :=
  (World.afterPass (UpdateState exampleWorldDescriptor exampleContextLoaded)).1

/-- A map is not transient while its descriptor or its entities are loading. -/
def LoadingInv (m : EntityMap) : Prop :=
  m.m_status = EntityMap.Status.MapDescriptorLoading
    ∨ m.m_status = EntityMap.Status.MapEntitiesLoading → m.m_isTransientMap = false

/-- `EntityMap::~EntityMap()`: the destructor asserts that the map was unloaded
and emptied, then destroys what is left; unbinding the state-update event has
no part in the model. -/
def EntityMap.destructor (w : World) : Option World := do
  EE_ASSERT (w.map.IsUnloaded && !w.map.m_isMapInstantiated)
  EE_ASSERT (w.map.m_entities.isEmpty && w.map.m_entityIDLookupMap.isEmpty)
  EE_ASSERT (w.map.m_entitiesToLoad.isEmpty && w.map.m_entitiesToRemove.isEmpty)
  EE_ASSERT (!w.EE_DEVELOPMENT_TOOLS || w.map.m_entitiesToHotReload.isEmpty)
  EE_ASSERT (!w.EE_DEVELOPMENT_TOOLS || w.map.m_editedEntities.isEmpty)
  DestroyAllEntities w

/-- A loaded transient map with one removal and one addition pending: the state
after `exampleOps`. -/
def exampleWorldPending : World := World.after (runOps exampleWorldFresh exampleOps)

/-- The condition under which the spec has a work item of the batch activate its
entity inline: "the entity's state machine reports 'no longer loading'", "the map
is currently Activated" (when the batch starts) "and the entity finished loading
successfully". -/
def activatedInline_spec (w : World) (ctx : EntityLoadingContext) (p : EntityPtr) : Bool :=
  ctx.updateEntityState p && w.map.IsActivated &&
    match Heap.read w.heap p with
    | some e => e.IsLoaded
    | none => false

/-- An activated transient map to which a third entity was added, after the
addition step of a pass: entities 1 and 2 are activated, entity 3 has its
component load requested and is in the loading list. -/
def exampleWorldActivatedLoading : World :=
  World.after (ProcessEntityAdditionAndRemoval (World.after (AddEntity exampleWorldActivated 3)))

/-- Between two states no resource call was issued, and the descriptor handle and
the transient flag are as before. -/
def ResourceQuiet (w w' : World) : Prop :=
  w'.trace.count Event.LoadResource = w.trace.count Event.LoadResource
  ∧ w'.trace.count Event.UnloadResource = w.trace.count Event.UnloadResource
  ∧ w'.map.m_pMapDesc = w.map.m_pMapDesc
  ∧ w'.map.m_isTransientMap = w.map.m_isTransientMap

/-- The resource calls issued since the state `w0` are balanced in the state `w`:
the map is transient or not as in `w0`, the descriptor is requested exactly
while the status is MapDescriptorLoading, and of the `l` calls of `LoadResource`
and `u` calls of `UnloadResource` issued since `w0` one call of `LoadResource` is
unanswered if the descriptor is requested and none otherwise; a transient map
issued no call. -/
def ResourceBalance (w0 w : World) : Prop :=
  w.map.m_isTransientMap = w0.map.m_isTransientMap
  ∧ (w.map.m_pMapDesc.WasRequested = true
      ↔ w.map.m_status = EntityMap.Status.MapDescriptorLoading)
  ∧ ∃ l u, w.trace.count Event.LoadResource = w0.trace.count Event.LoadResource + l
      ∧ w.trace.count Event.UnloadResource = w0.trace.count Event.UnloadResource + u
      ∧ l = u + (if w.map.m_pMapDesc.WasRequested then 1 else 0)
      ∧ (w.map.m_isTransientMap = true → l = 0 ∧ u = 0)

/-- Calls on a fresh map bound to a descriptor: the map is loaded, the descriptor
reports loaded and valid, the second created entity finishes loading, and the map
is activated, unloaded in two passes and loaded again. -/
def exampleLifecycleOps : List MapOp :=
  [MapOp.Load, MapOp.UpdateState exampleContextLoaded, MapOp.UpdateState (exampleContext true),
   MapOp.Activate, MapOp.Unload, MapOp.UpdateState (exampleContext true),
   MapOp.UpdateState (exampleContext true), MapOp.Load]


/-! # Properties

## General lemmas -/

theorem foldlM_inv {α β : Type} (f : β → α → Option β) (P : β → Prop)
    (hstep : ∀ b a b', P b → f b a = some b' → P b') :
    ∀ (l : List α) (b b' : β), P b → l.foldlM f b = some b' → P b' := by
  intro l
  induction l with
  | nil => intro b b' hb h; simp at h; subst h; exact hb
  | cons a l ih =>
    intro b b' hb h
    simp only [List.foldlM_cons, Option.bind_eq_bind, Option.bind_eq_some] at h
    obtain ⟨b1, h1, h2⟩ := h
    exact ih b1 b' (hstep b a b1 hb h1) h2

theorem foldlM_inv_mem {α β : Type} (f : β → α → Option β) (P : β → Prop) (l : List α)
    (hstep : ∀ b a b', a ∈ l → P b → f b a = some b' → P b') :
    ∀ (b b' : β), P b → l.foldlM f b = some b' → P b' := by
  induction l with
  | nil => intro b b' hb h; simp at h; subst h; exact hb
  | cons a l ih =>
    intro b b' hb h
    simp only [List.foldlM_cons, Option.bind_eq_bind, Option.bind_eq_some] at h
    obtain ⟨b1, h1, h2⟩ := h
    exact ih (fun b a' b' ha => hstep b a' b' (List.mem_cons_of_mem _ ha)) b1 b'
      (hstep b a b1 (List.mem_cons_self _ _) hb h1) h2

theorem EE_ASSERT_eq_some {c : Bool} {u : Unit} : EE_ASSERT c = some u ↔ c = true := by
  unfold EE_ASSERT
  cases c <;> simp

/-! ## Hash maps -/

theorem THashMap.find_isSome_iff {κ ν : Type} [DecidableEq κ] (m : List (κ × ν)) (k : κ) :
    (THashMap.find m k).isSome = true ↔ k ∈ m.map Prod.fst := by
  induction m with
  | nil => simp [THashMap.find]
  | cons x m ih =>
    obtain ⟨k', v⟩ := x
    simp only [THashMap.find, List.map_cons, List.mem_cons]
    by_cases hk : k' = k
    · simp [hk]
    · simp only [hk, if_false, ih]
      constructor
      · intro h; exact Or.inr h
      · intro h
        rcases h with h | h
        · exact absurd h.symm hk
        · exact h

theorem THashMap.find_eq_none_iff {κ ν : Type} [DecidableEq κ] (m : List (κ × ν)) (k : κ) :
    THashMap.find m k = none ↔ k ∉ m.map Prod.fst := by
  rw [← THashMap.find_isSome_iff]
  cases THashMap.find m k <;> simp

theorem THashMap.mem_of_find {κ ν : Type} [DecidableEq κ] {m : List (κ × ν)} {k : κ} {v : ν}
    (h : THashMap.find m k = some v) : (k, v) ∈ m := by
  induction m with
  | nil => simp [THashMap.find] at h
  | cons x m ih =>
    obtain ⟨k', v'⟩ := x
    simp only [THashMap.find] at h
    by_cases hk : k' = k
    · simp only [hk, if_true, Option.some.injEq] at h
      simp [hk, h]
    · simp only [hk, if_false] at h
      exact List.mem_cons_of_mem _ (ih h)

theorem THashMap.find_of_mem {κ ν : Type} [DecidableEq κ] {m : List (κ × ν)} {k : κ} {v : ν}
    (hnd : (m.map Prod.fst).Nodup) (h : (k, v) ∈ m) : THashMap.find m k = some v := by
  induction m with
  | nil => simp at h
  | cons x m ih =>
    obtain ⟨k', v'⟩ := x
    simp only [List.map_cons, List.nodup_cons] at hnd
    simp only [THashMap.find]
    rcases List.mem_cons.1 h with h | h
    · simp only [Prod.mk.injEq] at h
      simp [h.1, h.2]
    · have hne : k' ≠ k := by
        intro hk
        apply hnd.1
        rw [hk]
        exact List.mem_map.2 ⟨(k, v), h, rfl⟩
      simp only [hne, if_false]
      exact ih hnd.2 h

theorem THashMap.insert_of_find_none {κ ν : Type} [DecidableEq κ] {m : List (κ × ν)} {k : κ}
    (v : ν) (h : THashMap.find m k = none) : THashMap.insert m k v = m ++ [(k, v)] := by
  simp [THashMap.insert, h]

theorem THashMap.find_append {κ ν : Type} [DecidableEq κ] (m m' : List (κ × ν)) (k : κ) :
    THashMap.find (m ++ m') k = (THashMap.find m k).orElse fun _ => THashMap.find m' k := by
  induction m with
  | nil => simp [THashMap.find]
  | cons x m ih =>
    obtain ⟨k', v'⟩ := x
    simp only [List.cons_append, THashMap.find]
    by_cases hk : k' = k
    · simp [hk]
    · simp [hk, ih]

theorem THashMap.erase_sublist {κ ν : Type} [DecidableEq κ] (m : List (κ × ν)) (k : κ) :
    (THashMap.erase m k).Sublist m := by
  induction m with
  | nil => simp [THashMap.erase]
  | cons x m ih =>
    obtain ⟨k', v'⟩ := x
    simp only [THashMap.erase]
    by_cases hk : k' = k
    · simp [hk]
    · simp only [hk, if_false]
      exact ih.cons₂ _

theorem THashMap.length_erase {κ ν : Type} [DecidableEq κ] (m : List (κ × ν)) (k : κ)
    (h : k ∈ m.map Prod.fst) : (THashMap.erase m k).length + 1 = m.length := by
  induction m with
  | nil => simp at h
  | cons x m ih =>
    obtain ⟨k', v'⟩ := x
    simp only [THashMap.erase]
    by_cases hk : k' = k
    · simp [hk]
    · simp only [hk, if_false, List.length_cons]
      simp only [List.map_cons, List.mem_cons] at h
      rcases h with h | h
      · exact absurd h.symm hk
      · rw [ih h]

theorem THashMap.not_mem_erase {κ ν : Type} [DecidableEq κ] (m : List (κ × ν)) (k : κ)
    (hnd : (m.map Prod.fst).Nodup) : k ∉ (THashMap.erase m k).map Prod.fst := by
  induction m with
  | nil => simp [THashMap.erase]
  | cons x m ih =>
    obtain ⟨k', v'⟩ := x
    simp only [List.map_cons, List.nodup_cons] at hnd
    simp only [THashMap.erase]
    by_cases hk : k' = k
    · simp only [hk, if_true]
      rw [← hk]
      exact hnd.1
    · simp only [hk, if_false, List.map_cons, List.mem_cons, not_or]
      exact ⟨fun h => hk h.symm, ih hnd.2⟩

theorem THashMap.mem_erase_of_ne {κ ν : Type} [DecidableEq κ] (m : List (κ × ν)) (k : κ)
    {x : κ × ν} (hx : x ∈ m) (hne : x.1 ≠ k) : x ∈ THashMap.erase m k := by
  induction m with
  | nil => simp at hx
  | cons y m ih =>
    obtain ⟨k', v'⟩ := y
    simp only [THashMap.erase]
    by_cases hk : k' = k
    · simp only [hk, if_true]
      rcases List.mem_cons.1 hx with h | h
      · rw [h] at hne; exact absurd hk hne
      · exact h
    · simp only [hk, if_false]
      rcases List.mem_cons.1 hx with h | h
      · rw [h]; exact List.mem_cons_self _ _
      · exact List.mem_cons_of_mem _ (ih h)

/-! ## Vectors -/

theorem VectorFindIndex_some {α : Type} {p : α → Bool} {l : List α} {i : Nat}
    (h : VectorFindIndex p l = some i) :
    ∃ x, l[i]? = some x ∧ p x = true ∧ ∀ j y, j < i → l[j]? = some y → p y = false := by
  induction l generalizing i with
  | nil => simp [VectorFindIndex] at h
  | cons a l ih =>
    rw [VectorFindIndex] at h
    by_cases hp : p a = true
    · rw [if_pos hp] at h
      cases h
      exact ⟨a, by simp, hp, fun j y hj => absurd hj (Nat.not_lt_zero _)⟩
    · rw [if_neg hp] at h
      obtain ⟨i', hi', rfl⟩ := Option.map_eq_some'.1 h
      obtain ⟨x, hx, hpx, hlt⟩ := ih hi'
      refine ⟨x, by simpa using hx, hpx, ?_⟩
      intro j y hj hy
      cases j with
      | zero =>
        simp only [List.getElem?_cons_zero, Option.some.injEq] at hy
        subst hy
        simpa using hp
      | succ j =>
        simp only [List.getElem?_cons_succ] at hy
        exact hlt j y (by omega) hy

theorem VectorFindIndex_none {α : Type} {p : α → Bool} {l : List α}
    (h : VectorFindIndex p l = none) : ∀ x ∈ l, p x = false := by
  induction l with
  | nil => simp
  | cons a l ih =>
    rw [VectorFindIndex] at h
    by_cases hp : p a = true
    · rw [if_pos hp] at h
      cases h
    · rw [if_neg hp] at h
      replace h := Option.map_eq_none'.1 h
      intro x hx
      rcases List.mem_cons.1 hx with hx | hx
      · subst hx; simpa using hp
      · exact ih h x hx

theorem VectorFindIndex_isSome {α : Type} {p : α → Bool} {l : List α} {x : α}
    (hx : x ∈ l) (hp : p x = true) : ∃ i, VectorFindIndex p l = some i := by
  cases h : VectorFindIndex p l with
  | some i => exact ⟨i, rfl⟩
  | none =>
    have := VectorFindIndex_none h x hx
    rw [hp] at this
    exact absurd this (by simp)

/-- `erase_unsorted` at a valid index is a permutation of `eraseIdx`. -/
theorem erase_unsorted_perm {α : Type} (v : List α) (i : Nat) (hi : i < v.length) :
    (erase_unsorted v i).Perm (v.eraseIdx i) := by
  rcases List.eq_nil_or_concat v with hv | ⟨l, b, hv⟩
  · subst hv; simp at hi
  · rw [List.concat_eq_append] at hv
    subst hv
    have hlast : (l ++ [b]).getLast? = some b := by simp
    have hi' : i < l.length + 1 := by simpa using hi
    simp only [erase_unsorted, hlast, hi, if_true]
    by_cases hil : i < l.length
    · rw [List.set_append_left _ _ hil, List.dropLast_concat, List.eraseIdx_append_of_lt_length hil]
      -- l.set i b  ~  l.eraseIdx i ++ [b]
      have : (l.set i b).Perm (b :: l.eraseIdx i) := by
        rw [List.set_eq_take_append_cons_drop, if_pos hil, List.eraseIdx_eq_take_drop_succ]
        exact List.perm_middle
      exact this.trans (List.perm_append_singleton _ _).symm
    · have hil' : i = l.length := by omega
      subst hil'
      rw [List.set_append_right _ _ (le_refl _)]
      simp [List.eraseIdx_append_of_length_le]

theorem erase_unsorted_of_ge {α : Type} (v : List α) (i : Nat) (hi : v.length ≤ i) :
    erase_unsorted v i = v := by
  unfold erase_unsorted
  cases v.getLast? with
  | none => rfl
  | some b => simp [Nat.not_lt.2 hi]

theorem erase_first_unsorted_perm {α : Type} [DecidableEq α] (v : List α) (x : α) :
    (erase_first_unsorted v x).Perm (v.erase x) := by
  unfold erase_first_unsorted
  cases h : VectorFindIndex (fun y => decide (y = x)) v with
  | none =>
    have := VectorFindIndex_none h
    have hx : x ∉ v := fun hx => by simpa using this x hx
    simp [List.erase_of_not_mem hx]
  | some i =>
    obtain ⟨y, hy, hpy, hlt⟩ := VectorFindIndex_some h
    have hyx : y = x := by simpa using hpy
    subst hyx
    have hi : i < v.length := by
      rcases List.getElem?_eq_some.1 hy with ⟨hi, _⟩
      exact hi
    refine (erase_unsorted_perm v i hi).trans ?_
    -- eraseIdx at the first occurrence is erase
    clear h
    induction v generalizing i with
    | nil => simp at hi
    | cons a v ih =>
      cases i with
      | zero =>
        simp only [List.getElem?_cons_zero, Option.some.injEq] at hy
        subst hy
        simp
      | succ i =>
        have ha : a ≠ y := by
          have := hlt 0 a (by omega) (by simp)
          simpa using this
        simp only [List.eraseIdx_cons_succ]
        rw [List.erase_cons_tail (by simpa using ha)]
        refine List.Perm.cons _ (ih i (by simpa using hy) ?_ (by simpa using hi))
        intro j z hj hz
        exact hlt (j + 1) z (by omega) (by simpa using hz)

/-! ## The heap -/

theorem Heap.read_map (h : Heap) (g : EntityPtr → Entity → Entity) (p : EntityPtr) :
    Heap.read (h.map fun x => (x.1, g x.1 x.2)) p = (Heap.read h p).map (g p) := by
  induction h with
  | nil => rfl
  | cons x h ih =>
    obtain ⟨q, e⟩ := x
    simp only [List.map_cons, Heap.read]
    by_cases hq : q = p
    · simp [hq]
    · simp [hq, ih]

theorem Heap.modify_eq_map (h : Heap) (p : EntityPtr) (f : Entity → Entity) :
    Heap.modify h p f = h.map fun x => (x.1, if x.1 = p then f x.2 else x.2) := by
  unfold Heap.modify
  apply List.map_congr_left
  intro x _
  by_cases hx : x.1 = p <;> simp [hx]

theorem Heap.read_modify (h : Heap) (p q : EntityPtr) (f : Entity → Entity) :
    Heap.read (Heap.modify h p f) q = if q = p then (Heap.read h p).map f else Heap.read h q := by
  rw [Heap.modify_eq_map, Heap.read_map h (fun a e => if a = p then f e else e)]
  by_cases hq : q = p
  · simp [hq]
  · simp only [hq, if_false]
    cases Heap.read h q <;> rfl

theorem Heap.read_modify_self (h : Heap) (p : EntityPtr) (f : Entity → Entity) :
    Heap.read (Heap.modify h p f) p = (Heap.read h p).map f := by
  simp [Heap.read_modify]

theorem Heap.read_modify_ne (h : Heap) {p q : EntityPtr} (f : Entity → Entity) (hne : q ≠ p) :
    Heap.read (Heap.modify h p f) q = Heap.read h q := by
  simp [Heap.read_modify, hne]

theorem Heap.read_free (h : Heap) (p q : EntityPtr) :
    Heap.read (Heap.free h p) q = if q = p then none else Heap.read h q := by
  induction h with
  | nil => simp [Heap.free, Heap.read]
  | cons x h ih =>
    obtain ⟨a, e⟩ := x
    unfold Heap.free at ih ⊢
    rw [List.filter_cons]
    by_cases ha : a = p
    · subst ha
      simp only [ne_eq, not_true_eq_false, decide_False, Bool.false_eq_true, if_false, ih,
        Heap.read]
      by_cases hq : q = a
      · simp [hq]
      · have : ¬ a = q := fun h => hq h.symm
        simp [hq, this]
    · have hd : decide ((a, e).1 ≠ p) = true := by simpa using ha
      rw [if_pos hd]
      simp only [Heap.read, ih]
      by_cases hq : a = q
      · subst hq
        simp [ha]
      · simp [hq]

theorem Heap.read_append (h h' : Heap) (p : EntityPtr) :
    Heap.read (h ++ h') p = (Heap.read h p).orElse fun _ => Heap.read h' p := by
  induction h with
  | nil => simp [Heap.read]
  | cons x h ih =>
    obtain ⟨a, e⟩ := x
    simp only [List.cons_append, Heap.read]
    by_cases ha : a = p
    · simp [ha]
    · simp [ha, ih]

theorem Heap.length_modify (h : Heap) (p : EntityPtr) (f : Entity → Entity) :
    (Heap.modify h p f).length = h.length := by
  simp [Heap.modify]

theorem Heap.SameCore.sc_refl (h : Heap) : Heap.SameCore h h := fun _ => rfl

theorem Heap.SameCore.sc_trans {a b c : Heap} (h1 : Heap.SameCore a b) (h2 : Heap.SameCore b c) :
    Heap.SameCore a c := fun q => (h2 q).trans (h1 q)

theorem Heap.SameCore.read {h h' : Heap} (hs : Heap.SameCore h h') {q : EntityPtr} {e : Entity}
    (he : Heap.read h q = some e) :
    ∃ e', Heap.read h' q = some e' ∧ e'.core = e.core := by
  have := hs q
  rw [he] at this
  cases h2 : Heap.read h' q with
  | none => rw [h2] at this; simp at this
  | some e' =>
    rw [h2] at this
    exact ⟨e', rfl, by simpa using this⟩

theorem Heap.SameCore.read_back {h h' : Heap} (hs : Heap.SameCore h h') {q : EntityPtr}
    {e' : Entity} (he : Heap.read h' q = some e') :
    ∃ e, Heap.read h q = some e ∧ e'.core = e.core := by
  have := hs q
  rw [he] at this
  cases h2 : Heap.read h q with
  | none => rw [h2] at this; simp at this
  | some e =>
    rw [h2] at this
    exact ⟨e, rfl, by simpa using this⟩

theorem Heap.SameCore.sc_modify (h : Heap) (p : EntityPtr) (f : Entity → Entity)
    (hf : ∀ e, (f e).core = e.core) : Heap.SameCore h (Heap.modify h p f) := by
  intro q
  rw [Heap.read_modify]
  by_cases hq : q = p
  · subst hq
    simp only [if_true]
    cases Heap.read h q with
    | none => rfl
    | some e => simp [hf]
  · simp [hq]

theorem Entity.ClearSpatialParent_sameCore {h h' : Heap} {c : EntityPtr}
    (hc : Entity.ClearSpatialParent h c = some h') : Heap.SameCore h h' := by
  unfold Entity.ClearSpatialParent at hc
  simp only [Option.bind_eq_bind, Option.bind_eq_some, Option.some.injEq] at hc
  obtain ⟨e, _, rfl⟩ := hc
  refine Heap.SameCore.sc_trans ?_ (Heap.SameCore.sc_modify _ _ _ ?_)
  · cases e.m_pParentSpatialEntity with
    | none => exact Heap.SameCore.sc_refl _
    | some old =>
      refine Heap.SameCore.sc_modify _ _ _ ?_
      intro _; rfl
  · intro _; rfl

theorem Entity.ClearSpatialParent_isSome {h : Heap} {c : EntityPtr} {e : Entity}
    (hc : Heap.read h c = some e) : ∃ h', Entity.ClearSpatialParent h c = some h' := by
  unfold Entity.ClearSpatialParent
  simp [hc]

theorem Entity.SetSpatialParent_sameCore {h h' : Heap} {c n : EntityPtr}
    (hc : Entity.SetSpatialParent h c n = some h') : Heap.SameCore h h' := by
  unfold Entity.SetSpatialParent at hc
  simp only [Option.bind_eq_bind, Option.bind_eq_some, Option.some.injEq] at hc
  obtain ⟨h1, hh1, _, _, rfl⟩ := hc
  refine (Entity.ClearSpatialParent_sameCore hh1).sc_trans
    (Heap.SameCore.sc_trans (Heap.SameCore.sc_modify h1 n _ ?_) (Heap.SameCore.sc_modify _ c _ ?_))
  · intro _; rfl
  · intro _; rfl

theorem Entity.SetSpatialParent_isSome {h : Heap} {c n : EntityPtr} {e en : Entity}
    (hc : Heap.read h c = some e) (hn : Heap.read h n = some en) :
    ∃ h', Entity.SetSpatialParent h c n = some h' := by
  obtain ⟨h1, hh1⟩ := Entity.ClearSpatialParent_isSome hc
  obtain ⟨en', hen', _⟩ := (Entity.ClearSpatialParent_sameCore hh1).read hn
  unfold Entity.SetSpatialParent
  simp [hh1, hen']

/-! ## Calls into an entity -/

theorem call_LoadComponents_eq {w w' : World} {p : EntityPtr}
    (h : call_LoadComponents w p = some w') :
    (∃ e, Heap.read w.heap p = some e) ∧
    w' = { w with heap := Entity.LoadComponents w.heap p,
                  trace := w.trace ++ [Event.LoadComponents p] } := by
  unfold call_LoadComponents at h
  simp only [Option.bind_eq_bind, Option.bind_eq_some] at h
  obtain ⟨e, he, h⟩ := h
  exact ⟨⟨e, he⟩, (Option.some.inj h).symm⟩

theorem call_UnloadComponents_eq {w w' : World} {p : EntityPtr}
    (h : call_UnloadComponents w p = some w') :
    (∃ e, Heap.read w.heap p = some e) ∧
    w' = { w with heap := Entity.UnloadComponents w.heap p,
                  trace := w.trace ++ [Event.UnloadComponents p] } := by
  unfold call_UnloadComponents at h
  simp only [Option.bind_eq_bind, Option.bind_eq_some] at h
  obtain ⟨e, he, h⟩ := h
  exact ⟨⟨e, he⟩, (Option.some.inj h).symm⟩

theorem call_Activate_eq {w w' : World} {p : EntityPtr} (h : call_Activate w p = some w') :
    (∃ e, Heap.read w.heap p = some e) ∧
    w' = { w with heap := Entity.Activate w.heap p, trace := w.trace ++ [Event.Activate p] } := by
  unfold call_Activate at h
  simp only [Option.bind_eq_bind, Option.bind_eq_some] at h
  obtain ⟨e, he, h⟩ := h
  exact ⟨⟨e, he⟩, (Option.some.inj h).symm⟩

theorem call_Deactivate_eq {w w' : World} {p : EntityPtr} (h : call_Deactivate w p = some w') :
    (∃ e, Heap.read w.heap p = some e) ∧
    w' = { w with heap := Entity.Deactivate w.heap p,
                  trace := w.trace ++ [Event.Deactivate p] } := by
  unfold call_Deactivate at h
  simp only [Option.bind_eq_bind, Option.bind_eq_some] at h
  obtain ⟨e, he, h⟩ := h
  exact ⟨⟨e, he⟩, (Option.some.inj h).symm⟩

theorem call_Delete_eq {w w' : World} {p : EntityPtr} (h : call_Delete w p = some w') :
    (∃ e, Heap.read w.heap p = some e) ∧
    w' = { w with heap := Heap.free w.heap p, trace := w.trace ++ [Event.Delete p] } := by
  unfold call_Delete at h
  simp only [Option.bind_eq_bind, Option.bind_eq_some] at h
  obtain ⟨e, he, h⟩ := h
  exact ⟨⟨e, he⟩, (Option.some.inj h).symm⟩

theorem call_LoadComponents_of_live {w : World} {p : EntityPtr} {e : Entity}
    (h : Heap.read w.heap p = some e) :
    call_LoadComponents w p = some { w with heap := Entity.LoadComponents w.heap p,
                                            trace := w.trace ++ [Event.LoadComponents p] } := by
  simp [call_LoadComponents, h]

theorem call_UnloadComponents_of_live {w : World} {p : EntityPtr} {e : Entity}
    (h : Heap.read w.heap p = some e) :
    call_UnloadComponents w p = some { w with heap := Entity.UnloadComponents w.heap p,
                                              trace := w.trace ++ [Event.UnloadComponents p] } := by
  simp [call_UnloadComponents, h]

theorem call_Activate_of_live {w : World} {p : EntityPtr} {e : Entity}
    (h : Heap.read w.heap p = some e) :
    call_Activate w p = some { w with heap := Entity.Activate w.heap p,
                                      trace := w.trace ++ [Event.Activate p] } := by
  simp [call_Activate, h]

theorem call_Deactivate_of_live {w : World} {p : EntityPtr} {e : Entity}
    (h : Heap.read w.heap p = some e) :
    call_Deactivate w p = some { w with heap := Entity.Deactivate w.heap p,
                                        trace := w.trace ++ [Event.Deactivate p] } := by
  simp [call_Deactivate, h]

theorem call_Delete_of_live {w : World} {p : EntityPtr} {e : Entity}
    (h : Heap.read w.heap p = some e) :
    call_Delete w p = some { w with heap := Heap.free w.heap p,
                                    trace := w.trace ++ [Event.Delete p] } := by
  simp [call_Delete, h]

/-! ## What the per-pass processing leaves alone -/

theorem MapFixed.mf_refl (w : World) : MapFixed w w := by simp [MapFixed]

theorem MapFixed.mf_trans {a b c : World} (h1 : MapFixed a b) (h2 : MapFixed b c) : MapFixed a c := by
  simp only [MapFixed] at *
  obtain ⟨a1, a2, a3, a4, a5, a6, a7, a8, a9, a10⟩ := h1
  obtain ⟨b1, b2, b3, b4, b5, b6, b7, b8, b9, b10⟩ := h2
  refine ⟨?_, ?_, ?_, ?_, ?_, ?_, ?_, ?_, ?_, ?_⟩ <;> simp [*]

theorem endEditing_fixed {w w' : World} {p : EntityPtr}
    (h : ProcessEntityAdditionAndRemoval.endEditing w p = some w') : MapFixed w w' := by
  unfold ProcessEntityAdditionAndRemoval.endEditing at h
  simp only [Option.bind_eq_bind, Option.bind_eq_some, Option.some.injEq] at h
  obtain ⟨_, _, _, _, rfl⟩ := h
  simp [MapFixed]

theorem editedEntities_fixed {w w' : World}
    (h : ProcessEntityAdditionAndRemoval.editedEntities w = some w') : MapFixed w w' := by
  unfold ProcessEntityAdditionAndRemoval.editedEntities at h
  split at h
  · obtain ⟨w1, h1, rfl⟩ := Option.map_eq_some'.1 h
    have := foldlM_inv ProcessEntityAdditionAndRemoval.endEditing (MapFixed w)
      (fun b a b' hb hs => hb.mf_trans (endEditing_fixed hs)) _ _ _ (MapFixed.mf_refl w) h1
    exact this.mf_trans (by simp [MapFixed])
  · cases h
    exact MapFixed.mf_refl w

theorem destroyIfRequested_fixed {w w' : World} {r : RemovalRequest}
    (h : ProcessEntityAdditionAndRemoval.destroyIfRequested w r = some w') : MapFixed w w' := by
  unfold ProcessEntityAdditionAndRemoval.destroyIfRequested at h
  split at h
  · obtain ⟨_, rfl⟩ := call_Delete_eq h
    simp [MapFixed]
  · cases h
    exact MapFixed.mf_refl w

theorem removeEntity_fixed {w w' : World} {i : Nat} {r : RemovalRequest}
    (h : ProcessEntityAdditionAndRemoval.removeEntity w i r = some w') : MapFixed w w' := by
  unfold ProcessEntityAdditionAndRemoval.removeEntity at h
  simp only [Option.bind_eq_bind, Option.bind_eq_some, Option.some.injEq] at h
  obtain ⟨w1, h1, w2, h2, rfl⟩ := h
  obtain ⟨_, rfl⟩ := call_UnloadComponents_eq h1
  have := destroyIfRequested_fixed h2
  simp only [MapFixed] at this ⊢
  simpa using this

theorem removalStep_fixed {w w' : World} {i : Nat}
    (h : ProcessEntityAdditionAndRemoval.removalStep w i = some w') : MapFixed w w' := by
  unfold ProcessEntityAdditionAndRemoval.removalStep at h
  simp only [Option.bind_eq_bind, Option.bind_eq_some] at h
  obtain ⟨req, _, e, _, h⟩ := h
  split at h
  · obtain ⟨_, rfl⟩ := call_Deactivate_eq h
    simp [MapFixed]
  · exact removeEntity_fixed h

theorem removalLoop_fixed {n : Nat} {w w' : World}
    (h : ProcessEntityAdditionAndRemoval.removalLoop n w = some w') : MapFixed w w' := by
  induction n generalizing w with
  | zero =>
    simp only [ProcessEntityAdditionAndRemoval.removalLoop, Option.some.injEq] at h
    subst h
    exact MapFixed.mf_refl w
  | succ n ih =>
    simp only [ProcessEntityAdditionAndRemoval.removalLoop, Option.bind_eq_bind,
      Option.bind_eq_some] at h
    obtain ⟨w1, h1, h2⟩ := h
    exact (removalStep_fixed h1).mf_trans (ih h2)

theorem requestLoad_fixed {w w' : World} {p : EntityPtr}
    (h : ProcessEntityAdditionAndRemoval.requestLoad w p = some w') : MapFixed w w' := by
  unfold ProcessEntityAdditionAndRemoval.requestLoad at h
  simp only [Option.bind_eq_bind, Option.bind_eq_some, Option.some.injEq] at h
  obtain ⟨_, _, _, _, w1, h1, _, _, rfl⟩ := h
  obtain ⟨_, rfl⟩ := call_LoadComponents_eq h1
  simp [MapFixed]

theorem loading_fixed {w w' : World}
    (h : ProcessEntityAdditionAndRemoval.loading w = some w') : MapFixed w w' := by
  unfold ProcessEntityAdditionAndRemoval.loading at h
  split at h
  · obtain ⟨w1, h1, rfl⟩ := Option.map_eq_some'.1 h
    have := foldlM_inv ProcessEntityAdditionAndRemoval.requestLoad (MapFixed w)
      (fun b a b' hb hs => hb.mf_trans (requestLoad_fixed hs)) _ _ _ (MapFixed.mf_refl w) h1
    exact this.mf_trans (by simp [MapFixed])
  · cases h
    exact MapFixed.mf_refl w

theorem ProcessEntityAdditionAndRemoval_fixed {w w' : World}
    (h : ProcessEntityAdditionAndRemoval w = some w') : MapFixed w w' := by
  unfold ProcessEntityAdditionAndRemoval at h
  simp only [Option.bind_eq_bind, Option.bind_eq_some] at h
  obtain ⟨w1, h1, w2, h2, h3⟩ := h
  exact (editedEntities_fixed h1).mf_trans ((removalLoop_fixed h2).mf_trans (loading_fixed h3))

theorem EntityLoadingTask.item_fixed {ctx : EntityLoadingContext} {act : Bool}
    {acc acc' : World × List EntityPtr} {p : EntityPtr}
    (h : EntityLoadingTask.item ctx act acc p = some acc') :
    MapFixed acc.1 acc'.1 ∧ acc'.1.map = acc.1.map := by
  unfold EntityLoadingTask.item at h
  simp only [Option.bind_eq_bind, Option.bind_eq_some] at h
  obtain ⟨e, _, h⟩ := h
  split at h
  · split at h
    · obtain ⟨w2, h2, rfl⟩ := Option.map_eq_some'.1 h
      obtain ⟨_, rfl⟩ := call_Activate_eq h2
      simp [MapFixed]
    · cases h
      simp [MapFixed]
  · cases h
    simp [MapFixed]

theorem batch_fixed {w w' : World} {ctx : EntityLoadingContext}
    (h : ProcessEntityLoadingAndActivation.batch w ctx = some w') : MapFixed w w' := by
  unfold ProcessEntityLoadingAndActivation.batch at h
  split at h
  · cases h
    exact MapFixed.mf_refl w
  · obtain ⟨r, h1, rfl⟩ := Option.map_eq_some'.1 h
    have := foldlM_inv (EntityLoadingTask.item ctx w.map.IsActivated)
      (fun acc => MapFixed w acc.1)
      (fun b a b' hb hs => hb.mf_trans (EntityLoadingTask.item_fixed hs).1) _ _ _
      (MapFixed.mf_refl w) h1
    exact this.mf_trans (by simp [MapFixed])

/-! ## The result of an update pass -/

/-- The statuses a map can have when a pass reports that it drained. -/
theorem ProcessEntityLoadingAndActivation_result {w w' : World} {ctx : EntityLoadingContext}
    {r : Bool} (h : ProcessEntityLoadingAndActivation w ctx = some (w', r)) :
    r = w'.map.m_entitiesCurrentlyLoading.isEmpty
    ∧ (w'.map.m_status = w.map.m_status
        ∨ (w.map.m_status = EntityMap.Status.MapEntitiesLoading
            ∧ w'.map.m_status = EntityMap.Status.Loaded))
    ∧ (w'.map.m_status = EntityMap.Status.MapEntitiesLoading
        → w'.map.m_entitiesCurrentlyLoading.isEmpty = false) := by
  unfold ProcessEntityLoadingAndActivation at h
  simp only [Option.bind_eq_bind, Option.bind_eq_some, Option.some.injEq, Prod.mk.injEq] at h
  obtain ⟨w1, h1, w2, h2, rfl, rfl⟩ := h
  have hb := batch_fixed h1
  have hs : w1.map.m_status = w.map.m_status := hb.2.2.1
  unfold ProcessEntityLoadingAndActivation.finish at h2
  split at h2
  · rename_i hc
    simp only [Option.bind_eq_bind, Option.bind_eq_some, Option.some.injEq] at h2
    obtain ⟨_, _, rfl⟩ := h2
    refine ⟨rfl, Or.inr ⟨hs ▸ hc.1, rfl⟩, ?_⟩
    intro hcontra
    simp at hcontra
  · rename_i hc
    cases h2
    refine ⟨rfl, Or.inl hs, ?_⟩
    intro hm
    rw [Bool.eq_false_iff]
    exact fun hl => hc ⟨hm, hl⟩

theorem processEntities_result {w w' : World} {ctx : EntityLoadingContext} {r : Bool}
    (h : UpdateState.processEntities w ctx = some (w', r)) :
    r = w'.map.m_entitiesCurrentlyLoading.isEmpty
    ∧ (w'.map.m_status = w.map.m_status
        ∨ (w.map.m_status = EntityMap.Status.MapEntitiesLoading
            ∧ w'.map.m_status = EntityMap.Status.Loaded))
    ∧ (w'.map.m_status = EntityMap.Status.MapEntitiesLoading
        → w'.map.m_entitiesCurrentlyLoading.isEmpty = false) := by
  unfold UpdateState.processEntities at h
  simp only [Option.bind_eq_bind, Option.bind_eq_some] at h
  obtain ⟨w1, h1, h2⟩ := h
  have hs : w1.map.m_status = w.map.m_status := (ProcessEntityAdditionAndRemoval_fixed h1).2.2.1
  have := ProcessEntityLoadingAndActivation_result h2
  rw [hs] at this
  exact this

theorem ProcessMapLoading_status {w w' : World} {ctx : EntityLoadingContext}
    (h : ProcessMapLoading w ctx = some (w', true)) :
    w'.map.m_status = EntityMap.Status.LoadFailed
      ∨ w'.map.m_status = EntityMap.Status.MapEntitiesLoading := by
  unfold ProcessMapLoading at h
  simp only [Option.bind_eq_bind, Option.bind_eq_some] at h
  obtain ⟨_, _, _, _, h⟩ := h
  split at h
  · simp at h
  · rename_i hl
    obtain ⟨w1, h1, h2⟩ := Option.map_eq_some'.1 h
    simp only [Prod.mk.injEq, and_true] at h2
    subst h2
    unfold ProcessMapLoading.finish at h1
    split at h1
    · cases h1; exact Or.inl rfl
    · split at h1
      · split at h1
        · unfold ProcessMapLoading.instantiate at h1
          simp only [Option.bind_eq_bind, Option.bind_eq_some, Option.some.injEq] at h1
          obtain ⟨_, _, _, _, rfl⟩ := h1
          exact Or.inr rfl
        · cases h1; exact Or.inl rfl
      · rename_i hf hld
        cases hd : ctx.mapDesc <;> simp [hd, ResourceLoadState.IsLoading,
          ResourceLoadState.HasLoadingFailed, ResourceLoadState.IsLoaded] at hl hf hld

theorem processLoading_result {w w' : World} {ctx : EntityLoadingContext} {r : Bool}
    (h : UpdateState.processLoading w ctx = some (w', r)) :
    (w'.map.m_entitiesCurrentlyLoading.isEmpty = false → r = false)
    ∧ (r = true → w'.map.m_entitiesCurrentlyLoading.isEmpty = true
        ∧ w'.map.m_status ≠ EntityMap.Status.MapDescriptorLoading
        ∧ w'.map.m_status ≠ EntityMap.Status.MapEntitiesLoading) := by
  unfold UpdateState.processLoading at h
  split at h
  · simp only [Option.bind_eq_bind, Option.bind_eq_some] at h
    obtain ⟨⟨w1, b⟩, h1, h2⟩ := h
    cases b with
    | false =>
      simp only [Bool.false_eq_true, if_false, Option.some.injEq, Prod.mk.injEq] at h2
      obtain ⟨rfl, rfl⟩ := h2
      exact ⟨fun _ => rfl, fun hr => absurd hr (by simp)⟩
    | true =>
      simp only [if_true] at h2
      obtain ⟨hr, hst, hmel⟩ := processEntities_result h2
      have h1s := ProcessMapLoading_status h1
      refine ⟨fun hl => by rw [hr, hl], fun hrt => ⟨by rw [← hr, hrt], ?_, ?_⟩⟩
      · intro hc
        rcases hst with hst | ⟨_, hst⟩
        · rw [hc] at hst
          rcases h1s with h1s | h1s <;> rw [h1s] at hst <;> cases hst
        · rw [hc] at hst; cases hst
      · intro hc
        have := hmel hc
        rw [← hr, hrt] at this
        cases this
  · rename_i hnd
    obtain ⟨hr, hst, hmel⟩ := processEntities_result h
    refine ⟨fun hl => by rw [hr, hl], fun hrt => ⟨by rw [← hr, hrt], ?_, ?_⟩⟩
    · intro hc
      rcases hst with hst | ⟨_, hst⟩
      · exact hnd (hst ▸ hc)
      · rw [hc] at hst; cases hst
    · intro hc
      have := hmel hc
      rw [← hr, hrt] at this
      cases this

theorem UpdateState_result {w w' : World} {ctx : EntityLoadingContext} {r : Bool}
    (h : UpdateState w ctx = some (w', r)) :
    (w'.map.m_entitiesCurrentlyLoading.isEmpty = false → r = false)
    ∧ (r = true → w'.map.m_entitiesCurrentlyLoading.isEmpty = true
        ∧ w'.map.m_status ≠ EntityMap.Status.MapDescriptorLoading
        ∧ w'.map.m_status ≠ EntityMap.Status.MapEntitiesLoading) := by
  unfold UpdateState at h
  simp only [Option.bind_eq_bind, Option.bind_eq_some] at h
  obtain ⟨_, _, h⟩ := h
  unfold UpdateState.processUnload at h
  split at h
  · simp only [Option.bind_eq_bind, Option.bind_eq_some] at h
    obtain ⟨⟨w1, b⟩, h1, h2⟩ := h
    cases b with
    | false =>
      simp only [Bool.false_eq_true, if_false, Option.some.injEq, Prod.mk.injEq] at h2
      obtain ⟨rfl, rfl⟩ := h2
      exact ⟨fun _ => rfl, fun hr => absurd hr (by simp)⟩
    | true =>
      simp only [if_true] at h2
      exact processLoading_result h2
  · exact processLoading_result h

/-! ## C10: the name generated for "Foo" next to "Foo" and "Foo001" -/

theorem GenerateUniqueName_Foo_zero : GenerateUniqueName "Foo".toList 0 = "Foo 000".toList := by
  decide

theorem GenerateUniqueEntityNameID_Foo {ν : Type} (m : List (StringID × ν))
    (hkeys : ∀ k, k ∈ m.map Prod.fst ↔ (k = "Foo".toList ∨ k = "Foo001".toList)) :
    GenerateUniqueEntityNameID m "Foo".toList = some "Foo 000".toList := by
  have h1 : (THashMap.find m "Foo".toList).isNone = false := by
    have h := (THashMap.find_isSome_iff m _).2 ((hkeys _).2 (Or.inl rfl))
    cases hf : THashMap.find m "Foo".toList with
    | none => rw [hf] at h; exact absurd h (by simp)
    | some v => rfl
  have h2 : (THashMap.find m "Foo 000".toList).isNone = true := by
    cases hf : THashMap.find m "Foo 000".toList with
    | none => rfl
    | some v =>
      have h : (THashMap.find m "Foo 000".toList).isSome = true := by rw [hf]; rfl
      exact absurd ((hkeys _).1 ((THashMap.find_isSome_iff m _).1 h)) (by decide)
  have hv : StringID.IsValid "Foo".toList = true := by decide
  unfold GenerateUniqueEntityNameID
  simp only [hv, EE_ASSERT, if_true, Option.bind_eq_bind, Option.some_bind]
  show GenerateUniqueEntityNameID.loop m "Foo".toList (m.length + 1 + 1) "Foo".toList 0 = _
  unfold GenerateUniqueEntityNameID.loop
  simp only [h1, Bool.false_eq_true, if_false]
  unfold GenerateUniqueEntityNameID.loop
  rw [GenerateUniqueName_Foo_zero]
  simp only [h2, if_true]

/-- C10, as stated, fails: next to the names "Foo" and "Foo001" the name generated
for "Foo" is "Foo 000", not "Foo002", and that is the name `AddEntity` assigns. -/
theorem C10_counterexample :
    GenerateUniqueEntityNameID exampleWorldFoo.map.m_entityNameLookupMap "Foo".toList
        ≠ some "Foo002".toList
      ∧ (AddEntity exampleWorldFoo 3).map (fun w => (Heap.read w.heap 3).map Entity.m_name)
        = some (some "Foo 000".toList) := by
  decide

/-- C10, amended: when the names in the name lookup map are exactly "Foo" and
"Foo001", `GenerateUniqueEntityNameID( "Foo" )` returns "Foo 000", and adding an
entity whose desired name is "Foo" assigns it the name "Foo 000" and enters it in
the name lookup map under that name. -/
theorem C10_name_for_Foo (w w' : World) (p : EntityPtr) (e : Entity)
    (htools : w.EE_DEVELOPMENT_TOOLS = true)
    (hkeys : ∀ k, k ∈ w.map.m_entityNameLookupMap.map Prod.fst
      ↔ (k = "Foo".toList ∨ k = "Foo001".toList))
    (he : Heap.read w.heap p = some e) (hname : e.m_name = "Foo".toList)
    (hadd : AddEntity w p = some w') :
    GenerateUniqueEntityNameID w.map.m_entityNameLookupMap "Foo".toList = some "Foo 000".toList
    ∧ (Heap.read w'.heap p).map Entity.m_name = some "Foo 000".toList
    ∧ THashMap.find w'.map.m_entityNameLookupMap "Foo 000".toList = some p := by
  have hgen := GenerateUniqueEntityNameID_Foo w.map.m_entityNameLookupMap hkeys
  refine ⟨hgen, ?_⟩
  unfold AddEntity at hadd
  simp only [Option.bind_eq_bind, Option.bind_eq_some, Option.some.injEq] at hadd
  obtain ⟨_, _, e', he', _, _, _, _, name, hval, rfl⟩ := hadd
  rw [he] at he'
  cases he'
  unfold AddEntity.validate at hval
  rw [if_pos htools] at hval
  simp only [Option.bind_eq_bind, Option.bind_eq_some] at hval
  obtain ⟨_, _, hval⟩ := hval
  rw [hname, hgen] at hval
  cases hval
  have hnone : THashMap.find w.map.m_entityNameLookupMap "Foo 000".toList = none := by
    rw [THashMap.find_eq_none_iff]
    intro hmem
    exact absurd ((hkeys _).1 hmem) (by decide)
  constructor
  · dsimp only
    rw [Heap.read_modify_self, he]
    rfl
  · dsimp only
    rw [if_pos htools, THashMap.insert_of_find_none _ hnone, THashMap.find_append, hnone]
    simp [THashMap.find]

theorem C10_name_for_Foo_witness :
    GenerateUniqueEntityNameID exampleWorldFoo.map.m_entityNameLookupMap "Foo".toList
        = some "Foo 000".toList
    ∧ (Heap.read ((AddEntity exampleWorldFoo 3).getD exampleWorldFoo).heap 3).map Entity.m_name
        = some "Foo 000".toList
    ∧ THashMap.find ((AddEntity exampleWorldFoo 3).getD exampleWorldFoo).map.m_entityNameLookupMap
        "Foo 000".toList = some 3 :=
  C10_name_for_Foo exampleWorldFoo _ 3 (exampleEntity 13 "Foo".toList) (by decide)
    (by intro k; simp [exampleWorldFoo, EntityMap.mkTransient]) (by decide) (by decide)
    (by decide)

/-! ## C2: what an update pass returns -/

/-- C2: for every `UpdateState` pass, if the loading worklist is non-empty when the
pass ends the pass returns false; and a pass that returns true leaves the loading
worklist empty and the status one of Loaded, Activated, LoadFailed or Unloaded
(never MapDescriptorLoading or MapEntitiesLoading). -/
theorem C2_UpdateState_drained (w w' : World) (ctx : EntityLoadingContext) (r : Bool)
    (h : UpdateState w ctx = some (w', r)) :
    (w'.map.m_entitiesCurrentlyLoading ≠ [] → r = false)
    ∧ (r = true →
        w'.map.m_entitiesCurrentlyLoading = []
        ∧ (w'.map.m_status = EntityMap.Status.Loaded
            ∨ w'.map.m_status = EntityMap.Status.Activated
            ∨ w'.map.m_status = EntityMap.Status.LoadFailed
            ∨ w'.map.m_status = EntityMap.Status.Unloaded)) := by
  obtain ⟨h1, h2⟩ := UpdateState_result h
  constructor
  · intro hne
    apply h1
    cases hl : w'.map.m_entitiesCurrentlyLoading with
    | nil => exact absurd hl hne
    | cons a l => rfl
  · intro hr
    obtain ⟨he, hd, hm⟩ := h2 hr
    refine ⟨List.isEmpty_iff.1 he, ?_⟩
    cases hs : w'.map.m_status <;> simp_all

theorem C2_UpdateState_drained_witness :
    ((World.afterPass (UpdateState (World.after (Load (World.after
        (AddEntity exampleWorldFresh 1)))) (exampleContext true))).1.map.m_entitiesCurrentlyLoading
          ≠ [] → true = false)
    ∧ (true = true →
        (World.afterPass (UpdateState (World.after (Load (World.after
          (AddEntity exampleWorldFresh 1)))) (exampleContext true))).1.map.m_entitiesCurrentlyLoading
            = []
        ∧ ((World.afterPass (UpdateState (World.after (Load (World.after
            (AddEntity exampleWorldFresh 1)))) (exampleContext true))).1.map.m_status
              = EntityMap.Status.Loaded
          ∨ (World.afterPass (UpdateState (World.after (Load (World.after
            (AddEntity exampleWorldFresh 1)))) (exampleContext true))).1.map.m_status
              = EntityMap.Status.Activated
          ∨ (World.afterPass (UpdateState (World.after (Load (World.after
            (AddEntity exampleWorldFresh 1)))) (exampleContext true))).1.map.m_status
              = EntityMap.Status.LoadFailed
          ∨ (World.afterPass (UpdateState (World.after (Load (World.after
            (AddEntity exampleWorldFresh 1)))) (exampleContext true))).1.map.m_status
              = EntityMap.Status.Unloaded)) :=
  C2_UpdateState_drained
    (World.after (Load (World.after (AddEntity exampleWorldFresh 1))))
    (World.afterPass (UpdateState (World.after (Load (World.after
      (AddEntity exampleWorldFresh 1)))) (exampleContext true))).1
    (exampleContext true) true (by decide)

/-! ## C7: `Load` -/

/-- C7: on a map with status Unloaded, `Load` succeeds; a transient map becomes
Loaded and instantiated without any resource request; any other map becomes
MapDescriptorLoading, the descriptor is requested exactly once (one `LoadResource`
call is issued) and `m_isMapInstantiated` is left as it was, so it stays false;
in both cases the entities, the lookup maps, all worklists and the entities
themselves are unchanged. -/
theorem C7_Load (w : World) (h : w.map.m_status = EntityMap.Status.Unloaded) :
    ∃ w', Load w = some w'
      ∧ (w.map.m_isTransientMap = true →
          w'.map.m_status = EntityMap.Status.Loaded ∧ w'.map.m_isMapInstantiated = true
          ∧ w'.trace = w.trace)
      ∧ (w.map.m_isTransientMap = false →
          w'.map.m_status = EntityMap.Status.MapDescriptorLoading
          ∧ w'.trace = w.trace ++ [Event.LoadResource]
          ∧ w'.map.m_pMapDesc.WasRequested = true
          ∧ w'.map.m_isMapInstantiated = w.map.m_isMapInstantiated)
      ∧ w'.map.m_entities = w.map.m_entities
      ∧ w'.map.m_entityIDLookupMap = w.map.m_entityIDLookupMap
      ∧ w'.map.m_entityNameLookupMap = w.map.m_entityNameLookupMap
      ∧ w'.map.m_entitiesToLoad = w.map.m_entitiesToLoad
      ∧ w'.map.m_entitiesCurrentlyLoading = w.map.m_entitiesCurrentlyLoading
      ∧ w'.map.m_entitiesToRemove = w.map.m_entitiesToRemove
      ∧ w'.map.m_entitiesToHotReload = w.map.m_entitiesToHotReload
      ∧ w'.map.m_editedEntities = w.map.m_editedEntities
      ∧ w'.heap = w.heap := by
  unfold Load
  simp only [h, decide_True, EE_ASSERT, if_true, Option.bind_eq_bind, Option.some_bind]
  cases ht : w.map.m_isTransientMap
  · simp [call_LoadResource, MapDescPtr.WasRequested]
  · simp

theorem C7_Load_witness :
    ∃ w', Load (EntityModel.World.mk true [] (EntityMap.mkFromResource 7) []) = some w'
      ∧ ((EntityMap.mkFromResource 7).m_isTransientMap = true →
          w'.map.m_status = EntityMap.Status.Loaded ∧ w'.map.m_isMapInstantiated = true
          ∧ w'.trace = [])
      ∧ ((EntityMap.mkFromResource 7).m_isTransientMap = false →
          w'.map.m_status = EntityMap.Status.MapDescriptorLoading
          ∧ w'.trace = [] ++ [Event.LoadResource]
          ∧ w'.map.m_pMapDesc.WasRequested = true
          ∧ w'.map.m_isMapInstantiated = (EntityMap.mkFromResource 7).m_isMapInstantiated)
      ∧ w'.map.m_entities = (EntityMap.mkFromResource 7).m_entities
      ∧ w'.map.m_entityIDLookupMap = (EntityMap.mkFromResource 7).m_entityIDLookupMap
      ∧ w'.map.m_entityNameLookupMap = (EntityMap.mkFromResource 7).m_entityNameLookupMap
      ∧ w'.map.m_entitiesToLoad = (EntityMap.mkFromResource 7).m_entitiesToLoad
      ∧ w'.map.m_entitiesCurrentlyLoading
          = (EntityMap.mkFromResource 7).m_entitiesCurrentlyLoading
      ∧ w'.map.m_entitiesToRemove = (EntityMap.mkFromResource 7).m_entitiesToRemove
      ∧ w'.map.m_entitiesToHotReload = (EntityMap.mkFromResource 7).m_entitiesToHotReload
      ∧ w'.map.m_editedEntities = (EntityMap.mkFromResource 7).m_editedEntities
      ∧ w'.heap = [] :=
  C7_Load (EntityModel.World.mk true [] (EntityMap.mkFromResource 7) []) (by decide)

/-! ## The spatial hierarchy -/

theorem Entity.ClearSpatialParent_parent {h h' : Heap} {c : EntityPtr}
    (hc : Entity.ClearSpatialParent h c = some h') (q : EntityPtr) :
    (Heap.read h' q).map Entity.m_pParentSpatialEntity
      = if q = c then some none else (Heap.read h q).map Entity.m_pParentSpatialEntity := by
  unfold Entity.ClearSpatialParent at hc
  simp only [Option.bind_eq_bind, Option.bind_eq_some, Option.some.injEq] at hc
  obtain ⟨e, he, rfl⟩ := hc
  rw [Heap.read_modify]
  cases hp : e.m_pParentSpatialEntity with
  | none =>
    by_cases hq : q = c
    · subst hq
      simp [he]
    · simp [hq]
  | some old =>
    simp only [Heap.read_modify]
    by_cases hq : q = c
    · subst hq
      by_cases ho : q = old
      · subst ho
        simp [he]
      · simp [ho, he]
    · by_cases ho : q = old
      · subst ho
        simp only [hq, if_false, if_true]
        cases Heap.read h q <;> rfl
      · simp [hq, ho]

theorem Entity.SetSpatialParent_parent {h h' : Heap} {c n : EntityPtr}
    (hc : Entity.SetSpatialParent h c n = some h') (q : EntityPtr) :
    (Heap.read h' q).map Entity.m_pParentSpatialEntity
      = if q = c then some (some n) else (Heap.read h q).map Entity.m_pParentSpatialEntity := by
  unfold Entity.SetSpatialParent at hc
  simp only [Option.bind_eq_bind, Option.bind_eq_some, Option.some.injEq] at hc
  obtain ⟨h1, hh1, en, hen, rfl⟩ := hc
  have h1q := Entity.ClearSpatialParent_parent hh1
  have hlive : ∃ ec, Heap.read h1 c = some ec := by
    have := h1q c
    rw [if_pos rfl] at this
    cases hr : Heap.read h1 c with
    | none => rw [hr] at this; cases this
    | some ec => exact ⟨ec, rfl⟩
  obtain ⟨ec, hec⟩ := hlive
  simp only [Heap.read_modify]
  by_cases hq : q = c
  · subst hq
    by_cases hn : q = n
    · subst hn
      simp [hec]
    · simp [hn, hec]
  · have hsame := h1q q
    rw [if_neg hq] at hsame
    simp only [hq, if_false]
    rw [← hsame]
    by_cases hn : q = n
    · subst hn
      simp only [if_true]
      cases Heap.read h1 q <;> rfl
    · simp [hn]

theorem Entity.ClearSpatialParent_attached {h h' : Heap} {c : EntityPtr}
    (hc : Entity.ClearSpatialParent h c = some h') (q : EntityPtr) :
    (Heap.read h' q).map Entity.m_attachedEntities
      = if (Heap.read h c).map Entity.m_pParentSpatialEntity = some (some q) then
          ((Heap.read h q).map Entity.m_attachedEntities).map
            (List.filter fun x => decide (x ≠ c))
        else (Heap.read h q).map Entity.m_attachedEntities := by
  unfold Entity.ClearSpatialParent at hc
  simp only [Option.bind_eq_bind, Option.bind_eq_some, Option.some.injEq] at hc
  obtain ⟨e, he, rfl⟩ := hc
  rw [he]
  have hfirst : ∀ h1 : Heap,
      (Heap.read (Heap.modify h1 c fun e => { e with m_pParentSpatialEntity := none }) q).map
        Entity.m_attachedEntities = (Heap.read h1 q).map Entity.m_attachedEntities := by
    intro h1
    rw [Heap.read_modify]
    by_cases hq : q = c
    · subst hq
      simp only [if_true]
      cases Heap.read h1 q <;> rfl
    · rw [if_neg hq]
  rw [hfirst]
  simp only [Option.map_some', Option.some.injEq]
  cases hp : e.m_pParentSpatialEntity with
  | none => simp
  | some old =>
    simp only [Option.some.injEq, Heap.read_modify]
    by_cases ho : q = old
    · subst ho
      simp only [if_true]
      cases Heap.read h q <;> rfl
    · rw [if_neg ho, if_neg (fun hc => ho hc.symm)]

theorem Entity.SetSpatialParent_attached {h h' : Heap} {c n : EntityPtr}
    (hc : Entity.SetSpatialParent h c n = some h') (q : EntityPtr) (hqn : q ≠ n) :
    (Heap.read h' q).map Entity.m_attachedEntities
      = if (Heap.read h c).map Entity.m_pParentSpatialEntity = some (some q) then
          ((Heap.read h q).map Entity.m_attachedEntities).map
            (List.filter fun x => decide (x ≠ c))
        else (Heap.read h q).map Entity.m_attachedEntities := by
  unfold Entity.SetSpatialParent at hc
  simp only [Option.bind_eq_bind, Option.bind_eq_some, Option.some.injEq] at hc
  obtain ⟨h1, hh1, en, hen, rfl⟩ := hc
  rw [← Entity.ClearSpatialParent_attached hh1 q]
  simp only [Heap.read_modify, if_neg hqn]
  by_cases hq : q = c
  · subst hq
    simp only [if_true, if_neg hqn]
    cases Heap.read h1 q <;> rfl
  · rw [if_neg hq]

/-- `ClearSpatialParent` adds no entity to any list of attached entities. -/
theorem Entity.ClearSpatialParent_attached_sub {h h' : Heap} {c q : EntityPtr} {e' : Entity}
    (hc : Entity.ClearSpatialParent h c = some h') (he' : Heap.read h' q = some e') :
    ∃ e, Heap.read h q = some e ∧ ∀ x ∈ e'.m_attachedEntities, x ∈ e.m_attachedEntities := by
  have h1 := Entity.ClearSpatialParent_attached hc q
  rw [he'] at h1
  cases hq : Heap.read h q with
  | none =>
    rw [hq] at h1
    split at h1 <;> simp at h1
  | some e =>
    refine ⟨e, rfl, ?_⟩
    rw [hq] at h1
    simp only [Option.map_some'] at h1
    split at h1
    · simp only [Option.some.injEq] at h1
      rw [h1]
      intro x hx
      exact (List.mem_filter.1 hx).1
    · simp only [Option.some.injEq] at h1
      rw [h1]
      exact fun x hx => hx

/-- `SetSpatialParent` adds no entity but the child to any list of attached
entities. -/
theorem Entity.SetSpatialParent_attached_sub {h h' : Heap} {c n q : EntityPtr} {e' : Entity}
    (hc : Entity.SetSpatialParent h c n = some h') (he' : Heap.read h' q = some e') :
    ∃ e, Heap.read h q = some e
      ∧ ∀ x ∈ e'.m_attachedEntities, x ∈ e.m_attachedEntities ∨ x = c := by
  unfold Entity.SetSpatialParent at hc
  simp only [Option.bind_eq_bind, Option.bind_eq_some, Option.some.injEq] at hc
  obtain ⟨h1, hh1, en, hen, rfl⟩ := hc
  have hmid : ∃ e1, Heap.read h1 q = some e1
      ∧ ∀ x ∈ e'.m_attachedEntities, x ∈ e1.m_attachedEntities ∨ x = c := by
    simp only [Heap.read_modify] at he'
    by_cases hqc : q = c
    · subst hqc
      simp only [if_true] at he'
      by_cases hcn : q = n
      · subst hcn
        simp only [if_true] at he'
        cases h1n : Heap.read h1 q with
        | none => rw [h1n] at he'; cases he'
        | some e1 =>
          rw [h1n] at he'
          simp only [Option.map_some', Option.some.injEq] at he'
          refine ⟨e1, rfl, ?_⟩
          rw [← he']
          intro x hx
          rcases List.mem_append.1 hx with hx | hx
          · exact Or.inl hx
          · exact Or.inr (List.mem_singleton.1 hx)
      · simp only [hcn, if_false] at he'
        cases h1c : Heap.read h1 q with
        | none => rw [h1c] at he'; cases he'
        | some e1 =>
          rw [h1c] at he'
          simp only [Option.map_some', Option.some.injEq] at he'
          refine ⟨e1, rfl, ?_⟩
          rw [← he']
          exact fun x hx => Or.inl hx
    · simp only [hqc, if_false] at he'
      by_cases hqn : q = n
      · subst hqn
        simp only [if_true] at he'
        cases h1n : Heap.read h1 q with
        | none => rw [h1n] at he'; cases he'
        | some e1 =>
          rw [h1n] at he'
          simp only [Option.map_some', Option.some.injEq] at he'
          refine ⟨e1, rfl, ?_⟩
          rw [← he']
          intro x hx
          rcases List.mem_append.1 hx with hx | hx
          · exact Or.inl hx
          · exact Or.inr (List.mem_singleton.1 hx)
      · simp only [hqn, if_false] at he'
        exact ⟨e', he', fun x hx => Or.inl hx⟩
  obtain ⟨e1, he1, hsub⟩ := hmid
  obtain ⟨e, he, hsub1⟩ := Entity.ClearSpatialParent_attached_sub hh1 he1
  refine ⟨e, he, fun x hx => ?_⟩
  rcases hsub x hx with hx | hx
  · exact Or.inl (hsub1 x hx)
  · exact Or.inr hx

/-! ## Unique names -/

theorem GenerateUniqueEntityNameID.loop_fresh {ν : Type} (m : List (StringID × ν))
    (desired : InlineString) :
    ∀ (fuel : Nat) (name : StringID) (counter : Nat) (r : StringID),
      GenerateUniqueEntityNameID.loop m desired fuel name counter = some r →
      THashMap.find m r = none := by
  intro fuel
  induction fuel with
  | zero => intro name counter r h; simp [GenerateUniqueEntityNameID.loop] at h
  | succ fuel ih =>
    intro name counter r h
    rw [GenerateUniqueEntityNameID.loop] at h
    split at h
    · rename_i hn
      cases h
      exact Option.isNone_iff_eq_none.1 hn
    · exact ih _ _ _ h

theorem GenerateUniqueEntityNameID_fresh {ν : Type} {m : List (StringID × ν)}
    {desired r : StringID} (h : GenerateUniqueEntityNameID m desired = some r) :
    THashMap.find m r = none := by
  unfold GenerateUniqueEntityNameID at h
  simp only [Option.bind_eq_bind, Option.bind_eq_some] at h
  obtain ⟨_, _, h⟩ := h
  exact GenerateUniqueEntityNameID.loop_fresh m desired _ _ _ _ h

theorem GenerateUniqueEntityNameID_of_fresh {ν : Type} {m : List (StringID × ν)}
    {desired : StringID} (hv : StringID.IsValid desired = true)
    (h : THashMap.find m desired = none) :
    GenerateUniqueEntityNameID m desired = some desired := by
  unfold GenerateUniqueEntityNameID
  simp only [hv, EE_ASSERT, if_true, Option.bind_eq_bind, Option.some_bind]
  show GenerateUniqueEntityNameID.loop m desired (m.length + 1 + 1) desired 0 = _
  rw [GenerateUniqueEntityNameID.loop, h]
  rfl

/-! ## `AddEntity` -/

theorem AddEntity_eq {w w' : World} {p : EntityPtr} (h : AddEntity w p = some w') :
    ∃ e name, p ≠ nullptr ∧ Heap.read w.heap p = some e
      ∧ e.IsAddedToMap = false ∧ e.HasRequestedComponentLoad = false
      ∧ p ∉ w.map.m_entitiesToLoad
      ∧ AddEntity.validate w e = some name
      ∧ w' = { w with
          heap := Heap.modify w.heap p fun x => { x with m_name := name, m_mapID := w.map.m_ID },
          map := { w.map with
            m_entities := w.map.m_entities ++ [p],
            m_entitiesToLoad := w.map.m_entitiesToLoad ++ [p],
            m_entityIDLookupMap := THashMap.insert w.map.m_entityIDLookupMap e.m_ID p,
            m_entityNameLookupMap :=
              if w.EE_DEVELOPMENT_TOOLS then
                THashMap.insert w.map.m_entityNameLookupMap name p
              else w.map.m_entityNameLookupMap } } := by
  unfold AddEntity at h
  simp only [Option.bind_eq_bind, Option.bind_eq_some, Option.some.injEq, EE_ASSERT_eq_some] at h
  obtain ⟨_, h1, e, he, _, h2, _, h3, name, hval, rfl⟩ := h
  refine ⟨e, name, by simpa using h1, he, ?_, ?_, ?_, hval, rfl⟩
  · simp only [Bool.and_eq_true, Bool.not_eq_true'] at h2; exact h2.1
  · simp only [Bool.and_eq_true, Bool.not_eq_true'] at h2; exact h2.2
  · simpa [VectorContains] using h3

theorem AddEntity.validate_tools {w : World} {e : Entity} {name : StringID}
    (ht : w.EE_DEVELOPMENT_TOOLS = true) (h : AddEntity.validate w e = some name) :
    GenerateUniqueEntityNameID w.map.m_entityNameLookupMap e.m_name = some name := by
  unfold AddEntity.validate at h
  rw [if_pos ht] at h
  simp only [Option.bind_eq_bind, Option.bind_eq_some] at h
  obtain ⟨_, _, h⟩ := h
  exact h

theorem AddEntity.validate_fresh {w : World} {e : Entity} {name : StringID}
    (ht : w.EE_DEVELOPMENT_TOOLS = true) (h : AddEntity.validate w e = some name) :
    THashMap.find w.map.m_entityNameLookupMap name = none :=
  GenerateUniqueEntityNameID_fresh (AddEntity.validate_tools ht h)

theorem AddEntity.validate_no_tools {w : World} {e : Entity} {name : StringID}
    (ht : w.EE_DEVELOPMENT_TOOLS = false) (h : AddEntity.validate w e = some name) :
    name = e.m_name := by
  unfold AddEntity.validate at h
  rw [ht] at h
  simp only [Bool.false_eq_true, if_false, Option.some.injEq] at h
  exact h.symm

/-! ## `RemoveEntityInternal` -/

/-- What the re-parenting of attached entities leaves alone. -/
theorem call_SetSpatialParent_frame {w w' : World} {c n : EntityPtr}
    (h : call_SetSpatialParent w c n = some w') :
    Heap.SameCore w.heap w'.heap ∧ w'.map = w.map
      ∧ w'.EE_DEVELOPMENT_TOOLS = w.EE_DEVELOPMENT_TOOLS := by
  unfold call_SetSpatialParent at h
  simp only [Option.bind_eq_bind, Option.bind_eq_some, Option.some.injEq] at h
  obtain ⟨h1, hh1, rfl⟩ := h
  exact ⟨Entity.SetSpatialParent_sameCore hh1, rfl, rfl⟩

theorem call_ClearSpatialParent_frame {w w' : World} {c : EntityPtr}
    (h : call_ClearSpatialParent w c = some w') :
    Heap.SameCore w.heap w'.heap ∧ w'.map = w.map
      ∧ w'.EE_DEVELOPMENT_TOOLS = w.EE_DEVELOPMENT_TOOLS := by
  unfold call_ClearSpatialParent at h
  simp only [Option.bind_eq_bind, Option.bind_eq_some, Option.some.injEq] at h
  obtain ⟨h1, hh1, rfl⟩ := h
  exact ⟨Entity.ClearSpatialParent_sameCore hh1, rfl, rfl⟩

/-- A property that every call of the body keeps holds after the loop over the
attached entities. -/
theorem forEachAttached_inv (p : EntityPtr) (body : World → EntityPtr → Option World)
    (P : World → Prop) (hstep : ∀ w c w', P w → body w c = some w' → P w') :
    ∀ (n i : Nat) (slots : List EntityPtr) (w w' : World), P w →
      RemoveEntityInternal.forEachAttached p body n i slots w = some w' → P w' := by
  intro n
  induction n with
  | zero =>
    intro i slots w w' hP h
    simp only [RemoveEntityInternal.forEachAttached, Option.some.injEq] at h
    exact h ▸ hP
  | succ n ih =>
    intro i slots w w' hP h
    simp only [RemoveEntityInternal.forEachAttached, Option.bind_eq_bind,
      Option.bind_eq_some] at h
    obtain ⟨c, _, w1, h1, e1, _, h2⟩ := h
    exact ih _ _ w1 w' (hstep w c w1 hP h1) h2

theorem setParent_eq {p c : EntityPtr} {w w' : World}
    (h : RemoveEntityInternal.setParent p w c = some w') :
    ∃ e pParent, Heap.read w.heap p = some e ∧ e.m_pParentSpatialEntity = some pParent
      ∧ call_SetSpatialParent w c pParent = some w' := by
  unfold RemoveEntityInternal.setParent at h
  simp only [Option.bind_eq_bind, Option.bind_eq_some] at h
  obtain ⟨e, he, pParent, hp, h⟩ := h
  exact ⟨e, pParent, he, hp, h⟩

theorem reparent_frame {w w' : World} {p : EntityPtr} {e : Entity}
    (h : RemoveEntityInternal.reparent w p e = some w') :
    Heap.SameCore w.heap w'.heap ∧ w'.map = w.map
      ∧ w'.EE_DEVELOPMENT_TOOLS = w.EE_DEVELOPMENT_TOOLS := by
  unfold RemoveEntityInternal.reparent at h
  split at h
  · cases h
    exact ⟨Heap.SameCore.sc_refl _, rfl, rfl⟩
  · split at h
    · exact forEachAttached_inv p (RemoveEntityInternal.setParent p)
        (fun x => Heap.SameCore w.heap x.heap ∧ x.map = w.map
          ∧ x.EE_DEVELOPMENT_TOOLS = w.EE_DEVELOPMENT_TOOLS)
        (fun b a b' hb hs => by
          obtain ⟨_, _, _, _, hs⟩ := setParent_eq hs
          obtain ⟨s1, s2, s3⟩ := call_SetSpatialParent_frame hs
          exact ⟨hb.1.sc_trans s1, s2.trans hb.2.1, s3.trans hb.2.2⟩)
        _ _ _ _ _ ⟨Heap.SameCore.sc_refl _, rfl, rfl⟩ h
    · exact forEachAttached_inv p call_ClearSpatialParent
        (fun x => Heap.SameCore w.heap x.heap ∧ x.map = w.map
          ∧ x.EE_DEVELOPMENT_TOOLS = w.EE_DEVELOPMENT_TOOLS)
        (fun b a b' hb hs => by
          obtain ⟨s1, s2, s3⟩ := call_ClearSpatialParent_frame hs
          exact ⟨hb.1.sc_trans s1, s2.trans hb.2.1, s3.trans hb.2.2⟩)
        _ _ _ _ _ ⟨Heap.SameCore.sc_refl _, rfl, rfl⟩ h

theorem foldlM_isSome {α β : Type} (f : β → α → Option β) (P : β → Prop) (l : List α)
    (hstep : ∀ b a, a ∈ l → P b → ∃ b', f b a = some b' ∧ P b') :
    ∀ b, P b → ∃ b', l.foldlM f b = some b' ∧ P b' := by
  induction l with
  | nil => intro b hb; exact ⟨b, rfl, hb⟩
  | cons a l ih =>
    intro b hb
    obtain ⟨b1, h1, hb1⟩ := hstep b a (List.mem_cons_self _ _) hb
    obtain ⟨b2, h2, hb2⟩ := ih (fun b a' ha => hstep b a' (List.mem_cons_of_mem _ ha)) b1 hb1
    exact ⟨b2, by simp [List.foldlM_cons, h1, h2], hb2⟩

/-- The slots of the vector of attached entities hold, after a call, entities
that the vector holds or that the slots held. -/
theorem RemoveEntityInternal.mem_slots {slots live : List EntityPtr} {x : EntityPtr}
    (h : x ∈ RemoveEntityInternal.slots slots live) : x ∈ live ∨ x ∈ slots := by
  unfold RemoveEntityInternal.slots at h
  rcases List.mem_append.1 h with h | h
  · exact Or.inl h
  · exact Or.inr (List.mem_of_mem_drop h)

theorem RemoveEntityInternal.length_slots (slots live : List EntityPtr) :
    slots.length ≤ (RemoveEntityInternal.slots slots live).length := by
  unfold RemoveEntityInternal.slots
  rw [List.length_append, List.length_drop]
  omega

/-- The loop over the attached entities returns when every call of its body
returns on the entities of a list `S` that the vector never leaves. -/
theorem forEachAttached_isSome (p : EntityPtr) (body : World → EntityPtr → Option World)
    (S : List EntityPtr) (P : World → Prop)
    (hstep : ∀ w c, P w → c ∈ S → ∃ w', body w c = some w' ∧ P w')
    (hP : ∀ w, P w → ∃ e, Heap.read w.heap p = some e ∧ ∀ c ∈ e.m_attachedEntities, c ∈ S) :
    ∀ (n i : Nat) (slots : List EntityPtr) (w : World), P w → n + i ≤ slots.length →
      (∀ c ∈ slots, c ∈ S) →
      ∃ w', RemoveEntityInternal.forEachAttached p body n i slots w = some w' ∧ P w' := by
  intro n
  induction n with
  | zero =>
    intro i slots w hw _ _
    exact ⟨w, rfl, hw⟩
  | succ n ih =>
    intro i slots w hw hlen hsub
    have hi : i < slots.length := by omega
    obtain ⟨w1, h1, hw1⟩ := hstep w slots[i] hw (hsub _ (List.getElem_mem _))
    obtain ⟨e1, he1, hsub1⟩ := hP w1 hw1
    obtain ⟨w', h', hw'⟩ := ih (i + 1) (RemoveEntityInternal.slots slots e1.m_attachedEntities)
      w1 hw1
      (by have := RemoveEntityInternal.length_slots slots e1.m_attachedEntities; omega)
      (fun c hc => by
        rcases RemoveEntityInternal.mem_slots hc with hc | hc
        · exact hsub1 c hc
        · exact hsub c hc)
    refine ⟨w', ?_, hw'⟩
    simp only [RemoveEntityInternal.forEachAttached, Option.bind_eq_bind,
      List.getElem?_eq_getElem hi, Option.some_bind, h1, he1]
    exact h'

/-- The re-parenting succeeds when the attached entities and the parent are live. -/
theorem reparent_isSome (w : World) (p : EntityPtr) (e : Entity)
    (he : Heap.read w.heap p = some e)
    (hattached : ∀ c ∈ e.m_attachedEntities, (Heap.read w.heap c).isSome = true)
    (hparent : ∀ q, e.m_pParentSpatialEntity = some q → (Heap.read w.heap q).isSome = true) :
    ∃ w', RemoveEntityInternal.reparent w p e = some w' := by
  unfold RemoveEntityInternal.reparent
  split
  · exact ⟨w, rfl⟩
  · cases hp : e.m_pParentSpatialEntity with
    | some pParent =>
      obtain ⟨w', h, _⟩ := forEachAttached_isSome p (RemoveEntityInternal.setParent p)
        e.m_attachedEntities
        (fun x => Heap.SameCore w.heap x.heap
          ∧ ∃ ex, Heap.read x.heap p = some ex ∧ ex.m_pParentSpatialEntity = some pParent
            ∧ ∀ c ∈ ex.m_attachedEntities, c ∈ e.m_attachedEntities)
        (fun x c hx hc => by
          obtain ⟨hsc, ex, hex, hpx, hsubx⟩ := hx
          obtain ⟨ea, hea⟩ := Option.isSome_iff_exists.1 (hattached c hc)
          obtain ⟨ep, hep⟩ := Option.isSome_iff_exists.1 (hparent pParent hp)
          obtain ⟨ea', hea', _⟩ := hsc.read hea
          obtain ⟨ep', hep', _⟩ := hsc.read hep
          obtain ⟨h', hh'⟩ := Entity.SetSpatialParent_isSome hea' hep'
          have hsc' := hsc.sc_trans (Entity.SetSpatialParent_sameCore hh')
          obtain ⟨e', he', _⟩ := hsc'.read he
          refine ⟨{ x with heap := h', trace := x.trace ++ [Event.SetSpatialParent c pParent] },
            ?_, hsc', e', he', ?_, ?_⟩
          · simp only [RemoveEntityInternal.setParent, call_SetSpatialParent, hex, hpx, hh',
              Option.bind_eq_bind, Option.some_bind]
          · have hpar := Entity.SetSpatialParent_parent hh' p
            have he'' : Heap.read h' p = some e' := he'
            rw [he'', hex, Option.map_some', Option.map_some', hpx] at hpar
            split at hpar <;> exact Option.some.inj hpar
          · have he'' : Heap.read h' p = some e' := he'
            obtain ⟨e0, he0, hsub0⟩ := Entity.SetSpatialParent_attached_sub hh' he''
            have : e0 = ex := Option.some.inj (he0.symm.trans hex)
            subst this
            intro y hy
            rcases hsub0 y hy with hy | hy
            · exact hsubx y hy
            · exact hy ▸ hc)
        (fun x hx => by
          obtain ⟨_, ex, hex, _, hsubx⟩ := hx
          exact ⟨ex, hex, hsubx⟩)
        e.m_attachedEntities.length 0 e.m_attachedEntities w
        ⟨Heap.SameCore.sc_refl _, e, he, hp, fun c hc => hc⟩ (by omega) (fun c hc => hc)
      exact ⟨w', h⟩
    | none =>
      obtain ⟨w', h, _⟩ := forEachAttached_isSome p call_ClearSpatialParent
        e.m_attachedEntities
        (fun x => Heap.SameCore w.heap x.heap
          ∧ ∃ ex, Heap.read x.heap p = some ex
            ∧ ∀ c ∈ ex.m_attachedEntities, c ∈ e.m_attachedEntities)
        (fun x c hx hc => by
          obtain ⟨hsc, ex, hex, hsubx⟩ := hx
          obtain ⟨ea, hea⟩ := Option.isSome_iff_exists.1 (hattached c hc)
          obtain ⟨ea', hea', _⟩ := hsc.read hea
          obtain ⟨h', hh'⟩ := Entity.ClearSpatialParent_isSome hea'
          have hsc' := hsc.sc_trans (Entity.ClearSpatialParent_sameCore hh')
          obtain ⟨e', he', _⟩ := hsc'.read he
          refine ⟨{ x with heap := h', trace := x.trace ++ [Event.ClearSpatialParent c] },
            ?_, hsc', e', he', ?_⟩
          · simp only [call_ClearSpatialParent, hh', Option.bind_eq_bind, Option.some_bind]
          · have he'' : Heap.read h' p = some e' := he'
            obtain ⟨e0, he0, hsub0⟩ := Entity.ClearSpatialParent_attached_sub hh' he''
            have : e0 = ex := Option.some.inj (he0.symm.trans hex)
            subst this
            intro y hy
            exact hsubx y (hsub0 y hy))
        (fun x hx => by
          obtain ⟨_, ex, hex, hsubx⟩ := hx
          exact ⟨ex, hex, hsubx⟩)
        e.m_attachedEntities.length 0 e.m_attachedEntities w
        ⟨Heap.SameCore.sc_refl _, e, he, fun c hc => hc⟩ (by omega) (fun c hc => hc)
      exact ⟨w', h⟩

theorem scheduleUnload_eq (w : World) (p : EntityPtr) (id : EntityID) (d : Bool) :
    RemoveEntityInternal.scheduleUnload w p id d
      = match VectorFindIndex (queuedWithID w.heap id) w.map.m_entitiesToLoad with
        | some entityIdx => RemoveEntityInternal.cancelLoad w entityIdx d
        | none => RemoveEntityInternal.queueRemoval w p d := rfl

/-- The outcome of the schedule-unload block. -/
theorem scheduleUnload_spec {w w' : World} {p : EntityPtr} {id : EntityID} {d : Bool}
    {r : Option EntityPtr} (h : RemoveEntityInternal.scheduleUnload w p id d = some (w', r)) :
    w'.EE_DEVELOPMENT_TOOLS = w.EE_DEVELOPMENT_TOOLS
    ∧ w'.map.m_entities = w.map.m_entities
    ∧ w'.map.m_entityIDLookupMap = w.map.m_entityIDLookupMap
    ∧ w'.map.m_entityNameLookupMap = w.map.m_entityNameLookupMap
    ∧ w'.map.m_entitiesCurrentlyLoading = w.map.m_entitiesCurrentlyLoading
    ∧ w'.map.m_ID = w.map.m_ID
    ∧ w'.map.m_status = w.map.m_status
    ∧ w'.map.m_isMapInstantiated = w.map.m_isMapInstantiated
    ∧ w'.map.m_isUnloadRequested = w.map.m_isUnloadRequested
    ∧ w'.map.m_isTransientMap = w.map.m_isTransientMap
    ∧ ((∃ idx q, VectorFindIndex (queuedWithID w.heap id) w.map.m_entitiesToLoad = some idx
          ∧ w.map.m_entitiesToLoad[idx]? = some q
          ∧ w'.map.m_entitiesToLoad = erase_unsorted w.map.m_entitiesToLoad idx
          ∧ w'.map.m_entitiesToRemove = w.map.m_entitiesToRemove
          ∧ ((d = true ∧ (Heap.read w.heap q).isSome = true ∧ w'.heap = Heap.free w.heap q
                ∧ w'.trace = w.trace ++ [Event.Delete q] ∧ r = none)
              ∨ (d = false ∧ w'.heap = w.heap ∧ w'.trace = w.trace ∧ r = some q)))
        ∨ (VectorFindIndex (queuedWithID w.heap id) w.map.m_entitiesToLoad = none
          ∧ w.map.m_isMapInstantiated = true
          ∧ w'.map.m_entitiesToLoad = w.map.m_entitiesToLoad
          ∧ w'.map.m_entitiesToRemove
              = w.map.m_entitiesToRemove ++ [{ m_pEntity := p, m_shouldDestroy := d }]
          ∧ w'.heap = w.heap ∧ w'.trace = w.trace
          ∧ r = if d then none else some p)) := by
  rw [scheduleUnload_eq] at h
  cases hv : VectorFindIndex (queuedWithID w.heap id) w.map.m_entitiesToLoad with
  | some idx =>
    rw [hv] at h
    simp only [RemoveEntityInternal.cancelLoad, Option.bind_eq_bind, Option.bind_eq_some] at h
    obtain ⟨q, hq, h⟩ := h
    cases d with
    | true =>
      simp only [if_true, Option.map_eq_some'] at h
      obtain ⟨w2, h2, h3⟩ := h
      obtain ⟨⟨eq, heq⟩, rfl⟩ := call_Delete_eq h2
      simp only [Prod.mk.injEq] at h3
      obtain ⟨rfl, rfl⟩ := h3
      refine ⟨rfl, rfl, rfl, rfl, rfl, rfl, rfl, rfl, rfl, rfl, Or.inl ⟨idx, q, rfl, hq, rfl, rfl,
        Or.inl ⟨rfl, ?_, rfl, rfl, rfl⟩⟩⟩
      simp only at heq
      rw [heq]; rfl
    | false =>
      simp only [Bool.false_eq_true, if_false, Option.some.injEq, Prod.mk.injEq] at h
      obtain ⟨rfl, rfl⟩ := h
      exact ⟨rfl, rfl, rfl, rfl, rfl, rfl, rfl, rfl, rfl, rfl, Or.inl ⟨idx, q, rfl, hq, rfl, rfl,
        Or.inr ⟨rfl, rfl, rfl, rfl⟩⟩⟩
  | none =>
    rw [hv] at h
    simp only [RemoveEntityInternal.queueRemoval] at h
    split at h
    · rename_i hinst
      simp only [Option.some.injEq, Prod.mk.injEq] at h
      obtain ⟨rfl, rfl⟩ := h
      exact ⟨rfl, rfl, rfl, rfl, rfl, rfl, rfl, rfl, rfl, rfl,
        Or.inr ⟨rfl, hinst, rfl, rfl, rfl, rfl, rfl⟩⟩
    · cases h

/-- The outcome of `RemoveEntityInternal`: the steps before the schedule-unload
block. -/
theorem RemoveEntityInternal_spec {w w' : World} {id : EntityID} {d : Bool}
    {r : Option EntityPtr} (h : RemoveEntityInternal w id d = some (w', r)) :
    ∃ p e w1 e1 nameLookup,
      w.map.FindEntity id = some p
      ∧ Heap.read w.heap p = some e
      ∧ RemoveEntityInternal.reparent w p e = some w1
      ∧ Heap.read w1.heap p = some e1
      ∧ (THashMap.find w.map.m_entityIDLookupMap e1.m_ID).isSome = true
      ∧ RemoveEntityInternal.eraseName w1 e1.m_name = some nameLookup
      ∧ RemoveEntityInternal.scheduleUnload
          { w1 with map := { w1.map with
              m_entities := erase_first_unsorted w.map.m_entities p,
              m_entityIDLookupMap := THashMap.erase w.map.m_entityIDLookupMap e1.m_ID,
              m_entityNameLookupMap := nameLookup } }
          p id d = some (w', r) := by
  unfold RemoveEntityInternal at h
  simp only [Option.bind_eq_bind, Option.bind_eq_some] at h
  obtain ⟨p, hp, e, he, w1, hw1, e1, he1, v, hv, nl, hnl, h⟩ := h
  have hm : w1.map = w.map := (reparent_frame hw1).2.1
  rw [hm] at h hv
  exact ⟨p, e, w1, e1, nl, hp, he, hw1, he1, by rw [hv]; rfl, hnl, by rw [hm]; exact h⟩

theorem eraseName_spec {w : World} {name : StringID} {nl : List (StringID × EntityPtr)}
    (h : RemoveEntityInternal.eraseName w name = some nl) :
    (w.EE_DEVELOPMENT_TOOLS = true →
        (THashMap.find w.map.m_entityNameLookupMap name).isSome = true
        ∧ nl = THashMap.erase w.map.m_entityNameLookupMap name)
    ∧ (w.EE_DEVELOPMENT_TOOLS = false → nl = w.map.m_entityNameLookupMap) := by
  unfold RemoveEntityInternal.eraseName at h
  cases ht : w.EE_DEVELOPMENT_TOOLS
  · rw [ht] at h
    simp only [Bool.false_eq_true, if_false, Option.some.injEq] at h
    exact ⟨fun hc => absurd hc (by simp), fun _ => h.symm⟩
  · rw [ht] at h
    simp only [if_true, Option.bind_eq_bind, Option.bind_eq_some, Option.some.injEq] at h
    obtain ⟨v, hv, rfl⟩ := h
    exact ⟨fun _ => ⟨by rw [hv]; rfl, rfl⟩, fun hc => absurd hc (by simp)⟩

/-! ## C9: removing an entity that is still only queued -/

theorem not_mem_erase_unsorted_of_nodup {α : Type} [DecidableEq α] {l : List α} {i : Nat} {x : α}
    (hnd : l.Nodup) (hx : l[i]? = some x) : x ∉ erase_unsorted l i := by
  obtain ⟨hi, hget⟩ := List.getElem?_eq_some.1 hx
  intro hmem
  have h1 := (erase_unsorted_perm l i hi).mem_iff.1 hmem
  have h2 : l.eraseIdx i = l.erase x := by
    rw [← hget]
    exact (List.Nodup.erase_getElem hnd i hi).symm
  rw [h2] at h1
  exact (List.Nodup.not_mem_erase hnd) h1

theorem not_mem_erase_first_unsorted_of_nodup {α : Type} [DecidableEq α] {l : List α} {x : α}
    (hnd : l.Nodup) : x ∉ erase_first_unsorted l x := by
  intro hmem
  exact (List.Nodup.not_mem_erase hnd) ((erase_first_unsorted_perm l x).mem_iff.1 hmem)

/-- C9: let `e`, at address `p`, be an entity that is still only queued in
`toLoad`: the id lookup map leads from its id to it and it is in `toLoad`, on a
map whose `toLoad`, entity list and lookup keys hold no duplicates, where no other
queued entity carries the id and the entities attached to `e` and its parent are
live (with development tools, its name is in the name lookup map).  Then
`RemoveEntity` / `DestroyEntity` on the id of `e` succeeds, removes `e` from
`toLoad`, from the entity list and from the id lookup map, appends no request to
`toRemove`, leaves the loading list as it was (so `e` stays absent from it),
deletes `e` within the call when the destroy flag is set, and returns `e` itself
when it is not. -/
theorem C9_remove_queued_entity (w : World) (id : EntityID) (p : EntityPtr) (e : Entity)
    (destroy : Bool)
    (hfind : w.map.FindEntity id = some p)
    (hlive : Heap.read w.heap p = some e) (hid : e.m_ID = id)
    (hqueued : p ∈ w.map.m_entitiesToLoad)
    (hnd : w.map.m_entitiesToLoad.Nodup) (hnde : w.map.m_entities.Nodup)
    (hkeys : (w.map.m_entityIDLookupMap.map Prod.fst).Nodup)
    (hids : ∀ q ∈ w.map.m_entitiesToLoad, ∀ x, Heap.read w.heap q = some x → x.m_ID = id → q = p)
    (hattached : ∀ c ∈ e.m_attachedEntities, (Heap.read w.heap c).isSome = true)
    (hparent : ∀ q, e.m_pParentSpatialEntity = some q → (Heap.read w.heap q).isSome = true)
    (hname : w.EE_DEVELOPMENT_TOOLS = true →
      (THashMap.find w.map.m_entityNameLookupMap e.m_name).isSome = true) :
    ∃ w' r, RemoveEntityInternal w id destroy = some (w', r)
      ∧ p ∉ w'.map.m_entitiesToLoad
      ∧ p ∉ w'.map.m_entities
      ∧ w'.map.FindEntity id = none
      ∧ w'.map.m_entitiesToRemove = w.map.m_entitiesToRemove
      ∧ w'.map.m_entitiesCurrentlyLoading = w.map.m_entitiesCurrentlyLoading
      ∧ (destroy = true →
          r = none ∧ Heap.read w'.heap p = none ∧ Event.Delete p ∈ w'.trace
          ∧ DestroyEntity w id = some w')
      ∧ (destroy = false →
          r = some p ∧ (Heap.read w'.heap p).isSome = true
          ∧ RemoveEntity w id = some (w', p)) := by
  -- the steps before the schedule-unload block succeed
  obtain ⟨w1, hw1⟩ := reparent_isSome w p e hlive hattached hparent
  obtain ⟨hsc, hmap, htools⟩ := reparent_frame hw1
  obtain ⟨e1, he1, hcore⟩ := hsc.read hlive
  have hid1 : e1.m_ID = id := by
    have := congrArg Prod.fst hcore
    simp only [Entity.core] at this
    rw [this, hid]
  have hname1 : e1.m_name = e.m_name := by
    have := congrArg (fun x => x.2.2.1) hcore
    simpa [Entity.core] using this
  have hfind' : THashMap.find w1.map.m_entityIDLookupMap e1.m_ID = some p := by
    rw [hmap, hid1]; exact hfind
  obtain ⟨nl, hnl⟩ : ∃ nl, RemoveEntityInternal.eraseName w1 e1.m_name = some nl := by
    unfold RemoveEntityInternal.eraseName
    cases ht : w1.EE_DEVELOPMENT_TOOLS
    · exact ⟨w1.map.m_entityNameLookupMap, by simp⟩
    · have := hname (htools ▸ ht)
      obtain ⟨v, hv⟩ := Option.isSome_iff_exists.1 this
      rw [hmap, hname1]
      exact ⟨THashMap.erase w.map.m_entityNameLookupMap e.m_name, by simp [hv]⟩
  -- the add queue holds p, and only p, under the id
  have hpred : queuedWithID w1.heap id p = true := by simp [queuedWithID, he1, hid1]
  obtain ⟨idx, hidx⟩ := VectorFindIndex_isSome (p := queuedWithID w1.heap id)
    (l := w.map.m_entitiesToLoad) hqueued hpred
  obtain ⟨q, hq, hqp, _⟩ := VectorFindIndex_some hidx
  have hqeq : q = p := by
    have hqmem : q ∈ w.map.m_entitiesToLoad := List.getElem?_mem hq
    unfold queuedWithID at hqp
    cases hrq : Heap.read w1.heap q with
    | none => rw [hrq] at hqp; simp at hqp
    | some x =>
      rw [hrq] at hqp
      simp only [decide_eq_true_eq] at hqp
      obtain ⟨x0, hx0, hc⟩ := hsc.read_back hrq
      have : x0.m_ID = id := by
        have := congrArg Prod.fst hc
        simp only [Entity.core] at this
        rw [← this, hqp]
      exact hids q hqmem x0 hx0 this
  subst hqeq
  -- run the operation
  have hrun : RemoveEntityInternal w id destroy
      = RemoveEntityInternal.cancelLoad
          { w1 with map := { w1.map with
              m_entities := erase_first_unsorted w1.map.m_entities q,
              m_entityIDLookupMap := THashMap.erase w1.map.m_entityIDLookupMap e1.m_ID,
              m_entityNameLookupMap := nl } } idx destroy := by
    unfold RemoveEntityInternal
    simp only [hfind, hlive, hw1, he1, hfind', hnl, Option.bind_eq_bind, Option.some_bind]
    rw [scheduleUnload_eq]
    simp only [hmap, hidx]
  have hcancel : ∃ w' r, RemoveEntityInternal.cancelLoad
          { w1 with map := { w1.map with
              m_entities := erase_first_unsorted w1.map.m_entities q,
              m_entityIDLookupMap := THashMap.erase w1.map.m_entityIDLookupMap e1.m_ID,
              m_entityNameLookupMap := nl } } idx destroy = some (w', r)
        ∧ w'.map.m_entitiesToLoad = erase_unsorted w.map.m_entitiesToLoad idx
        ∧ w'.map.m_entities = erase_first_unsorted w.map.m_entities q
        ∧ w'.map.m_entityIDLookupMap = THashMap.erase w.map.m_entityIDLookupMap id
        ∧ w'.map.m_entitiesToRemove = w.map.m_entitiesToRemove
        ∧ w'.map.m_entitiesCurrentlyLoading = w.map.m_entitiesCurrentlyLoading
        ∧ (destroy = true → r = none ∧ w'.heap = Heap.free w1.heap q
            ∧ w'.trace = w1.trace ++ [Event.Delete q])
        ∧ (destroy = false → r = some q ∧ w'.heap = w1.heap) := by
    unfold RemoveEntityInternal.cancelLoad
    simp only [hmap, hq, Option.bind_eq_bind, Option.some_bind, hid1]
    cases destroy with
    | true =>
      simp only [if_true, call_Delete, he1, Option.bind_eq_bind, Option.some_bind,
        Option.map_some']
      exact ⟨_, _, rfl, rfl, rfl, rfl, rfl, rfl, fun _ => ⟨rfl, rfl, rfl⟩,
        fun hc => absurd hc (by simp)⟩
    | false =>
      simp only [Bool.false_eq_true, if_false]
      exact ⟨_, _, rfl, rfl, rfl, rfl, rfl, rfl, fun hc => absurd hc (by simp),
        fun _ => ⟨rfl, rfl⟩⟩
  obtain ⟨w', r, hw', hL, hE, hI, hR, hC, hd, hnd'⟩ := hcancel
  rw [← hrun] at hw'
  refine ⟨w', r, hw', ?_, ?_, ?_, hR, hC, ?_, ?_⟩
  · rw [hL]; exact not_mem_erase_unsorted_of_nodup hnd hq
  · rw [hE]; exact not_mem_erase_first_unsorted_of_nodup hnde
  · unfold EntityMap.FindEntity
    rw [hI, THashMap.find_eq_none_iff]
    exact THashMap.not_mem_erase _ _ hkeys
  · intro hdt
    obtain ⟨hr, hh, ht⟩ := hd hdt
    refine ⟨hr, ?_, ?_, ?_⟩
    · rw [hh, Heap.read_free]; simp
    · rw [ht]; simp
    · unfold DestroyEntity
      rw [← hdt, hw']
      rfl
  · intro hdf
    obtain ⟨hr, hh⟩ := hnd' hdf
    refine ⟨hr, ?_, ?_⟩
    · rw [hh, he1]; rfl
    · unfold RemoveEntity
      rw [← hdf, hw', hr]
      rfl

theorem C9_remove_queued_entity_witness :
    ∃ w' r, RemoveEntityInternal exampleWorldQueued 12 true = some (w', r)
      ∧ 2 ∉ w'.map.m_entitiesToLoad
      ∧ 2 ∉ w'.map.m_entities
      ∧ w'.map.FindEntity 12 = none
      ∧ w'.map.m_entitiesToRemove = exampleWorldQueued.map.m_entitiesToRemove
      ∧ w'.map.m_entitiesCurrentlyLoading = exampleWorldQueued.map.m_entitiesCurrentlyLoading
      ∧ (true = true →
          r = none ∧ Heap.read w'.heap 2 = none ∧ Event.Delete 2 ∈ w'.trace
          ∧ DestroyEntity exampleWorldQueued 12 = some w')
      ∧ (true = false →
          r = some 2 ∧ (Heap.read w'.heap 2).isSome = true
          ∧ RemoveEntity exampleWorldQueued 12 = some (w', 2)) :=
  C9_remove_queued_entity exampleWorldQueued 12 2
    { exampleEntity 12 "Foo 000".toList with m_mapID := 7 } true
    (by decide) (by decide) (by decide) (by decide) (by decide) (by decide) (by decide)
    (by
      intro q hq x hx hid
      have hq' : q = 1 ∨ q = 2 := by
        have : exampleWorldQueued.map.m_entitiesToLoad = [1, 2] := by decide
        rw [this] at hq
        simpa using hq
      rcases hq' with rfl | rfl
      · have : Heap.read exampleWorldQueued.heap 1
            = some { exampleEntity 11 "Foo".toList with m_mapID := 7 } := by decide
        rw [this] at hx
        cases hx
        exact absurd hid (by decide)
      · rfl)
    (by decide)
    (by intro q hq; cases hq)
    (by decide)

/-! ## C1: the lookup maps mirror the entity list -/

theorem THashMap.find_erase_ne {κ ν : Type} [DecidableEq κ] (m : List (κ × ν)) {k k' : κ}
    (hne : k' ≠ k) : THashMap.find (THashMap.erase m k) k' = THashMap.find m k' := by
  induction m with
  | nil => rfl
  | cons x m ih =>
    obtain ⟨a, v⟩ := x
    simp only [THashMap.erase]
    by_cases ha : a = k
    · subst ha
      simp only [if_true, THashMap.find]
      rw [if_neg (fun h => hne h.symm)]
    · simp only [ha, if_false, THashMap.find, ih]

theorem Heap.DistinctIDs.of_sameCore {h h' : Heap} (hd : Heap.DistinctIDs h)
    (hs : Heap.SameCore h h') : Heap.DistinctIDs h' := by
  intro p q e1 e2 h1 h2 hid
  obtain ⟨x1, hx1, hc1⟩ := hs.read_back h1
  obtain ⟨x2, hx2, hc2⟩ := hs.read_back h2
  have i1 : e1.m_ID = x1.m_ID := congrArg Prod.fst hc1
  have i2 : e2.m_ID = x2.m_ID := congrArg Prod.fst hc2
  exact hd p q x1 x2 hx1 hx2 (by rw [← i1, ← i2, hid])

theorem Heap.DistinctIDs.di_free {h : Heap} (hd : Heap.DistinctIDs h) (a : EntityPtr) :
    Heap.DistinctIDs (Heap.free h a) := by
  intro p q e1 e2 h1 h2 hid
  rw [Heap.read_free] at h1 h2
  split at h1
  · cases h1
  · split at h2
    · cases h2
    · exact hd p q e1 e2 h1 h2 hid

theorem Heap.DistinctIDs.di_modify {h : Heap} (hd : Heap.DistinctIDs h) (a : EntityPtr)
    (f : Entity → Entity) (hf : ∀ e, (f e).m_ID = e.m_ID) :
    Heap.DistinctIDs (Heap.modify h a f) := by
  have key : ∀ p e, Heap.read (Heap.modify h a f) p = some e →
      ∃ x, Heap.read h p = some x ∧ e.m_ID = x.m_ID := by
    intro p e hp
    rw [Heap.read_modify] at hp
    split at hp
    · rename_i hpa
      subst hpa
      obtain ⟨x, hx, rfl⟩ := Option.map_eq_some'.1 hp
      exact ⟨x, hx, hf x⟩
    · exact ⟨e, hp, rfl⟩
  intro p q e1 e2 h1 h2 hid
  obtain ⟨x1, hx1, i1⟩ := key p e1 h1
  obtain ⟨x2, hx2, i2⟩ := key q e2 h2
  exact hd p q x1 x2 hx1 hx2 (by rw [← i1, ← i2, hid])

theorem AddEntity_preserves {w w' : World} {p : EntityPtr} (hinv : AddRemoveInv w)
    (h : AddEntity w p = some w') : AddRemoveInv w' := by
  obtain ⟨⟨hlen, hid, hnm⟩, hkeys, hnde, hndl, hsub, hdist, hnames⟩ := hinv
  obtain ⟨e, name, _, he, _, _, hnq, hval, rfl⟩ := AddEntity_eq h
  have hpe : p ∉ w.map.m_entities := fun hp => hnq (hsub p hp)
  -- the id of the new entity is not yet a key
  have hfresh : THashMap.find w.map.m_entityIDLookupMap e.m_ID = none := by
    cases hf : THashMap.find w.map.m_entityIDLookupMap e.m_ID with
    | none => rfl
    | some p' =>
      obtain ⟨hp', e', he', hid'⟩ := hid _ _ (THashMap.mem_of_find hf)
      have : p' = p := hdist p' p e' e he' he hid'
      exact absurd (this ▸ hp') hpe
  have hread : ∀ q, q ≠ p → Heap.read (Heap.modify w.heap p fun x =>
      { x with m_name := name, m_mapID := w.map.m_ID }) q = Heap.read w.heap q :=
    fun q hq => Heap.read_modify_ne _ _ hq
  have hreadp : Heap.read (Heap.modify w.heap p fun x =>
      { x with m_name := name, m_mapID := w.map.m_ID }) p
        = some { e with m_name := name, m_mapID := w.map.m_ID } := by
    rw [Heap.read_modify_self, he]; rfl
  refine ⟨⟨?_, ?_, ?_⟩, ?_, ?_, ?_, ?_, ?_, ?_⟩
  · simp only [THashMap.insert_of_find_none _ hfresh, List.length_append, hlen,
      List.length_singleton]
  · intro id q hq
    simp only [THashMap.insert_of_find_none _ hfresh, List.mem_append, List.mem_singleton,
      Prod.mk.injEq] at hq
    rcases hq with hq | ⟨rfl, rfl⟩
    · obtain ⟨hqe, x, hx, hxid⟩ := hid _ _ hq
      have hqp : q ≠ p := fun hc => hpe (hc ▸ hqe)
      exact ⟨List.mem_append_left _ hqe, x, by simp only; rw [hread q hqp]; exact hx, hxid⟩
    · exact ⟨by simp, _, hreadp, rfl⟩
  · intro ht
    have ht' : w.EE_DEVELOPMENT_TOOLS = true := ht
    obtain ⟨hnlen, hnent⟩ := hnm ht'
    have hnf := AddEntity.validate_fresh ht' hval
    simp only [ht', if_true, THashMap.insert_of_find_none _ hnf, List.length_append, hnlen,
      List.length_singleton, true_and]
    intro n q hq
    simp only [List.mem_append, List.mem_singleton, Prod.mk.injEq] at hq
    rcases hq with hq | ⟨rfl, rfl⟩
    · obtain ⟨hqe, x, hx, hxn⟩ := hnent _ _ hq
      have hqp : q ≠ p := fun hc => hpe (hc ▸ hqe)
      exact ⟨List.mem_append_left _ hqe, x, by rw [hread q hqp]; exact hx, hxn⟩
    · exact ⟨by simp, _, hreadp, rfl⟩
  · simp only [THashMap.insert_of_find_none _ hfresh, List.map_append, List.map_cons,
      List.map_nil]
    rw [List.nodup_append]
    refine ⟨hkeys, by simp, ?_⟩
    intro a ha hb
    simp only [List.mem_singleton] at hb
    subst hb
    exact (THashMap.find_eq_none_iff _ _).1 hfresh ha
  · simp only
    rw [List.nodup_append]
    exact ⟨hnde, by simp, by
      intro a ha hb
      simp only [List.mem_singleton] at hb
      exact hpe (hb ▸ ha)⟩
  · simp only
    rw [List.nodup_append]
    exact ⟨hndl, by simp, by
      intro a ha hb
      simp only [List.mem_singleton] at hb
      exact hnq (hb ▸ ha)⟩
  · intro q hq
    simp only [List.mem_append, List.mem_singleton] at hq ⊢
    rcases hq with hq | hq
    · exact Or.inl (hsub q hq)
    · exact Or.inr hq
  · dsimp only
    refine hdist.di_modify p _ ?_
    intro _; rfl
  · intro ht
    have ht' : w.EE_DEVELOPMENT_TOOLS = true := ht
    obtain ⟨hnk, hncomp⟩ := hnames ht'
    have hnf := AddEntity.validate_fresh ht' hval
    simp only [ht', if_true, THashMap.insert_of_find_none _ hnf]
    constructor
    · simp only [List.map_append, List.map_cons, List.map_nil]
      rw [List.nodup_append]
      refine ⟨hnk, by simp, ?_⟩
      intro a ha hb
      simp only [List.mem_singleton] at hb
      subst hb
      exact (THashMap.find_eq_none_iff _ _).1 hnf ha
    · intro q hq
      simp only [List.mem_append, List.mem_singleton] at hq
      rcases hq with hq | rfl
      · obtain ⟨x, hx, hfx⟩ := hncomp q hq
        have hqp : q ≠ p := fun hc => hpe (hc ▸ hq)
        refine ⟨x, by rw [hread q hqp]; exact hx, ?_⟩
        rw [THashMap.find_append, hfx]
        rfl
      · refine ⟨_, hreadp, ?_⟩
        rw [THashMap.find_append, hnf]
        simp [THashMap.find]

theorem Entity.core_ID {e e' : Entity} (h : e'.core = e.core) : e'.m_ID = e.m_ID :=
  congrArg Prod.fst h

theorem Entity.core_mapID {e e' : Entity} (h : e'.core = e.core) : e'.m_mapID = e.m_mapID :=
  congrArg (fun x => x.2.1) h

theorem Entity.core_name {e e' : Entity} (h : e'.core = e.core) : e'.m_name = e.m_name :=
  congrArg (fun x => x.2.2.1) h

theorem Entity.core_status {e e' : Entity} (h : e'.core = e.core) : e'.m_status = e.m_status :=
  congrArg (fun x => x.2.2.2.1) h

theorem Entity.core_spatial {e e' : Entity} (h : e'.core = e.core) :
    e'.m_isSpatialEntity = e.m_isSpatialEntity :=
  congrArg (fun x => x.2.2.2.2) h

theorem mem_erase_first_unsorted {α : Type} [DecidableEq α] {l : List α} {x a : α}
    (hnd : l.Nodup) : a ∈ erase_first_unsorted l x ↔ a ≠ x ∧ a ∈ l := by
  rw [(erase_first_unsorted_perm l x).mem_iff]
  exact hnd.mem_erase_iff

theorem mem_erase_unsorted {α : Type} [DecidableEq α] {l : List α} {i : Nat} {x a : α}
    (hnd : l.Nodup) (hx : l[i]? = some x) : a ∈ erase_unsorted l i ↔ a ≠ x ∧ a ∈ l := by
  obtain ⟨hi, hget⟩ := List.getElem?_eq_some.1 hx
  rw [(erase_unsorted_perm l i hi).mem_iff]
  have h2 : l.eraseIdx i = l.erase x := by
    rw [← hget]
    exact (List.Nodup.erase_getElem hnd i hi).symm
  rw [h2]
  exact hnd.mem_erase_iff

theorem nodup_erase_first_unsorted {α : Type} [DecidableEq α] {l : List α} (x : α)
    (hnd : l.Nodup) : (erase_first_unsorted l x).Nodup :=
  (erase_first_unsorted_perm l x).nodup_iff.2 (hnd.erase x)

theorem nodup_erase_unsorted {α : Type} {l : List α} (i : Nat)
    (hnd : l.Nodup) : (erase_unsorted l i).Nodup := by
  by_cases hi : i < l.length
  · exact (erase_unsorted_perm l i hi).nodup_iff.2 (hnd.sublist (List.eraseIdx_sublist l i))
  · rw [erase_unsorted_of_ge l i (Nat.le_of_not_lt hi)]
    exact hnd

theorem length_erase_first_unsorted {α : Type} [DecidableEq α] {l : List α} {x : α}
    (hx : x ∈ l) : (erase_first_unsorted l x).length + 1 = l.length := by
  rw [(erase_first_unsorted_perm l x).length_eq, List.length_erase_of_mem hx]
  have : 0 < l.length := List.length_pos_of_mem hx
  omega

theorem THashMap.nodup_erase {κ ν : Type} [DecidableEq κ] {m : List (κ × ν)} (k : κ)
    (hnd : (m.map Prod.fst).Nodup) : ((THashMap.erase m k).map Prod.fst).Nodup :=
  hnd.sublist ((THashMap.erase_sublist m k).map Prod.fst)

theorem THashMap.mem_erase {κ ν : Type} [DecidableEq κ] {m : List (κ × ν)} {k : κ}
    (hnd : (m.map Prod.fst).Nodup) {x : κ × ν} (hx : x ∈ THashMap.erase m k) :
    x ∈ m ∧ x.1 ≠ k := by
  refine ⟨(THashMap.erase_sublist m k).subset hx, ?_⟩
  intro hk
  have hmem := List.mem_map_of_mem Prod.fst hx
  rw [hk] at hmem
  exact THashMap.not_mem_erase m k hnd hmem

theorem RemoveEntityInternal_preserves {w w' : World} {id : EntityID} {d : Bool}
    {r : Option EntityPtr} (hinv : AddRemoveInv w)
    (h : RemoveEntityInternal w id d = some (w', r)) : AddRemoveInv w' := by
  obtain ⟨⟨hlen, hid, hnm⟩, hkeys, hnde, hndl, hsub, hdist, hnames⟩ := hinv
  obtain ⟨p, e, w1, e1, nl, hfind, he, hw1, he1, _, hnl, hsched⟩ := RemoveEntityInternal_spec h
  obtain ⟨hsc, hmap, htools⟩ := reparent_frame hw1
  have hmem : (id, p) ∈ w.map.m_entityIDLookupMap := THashMap.mem_of_find hfind
  obtain ⟨hpe, e0, he0, heid⟩ := hid _ _ hmem
  rw [he] at he0
  cases he0
  obtain ⟨e1', he1', hcore⟩ := hsc.read he
  rw [he1] at he1'
  cases he1'
  have hid1 : e1.m_ID = id := (Entity.core_ID hcore).trans heid
  have hname1 : e1.m_name = e.m_name := Entity.core_name hcore
  have hdist1 : Heap.DistinctIDs w1.heap := hdist.of_sameCore hsc
  have hpl : p ∈ w.map.m_entitiesToLoad := hsub p hpe
  have hpred : queuedWithID w1.heap id p = true := by simp [queuedWithID, he1, hid1]
  obtain ⟨ht', hE, hI, hN, _, _, _, _, _, _, hcase⟩ := scheduleUnload_spec hsched
  simp only at ht' hE hI hN hcase
  rw [hmap] at hcase
  rcases hcase with ⟨idx, q, hidx, hq, hL, _, hheap⟩ | ⟨hnone, _⟩
  swap
  · have := VectorFindIndex_none hnone p hpl
    rw [hpred] at this
    cases this
  -- the queued entity found under the id is p
  have hqp : q = p := by
    obtain ⟨x, hx, hpx, _⟩ := VectorFindIndex_some hidx
    rw [hq] at hx
    cases hx
    unfold queuedWithID at hpx
    cases hrq : Heap.read w1.heap q with
    | none => rw [hrq] at hpx; simp at hpx
    | some x =>
      rw [hrq] at hpx
      simp only [decide_eq_true_eq] at hpx
      exact hdist1 q p x e1 hrq he1 (hpx.trans hid1.symm)
  subst hqp
  -- reads of the other entities
  have hread : ∀ a, a ≠ q → ∀ x, Heap.read w.heap a = some x →
      ∃ x', Heap.read w'.heap a = some x' ∧ x'.core = x.core := by
    intro a ha x hx
    obtain ⟨x', hx', hc⟩ := hsc.read hx
    rcases hheap with ⟨_, _, hh, _⟩ | ⟨_, hh, _⟩
    · exact ⟨x', by rw [hh, Heap.read_free, if_neg ha]; exact hx', hc⟩
    · exact ⟨x', by rw [hh]; exact hx', hc⟩
  have hdist' : Heap.DistinctIDs w'.heap := by
    rcases hheap with ⟨_, _, hh, _⟩ | ⟨_, hh, _⟩
    · rw [hh]; exact hdist1.di_free q
    · rw [hh]; exact hdist1
  have hidkey : id ∈ w.map.m_entityIDLookupMap.map Prod.fst :=
    List.mem_map_of_mem Prod.fst hmem
  refine ⟨⟨?_, ?_, ?_⟩, ?_, ?_, ?_, ?_, hdist', ?_⟩
  · rw [hI, hE, hid1]
    have h1 := THashMap.length_erase _ _ hidkey
    have h2 := length_erase_first_unsorted hpe
    omega
  · intro id' a ha
    rw [hI, hid1] at ha
    obtain ⟨ha1, ha2⟩ := THashMap.mem_erase hkeys ha
    obtain ⟨hae, x, hx, hxid⟩ := hid _ _ ha1
    have haq : a ≠ q := by
      intro hc
      subst hc
      rw [he] at hx
      cases hx
      exact ha2 (hxid.symm.trans heid)
    obtain ⟨x', hx', hc⟩ := hread a haq x hx
    exact ⟨by rw [hE]; exact (mem_erase_first_unsorted hnde).2 ⟨haq, hae⟩, x', hx',
      (Entity.core_ID hc).trans hxid⟩
  · intro ht
    have htw : w.EE_DEVELOPMENT_TOOLS = true := by rw [← htools, ← ht']; exact ht
    have htw1 : w1.EE_DEVELOPMENT_TOOLS = true := by rw [htools]; exact htw
    obtain ⟨hnlen, hnent⟩ := hnm htw
    obtain ⟨hnk, hncomp⟩ := hnames htw
    obtain ⟨_, hnleq⟩ := (eraseName_spec hnl).1 htw1
    rw [hmap, hname1] at hnleq
    obtain ⟨ep, hep, hfp⟩ := hncomp q hpe
    rw [he] at hep
    cases hep
    have hnkey : e.m_name ∈ w.map.m_entityNameLookupMap.map Prod.fst :=
      List.mem_map_of_mem Prod.fst (THashMap.mem_of_find hfp)
    constructor
    · rw [hN, hE, hnleq]
      have h1 := THashMap.length_erase _ _ hnkey
      have h2 := length_erase_first_unsorted hpe
      omega
    · intro n a ha
      rw [hN, hnleq] at ha
      obtain ⟨ha1, ha2⟩ := THashMap.mem_erase hnk ha
      obtain ⟨hae, x, hx, hxn⟩ := hnent _ _ ha1
      have haq : a ≠ q := by
        intro hc
        subst hc
        rw [he] at hx
        cases hx
        exact ha2 hxn.symm
      obtain ⟨x', hx', hc⟩ := hread a haq x hx
      exact ⟨by rw [hE]; exact (mem_erase_first_unsorted hnde).2 ⟨haq, hae⟩, x', hx',
        (Entity.core_name hc).trans hxn⟩
  · rw [hI]; exact THashMap.nodup_erase _ hkeys
  · rw [hE]; exact nodup_erase_first_unsorted _ hnde
  · rw [hL]; exact nodup_erase_unsorted _ hndl
  · intro a ha
    rw [hE] at ha
    obtain ⟨haq, hae⟩ := (mem_erase_first_unsorted hnde).1 ha
    rw [hL]
    exact (mem_erase_unsorted hndl hq).2 ⟨haq, hsub a hae⟩
  · intro ht
    have htw : w.EE_DEVELOPMENT_TOOLS = true := by rw [← htools, ← ht']; exact ht
    have htw1 : w1.EE_DEVELOPMENT_TOOLS = true := by rw [htools]; exact htw
    obtain ⟨hnk, hncomp⟩ := hnames htw
    obtain ⟨_, hnleq⟩ := (eraseName_spec hnl).1 htw1
    rw [hmap, hname1] at hnleq
    obtain ⟨ep, hep, hfp⟩ := hncomp q hpe
    rw [he] at hep
    cases hep
    constructor
    · rw [hN, hnleq]; exact THashMap.nodup_erase _ hnk
    · intro a ha
      rw [hE] at ha
      obtain ⟨haq, hae⟩ := (mem_erase_first_unsorted hnde).1 ha
      obtain ⟨x, hx, hfx⟩ := hncomp a hae
      obtain ⟨x', hx', hc⟩ := hread a haq x hx
      refine ⟨x', hx', ?_⟩
      rw [hN, hnleq, Entity.core_name hc]
      have hne : x.m_name ≠ e.m_name := by
        intro hc2
        rw [hc2, hfp] at hfx
        exact haq (Option.some.inj hfx).symm
      rw [THashMap.find_erase_ne _ hne]
      exact hfx

theorem Heap.mem_of_read {h : Heap} {p : EntityPtr} {e : Entity}
    (hr : Heap.read h p = some e) : (p, e) ∈ h := by
  induction h with
  | nil => simp [Heap.read] at hr
  | cons x h ih =>
    obtain ⟨q, x⟩ := x
    simp only [Heap.read] at hr
    by_cases hq : q = p
    · simp only [hq, if_true, Option.some.injEq] at hr
      simp [hq, hr]
    · simp only [hq, if_false] at hr
      exact List.mem_cons_of_mem _ (ih hr)

/-- A heap whose entities carry pairwise distinct ids. -/
theorem Heap.distinctIDs_of_nodup (h : Heap) (hi : (h.map fun x => x.2.m_ID).Nodup) :
    Heap.DistinctIDs h := by
  intro p q e1 e2 h1 h2 hid
  have := List.inj_on_of_nodup_map hi (Heap.mem_of_read h1) (Heap.mem_of_read h2) hid
  exact congrArg Prod.fst this

theorem runCalls_preserves {w0 w : World} {calls : List MapCall} (hinv : AddRemoveInv w0)
    (hrun : runCalls w0 calls = some w) : AddRemoveInv w := by
  unfold runCalls at hrun
  refine foldlM_inv MapCall.run AddRemoveInv ?_ calls w0 w hinv hrun
  intro b c b' hb hs
  cases c with
  | AddEntity p => exact AddEntity_preserves hb hs
  | RemoveEntity id =>
    simp only [MapCall.run, RemoveEntity, Option.bind_eq_bind, Option.map_eq_some',
      Option.bind_eq_some, Option.some.injEq] at hs
    obtain ⟨⟨w1, p1⟩, ⟨⟨w2, r⟩, hr, _, _, h3⟩, rfl⟩ := hs
    simp only [Prod.mk.injEq] at h3
    obtain ⟨rfl, _⟩ := h3
    exact RemoveEntityInternal_preserves hb hr
  | DestroyEntity id =>
    simp only [MapCall.run, DestroyEntity, Option.bind_eq_bind, Option.bind_eq_some,
      Option.some.injEq] at hs
    obtain ⟨⟨w2, r⟩, hr, rfl⟩ := hs
    exact RemoveEntityInternal_preserves hb hr

theorem AddRemoveInv_of_empty {w0 : World} (he : w0.map.m_entities = [])
    (hi : w0.map.m_entityIDLookupMap = []) (hn : w0.map.m_entityNameLookupMap = [])
    (hl : w0.map.m_entitiesToLoad = []) (hids : Heap.DistinctIDs w0.heap) :
    AddRemoveInv w0 := by
  simp [AddRemoveInv, IndexMirrors, he, hi, hn, hl, hids]

/-- C1: start from an empty map (either constructor) next to entities with
pairwise distinct ids, and run any sequence of `AddEntity` / `RemoveEntity` /
`DestroyEntity` calls that each satisfy their precondition.  In the state after
the sequence (hence after each call, every prefix being such a sequence) the id
lookup map has exactly as many entries as the entity list has members, and every
entry of the id lookup map leads to a member of the entity list that is live and
carries that id; with development tools the same holds for the name lookup map
and the names of the entities. -/
theorem C1_lookup_maps_mirror_entities (w0 w : World) (mapID : EntityMapID)
    (calls : List MapCall)
    (hempty : w0.map = EntityMap.mkTransient mapID ∨ w0.map = EntityMap.mkFromResource mapID)
    (hids : Heap.DistinctIDs w0.heap)
    (hrun : runCalls w0 calls = some w) :
    w.map.m_entityIDLookupMap.length = w.map.m_entities.length
    ∧ (∀ id p, (id, p) ∈ w.map.m_entityIDLookupMap →
        p ∈ w.map.m_entities ∧ ∃ e, Heap.read w.heap p = some e ∧ e.m_ID = id)
    ∧ (w.EE_DEVELOPMENT_TOOLS = true →
        w.map.m_entityNameLookupMap.length = w.map.m_entities.length
        ∧ ∀ name p, (name, p) ∈ w.map.m_entityNameLookupMap →
            p ∈ w.map.m_entities ∧ ∃ e, Heap.read w.heap p = some e ∧ e.m_name = name) := by
  have h0 : AddRemoveInv w0 := by
    rcases hempty with h | h <;>
      exact AddRemoveInv_of_empty (by rw [h]; rfl) (by rw [h]; rfl) (by rw [h]; rfl)
        (by rw [h]; rfl) hids
  exact (runCalls_preserves h0 hrun).1

theorem C1_lookup_maps_mirror_entities_witness :
    (World.after (runCalls exampleWorldFresh
        [MapCall.AddEntity 1, MapCall.AddEntity 2, MapCall.DestroyEntity 11,
         MapCall.AddEntity 3, MapCall.RemoveEntity 12])).map.m_entityIDLookupMap.length
      = (World.after (runCalls exampleWorldFresh
        [MapCall.AddEntity 1, MapCall.AddEntity 2, MapCall.DestroyEntity 11,
         MapCall.AddEntity 3, MapCall.RemoveEntity 12])).map.m_entities.length
    ∧ (∀ id p, (id, p) ∈ (World.after (runCalls exampleWorldFresh
        [MapCall.AddEntity 1, MapCall.AddEntity 2, MapCall.DestroyEntity 11,
         MapCall.AddEntity 3, MapCall.RemoveEntity 12])).map.m_entityIDLookupMap →
        p ∈ (World.after (runCalls exampleWorldFresh
          [MapCall.AddEntity 1, MapCall.AddEntity 2, MapCall.DestroyEntity 11,
           MapCall.AddEntity 3, MapCall.RemoveEntity 12])).map.m_entities
        ∧ ∃ e, Heap.read (World.after (runCalls exampleWorldFresh
          [MapCall.AddEntity 1, MapCall.AddEntity 2, MapCall.DestroyEntity 11,
           MapCall.AddEntity 3, MapCall.RemoveEntity 12])).heap p = some e ∧ e.m_ID = id)
    ∧ ((World.after (runCalls exampleWorldFresh
        [MapCall.AddEntity 1, MapCall.AddEntity 2, MapCall.DestroyEntity 11,
         MapCall.AddEntity 3, MapCall.RemoveEntity 12])).EE_DEVELOPMENT_TOOLS = true →
        (World.after (runCalls exampleWorldFresh
          [MapCall.AddEntity 1, MapCall.AddEntity 2, MapCall.DestroyEntity 11,
           MapCall.AddEntity 3, MapCall.RemoveEntity 12])).map.m_entityNameLookupMap.length
          = (World.after (runCalls exampleWorldFresh
            [MapCall.AddEntity 1, MapCall.AddEntity 2, MapCall.DestroyEntity 11,
             MapCall.AddEntity 3, MapCall.RemoveEntity 12])).map.m_entities.length
        ∧ ∀ name p, (name, p) ∈ (World.after (runCalls exampleWorldFresh
            [MapCall.AddEntity 1, MapCall.AddEntity 2, MapCall.DestroyEntity 11,
             MapCall.AddEntity 3, MapCall.RemoveEntity 12])).map.m_entityNameLookupMap →
            p ∈ (World.after (runCalls exampleWorldFresh
              [MapCall.AddEntity 1, MapCall.AddEntity 2, MapCall.DestroyEntity 11,
               MapCall.AddEntity 3, MapCall.RemoveEntity 12])).map.m_entities
            ∧ ∃ e, Heap.read (World.after (runCalls exampleWorldFresh
              [MapCall.AddEntity 1, MapCall.AddEntity 2, MapCall.DestroyEntity 11,
               MapCall.AddEntity 3, MapCall.RemoveEntity 12])).heap p = some e
              ∧ e.m_name = name) :=
  C1_lookup_maps_mirror_entities exampleWorldFresh _ 7
    [MapCall.AddEntity 1, MapCall.AddEntity 2, MapCall.DestroyEntity 11,
     MapCall.AddEntity 3, MapCall.RemoveEntity 12]
    (Or.inl rfl) (Heap.distinctIDs_of_nodup _ (by decide)) (by decide)

/-! ## No entity is created by the per-pass processing -/

theorem Heap.isSome_read_modify (h : Heap) (p q : EntityPtr) (f : Entity → Entity) :
    (Heap.read (Heap.modify h p f) q).isSome = (Heap.read h q).isSome := by
  rw [Heap.read_modify]
  split
  · rename_i hq
    subst hq
    cases Heap.read h q <;> rfl
  · rfl

theorem Entity.Deactivate_eq_map (h : Heap) (p : EntityPtr) :
    Entity.Deactivate h p = h.map fun x =>
      (x.1, if (decide (x.1 = p) || Heap.isAttachedTo h h.length p x.1) && x.2.IsActivated
            then { x.2 with m_status := Entity.Status.Loaded } else x.2) := by
  unfold Entity.Deactivate
  apply List.map_congr_left
  intro x _
  split <;> rfl

theorem Entity.read_Deactivate (h : Heap) (p q : EntityPtr) :
    Heap.read (Entity.Deactivate h p) q = (Heap.read h q).map fun e =>
      if (decide (q = p) || Heap.isAttachedTo h h.length p q) && e.IsActivated
      then { e with m_status := Entity.Status.Loaded } else e := by
  rw [Entity.Deactivate_eq_map,
    Heap.read_map h (fun a e =>
      if (decide (a = p) || Heap.isAttachedTo h h.length p a) && e.IsActivated
      then { e with m_status := Entity.Status.Loaded } else e)]

theorem Entity.isSome_read_Deactivate (h : Heap) (p q : EntityPtr) :
    (Heap.read (Entity.Deactivate h p) q).isSome = (Heap.read h q).isSome := by
  rw [Entity.read_Deactivate]
  cases Heap.read h q <;> rfl

theorem NoEntityCreated.nc_refl (w : World) : NoEntityCreated w w :=
  ⟨List.Sublist.refl _, fun _ h => h⟩

theorem NoEntityCreated.nc_trans {a b c : World} (h1 : NoEntityCreated a b)
    (h2 : NoEntityCreated b c) : NoEntityCreated a c :=
  ⟨h2.1.trans h1.1, fun p hp => h1.2 p (h2.2 p hp)⟩

theorem NoEntityCreated.of_heap {w w' : World} (hm : w'.map.m_entities = w.map.m_entities)
    (hh : ∀ p, (Heap.read w'.heap p).isSome = true → (Heap.read w.heap p).isSome = true) :
    NoEntityCreated w w' :=
  ⟨hm ▸ List.Sublist.refl _, hh⟩

theorem endEditing_noCreate {w w' : World} {p : EntityPtr}
    (h : ProcessEntityAdditionAndRemoval.endEditing w p = some w') : NoEntityCreated w w' := by
  unfold ProcessEntityAdditionAndRemoval.endEditing at h
  simp only [Option.bind_eq_bind, Option.bind_eq_some, Option.some.injEq] at h
  obtain ⟨_, _, _, _, rfl⟩ := h
  exact NoEntityCreated.nc_refl w

theorem editedEntities_noCreate {w w' : World}
    (h : ProcessEntityAdditionAndRemoval.editedEntities w = some w') : NoEntityCreated w w' := by
  unfold ProcessEntityAdditionAndRemoval.editedEntities at h
  split at h
  · obtain ⟨w1, h1, rfl⟩ := Option.map_eq_some'.1 h
    have := foldlM_inv ProcessEntityAdditionAndRemoval.endEditing (NoEntityCreated w)
      (fun b a b' hb hs => hb.nc_trans (endEditing_noCreate hs)) _ _ _
      (NoEntityCreated.nc_refl w) h1
    exact this.nc_trans ⟨List.Sublist.refl _, fun _ h => h⟩
  · cases h
    exact NoEntityCreated.nc_refl w

theorem removeEntity_noCreate {w w' : World} {i : Nat} {r : RemovalRequest}
    (h : ProcessEntityAdditionAndRemoval.removeEntity w i r = some w') :
    NoEntityCreated w w' := by
  unfold ProcessEntityAdditionAndRemoval.removeEntity at h
  simp only [Option.bind_eq_bind, Option.bind_eq_some, Option.some.injEq] at h
  obtain ⟨w1, h1, w2, h2, rfl⟩ := h
  obtain ⟨_, rfl⟩ := call_UnloadComponents_eq h1
  unfold ProcessEntityAdditionAndRemoval.destroyIfRequested at h2
  split at h2
  · obtain ⟨_, rfl⟩ := call_Delete_eq h2
    refine ⟨List.erase_sublist _ _, ?_⟩
    intro p hp
    simp only [Heap.read_free] at hp
    split at hp
    · cases hp
    · simpa [Heap.isSome_read_modify, Entity.UnloadComponents] using hp
  · cases h2
    refine ⟨List.erase_sublist _ _, ?_⟩
    intro p hp
    simpa [Heap.isSome_read_modify, Entity.UnloadComponents] using hp

theorem removalStep_noCreate {w w' : World} {i : Nat}
    (h : ProcessEntityAdditionAndRemoval.removalStep w i = some w') : NoEntityCreated w w' := by
  unfold ProcessEntityAdditionAndRemoval.removalStep at h
  simp only [Option.bind_eq_bind, Option.bind_eq_some] at h
  obtain ⟨req, _, e, _, h⟩ := h
  split at h
  · obtain ⟨_, rfl⟩ := call_Deactivate_eq h
    exact NoEntityCreated.of_heap rfl (fun p hp => by
      simpa [Entity.isSome_read_Deactivate] using hp)
  · exact removeEntity_noCreate h

theorem removalLoop_noCreate {n : Nat} {w w' : World}
    (h : ProcessEntityAdditionAndRemoval.removalLoop n w = some w') : NoEntityCreated w w' := by
  induction n generalizing w with
  | zero =>
    simp only [ProcessEntityAdditionAndRemoval.removalLoop, Option.some.injEq] at h
    subst h
    exact NoEntityCreated.nc_refl w
  | succ n ih =>
    simp only [ProcessEntityAdditionAndRemoval.removalLoop, Option.bind_eq_bind,
      Option.bind_eq_some] at h
    obtain ⟨w1, h1, h2⟩ := h
    exact (removalStep_noCreate h1).nc_trans (ih h2)

theorem requestLoad_noCreate {w w' : World} {p : EntityPtr}
    (h : ProcessEntityAdditionAndRemoval.requestLoad w p = some w') : NoEntityCreated w w' := by
  unfold ProcessEntityAdditionAndRemoval.requestLoad at h
  simp only [Option.bind_eq_bind, Option.bind_eq_some, Option.some.injEq] at h
  obtain ⟨_, _, _, _, w1, h1, _, _, rfl⟩ := h
  obtain ⟨_, rfl⟩ := call_LoadComponents_eq h1
  exact NoEntityCreated.of_heap rfl (fun p hp => by
    simpa [Heap.isSome_read_modify, Entity.LoadComponents] using hp)

theorem loading_noCreate {w w' : World}
    (h : ProcessEntityAdditionAndRemoval.loading w = some w') : NoEntityCreated w w' := by
  unfold ProcessEntityAdditionAndRemoval.loading at h
  split at h
  · obtain ⟨w1, h1, rfl⟩ := Option.map_eq_some'.1 h
    have := foldlM_inv ProcessEntityAdditionAndRemoval.requestLoad (NoEntityCreated w)
      (fun b a b' hb hs => hb.nc_trans (requestLoad_noCreate hs)) _ _ _
      (NoEntityCreated.nc_refl w) h1
    exact this.nc_trans ⟨List.Sublist.refl _, fun _ h => h⟩
  · cases h
    exact NoEntityCreated.nc_refl w

theorem ProcessEntityAdditionAndRemoval_noCreate {w w' : World}
    (h : ProcessEntityAdditionAndRemoval w = some w') : NoEntityCreated w w' := by
  unfold ProcessEntityAdditionAndRemoval at h
  simp only [Option.bind_eq_bind, Option.bind_eq_some] at h
  obtain ⟨w1, h1, w2, h2, h3⟩ := h
  exact (editedEntities_noCreate h1).nc_trans
    ((removalLoop_noCreate h2).nc_trans (loading_noCreate h3))

theorem EntityLoadingTask.item_noCreate {ctx : EntityLoadingContext} {act : Bool}
    {acc acc' : World × List EntityPtr} {p : EntityPtr}
    (h : EntityLoadingTask.item ctx act acc p = some acc') : NoEntityCreated acc.1 acc'.1 := by
  unfold EntityLoadingTask.item at h
  simp only [Option.bind_eq_bind, Option.bind_eq_some] at h
  obtain ⟨e, _, h⟩ := h
  split at h
  · split at h
    · obtain ⟨w2, h2, rfl⟩ := Option.map_eq_some'.1 h
      obtain ⟨_, rfl⟩ := call_Activate_eq h2
      exact NoEntityCreated.of_heap rfl (fun p hp => by
        simpa [Heap.isSome_read_modify, Entity.Activate] using hp)
    · cases h
      exact NoEntityCreated.nc_refl _
  · cases h
    exact NoEntityCreated.nc_refl _

theorem ProcessEntityLoadingAndActivation_noCreate {w w' : World} {ctx : EntityLoadingContext}
    {r : Bool} (h : ProcessEntityLoadingAndActivation w ctx = some (w', r)) :
    NoEntityCreated w w' := by
  unfold ProcessEntityLoadingAndActivation at h
  simp only [Option.bind_eq_bind, Option.bind_eq_some, Option.some.injEq, Prod.mk.injEq] at h
  obtain ⟨w1, h1, w2, h2, rfl, _⟩ := h
  have hb : NoEntityCreated w w1 := by
    unfold ProcessEntityLoadingAndActivation.batch at h1
    split at h1
    · cases h1
      exact NoEntityCreated.nc_refl w
    · obtain ⟨r, hr, rfl⟩ := Option.map_eq_some'.1 h1
      have := foldlM_inv (EntityLoadingTask.item ctx w.map.IsActivated)
        (fun acc => NoEntityCreated w acc.1)
        (fun b a b' hb hs => hb.nc_trans (EntityLoadingTask.item_noCreate hs)) _ _ _
        (NoEntityCreated.nc_refl w) hr
      exact this.nc_trans ⟨List.Sublist.refl _, fun _ h => h⟩
  refine hb.nc_trans ?_
  unfold ProcessEntityLoadingAndActivation.finish at h2
  split at h2
  · simp only [Option.bind_eq_bind, Option.bind_eq_some, Option.some.injEq] at h2
    obtain ⟨_, _, rfl⟩ := h2
    exact NoEntityCreated.nc_refl _
  · cases h2
    exact NoEntityCreated.nc_refl _

theorem processEntities_noCreate {w w' : World} {ctx : EntityLoadingContext} {r : Bool}
    (h : UpdateState.processEntities w ctx = some (w', r)) : NoEntityCreated w w' := by
  unfold UpdateState.processEntities at h
  simp only [Option.bind_eq_bind, Option.bind_eq_some] at h
  obtain ⟨w1, h1, h2⟩ := h
  exact (ProcessEntityAdditionAndRemoval_noCreate h1).nc_trans
    (ProcessEntityLoadingAndActivation_noCreate h2)

theorem processEntities_fixed {w w' : World} {ctx : EntityLoadingContext} {r : Bool}
    (h : UpdateState.processEntities w ctx = some (w', r)) :
    w'.map.m_isMapInstantiated = w.map.m_isMapInstantiated
    ∧ w'.map.m_isUnloadRequested = w.map.m_isUnloadRequested
    ∧ w'.map.m_entityIDLookupMap = w.map.m_entityIDLookupMap
    ∧ w'.map.m_pMapDesc = w.map.m_pMapDesc := by
  unfold UpdateState.processEntities at h
  simp only [Option.bind_eq_bind, Option.bind_eq_some] at h
  obtain ⟨w1, h1, h2⟩ := h
  have f1 := ProcessEntityAdditionAndRemoval_fixed h1
  unfold ProcessEntityLoadingAndActivation at h2
  simp only [Option.bind_eq_bind, Option.bind_eq_some, Option.some.injEq, Prod.mk.injEq] at h2
  obtain ⟨w2, hb, w3, hf, rfl, _⟩ := h2
  have f2 := batch_fixed hb
  have f3 : w3.map.m_isMapInstantiated = w2.map.m_isMapInstantiated
      ∧ w3.map.m_isUnloadRequested = w2.map.m_isUnloadRequested
      ∧ w3.map.m_entityIDLookupMap = w2.map.m_entityIDLookupMap
      ∧ w3.map.m_pMapDesc = w2.map.m_pMapDesc := by
    unfold ProcessEntityLoadingAndActivation.finish at hf
    split at hf
    · simp only [Option.bind_eq_bind, Option.bind_eq_some, Option.some.injEq] at hf
      obtain ⟨_, _, rfl⟩ := hf
      exact ⟨rfl, rfl, rfl, rfl⟩
    · cases hf
      exact ⟨rfl, rfl, rfl, rfl⟩
  simp only [MapFixed] at f1 f2
  refine ⟨?_, ?_, ?_, ?_⟩
  · rw [f3.1, f2.2.2.2.2.1, f1.2.2.2.2.1]
  · rw [f3.2.1, f2.2.2.2.1, f1.2.2.2.1]
  · rw [f3.2.2.1, f2.2.2.2.2.2.2.2.1, f1.2.2.2.2.2.2.2.1]
  · rw [f3.2.2.2, f2.2.2.2.2.2.2.1, f1.2.2.2.2.2.2.1]

/-! ## C5: a descriptor that failed to load, or is invalid -/

theorem ProcessMapLoading_failed {w w' : World} {ctx : EntityLoadingContext} {b : Bool}
    (hd : ctx.mapDesc = ResourceLoadState.Failed ∨ ctx.mapDesc = ResourceLoadState.Loaded false)
    (h : ProcessMapLoading w ctx = some (w', b)) :
    b = true ∧ w' = call_UnloadResource
      { w with map := { w.map with m_status := EntityMap.Status.LoadFailed } } := by
  unfold ProcessMapLoading at h
  simp only [Option.bind_eq_bind, Option.bind_eq_some] at h
  obtain ⟨_, _, _, _, h⟩ := h
  have hl : ctx.mapDesc.IsLoading = false := by
    rcases hd with hd | hd <;> rw [hd] <;> rfl
  have hf : ProcessMapLoading.finish w ctx
      = some { w with map := { w.map with m_status := EntityMap.Status.LoadFailed } } := by
    unfold ProcessMapLoading.finish
    rcases hd with hd | hd <;> rw [hd] <;> rfl
  rw [hl, hf] at h
  simp only [Bool.false_eq_true, if_false, Option.map_some', Option.some.injEq,
    Prod.mk.injEq] at h
  exact ⟨h.2.symm, h.1.symm⟩

theorem World.editedEntities_nil_eq (w : World) (h : w.map.m_editedEntities = []) :
    { w with map := { w.map with m_editedEntities := [] } } = w := by
  obtain ⟨t, hp, m, tr⟩ := w
  obtain ⟨a1, a2, a3, a4, a5, a6, a7, a8, a9, a10, a11, a12, a13, a14⟩ := m
  simp only at h
  subst h
  rfl

theorem World.toLoad_nil_eq (w : World) (h : w.map.m_entitiesToLoad = []) :
    { w with map := { w.map with m_entitiesToLoad := [] } } = w := by
  obtain ⟨t, hp, m, tr⟩ := w
  obtain ⟨a1, a2, a3, a4, a5, a6, a7, a8, a9, a10, a11, a12, a13, a14⟩ := m
  simp only at h
  subst h
  rfl

/-- With no removal, edit or addition to process, the per-pass addition and
removal processing changes nothing. -/
theorem ProcessEntityAdditionAndRemoval_quiet (w : World)
    (hrem : w.map.m_entitiesToRemove = [])
    (hed : w.EE_DEVELOPMENT_TOOLS = true → w.map.m_editedEntities = [])
    (hadd : w.map.m_isMapInstantiated = false ∨ w.map.m_entitiesToLoad = []) :
    ProcessEntityAdditionAndRemoval w = some w := by
  have h1 : ProcessEntityAdditionAndRemoval.editedEntities w = some w := by
    unfold ProcessEntityAdditionAndRemoval.editedEntities
    split
    · rename_i ht
      rw [hed ht]
      simp only [List.foldlM_nil, Option.pure_def, Option.map_some', Option.some.injEq]
      exact World.editedEntities_nil_eq w (hed ht)
    · rfl
  have h3 : ProcessEntityAdditionAndRemoval.loading w = some w := by
    unfold ProcessEntityAdditionAndRemoval.loading
    split
    · rename_i hi
      rcases hadd with hadd | hadd
      · rw [hadd] at hi; cases hi
      · rw [hadd]
        simp only [List.foldlM_nil, Option.pure_def, Option.map_some', Option.some.injEq]
        exact World.toLoad_nil_eq w hadd
    · rfl
  unfold ProcessEntityAdditionAndRemoval
  simp only [h1, Option.bind_eq_bind, Option.some_bind, hrem, List.length_nil,
    ProcessEntityAdditionAndRemoval.removalLoop, h3]

/-- With nothing to process and nothing loading, the last two steps of a pass
change nothing and report that the map drained. -/
theorem processEntities_quiet (w : World) (ctx : EntityLoadingContext)
    (hrem : w.map.m_entitiesToRemove = [])
    (hload : w.map.m_entitiesCurrentlyLoading = [])
    (hed : w.EE_DEVELOPMENT_TOOLS = true → w.map.m_editedEntities = [])
    (hadd : w.map.m_isMapInstantiated = false ∨ w.map.m_entitiesToLoad = [])
    (hst : w.map.m_status ≠ EntityMap.Status.MapEntitiesLoading) :
    UpdateState.processEntities w ctx = some (w, true) := by
  unfold UpdateState.processEntities
  rw [ProcessEntityAdditionAndRemoval_quiet w hrem hed hadd]
  simp only [Option.bind_eq_bind, Option.some_bind]
  unfold ProcessEntityLoadingAndActivation ProcessEntityLoadingAndActivation.batch
    ProcessEntityLoadingAndActivation.finish
  simp [hload, hst]

/-- C5, as stated, fails: on a non-transient map in MapDescriptorLoading on
which an unload was requested, the pass in which the descriptor reports a failed
load ends in Unloaded, not in LoadFailed. -/
theorem C5_counterexample :
    (World.after (Unload exampleWorldDescriptor)).map.m_status
        = EntityMap.Status.MapDescriptorLoading
    ∧ (World.after (Unload exampleWorldDescriptor)).map.m_isTransientMap = false
    ∧ exampleContextFailed.mapDesc.IsLoading = false
    ∧ exampleContextFailed.mapDesc.HasLoadingFailed = true
    ∧ (UpdateState (World.after (Unload exampleWorldDescriptor)) exampleContextFailed).map
        (fun r => (r.1.map.m_status, r.2)) = some (EntityMap.Status.Unloaded, true) := by
  decide

/-- C5, amended: on a non-transient map in MapDescriptorLoading with no unload
requested, whose descriptor stopped loading and either reports a failed load or
is loaded but not valid, an `UpdateState` pass ends with status LoadFailed,
creates no entity (the entity list only loses members, so it stays empty if it
was empty, and no address becomes live) and leaves `m_isMapInstantiated` as it
was, hence false.  The pass runs to completion and returns true at least when
no removal, loading entity, edit or hot reload is pending on the map, which is
not instantiated; the entity list and the entities are then untouched. -/
theorem C5_descriptor_failure (w : World) (ctx : EntityLoadingContext)
    (hs : w.map.m_status = EntityMap.Status.MapDescriptorLoading)
    (ht : w.map.m_isTransientMap = false)
    (hu : w.map.m_isUnloadRequested = false)
    (hd : ctx.mapDesc = ResourceLoadState.Failed
      ∨ ctx.mapDesc = ResourceLoadState.Loaded false) :
    (∀ w' r, UpdateState w ctx = some (w', r) →
      w'.map.m_status = EntityMap.Status.LoadFailed
      ∧ w'.map.m_isMapInstantiated = w.map.m_isMapInstantiated
      ∧ NoEntityCreated w w'
      ∧ (w.map.m_entities = [] → w'.map.m_entities = []))
    ∧ (w.map.m_isMapInstantiated = false → w.map.m_entitiesToRemove = [] →
        w.map.m_entitiesCurrentlyLoading = [] →
        (w.EE_DEVELOPMENT_TOOLS = true →
          w.map.m_editedEntities = [] ∧ w.map.m_entitiesToHotReload = []) →
        ∃ w', UpdateState w ctx = some (w', true)
          ∧ w'.map.m_status = EntityMap.Status.LoadFailed
          ∧ w'.map.m_isMapInstantiated = false
          ∧ w'.map.m_entities = w.map.m_entities
          ∧ w'.heap = w.heap) := by
  constructor
  · intro w' r h
    unfold UpdateState at h
    simp only [Option.bind_eq_bind, Option.bind_eq_some] at h
    obtain ⟨_, _, h⟩ := h
    unfold UpdateState.processUnload at h
    rw [hu] at h
    simp only [Bool.false_eq_true, if_false] at h
    unfold UpdateState.processLoading at h
    rw [if_pos hs] at h
    simp only [Option.bind_eq_bind, Option.bind_eq_some] at h
    obtain ⟨⟨w1, b⟩, h1, h2⟩ := h
    obtain ⟨rfl, rfl⟩ := ProcessMapLoading_failed hd h1
    simp only [if_true] at h2
    obtain ⟨_, hst, _⟩ := processEntities_result h2
    obtain ⟨hinst, _, _, _⟩ := processEntities_fixed h2
    have hnc := processEntities_noCreate h2
    refine ⟨?_, hinst, hnc, ?_⟩
    · rcases hst with hst | ⟨hst, _⟩
      · exact hst
      · cases hst
    · intro he
      have := hnc.1
      simp only [call_UnloadResource, he] at this
      exact List.sublist_nil.1 this
  · intro hinst hrem hload htools
    have hasrt : EE_ASSERT (!w.EE_DEVELOPMENT_TOOLS || w.map.m_entitiesToHotReload.isEmpty)
        = some () := by
      rw [EE_ASSERT_eq_some]
      cases hdev : w.EE_DEVELOPMENT_TOOLS
      · rfl
      · rw [(htools hdev).2]; rfl
    have hl : ctx.mapDesc.IsLoading = false := by
      rcases hd with hd | hd <;> rw [hd] <;> rfl
    have hf : ProcessMapLoading.finish w ctx
        = some { w with map := { w.map with m_status := EntityMap.Status.LoadFailed } } := by
      unfold ProcessMapLoading.finish
      rcases hd with hd | hd <;> rw [hd] <;> rfl
    have hpl : ProcessMapLoading w ctx = some (call_UnloadResource
        { w with map := { w.map with m_status := EntityMap.Status.LoadFailed } }, true) := by
      unfold ProcessMapLoading
      simp [EE_ASSERT, hs, ht, hl, hf]
    have hpe := processEntities_quiet (call_UnloadResource
        { w with map := { w.map with m_status := EntityMap.Status.LoadFailed } }) ctx
      hrem hload (fun h => (htools h).1) (Or.inl hinst) (by simp [call_UnloadResource])
    refine ⟨call_UnloadResource
        { w with map := { w.map with m_status := EntityMap.Status.LoadFailed } },
      ?_, rfl, hinst, rfl, rfl⟩
    unfold UpdateState
    rw [hasrt]
    simp only [Option.bind_eq_bind, Option.some_bind]
    unfold UpdateState.processUnload
    rw [if_neg (by rw [hu]; simp)]
    unfold UpdateState.processLoading
    rw [if_pos hs, hpl]
    simp only [Option.bind_eq_bind, Option.some_bind, if_true]
    exact hpe

theorem C5_descriptor_failure_witness :
    (∀ w' r, UpdateState exampleWorldDescriptor exampleContextFailed = some (w', r) →
      w'.map.m_status = EntityMap.Status.LoadFailed
      ∧ w'.map.m_isMapInstantiated = exampleWorldDescriptor.map.m_isMapInstantiated
      ∧ NoEntityCreated exampleWorldDescriptor w'
      ∧ (exampleWorldDescriptor.map.m_entities = [] → w'.map.m_entities = []))
    ∧ (exampleWorldDescriptor.map.m_isMapInstantiated = false →
        exampleWorldDescriptor.map.m_entitiesToRemove = [] →
        exampleWorldDescriptor.map.m_entitiesCurrentlyLoading = [] →
        (exampleWorldDescriptor.EE_DEVELOPMENT_TOOLS = true →
          exampleWorldDescriptor.map.m_editedEntities = []
          ∧ exampleWorldDescriptor.map.m_entitiesToHotReload = []) →
        ∃ w', UpdateState exampleWorldDescriptor exampleContextFailed = some (w', true)
          ∧ w'.map.m_status = EntityMap.Status.LoadFailed
          ∧ w'.map.m_isMapInstantiated = false
          ∧ w'.map.m_entities = exampleWorldDescriptor.map.m_entities
          ∧ w'.heap = exampleWorldDescriptor.heap) :=
  C5_descriptor_failure exampleWorldDescriptor exampleContextFailed (by decide) (by decide)
    (by decide) (Or.inl rfl)

/-! ## The unload path -/

/-- Unloading the components of every entity of a list: it succeeds when the
entities are live and none is activated, and leaves them unloaded. -/
theorem unloadEntities_fold (l : List EntityPtr) :
    ∀ w : World, (∀ p ∈ l, ∃ e, Heap.read w.heap p = some e ∧ e.IsActivated = false) →
    ∃ w', l.foldlM ProcessMapUnloadRequest.unloadEntity w = some w'
      ∧ w'.map = w.map ∧ w'.EE_DEVELOPMENT_TOOLS = w.EE_DEVELOPMENT_TOOLS
      ∧ (∀ q, q ∉ l → Heap.read w'.heap q = Heap.read w.heap q)
      ∧ (∀ q e, Heap.read w.heap q = some e → e.IsUnloaded = true →
          ∃ e', Heap.read w'.heap q = some e' ∧ e'.IsUnloaded = true)
      ∧ (∀ p ∈ l, ∃ e, Heap.read w'.heap p = some e ∧ e.IsUnloaded = true) := by
  induction l with
  | nil =>
    intro w _
    exact ⟨w, rfl, rfl, rfl, fun _ _ => rfl, fun q e h hu => ⟨e, h, hu⟩,
      fun p hp => absurd hp (List.not_mem_nil p)⟩
  | cons a l ih =>
    intro w hl
    obtain ⟨ea, hea, hna⟩ := hl a (List.mem_cons_self _ _)
    have hstep : ProcessMapUnloadRequest.unloadEntity w a
        = some { w with heap := Entity.UnloadComponents w.heap a,
                        trace := w.trace ++ [Event.UnloadComponents a] } := by
      unfold ProcessMapUnloadRequest.unloadEntity
      simp [hea, hna, EE_ASSERT, call_UnloadComponents]
    have hread : ∀ q, Heap.read (Entity.UnloadComponents w.heap a) q
        = if q = a then some { ea with m_status := Entity.Status.Unloaded }
          else Heap.read w.heap q := by
      intro q
      unfold Entity.UnloadComponents
      rw [Heap.read_modify]
      split
      · rw [hea]; rfl
      · rfl
    obtain ⟨w', hw', hm, ht, hframe, hkeep, hres⟩ :=
      ih { w with heap := Entity.UnloadComponents w.heap a,
                  trace := w.trace ++ [Event.UnloadComponents a] }
        (by
          intro p hp
          simp only [hread]
          split
          · exact ⟨_, rfl, rfl⟩
          · exact hl p (List.mem_cons_of_mem _ hp))
    refine ⟨w', by simp [List.foldlM_cons, hstep, hw'], hm, ht, ?_, ?_, ?_⟩
    · intro q hq
      rw [hframe q (fun h => hq (List.mem_cons_of_mem _ h))]
      simp only [hread]
      rw [if_neg (by intro h; subst h; exact hq (List.mem_cons_self _ _))]
    · intro q e hq hu
      by_cases hqa : q = a
      · exact hkeep q { ea with m_status := Entity.Status.Unloaded }
          (by simp only [hread, hqa, if_true]) rfl
      · exact hkeep q e (by simp only [hread, if_neg hqa]; exact hq) hu
    · intro p hp
      rcases List.mem_cons.1 hp with rfl | hp
      · exact hkeep p { ea with m_status := Entity.Status.Unloaded }
          (by simp only [hread, if_true]) rfl
      · exact hres p hp

/-- Deleting every entity of a duplicate-free list of live, unloaded entities. -/
theorem deleteEntities_fold (l : List EntityPtr) :
    ∀ w : World, l.Nodup →
    (∀ p ∈ l, ∃ e, Heap.read w.heap p = some e ∧ e.IsUnloaded = true) →
    ∃ w', l.foldlM DestroyAllEntities.deleteEntity w = some w'
      ∧ w'.map = w.map ∧ w'.EE_DEVELOPMENT_TOOLS = w.EE_DEVELOPMENT_TOOLS
      ∧ (∀ q, Heap.read w'.heap q = if q ∈ l then none else Heap.read w.heap q)
      ∧ (∀ p ∈ l, Event.Delete p ∈ w'.trace)
      ∧ (∀ ev ∈ w.trace, ev ∈ w'.trace) := by
  induction l with
  | nil =>
    intro w _ _
    exact ⟨w, rfl, rfl, rfl, fun _ => by simp, fun p hp => absurd hp (List.not_mem_nil p),
      fun _ h => h⟩
  | cons a l ih =>
    intro w hnd hl
    obtain ⟨hal, hnd'⟩ := List.nodup_cons.1 hnd
    obtain ⟨ea, hea, hua⟩ := hl a (List.mem_cons_self _ _)
    have hstep : DestroyAllEntities.deleteEntity w a
        = some { w with heap := Heap.free w.heap a, trace := w.trace ++ [Event.Delete a] } := by
      unfold DestroyAllEntities.deleteEntity
      simp [hea, hua, EE_ASSERT, call_Delete]
    obtain ⟨w', hw', hm, ht, hheap, hdel, htr⟩ :=
      ih { w with heap := Heap.free w.heap a, trace := w.trace ++ [Event.Delete a] } hnd'
        (by
          intro p hp
          have hpa : p ≠ a := fun h => hal (h ▸ hp)
          simp only [Heap.read_free, if_neg hpa]
          exact hl p (List.mem_cons_of_mem _ hp))
    refine ⟨w', by simp [List.foldlM_cons, hstep, hw'], hm, ht, ?_, ?_, ?_⟩
    · intro q
      rw [hheap q]
      simp only [Heap.read_free, List.mem_cons]
      by_cases hql : q ∈ l
      · simp [hql]
      · by_cases hqa : q = a
        · simp [hqa]
        · simp [hql, hqa]
    · intro p hp
      rcases List.mem_cons.1 hp with rfl | hp
      · exact htr _ (by simp)
      · exact hdel p hp
    · intro ev hev
      exact htr ev (by simp [hev])

theorem unloadResource_frame (w : World) :
    (ProcessMapUnloadRequest.unloadResource w).heap = w.heap
    ∧ (ProcessMapUnloadRequest.unloadResource w).EE_DEVELOPMENT_TOOLS = w.EE_DEVELOPMENT_TOOLS
    ∧ (∀ ev ∈ w.trace, ev ∈ (ProcessMapUnloadRequest.unloadResource w).trace)
    ∧ (ProcessMapUnloadRequest.unloadResource w).map.m_entities = w.map.m_entities
    ∧ (ProcessMapUnloadRequest.unloadResource w).map.m_entityIDLookupMap
        = w.map.m_entityIDLookupMap
    ∧ (ProcessMapUnloadRequest.unloadResource w).map.m_entitiesToLoad = w.map.m_entitiesToLoad
    ∧ (ProcessMapUnloadRequest.unloadResource w).map.m_entitiesCurrentlyLoading
        = w.map.m_entitiesCurrentlyLoading
    ∧ (ProcessMapUnloadRequest.unloadResource w).map.m_entitiesToRemove
        = w.map.m_entitiesToRemove
    ∧ (ProcessMapUnloadRequest.unloadResource w).map.m_editedEntities = w.map.m_editedEntities
    ∧ (ProcessMapUnloadRequest.unloadResource w).map.m_entitiesToHotReload
        = w.map.m_entitiesToHotReload
    ∧ (ProcessMapUnloadRequest.unloadResource w).map.m_isMapInstantiated
        = w.map.m_isMapInstantiated
    ∧ (ProcessMapUnloadRequest.unloadResource w).map.m_isTransientMap = w.map.m_isTransientMap
    ∧ (ProcessMapUnloadRequest.unloadResource w).map.m_ID = w.map.m_ID := by
  unfold ProcessMapUnloadRequest.unloadResource
  split
  · simp only [call_UnloadResource, List.mem_append, List.mem_singleton, and_self, and_true,
      true_and]
    exact fun ev h => Or.inl h
  · simp

/-- The unload path on an instantiated map that is not activated and has no
addition or removal pending: every entity is unloaded and deleted, the map is
emptied and returns to Unloaded. -/
theorem ProcessMapUnloadRequest_instantiated (w : World)
    (hreq : w.map.m_isUnloadRequested = true)
    (hna : w.map.m_status ≠ EntityMap.Status.Activated)
    (hnf : w.map.m_status ≠ EntityMap.Status.LoadFailed)
    (hinst : w.map.m_isMapInstantiated = true)
    (hl : w.map.m_entitiesToLoad = []) (hr : w.map.m_entitiesToRemove = [])
    (hnd : w.map.m_entities.Nodup)
    (hlive : ∀ p ∈ w.map.m_entities, ∃ e, Heap.read w.heap p = some e ∧ e.IsActivated = false) :
    ∃ w1, ProcessMapUnloadRequest w = some (w1, true)
      ∧ w1.map.m_status = EntityMap.Status.Unloaded
      ∧ w1.map.m_isUnloadRequested = false
      ∧ w1.map.m_isMapInstantiated = false
      ∧ w1.map.m_entities = [] ∧ w1.map.m_entityIDLookupMap = []
      ∧ w1.map.m_entitiesToLoad = [] ∧ w1.map.m_entitiesCurrentlyLoading = []
      ∧ w1.map.m_entitiesToRemove = []
      ∧ w1.map.m_editedEntities = w.map.m_editedEntities
      ∧ w1.EE_DEVELOPMENT_TOOLS = w.EE_DEVELOPMENT_TOOLS
      ∧ (∀ p ∈ w.map.m_entities, Heap.read w1.heap p = none ∧ Event.Delete p ∈ w1.trace)
      ∧ (∀ q, q ∉ w.map.m_entities → Heap.read w1.heap q = Heap.read w.heap q) := by
  obtain ⟨w2, hw2, hm2, ht2, hframe2, _, hun2⟩ := unloadEntities_fold w.map.m_entities w hlive
  obtain ⟨w3, hw3, hm3, ht3, hheap3, hdel3, _⟩ := deleteEntities_fold w.map.m_entities w2 hnd hun2
  have hda : DestroyAllEntities w2 = some { w3 with map := { w3.map with
      m_entities := [], m_entityIDLookupMap := [],
      m_entityNameLookupMap :=
        if w3.EE_DEVELOPMENT_TOOLS then [] else w3.map.m_entityNameLookupMap } } := by
    unfold DestroyAllEntities
    simp [hm2, hl, hr, EE_ASSERT, hw3]
  have hdi : ProcessMapUnloadRequest.destroyInstantiated w
      = some { w3 with map := { w3.map with
          m_entities := [], m_entityIDLookupMap := [],
          m_entityNameLookupMap :=
            if w3.EE_DEVELOPMENT_TOOLS then [] else w3.map.m_entityNameLookupMap,
          m_isMapInstantiated := false } } := by
    unfold ProcessMapUnloadRequest.destroyInstantiated
    simp [hinst, hw2, hda]
  have hue : ProcessMapUnloadRequest.unloadEntities w
      = some { w3 with map := { w3.map with
          m_entities := [], m_entityIDLookupMap := [],
          m_entityNameLookupMap :=
            if w3.EE_DEVELOPMENT_TOOLS then [] else w3.map.m_entityNameLookupMap,
          m_isMapInstantiated := false,
          m_entitiesToLoad := [], m_entitiesCurrentlyLoading := [],
          m_entitiesToRemove := [] } } := by
    unfold ProcessMapUnloadRequest.unloadEntities
    simp [hnf, hdi]
  have hact : w.map.IsActivated = false := by simp [EntityMap.IsActivated, hna]
  have hed : w3.map.m_editedEntities = w.map.m_editedEntities := by rw [hm3, hm2]
  have htl : w3.EE_DEVELOPMENT_TOOLS = w.EE_DEVELOPMENT_TOOLS := by rw [ht3, ht2]
  have hres : ProcessMapUnloadRequest w = some
      ({ ProcessMapUnloadRequest.unloadResource { w3 with map := { w3.map with
          m_entities := [], m_entityIDLookupMap := [],
          m_entityNameLookupMap :=
            if w3.EE_DEVELOPMENT_TOOLS then [] else w3.map.m_entityNameLookupMap,
          m_isMapInstantiated := false,
          m_entitiesToLoad := [], m_entitiesCurrentlyLoading := [],
          m_entitiesToRemove := [] } } with
          map := { (ProcessMapUnloadRequest.unloadResource { w3 with map := { w3.map with
            m_entities := [], m_entityIDLookupMap := [],
            m_entityNameLookupMap :=
              if w3.EE_DEVELOPMENT_TOOLS then [] else w3.map.m_entityNameLookupMap,
            m_isMapInstantiated := false,
            m_entitiesToLoad := [], m_entitiesCurrentlyLoading := [],
            m_entitiesToRemove := [] } }).map with
            m_status := EntityMap.Status.Unloaded, m_isUnloadRequested := false } }, true) := by
    unfold ProcessMapUnloadRequest
    simp only [hreq, EE_ASSERT, if_true, Option.bind_eq_bind, Option.some_bind, hact,
      Bool.false_eq_true, if_false, hue, Option.map_some']
  obtain ⟨f1, f2, f3, f4, f5, f6, f7, f8, f9, f10, f11, f12, f13⟩ :=
    unloadResource_frame { w3 with map := { w3.map with
          m_entities := [], m_entityIDLookupMap := [],
          m_entityNameLookupMap :=
            if w3.EE_DEVELOPMENT_TOOLS then [] else w3.map.m_entityNameLookupMap,
          m_isMapInstantiated := false,
          m_entitiesToLoad := [], m_entitiesCurrentlyLoading := [],
          m_entitiesToRemove := [] } }
  refine ⟨_, hres, rfl, rfl, f11, f4, f5, f6, f7, f8, f9.trans hed, f2.trans htl, ?_, ?_⟩
  · intro p hp
    refine ⟨?_, f3 _ (hdel3 p hp)⟩
    show Heap.read (ProcessMapUnloadRequest.unloadResource _).heap p = none
    rw [f1]
    show Heap.read w3.heap p = none
    rw [hheap3 p, if_pos hp]
  · intro q hq
    show Heap.read (ProcessMapUnloadRequest.unloadResource _).heap q = _
    rw [f1]
    show Heap.read w3.heap q = _
    rw [hheap3 q, if_neg hq, hframe2 q hq]

/-! ## C6: an unload request on a map that is not activated -/

theorem UpdateState_unload_eq (w : World) (ctx : EntityLoadingContext) (w1 : World)
    (hhot : w.EE_DEVELOPMENT_TOOLS = true → w.map.m_entitiesToHotReload = [])
    (hreq : w.map.m_isUnloadRequested = true)
    (h1 : ProcessMapUnloadRequest w = some (w1, true))
    (hs1 : w1.map.m_status = EntityMap.Status.Unloaded) :
    UpdateState w ctx = UpdateState.processEntities w1 ctx := by
  have hasrt : EE_ASSERT (!w.EE_DEVELOPMENT_TOOLS || w.map.m_entitiesToHotReload.isEmpty)
      = some () := by
    rw [EE_ASSERT_eq_some]
    cases hdev : w.EE_DEVELOPMENT_TOOLS
    · rfl
    · rw [hhot hdev]; rfl
  unfold UpdateState
  rw [hasrt]
  simp only [Option.bind_eq_bind, Option.some_bind]
  unfold UpdateState.processUnload
  rw [if_pos hreq, h1]
  simp only [Option.bind_eq_bind, Option.some_bind, if_true]
  unfold UpdateState.processLoading
  rw [if_neg (by rw [hs1]; simp)]

/-- What the unload path does on a map that is not activated, whenever it runs to
completion. -/
theorem ProcessMapUnloadRequest_notActivated {w w1 : World} {b : Bool}
    (hna : w.map.m_status ≠ EntityMap.Status.Activated)
    (h : ProcessMapUnloadRequest w = some (w1, b)) :
    b = true ∧ w1.map.m_status = EntityMap.Status.Unloaded
    ∧ w1.map.m_isUnloadRequested = false
    ∧ (w.map.m_status ≠ EntityMap.Status.LoadFailed ∨ w.map.m_isMapInstantiated = false →
        w1.map.m_isMapInstantiated = false) := by
  have hact : w.map.IsActivated = false := by simp [EntityMap.IsActivated, hna]
  unfold ProcessMapUnloadRequest at h
  simp only [Option.bind_eq_bind, Option.bind_eq_some, hact, Bool.false_eq_true, if_false,
    Option.map_eq_some', Prod.mk.injEq] at h
  obtain ⟨_, _, w2, h2, rfl, rfl⟩ := h
  refine ⟨rfl, rfl, rfl, ?_⟩
  intro hcase
  show (ProcessMapUnloadRequest.unloadResource w2).map.m_isMapInstantiated = false
  rw [(unloadResource_frame w2).2.2.2.2.2.2.2.2.2.2.1]
  unfold ProcessMapUnloadRequest.unloadEntities at h2
  split at h2
  · simp only [Option.bind_eq_bind, Option.bind_eq_some, Option.some.injEq] at h2
    obtain ⟨w3, h3, rfl⟩ := h2
    show w3.map.m_isMapInstantiated = false
    unfold ProcessMapUnloadRequest.destroyInstantiated at h3
    split at h3
    · simp only [Option.bind_eq_bind, Option.bind_eq_some, Option.some.injEq] at h3
      obtain ⟨_, _, _, _, rfl⟩ := h3
      rfl
    · rename_i hni
      cases h3
      simpa using hni
  · rename_i hlf
    cases h2
    rcases hcase with hc | hc
    · exact absurd hc hlf
    · exact hc

/-- The unload path on a map that is not instantiated: it always completes, and
keeps the entities; the worklists are cleared unless the status is LoadFailed. -/
theorem ProcessMapUnloadRequest_notInstantiated (w : World)
    (hreq : w.map.m_isUnloadRequested = true)
    (hna : w.map.m_status ≠ EntityMap.Status.Activated)
    (hinst : w.map.m_isMapInstantiated = false) :
    ∃ w1, ProcessMapUnloadRequest w = some (w1, true)
      ∧ w1.map.m_status = EntityMap.Status.Unloaded
      ∧ w1.map.m_isUnloadRequested = false
      ∧ w1.map.m_isMapInstantiated = false
      ∧ w1.map.m_entities = w.map.m_entities
      ∧ w1.map.m_entityIDLookupMap = w.map.m_entityIDLookupMap
      ∧ w1.heap = w.heap
      ∧ w1.map.m_editedEntities = w.map.m_editedEntities
      ∧ w1.EE_DEVELOPMENT_TOOLS = w.EE_DEVELOPMENT_TOOLS
      ∧ (w.map.m_status ≠ EntityMap.Status.LoadFailed →
          w1.map.m_entitiesToLoad = [] ∧ w1.map.m_entitiesCurrentlyLoading = []
          ∧ w1.map.m_entitiesToRemove = [])
      ∧ (w.map.m_status = EntityMap.Status.LoadFailed →
          w1.map.m_entitiesToLoad = w.map.m_entitiesToLoad
          ∧ w1.map.m_entitiesCurrentlyLoading = w.map.m_entitiesCurrentlyLoading
          ∧ w1.map.m_entitiesToRemove = w.map.m_entitiesToRemove) := by
  have hact : w.map.IsActivated = false := by simp [EntityMap.IsActivated, hna]
  have hdi : ProcessMapUnloadRequest.destroyInstantiated w = some w := by
    unfold ProcessMapUnloadRequest.destroyInstantiated
    simp [hinst]
  by_cases hlf : w.map.m_status = EntityMap.Status.LoadFailed
  · have hue : ProcessMapUnloadRequest.unloadEntities w = some w := by
      unfold ProcessMapUnloadRequest.unloadEntities
      simp [hlf]
    have hres : ProcessMapUnloadRequest w = some
        ({ ProcessMapUnloadRequest.unloadResource w with
            map := { (ProcessMapUnloadRequest.unloadResource w).map with
              m_status := EntityMap.Status.Unloaded, m_isUnloadRequested := false } }, true) := by
      unfold ProcessMapUnloadRequest
      simp only [hreq, EE_ASSERT, if_true, Option.bind_eq_bind, Option.some_bind, hact,
        Bool.false_eq_true, if_false, hue, Option.map_some']
    obtain ⟨f1, f2, f3, f4, f5, f6, f7, f8, f9, f10, f11, f12, f13⟩ := unloadResource_frame w
    exact ⟨_, hres, rfl, rfl, f11.trans hinst, f4, f5, f1, f9, f2,
      fun h => absurd hlf h, fun _ => ⟨f6, f7, f8⟩⟩
  · have hue : ProcessMapUnloadRequest.unloadEntities w = some { w with map := { w.map with
        m_entitiesToLoad := [], m_entitiesCurrentlyLoading := [],
        m_entitiesToRemove := [] } } := by
      unfold ProcessMapUnloadRequest.unloadEntities
      simp [hlf, hdi]
    have hres : ProcessMapUnloadRequest w = some
        ({ ProcessMapUnloadRequest.unloadResource { w with map := { w.map with
              m_entitiesToLoad := [], m_entitiesCurrentlyLoading := [],
              m_entitiesToRemove := [] } } with
            map := { (ProcessMapUnloadRequest.unloadResource { w with map := { w.map with
                m_entitiesToLoad := [], m_entitiesCurrentlyLoading := [],
                m_entitiesToRemove := [] } }).map with
              m_status := EntityMap.Status.Unloaded, m_isUnloadRequested := false } }, true) := by
      unfold ProcessMapUnloadRequest
      simp only [hreq, EE_ASSERT, if_true, Option.bind_eq_bind, Option.some_bind, hact,
        Bool.false_eq_true, if_false, hue, Option.map_some']
    obtain ⟨f1, f2, f3, f4, f5, f6, f7, f8, f9, f10, f11, f12, f13⟩ :=
      unloadResource_frame { w with map := { w.map with
        m_entitiesToLoad := [], m_entitiesCurrentlyLoading := [],
        m_entitiesToRemove := [] } }
    exact ⟨_, hres, rfl, rfl, f11.trans hinst, f4, f5, f1, f9, f2,
      fun _ => ⟨f6, f7, f8⟩, fun h => absurd h hlf⟩

/-- A pass on a map with an unload requested that is not activated: the status
and the request flag afterwards. -/
theorem UpdateState_unload_status {w : World} {ctx : EntityLoadingContext}
    (hreq : w.map.m_isUnloadRequested = true)
    (hna : w.map.m_status ≠ EntityMap.Status.Activated) :
    ∀ w' r, UpdateState w ctx = some (w', r) →
      w'.map.m_status = EntityMap.Status.Unloaded
      ∧ w'.map.m_isUnloadRequested = false
      ∧ (w.map.m_status ≠ EntityMap.Status.LoadFailed ∨ w.map.m_isMapInstantiated = false →
          w'.map.m_isMapInstantiated = false) := by
  intro w' r h
  unfold UpdateState at h
  simp only [Option.bind_eq_bind, Option.bind_eq_some] at h
  obtain ⟨_, _, h⟩ := h
  unfold UpdateState.processUnload at h
  rw [if_pos hreq] at h
  simp only [Option.bind_eq_bind, Option.bind_eq_some] at h
  obtain ⟨⟨w1, b⟩, h1, h2⟩ := h
  obtain ⟨rfl, hs1, hf1, hi1⟩ := ProcessMapUnloadRequest_notActivated hna h1
  simp only [if_true] at h2
  unfold UpdateState.processLoading at h2
  rw [if_neg (by rw [hs1]; simp)] at h2
  obtain ⟨_, hst, _⟩ := processEntities_result h2
  obtain ⟨hinst, hflag, _, _⟩ := processEntities_fixed h2
  refine ⟨?_, hflag.trans hf1, fun hc => hinst.trans (hi1 hc)⟩
  rcases hst with hst | ⟨hst, _⟩
  · exact hst.trans hs1
  · rw [hs1] at hst; cases hst

/-- A pass on an instantiated map with an unload requested that is not activated
and has nothing pending: the map is torn down. -/
theorem UpdateState_unload_instantiated {w : World} {ctx : EntityLoadingContext}
    (hreq : w.map.m_isUnloadRequested = true)
    (hna : w.map.m_status ≠ EntityMap.Status.Activated) :
    w.map.m_isMapInstantiated = true →
    w.map.m_status ≠ EntityMap.Status.LoadFailed →
    w.map.m_entitiesToLoad = [] → w.map.m_entitiesToRemove = [] →
    (w.EE_DEVELOPMENT_TOOLS = true →
      w.map.m_editedEntities = [] ∧ w.map.m_entitiesToHotReload = []) →
    w.map.m_entities.Nodup →
    (∀ p ∈ w.map.m_entities, ∃ e, Heap.read w.heap p = some e ∧ e.IsActivated = false) →
    ∃ w', UpdateState w ctx = some (w', true)
      ∧ w'.map.m_status = EntityMap.Status.Unloaded
      ∧ w'.map.m_isUnloadRequested = false
      ∧ w'.map.m_isMapInstantiated = false
      ∧ w'.map.m_entities = [] ∧ w'.map.m_entityIDLookupMap = []
      ∧ w'.map.m_entitiesToLoad = [] ∧ w'.map.m_entitiesCurrentlyLoading = []
      ∧ w'.map.m_entitiesToRemove = []
      ∧ (∀ p ∈ w.map.m_entities, Heap.read w'.heap p = none ∧ Event.Delete p ∈ w'.trace) := by
  intro hinst hnf hl hr htools hnd hlive
  obtain ⟨w1, h1, hs1, hf1, hi1, he1, hid1, hl1, hc1, hr1, hed1, ht1, hheap1, _⟩ :=
    ProcessMapUnloadRequest_instantiated w hreq hna hnf hinst hl hr hnd hlive
  have hq := processEntities_quiet w1 ctx hr1 hc1
    (fun h => by rw [hed1]; exact (htools (ht1 ▸ h)).1) (Or.inl hi1) (by rw [hs1]; simp)
  refine ⟨w1, ?_, hs1, hf1, hi1, he1, hid1, hl1, hc1, hr1, hheap1⟩
  rw [UpdateState_unload_eq w ctx w1 (fun h => (htools h).2) hreq h1 hs1]
  exact hq

/-- A pass on a map that is not instantiated with an unload requested and
nothing pending: the entities are kept. -/
theorem UpdateState_unload_notInstantiated {w : World} {ctx : EntityLoadingContext}
    (hreq : w.map.m_isUnloadRequested = true)
    (hna : w.map.m_status ≠ EntityMap.Status.Activated) :
    w.map.m_isMapInstantiated = false →
    w.map.m_entitiesToRemove = [] → w.map.m_entitiesCurrentlyLoading = [] →
    (w.EE_DEVELOPMENT_TOOLS = true →
      w.map.m_editedEntities = [] ∧ w.map.m_entitiesToHotReload = []) →
    ∃ w', UpdateState w ctx = some (w', true)
      ∧ w'.map.m_status = EntityMap.Status.Unloaded
      ∧ w'.map.m_isUnloadRequested = false
      ∧ w'.map.m_isMapInstantiated = false
      ∧ w'.map.m_entities = w.map.m_entities
      ∧ w'.map.m_entityIDLookupMap = w.map.m_entityIDLookupMap
      ∧ w'.heap = w.heap
      ∧ (w.map.m_status ≠ EntityMap.Status.LoadFailed →
          w'.map.m_entitiesToLoad = [] ∧ w'.map.m_entitiesCurrentlyLoading = []
          ∧ w'.map.m_entitiesToRemove = [])
      ∧ (w.map.m_status = EntityMap.Status.LoadFailed →
          w'.map.m_entitiesToLoad = w.map.m_entitiesToLoad) := by
  intro hinst hr hc htools
  obtain ⟨w1, h1, hs1, hf1, hi1, he1, hid1, hh1, hed1, ht1, hnlf, hlf⟩ :=
    ProcessMapUnloadRequest_notInstantiated w hreq hna hinst
  have hr1 : w1.map.m_entitiesToRemove = [] := by
    by_cases hc : w.map.m_status = EntityMap.Status.LoadFailed
    · rw [(hlf hc).2.2, hr]
    · exact (hnlf hc).2.2
  have hc1 : w1.map.m_entitiesCurrentlyLoading = [] := by
    by_cases hc' : w.map.m_status = EntityMap.Status.LoadFailed
    · rw [(hlf hc').2.1, hc]
    · exact (hnlf hc').2.1
  have hq := processEntities_quiet w1 ctx hr1 hc1
    (fun h => by rw [hed1]; exact (htools (ht1 ▸ h)).1) (Or.inl hi1) (by rw [hs1]; simp)
  refine ⟨w1, ?_, hs1, hf1, hi1, he1, hid1, hh1, hnlf, fun h => (hlf h).1⟩
  rw [UpdateState_unload_eq w ctx w1 (fun h => (htools h).2) hreq h1 hs1]
  exact hq

/-- C6: the unload of a map that is not instantiated leaves the map owning
entities.  `ProcessMapUnloadRequest` empties the entity list and the lookup maps
through `DestroyAllEntities`, which it calls only on an instantiated map.  An
entity the caller added while the descriptor was loading is, after the pass that
completes the unload, still in the entity list and in the id lookup map, although
`toLoad` was cleared and the map is Unloaded and not instantiated; the destructor
of the map then stops at its assertion that the entity list and the id lookup map
are empty.  On a map in LoadFailed the pass leaves the entity in `toLoad` as
well. -/
theorem C6_unload_keeps_entities_of_uninstantiated_map :
    (exampleWorldDescriptorUnload.map.m_isUnloadRequested = true
      ∧ exampleWorldDescriptorUnload.map.m_status = EntityMap.Status.MapDescriptorLoading
      ∧ (UpdateState exampleWorldDescriptorUnload (exampleContext true)).map Prod.snd = some true
      ∧ (UpdateState exampleWorldDescriptorUnload (exampleContext true)).map
          (fun r => (r.1.map.m_status, r.1.map.m_isUnloadRequested, r.1.map.m_isMapInstantiated))
          = some (EntityMap.Status.Unloaded, false, false)
      ∧ (UpdateState exampleWorldDescriptorUnload (exampleContext true)).map
          (fun r => r.1.map.m_entities) = some [1]
      ∧ (UpdateState exampleWorldDescriptorUnload (exampleContext true)).map
          (fun r => r.1.map.m_entityIDLookupMap) = some [(11, 1)]
      ∧ (UpdateState exampleWorldDescriptorUnload (exampleContext true)).map
          (fun r => (r.1.map.m_entitiesToLoad, r.1.map.m_entitiesCurrentlyLoading,
            r.1.map.m_entitiesToRemove)) = some ([], [], [])
      ∧ EntityMap.destructor (World.afterPass (UpdateState exampleWorldDescriptorUnload
          (exampleContext true))).1 = none)
    ∧ (exampleWorldLoadFailedUnload.map.m_isUnloadRequested = true
      ∧ exampleWorldLoadFailedUnload.map.m_status = EntityMap.Status.LoadFailed
      ∧ (UpdateState exampleWorldLoadFailedUnload (exampleContext true)).map Prod.snd = some true
      ∧ (UpdateState exampleWorldLoadFailedUnload (exampleContext true)).map
          (fun r => r.1.map.m_status) = some EntityMap.Status.Unloaded
      ∧ (UpdateState exampleWorldLoadFailedUnload (exampleContext true)).map
          (fun r => r.1.map.m_entities) = some [1]
      ∧ (UpdateState exampleWorldLoadFailedUnload (exampleContext true)).map
          (fun r => r.1.map.m_entityIDLookupMap) = some [(11, 1)]
      ∧ (UpdateState exampleWorldLoadFailedUnload (exampleContext true)).map
          (fun r => r.1.map.m_entitiesToLoad) = some [1]
      ∧ EntityMap.destructor (World.afterPass (UpdateState exampleWorldLoadFailedUnload
          (exampleContext true))).1 = none) := by
  refine ⟨⟨by decide, by decide, by decide, by decide, by decide, by decide, by decide,
    by decide⟩, ⟨by decide, by decide, by decide, by decide, by decide, by decide, by decide,
    by decide⟩⟩

/-- The pass that completes an unload.  On a map with an unload requested and a status other than
Activated, every `UpdateState` pass that runs to completion leaves status
Unloaded and the request cleared, and `m_isMapInstantiated` false (unless the map
was in LoadFailed and instantiated).  If the map is instantiated, not in
LoadFailed, with no addition, removal, edit or hot reload pending and its
entities live, distinct and not activated, the pass returns true and leaves the
map owning no entities: the entity list and the id lookup map are empty, every
entity it owned is deleted, and `toLoad`, the loading list and `toRemove` are
empty.  If the map is not instantiated (as in MapDescriptorLoading and
LoadFailed), with no removal, loading entity, edit or hot reload pending, the
pass returns true and keeps the entity list, the id lookup map and the
entities as they were; the worklists are emptied, except in LoadFailed, where
they are kept too. -/
theorem unload_when_not_activated (w : World) (ctx : EntityLoadingContext)
    (hreq : w.map.m_isUnloadRequested = true)
    (hna : w.map.m_status ≠ EntityMap.Status.Activated) :
    (∀ w' r, UpdateState w ctx = some (w', r) →
      w'.map.m_status = EntityMap.Status.Unloaded
      ∧ w'.map.m_isUnloadRequested = false
      ∧ (w.map.m_status ≠ EntityMap.Status.LoadFailed ∨ w.map.m_isMapInstantiated = false →
          w'.map.m_isMapInstantiated = false))
    ∧ (w.map.m_isMapInstantiated = true →
        w.map.m_status ≠ EntityMap.Status.LoadFailed →
        w.map.m_entitiesToLoad = [] → w.map.m_entitiesToRemove = [] →
        (w.EE_DEVELOPMENT_TOOLS = true →
          w.map.m_editedEntities = [] ∧ w.map.m_entitiesToHotReload = []) →
        w.map.m_entities.Nodup →
        (∀ p ∈ w.map.m_entities, ∃ e, Heap.read w.heap p = some e ∧ e.IsActivated = false) →
        ∃ w', UpdateState w ctx = some (w', true)
          ∧ w'.map.m_status = EntityMap.Status.Unloaded
          ∧ w'.map.m_isUnloadRequested = false
          ∧ w'.map.m_isMapInstantiated = false
          ∧ w'.map.m_entities = [] ∧ w'.map.m_entityIDLookupMap = []
          ∧ w'.map.m_entitiesToLoad = [] ∧ w'.map.m_entitiesCurrentlyLoading = []
          ∧ w'.map.m_entitiesToRemove = []
          ∧ (∀ p ∈ w.map.m_entities, Heap.read w'.heap p = none ∧ Event.Delete p ∈ w'.trace))
    ∧ (w.map.m_isMapInstantiated = false →
        w.map.m_entitiesToRemove = [] → w.map.m_entitiesCurrentlyLoading = [] →
        (w.EE_DEVELOPMENT_TOOLS = true →
          w.map.m_editedEntities = [] ∧ w.map.m_entitiesToHotReload = []) →
        ∃ w', UpdateState w ctx = some (w', true)
          ∧ w'.map.m_status = EntityMap.Status.Unloaded
          ∧ w'.map.m_isUnloadRequested = false
          ∧ w'.map.m_isMapInstantiated = false
          ∧ w'.map.m_entities = w.map.m_entities
          ∧ w'.map.m_entityIDLookupMap = w.map.m_entityIDLookupMap
          ∧ w'.heap = w.heap
          ∧ (w.map.m_status ≠ EntityMap.Status.LoadFailed →
              w'.map.m_entitiesToLoad = [] ∧ w'.map.m_entitiesCurrentlyLoading = []
              ∧ w'.map.m_entitiesToRemove = [])
          ∧ (w.map.m_status = EntityMap.Status.LoadFailed →
              w'.map.m_entitiesToLoad = w.map.m_entitiesToLoad)) := by
  exact ⟨UpdateState_unload_status hreq hna, UpdateState_unload_instantiated hreq hna,
    UpdateState_unload_notInstantiated hreq hna⟩

theorem unload_when_not_activated_witness :
    ∃ w', UpdateState (World.after (Unload exampleWorldLoaded)) (exampleContext true)
        = some (w', true)
      ∧ w'.map.m_status = EntityMap.Status.Unloaded
      ∧ w'.map.m_isUnloadRequested = false
      ∧ w'.map.m_isMapInstantiated = false
      ∧ w'.map.m_entities = [] ∧ w'.map.m_entityIDLookupMap = []
      ∧ w'.map.m_entitiesToLoad = [] ∧ w'.map.m_entitiesCurrentlyLoading = []
      ∧ w'.map.m_entitiesToRemove = []
      ∧ (∀ p ∈ (World.after (Unload exampleWorldLoaded)).map.m_entities,
          Heap.read w'.heap p = none ∧ Event.Delete p ∈ w'.trace) :=
  (unload_when_not_activated (World.after (Unload exampleWorldLoaded)) (exampleContext true)
    (by decide) (by decide)).2.1 (by decide) (by decide) (by decide) (by decide)
    (by decide) (by decide)
    (by
      intro p hp
      have hp' : p = 1 ∨ p = 2 := by
        have : (World.after (Unload exampleWorldLoaded)).map.m_entities = [1, 2] := by decide
        rw [this] at hp
        simpa using hp
      rcases hp' with rfl | rfl
      · exact ⟨_, (by decide : Heap.read (World.after (Unload exampleWorldLoaded)).heap 1
          = some { exampleEntity 11 "Foo".toList with
              m_mapID := 7, m_status := Entity.Status.Loaded }), by decide⟩
      · exact ⟨_, (by decide : Heap.read (World.after (Unload exampleWorldLoaded)).heap 2
          = some { exampleEntity 12 "Foo 000".toList with
              m_mapID := 7, m_status := Entity.Status.Loaded }), by decide⟩)

/-! ## Deactivating a map -/

theorem Heap.Quieter.q_refl (h : Heap) : Heap.Quieter h h := ⟨rfl, fun _ => Or.inl rfl⟩

theorem Heap.Quieter.q_trans {a b c : Heap} (h1 : Heap.Quieter a b) (h2 : Heap.Quieter b c) :
    Heap.Quieter a c := by
  refine ⟨h2.1.trans h1.1, ?_⟩
  intro q
  rcases h2.2 q with h | ⟨e, he, hact, h⟩
  · rw [h]; exact h1.2 q
  · rcases h1.2 q with h' | ⟨e0, _, _, h'⟩
    · exact Or.inr ⟨e, h' ▸ he, hact, h⟩
    · rw [h'] at he
      cases he
      simp [Entity.IsActivated] at hact

/-- An entity that is activated afterwards was activated, and untouched. -/
theorem Heap.Quieter.activated {h h' : Heap} (hq : Heap.Quieter h h') {q : EntityPtr}
    {e : Entity} (he : Heap.read h' q = some e) (hact : e.IsActivated = true) :
    Heap.read h q = some e := by
  rcases hq.2 q with h1 | ⟨e0, _, _, h1⟩
  · rw [← h1]; exact he
  · rw [h1] at he
    cases he
    simp [Entity.IsActivated] at hact

theorem Heap.Quieter.live {h h' : Heap} (hq : Heap.Quieter h h') {q : EntityPtr} {e : Entity}
    (he : Heap.read h q = some e) :
    ∃ e', Heap.read h' q = some e'
      ∧ e'.m_pParentSpatialEntity = e.m_pParentSpatialEntity
      ∧ e'.m_isSpatialEntity = e.m_isSpatialEntity := by
  rcases hq.2 q with h1 | ⟨e0, he0, _, h1⟩
  · exact ⟨e, by rw [h1]; exact he, rfl, rfl⟩
  · rw [he] at he0
    cases he0
    exact ⟨_, h1, rfl, rfl⟩

theorem Heap.Quieter.parent {h h' : Heap} (hq : Heap.Quieter h h') (q : EntityPtr) :
    (Heap.read h' q).map Entity.m_pParentSpatialEntity
      = (Heap.read h q).map Entity.m_pParentSpatialEntity := by
  rcases hq.2 q with h1 | ⟨e0, he0, _, h1⟩
  · rw [h1]
  · rw [h1, he0]; rfl

theorem Heap.isAttachedTo_congr {h h' : Heap}
    (hp : ∀ q, (Heap.read h' q).map Entity.m_pParentSpatialEntity
      = (Heap.read h q).map Entity.m_pParentSpatialEntity) :
    ∀ (fuel : Nat) (a c : EntityPtr),
      Heap.isAttachedTo h' fuel a c = Heap.isAttachedTo h fuel a c := by
  intro fuel
  induction fuel with
  | zero => intro a c; rfl
  | succ fuel ih =>
    intro a c
    have := hp c
    unfold Heap.isAttachedTo
    cases h1 : Heap.read h' c with
    | none =>
      rw [h1] at this
      cases h2 : Heap.read h c with
      | none => rfl
      | some e => rw [h2] at this; cases this
    | some e' =>
      rw [h1] at this
      cases h2 : Heap.read h c with
      | none => rw [h2] at this; cases this
      | some e =>
        rw [h2] at this
        simp only [Option.map_some', Option.some.injEq] at this
        simp only [this]
        cases e.m_pParentSpatialEntity with
        | none => rfl
        | some q => simp only [ih]

theorem Heap.isAttachedTo_of_no_parent {h : Heap} {c : EntityPtr} {e : Entity}
    (he : Heap.read h c = some e) (hp : e.m_pParentSpatialEntity = none)
    (fuel : Nat) (a : EntityPtr) : Heap.isAttachedTo h fuel a c = false := by
  cases fuel with
  | zero => rfl
  | succ fuel =>
    unfold Heap.isAttachedTo
    simp [he, hp]

theorem Entity.Deactivate_quieter (h : Heap) (p : EntityPtr) :
    Heap.Quieter h (Entity.Deactivate h p) := by
  refine ⟨by simp [Entity.Deactivate], ?_⟩
  intro q
  rw [Entity.read_Deactivate]
  cases hq : Heap.read h q with
  | none => exact Or.inl rfl
  | some e =>
    simp only [Option.map_some']
    split
    · rename_i hc
      simp only [Bool.and_eq_true] at hc
      exact Or.inr ⟨e, rfl, hc.2, rfl⟩
    · exact Or.inl rfl

theorem Entity.Deactivate_subtree (h : Heap) (p q : EntityPtr) (e' : Entity)
    (hq : q = p ∨ Heap.isAttachedTo h h.length p q = true)
    (he : Heap.read (Entity.Deactivate h p) q = some e') : e'.IsActivated = false := by
  rw [Entity.read_Deactivate] at he
  obtain ⟨e, _, rfl⟩ := Option.map_eq_some'.1 he
  have hc : (decide (q = p) || Heap.isAttachedTo h h.length p q) = true := by
    rcases hq with hq | hq <;> simp [hq]
  simp only [hc, Bool.true_and]
  split
  · rfl
  · rename_i hna
    simpa using hna

theorem Entity.Deactivate_other (h : Heap) (p q : EntityPtr) (hne : q ≠ p)
    (hna : Heap.isAttachedTo h h.length p q = false) :
    Heap.read (Entity.Deactivate h p) q = Heap.read h q := by
  rw [Entity.read_Deactivate]
  cases Heap.read h q with
  | none => rfl
  | some e => simp [hne, hna]

/-- One work item of the deactivation batch. -/
theorem EntityDeactivationTask.item_spec {w w' : World} {p : EntityPtr}
    (h : EntityDeactivationTask.item w p = some w') :
    w'.map = w.map ∧ w'.EE_DEVELOPMENT_TOOLS = w.EE_DEVELOPMENT_TOOLS
    ∧ ∃ e, Heap.read w.heap p = some e
        ∧ ((e.IsActivated = true ∧ (e.IsSpatialEntity = false ∨ e.HasSpatialParent = false)
              ∧ w'.heap = Entity.Deactivate w.heap p)
            ∨ (¬ (e.IsActivated = true
                  ∧ (e.IsSpatialEntity = false ∨ e.HasSpatialParent = false))
              ∧ w'.heap = w.heap)) := by
  unfold EntityDeactivationTask.item at h
  simp only [Option.bind_eq_bind, Option.bind_eq_some] at h
  obtain ⟨e, he, h⟩ := h
  split at h
  · rename_i hc
    obtain ⟨_, rfl⟩ := call_Deactivate_eq h
    simp only [Bool.and_eq_true, Bool.or_eq_true, Bool.not_eq_true'] at hc
    exact ⟨rfl, rfl, e, he, Or.inl ⟨hc.1, hc.2, rfl⟩⟩
  · rename_i hc
    cases h
    simp only [Bool.and_eq_true, Bool.or_eq_true, Bool.not_eq_true'] at hc
    exact ⟨rfl, rfl, e, he, Or.inr ⟨hc, rfl⟩⟩

theorem EntityDeactivationTask.item_quieter {w w' : World} {p : EntityPtr}
    (h : EntityDeactivationTask.item w p = some w') : Heap.Quieter w.heap w'.heap := by
  obtain ⟨_, _, e, _, hc | hc⟩ := EntityDeactivationTask.item_spec h
  · rw [hc.2.2]; exact Entity.Deactivate_quieter _ _
  · rw [hc.2]; exact Heap.Quieter.q_refl _

theorem EntityDeactivationTask.item_isSome {w : World} {p : EntityPtr} {e : Entity}
    (he : Heap.read w.heap p = some e) : ∃ w', EntityDeactivationTask.item w p = some w' := by
  unfold EntityDeactivationTask.item
  simp only [he, Option.bind_eq_bind, Option.some_bind]
  split
  · exact ⟨_, call_Deactivate_of_live he⟩
  · exact ⟨w, rfl⟩

theorem deactivation_fold_frame {l : List EntityPtr} {w w' : World}
    (h : l.foldlM EntityDeactivationTask.item w = some w') :
    w'.map = w.map ∧ w'.EE_DEVELOPMENT_TOOLS = w.EE_DEVELOPMENT_TOOLS
    ∧ Heap.Quieter w.heap w'.heap :=
  foldlM_inv EntityDeactivationTask.item
    (fun x => x.map = w.map ∧ x.EE_DEVELOPMENT_TOOLS = w.EE_DEVELOPMENT_TOOLS
      ∧ Heap.Quieter w.heap x.heap)
    (fun b a b' hb hs => by
      obtain ⟨s1, s2, _⟩ := EntityDeactivationTask.item_spec hs
      exact ⟨s1.trans hb.1, s2.trans hb.2.1,
        hb.2.2.q_trans (EntityDeactivationTask.item_quieter hs)⟩)
    l w w' ⟨rfl, rfl, Heap.Quieter.q_refl _⟩ h

theorem deactivation_fold_isSome (l : List EntityPtr) (w : World)
    (hlive : ∀ p ∈ l, (Heap.read w.heap p).isSome = true) :
    ∃ w', l.foldlM EntityDeactivationTask.item w = some w' := by
  obtain ⟨w', h, _⟩ := foldlM_isSome EntityDeactivationTask.item
    (fun x => Heap.Quieter w.heap x.heap) l
    (fun b a ha hb => by
      obtain ⟨e, he⟩ := Option.isSome_iff_exists.1 (hlive a ha)
      obtain ⟨e', he', _⟩ := hb.live he
      obtain ⟨b', hb'⟩ := EntityDeactivationTask.item_isSome (w := b) he'
      exact ⟨b', hb', hb.q_trans (EntityDeactivationTask.item_quieter hb')⟩)
    w (Heap.Quieter.q_refl _)
  exact ⟨w', h⟩

/-- The batch deactivates an activated entity without spatial parent together
with everything attached to it. -/
theorem deactivation_fold_root (l : List EntityPtr) :
    ∀ (w w' : World) (r : EntityPtr) (er : Entity), r ∈ l →
      Heap.read w.heap r = some er → er.IsActivated = true →
      er.m_pParentSpatialEntity = none →
      l.foldlM EntityDeactivationTask.item w = some w' →
      ∀ c e', (c = r ∨ Heap.isAttachedTo w.heap w.heap.length r c = true) →
        Heap.read w'.heap c = some e' → e'.IsActivated = false := by
  induction l with
  | nil => intro w w' r er hr; exact absurd hr (List.not_mem_nil r)
  | cons a l ih =>
    intro w w' r er hr her hact hpar hfold c e' hc he'
    simp only [List.foldlM_cons, Option.bind_eq_bind, Option.bind_eq_some] at hfold
    obtain ⟨w1, h1, h2⟩ := hfold
    obtain ⟨_, _, hq2⟩ := deactivation_fold_frame h2
    obtain ⟨_, _, ea, hea, hcase⟩ := EntityDeactivationTask.item_spec h1
    by_cases har : a = r
    · subst har
      rw [her] at hea
      cases hea
      rcases hcase with ⟨_, _, hh⟩ | ⟨hn, _⟩
      · cases hact' : e'.IsActivated with
        | false => rfl
        | true =>
          have h3 := hq2.activated he' hact'
          rw [hh] at h3
          have := Entity.Deactivate_subtree w.heap a c e' hc h3
          rw [hact'] at this
          cases this
      · exfalso
        apply hn
        refine ⟨hact, Or.inr ?_⟩
        simp [Entity.HasSpatialParent, hpar]
    · have hrl : r ∈ l := by
        rcases List.mem_cons.1 hr with h | h
        · exact absurd h.symm har
        · exact h
      have hq1 := EntityDeactivationTask.item_quieter h1
      have her1 : Heap.read w1.heap r = some er := by
        rcases hcase with ⟨_, _, hh⟩ | ⟨_, hh⟩
        · rw [hh, Entity.Deactivate_other _ _ _ (fun h => har h.symm)
            (Heap.isAttachedTo_of_no_parent her hpar _ _)]
          exact her
        · rw [hh]; exact her
      have hatt : Heap.isAttachedTo w1.heap w1.heap.length r c
          = Heap.isAttachedTo w.heap w.heap.length r c := by
        rw [hq1.1]
        exact Heap.isAttachedTo_congr hq1.parent _ _ _
      exact ih w1 w' r er hrl her1 hact hpar h2 c e' (by rw [hatt]; exact hc) he'

/-- The batch deactivates every activated entity of the list that is not a
spatial entity or has no spatial parent. -/
theorem deactivation_fold_unattached (l : List EntityPtr) :
    ∀ (w w' : World) (c : EntityPtr) (ec : Entity), c ∈ l →
      Heap.read w.heap c = some ec →
      (ec.IsSpatialEntity = false ∨ ec.HasSpatialParent = false) →
      l.foldlM EntityDeactivationTask.item w = some w' →
      ∀ e', Heap.read w'.heap c = some e' → e'.IsActivated = false := by
  induction l with
  | nil => intro w w' c ec hc; exact absurd hc (List.not_mem_nil c)
  | cons a l ih =>
    intro w w' c ec hc hec hcond hfold e' he'
    simp only [List.foldlM_cons, Option.bind_eq_bind, Option.bind_eq_some] at hfold
    obtain ⟨w1, h1, h2⟩ := hfold
    obtain ⟨_, _, hq2⟩ := deactivation_fold_frame h2
    obtain ⟨_, _, ea, hea, hcase⟩ := EntityDeactivationTask.item_spec h1
    by_cases hac : a = c
    · subst hac
      rw [hec] at hea
      cases hea
      cases hact' : e'.IsActivated with
      | false => rfl
      | true =>
        have h3 := hq2.activated he' hact'
        rcases hcase with ⟨_, _, hh⟩ | ⟨hn, hh⟩
        · rw [hh] at h3
          have := Entity.Deactivate_subtree w.heap a a e' (Or.inl rfl) h3
          rw [hact'] at this
          cases this
        · rw [hh, hec] at h3
          cases h3
          exact absurd ⟨hact', hcond⟩ hn
    · have hcl : c ∈ l := by
        rcases List.mem_cons.1 hc with h | h
        · exact absurd h.symm hac
        · exact h
      obtain ⟨ec1, hec1, hp1, hs1⟩ := (EntityDeactivationTask.item_quieter h1).live hec
      refine ih w1 w' c ec1 hcl hec1 ?_ h2 e' he'
      simpa [Entity.IsSpatialEntity, Entity.HasSpatialParent, hp1, hs1] using hcond

/-- `Deactivate` on an activated map whose entities are live and whose attached
activated entities hang below an activated entity without parent: it succeeds,
leaves no entity of the map activated, and only sets the status to Loaded. -/
theorem Deactivate_all (w : World)
    (hact : w.map.m_status = EntityMap.Status.Activated)
    (hlive : ∀ p ∈ w.map.m_entities, (Heap.read w.heap p).isSome = true)
    (hroot : ∀ c ∈ w.map.m_entities, ∀ ec, Heap.read w.heap c = some ec →
      ec.IsActivated = true → ec.IsSpatialEntity = true → ec.HasSpatialParent = true →
      Heap.hasActivatedRoot w.heap w.map.m_entities c) :
    ∃ w', Deactivate w = some w'
      ∧ w'.map = { w.map with m_status := EntityMap.Status.Loaded }
      ∧ w'.EE_DEVELOPMENT_TOOLS = w.EE_DEVELOPMENT_TOOLS
      ∧ Heap.Quieter w.heap w'.heap
      ∧ ∀ p ∈ w.map.m_entities, ∃ e, Heap.read w'.heap p = some e ∧ e.IsActivated = false := by
  obtain ⟨w1, hw1⟩ := deactivation_fold_isSome w.map.m_entities w hlive
  obtain ⟨hm, ht, hq⟩ := deactivation_fold_frame hw1
  refine ⟨{ w1 with map := { w1.map with m_status := EntityMap.Status.Loaded } }, ?_, ?_, ht,
    hq, ?_⟩
  · unfold Deactivate
    simp [hact, EE_ASSERT, hw1]
  · simp only [hm]
  · intro p hp
    obtain ⟨ep, hep⟩ := Option.isSome_iff_exists.1 (hlive p hp)
    obtain ⟨e', he', _, _⟩ := hq.live hep
    refine ⟨e', he', ?_⟩
    by_cases hcond : ep.IsSpatialEntity = false ∨ ep.HasSpatialParent = false
    · exact deactivation_fold_unattached _ w w1 p ep hp hep hcond hw1 e' he'
    · simp only [not_or, Bool.not_eq_false] at hcond
      cases hpa : ep.IsActivated with
      | false =>
        cases hact' : e'.IsActivated with
        | false => rfl
        | true =>
          have := hq.activated he' hact'
          rw [hep] at this
          cases this
          rw [hpa] at hact'
          cases hact'
      | true =>
        obtain ⟨r, hr, er, her, hera, herp, hatt⟩ := hroot p hp ep hep hpa hcond.1 hcond.2
        exact deactivation_fold_root _ w w1 r er hr her hera herp hw1 p e' (Or.inr hatt) he'

/-! ## C4: unloading an activated map -/

/-- A pass on an activated map with an unload requested deactivates the map and
reports that it has not drained. -/
theorem UpdateState_unload_activated (w w1 : World) (ctx : EntityLoadingContext)
    (hhot : w.EE_DEVELOPMENT_TOOLS = true → w.map.m_entitiesToHotReload = [])
    (hreq : w.map.m_isUnloadRequested = true)
    (hact : w.map.m_status = EntityMap.Status.Activated)
    (hD : Deactivate w = some w1) : UpdateState w ctx = some (w1, false) := by
  have hasrt : EE_ASSERT (!w.EE_DEVELOPMENT_TOOLS || w.map.m_entitiesToHotReload.isEmpty)
      = some () := by
    rw [EE_ASSERT_eq_some]
    cases hdev : w.EE_DEVELOPMENT_TOOLS
    · rfl
    · rw [hhot hdev]; rfl
  have hP : ProcessMapUnloadRequest w = some (w1, false) := by
    unfold ProcessMapUnloadRequest
    rw [(EE_ASSERT_eq_some (u := ())).2 hreq]
    simp only [Option.bind_eq_bind, Option.some_bind]
    rw [if_pos (by simp [EntityMap.IsActivated, hact]), hD]
    rfl
  unfold UpdateState
  rw [hasrt]
  simp only [Option.bind_eq_bind, Option.some_bind]
  unfold UpdateState.processUnload
  rw [if_pos hreq, hP]
  rfl

/-- C4: the teardown of an activated map does not complete while an addition is
pending.  An entity is added to an activated map and an unload is requested; the
first pass deactivates the map and returns false, and the second pass does not
yield the unloaded map: it stops at the assertion of `DestroyAllEntities` that
`toLoad` is empty, which `ProcessMapUnloadRequest` calls before it clears the
worklists. -/
theorem C4_teardown_stops_at_pending_addition :
    exampleWorldActivatedAddUnload.map.m_status = EntityMap.Status.Activated
    ∧ exampleWorldActivatedAddUnload.map.m_isUnloadRequested = true
    ∧ (UpdateState exampleWorldActivatedAddUnload (exampleContext true)).map Prod.snd
        = some false
    ∧ (UpdateState exampleWorldActivatedAddUnload (exampleContext true)).map
        (fun r => r.1.map.m_status) = some EntityMap.Status.Loaded
    ∧ (World.afterPass (UpdateState exampleWorldActivatedAddUnload
        (exampleContext true))).1.map.m_entitiesToLoad = [3]
    ∧ DestroyAllEntities (World.afterPass (UpdateState exampleWorldActivatedAddUnload
        (exampleContext true))).1 = none
    ∧ UpdateState (World.afterPass (UpdateState exampleWorldActivatedAddUnload
        (exampleContext true))).1 (exampleContext true) = none := by
  decide

/-- The teardown of an activated map with nothing pending.  Take an instantiated map with status Activated and no entity
addition, removal, edit or hot reload pending, whose entities are live and
distinct and whose activated, spatially attached entities hang below an
activated entity of the map that has no spatial parent.  When `Unload` is
requested on it, the first `UpdateState` pass deactivates the map (status becomes
Loaded), returns false and keeps `m_isUnloadRequested` set; the second pass
completes the teardown: it returns true and yields status Unloaded, an empty
entity list, every previously owned entity deleted, and the request cleared. -/
theorem unload_activated_map_completes (w0 : World) (ctx1 ctx2 : EntityLoadingContext)
    (hact : w0.map.m_status = EntityMap.Status.Activated)
    (hinst : w0.map.m_isMapInstantiated = true)
    (hl : w0.map.m_entitiesToLoad = []) (hr : w0.map.m_entitiesToRemove = [])
    (htools : w0.EE_DEVELOPMENT_TOOLS = true →
      w0.map.m_editedEntities = [] ∧ w0.map.m_entitiesToHotReload = [])
    (hnd : w0.map.m_entities.Nodup)
    (hlive : ∀ p ∈ w0.map.m_entities, (Heap.read w0.heap p).isSome = true)
    (hroot : ∀ c ∈ w0.map.m_entities, ∀ ec, Heap.read w0.heap c = some ec →
      ec.IsActivated = true → ec.IsSpatialEntity = true → ec.HasSpatialParent = true →
      Heap.hasActivatedRoot w0.heap w0.map.m_entities c) :
    ∃ w w1 w2,
      Unload w0 = some w
      ∧ UpdateState w ctx1 = some (w1, false)
      ∧ w1.map.m_status = EntityMap.Status.Loaded
      ∧ w1.map.m_isUnloadRequested = true
      ∧ UpdateState w1 ctx2 = some (w2, true)
      ∧ w2.map.m_status = EntityMap.Status.Unloaded
      ∧ w2.map.m_entities = []
      ∧ (∀ p ∈ w0.map.m_entities, Heap.read w2.heap p = none ∧ Event.Delete p ∈ w2.trace)
      ∧ w2.map.m_isUnloadRequested = false := by
  -- the request
  have hU : Unload w0
      = some { w0 with map := { w0.map with m_isUnloadRequested := true } } := by
    unfold Unload
    simp [hact, EE_ASSERT]
  -- the first pass deactivates
  obtain ⟨w1, hD, hm1, ht1, hq1, hna1⟩ :=
    Deactivate_all { w0 with map := { w0.map with m_isUnloadRequested := true } } hact hlive hroot
  have hP1 : UpdateState { w0 with map := { w0.map with m_isUnloadRequested := true } } ctx1
      = some (w1, false) :=
    UpdateState_unload_activated _ w1 ctx1 (fun h => (htools h).2) rfl hact hD
  -- the second pass tears the map down
  have hreq1 : w1.map.m_isUnloadRequested = true := by rw [hm1]
  have hs1 : w1.map.m_status = EntityMap.Status.Loaded := by rw [hm1]
  obtain ⟨w2, hP2, hs2, hf2, _, he2, _, _, _, _, hdel2⟩ :=
    @UpdateState_unload_instantiated w1 ctx2 hreq1 (by rw [hs1]; simp)
      (by rw [hm1]; exact hinst) (by rw [hs1]; simp) (by rw [hm1]; exact hl)
      (by rw [hm1]; exact hr)
      (by
        intro h
        rw [hm1]
        exact htools (ht1 ▸ h))
      (by rw [hm1]; exact hnd)
      (by
        intro p hp
        rw [hm1] at hp
        exact hna1 p hp)
  refine ⟨_, w1, w2, hU, hP1, hs1, hreq1, hP2, hs2, he2, ?_, hf2⟩
  intro p hp
  exact hdel2 p (by rw [hm1]; exact hp)

theorem unload_activated_map_completes_witness :
    ∃ w w1 w2,
      Unload exampleWorldActivated = some w
      ∧ UpdateState w (exampleContext true) = some (w1, false)
      ∧ w1.map.m_status = EntityMap.Status.Loaded
      ∧ w1.map.m_isUnloadRequested = true
      ∧ UpdateState w1 (exampleContext false) = some (w2, true)
      ∧ w2.map.m_status = EntityMap.Status.Unloaded
      ∧ w2.map.m_entities = []
      ∧ (∀ p ∈ exampleWorldActivated.map.m_entities,
          Heap.read w2.heap p = none ∧ Event.Delete p ∈ w2.trace)
      ∧ w2.map.m_isUnloadRequested = false :=
  unload_activated_map_completes exampleWorldActivated (exampleContext true) (exampleContext false)
    (by decide) (by decide) (by decide) (by decide) (by decide) (by decide) (by decide)
    (by
      intro c hc ec hec _ hsp _
      have hc' : c = 1 ∨ c = 2 := by
        have : exampleWorldActivated.map.m_entities = [1, 2] := by decide
        rw [this] at hc
        simpa using hc
      rcases hc' with rfl | rfl
      · have : Heap.read exampleWorldActivated.heap 1
            = some { exampleEntity 11 "Foo".toList with
                m_mapID := 7, m_status := Entity.Status.Activated } := by decide
        rw [this] at hec
        cases hec
        cases hsp
      · have : Heap.read exampleWorldActivated.heap 2
            = some { exampleEntity 12 "Foo 000".toList with
                m_mapID := 7, m_status := Entity.Status.Activated } := by decide
        rw [this] at hec
        cases hec
        cases hsp)

/-! ## The name generator terminates -/

theorem toNat_digit (d : Nat) (h : d < 10) : (Char.ofNat (48 + d)).toNat - 48 = d := by
  interval_cases d <;> rfl

theorem decimalValue_concat (cs : List Char) (c : Char) :
    decimalValue (cs ++ [c]) = decimalValue cs * 10 + (c.toNat - 48) := by
  simp [decimalValue, List.foldl_append]

theorem decimalValue_digits (fuel : Nat) :
    ∀ n, n < fuel → decimalValue (decimalDigits fuel n) = n := by
  induction fuel with
  | zero => intro n h; exact absurd h (Nat.not_lt_zero n)
  | succ fuel ih =>
    intro n hn
    unfold decimalDigits
    split
    · rename_i h10
      simp [decimalValue, toNat_digit n h10]
    · rename_i h10
      rw [decimalValue_concat, ih (n / 10) (by omega), toNat_digit (n % 10) (by omega)]
      omega

theorem decimalValue_zeros (k : Nat) (cs : List Char) :
    decimalValue (List.replicate k '0' ++ cs) = decimalValue cs := by
  induction k with
  | zero => rfl
  | succ k ih =>
    have h0 : ∀ l : List Char, decimalValue ('0' :: l) = decimalValue l := by
      intro l
      simp [decimalValue]
    rw [List.replicate_succ, List.cons_append, h0, ih]

theorem decimalValue_sprintf (v : Nat) : decimalValue (sprintf_03u v) = v % 2 ^ 32 := by
  unfold sprintf_03u
  simp only
  rw [decimalValue_zeros, decimalValue_digits _ _ (Nat.lt_succ_self _)]

theorem GenerateUniqueName_inj (baseName : InlineString) {c1 c2 : Nat}
    (h1 : c1 < 2 ^ 32) (h2 : c2 < 2 ^ 32)
    (h : GenerateUniqueName baseName c1 = GenerateUniqueName baseName c2) : c1 = c2 := by
  have hs : sprintf_03u c1 = sprintf_03u c2 := by
    unfold GenerateUniqueName at h
    split at h
    · exact List.append_cancel_left h
    · exact List.append_cancel_left h
  have := congrArg decimalValue hs
  rw [decimalValue_sprintf, decimalValue_sprintf, Nat.mod_eq_of_lt h1, Nat.mod_eq_of_lt h2] at this
  exact this

/-- A loop that runs out of lookups found every candidate it tried in the lookup
map. -/
theorem GenerateUniqueEntityNameID.loop_none {ν : Type} (m : List (StringID × ν))
    (desired : InlineString) (fuel : Nat) :
    ∀ (name : StringID) (c : Nat), c + fuel ≤ 2 ^ 32 →
      GenerateUniqueEntityNameID.loop m desired fuel name c = none →
      ∀ k, k + 1 < fuel → GenerateUniqueName desired (c + k) ∈ m.map Prod.fst := by
  induction fuel with
  | zero => intro name c _ _ k hk; exact absurd hk (Nat.not_lt_zero _)
  | succ fuel ih =>
    intro name c hc h k hk
    rw [GenerateUniqueEntityNameID.loop] at h
    split at h
    · cases h
    · have hfuel : 1 ≤ fuel := by omega
      have hc1 : (c + 1) % 2 ^ 32 = c + 1 := Nat.mod_eq_of_lt (by omega)
      rw [hc1] at h
      cases k with
      | zero =>
        -- the candidate for `c` was looked up first by the remaining loop
        obtain ⟨f, rfl⟩ : ∃ f, fuel = f + 1 := ⟨fuel - 1, by omega⟩
        rw [GenerateUniqueEntityNameID.loop] at h
        split at h
        · cases h
        · rename_i hpresent
          have : (THashMap.find m (GenerateUniqueName desired c)).isSome = true := by
            cases hf : THashMap.find m (GenerateUniqueName desired c) with
            | none => rw [hf] at hpresent; exact absurd rfl hpresent
            | some v => rfl
          exact (THashMap.find_isSome_iff m _).1 this
      | succ k =>
        have := ih (GenerateUniqueName desired c) (c + 1) (by omega) h k (by omega)
        rw [show c + (k + 1) = c + 1 + k by omega]
        exact this

/-- `GenerateUniqueEntityNameID` returns a name for every valid desired name, as
long as the lookup map holds fewer than 2^32 - 1 names. -/
theorem GenerateUniqueEntityNameID_isSome {ν : Type} (m : List (StringID × ν))
    (desired : StringID) (hv : StringID.IsValid desired = true)
    (hsize : m.length + 2 ≤ 2 ^ 32) :
    ∃ name, GenerateUniqueEntityNameID m desired = some name := by
  unfold GenerateUniqueEntityNameID
  simp only [hv, EE_ASSERT, if_true, Option.bind_eq_bind, Option.some_bind]
  cases hloop : GenerateUniqueEntityNameID.loop m desired (m.length + 2) desired 0 with
  | some name => exact ⟨name, rfl⟩
  | none =>
    exfalso
    have hall := GenerateUniqueEntityNameID.loop_none m desired (m.length + 2) desired 0
      (by omega) hloop
    have hsub : (List.range (m.length + 1)).map (GenerateUniqueName desired)
        ⊆ m.map Prod.fst := by
      intro x hx
      obtain ⟨k, hk, rfl⟩ := List.mem_map.1 hx
      have := hall k (by have := List.mem_range.1 hk; omega)
      rw [Nat.zero_add] at this
      exact this
    have hnd : ((List.range (m.length + 1)).map (GenerateUniqueName desired)).Nodup := by
      refine List.Nodup.map_on ?_ (List.nodup_range _)
      intro x hx y hy hxy
      have hx' := List.mem_range.1 hx
      have hy' := List.mem_range.1 hy
      exact GenerateUniqueName_inj desired (by omega) (by omega) hxy
    have := (List.subperm_of_subset hnd hsub).length_le
    rw [List.length_map, List.length_map, List.length_range] at this
    omega

/-! ## C3: a transient map loads the entities added to it -/

theorem THashMap.find_insert_of_ne {κ ν : Type} [DecidableEq κ] (m : List (κ × ν)) {k k' : κ}
    (v : ν) (hne : k' ≠ k) (hk : THashMap.find m k = none) :
    THashMap.find (THashMap.insert m k v) k' = THashMap.find m k' := by
  rw [THashMap.insert_of_find_none v hk, THashMap.find_append]
  cases THashMap.find m k' with
  | some x => rfl
  | none =>
    simp only [Option.orElse, THashMap.find]
    rw [if_neg (fun h => hne h.symm)]

theorem THashMap.find_insert_self {κ ν : Type} [DecidableEq κ] (m : List (κ × ν)) {k : κ}
    (v : ν) (hk : THashMap.find m k = none) :
    THashMap.find (THashMap.insert m k v) k = some v := by
  rw [THashMap.insert_of_find_none v hk, THashMap.find_append, hk]
  simp [THashMap.find]

/-- `AddEntity` succeeds on a live, unmapped, unloaded entity that is not queued
(with development tools: with a valid name and no spatial parent, next to fewer
than 2^32 - 1 names). -/
theorem AddEntity_isSome (w : World) (p : EntityPtr) (e : Entity)
    (hp : p ≠ nullptr) (he : Heap.read w.heap p = some e)
    (hmap : e.m_mapID = 0) (hst : e.m_status = Entity.Status.Unloaded)
    (hq : p ∉ w.map.m_entitiesToLoad)
    (htools : w.EE_DEVELOPMENT_TOOLS = true →
      StringID.IsValid e.m_name = true ∧ e.m_pParentSpatialEntity = none
      ∧ w.map.m_entityNameLookupMap.length + 2 ≤ 2 ^ 32) :
    ∃ name, AddEntity.validate w e = some name
      ∧ AddEntity w p = some { w with
          heap := Heap.modify w.heap p fun x => { x with m_name := name, m_mapID := w.map.m_ID },
          map := { w.map with
            m_entities := w.map.m_entities ++ [p],
            m_entitiesToLoad := w.map.m_entitiesToLoad ++ [p],
            m_entityIDLookupMap := THashMap.insert w.map.m_entityIDLookupMap e.m_ID p,
            m_entityNameLookupMap :=
              if w.EE_DEVELOPMENT_TOOLS then
                THashMap.insert w.map.m_entityNameLookupMap name p
              else w.map.m_entityNameLookupMap } } := by
  have hval : ∃ name, AddEntity.validate w e = some name := by
    unfold AddEntity.validate
    cases ht : w.EE_DEVELOPMENT_TOOLS with
    | false => exact ⟨e.m_name, by simp⟩
    | true =>
      obtain ⟨hv, hpar, hsize⟩ := htools ht
      obtain ⟨name, hname⟩ := GenerateUniqueEntityNameID_isSome
        w.map.m_entityNameLookupMap e.m_name hv hsize
      refine ⟨name, ?_⟩
      simp only [if_true, AddEntity.checkSpatialParent, hpar, Option.bind_eq_bind,
        Option.some_bind, hname]
  obtain ⟨name, hname⟩ := hval
  refine ⟨name, hname, ?_⟩
  have h1 : EE_ASSERT (decide (p ≠ nullptr)) = some () := by
    rw [EE_ASSERT_eq_some]; simpa using hp
  have h2 : EE_ASSERT (!e.IsAddedToMap && !e.HasRequestedComponentLoad) = some () := by
    rw [EE_ASSERT_eq_some]
    simp [Entity.IsAddedToMap, Entity.HasRequestedComponentLoad, hmap, hst]
  have h3 : EE_ASSERT (!VectorContains w.map.m_entitiesToLoad p) = some () := by
    rw [EE_ASSERT_eq_some]
    simpa [VectorContains] using hq
  unfold AddEntity
  simp only [h1, he, h2, h3, hname, Option.bind_eq_bind, Option.some_bind]

/-- Adding a list of distinct, unmapped, unloaded entities with distinct ids. -/
theorem AddEntities_fold (ps : List EntityPtr) :
    ∀ w : World, ps.Nodup →
    (∀ p ∈ ps, p ≠ nullptr ∧ p ∉ w.map.m_entitiesToLoad
      ∧ ∃ e, Heap.read w.heap p = some e ∧ e.m_mapID = 0
        ∧ e.m_status = Entity.Status.Unloaded
        ∧ THashMap.find w.map.m_entityIDLookupMap e.m_ID = none
        ∧ (w.EE_DEVELOPMENT_TOOLS = true →
            StringID.IsValid e.m_name = true ∧ e.m_pParentSpatialEntity = none)) →
    (∀ p ∈ ps, ∀ q ∈ ps, ∀ ep eq, Heap.read w.heap p = some ep → Heap.read w.heap q = some eq →
      ep.m_ID = eq.m_ID → p = q) →
    (w.EE_DEVELOPMENT_TOOLS = true →
      w.map.m_entityNameLookupMap.length + ps.length + 1 ≤ 2 ^ 32) →
    ∃ w', AddEntities w ps = some w'
      ∧ w'.map.m_entities = w.map.m_entities ++ ps
      ∧ w'.map.m_entitiesToLoad = w.map.m_entitiesToLoad ++ ps
      ∧ w'.map.m_entitiesCurrentlyLoading = w.map.m_entitiesCurrentlyLoading
      ∧ w'.map.m_entitiesToRemove = w.map.m_entitiesToRemove
      ∧ w'.map.m_editedEntities = w.map.m_editedEntities
      ∧ w'.map.m_entitiesToHotReload = w.map.m_entitiesToHotReload
      ∧ w'.map.m_status = w.map.m_status
      ∧ w'.map.m_isMapInstantiated = w.map.m_isMapInstantiated
      ∧ w'.map.m_isUnloadRequested = w.map.m_isUnloadRequested
      ∧ w'.map.m_isTransientMap = w.map.m_isTransientMap
      ∧ w'.map.m_ID = w.map.m_ID
      ∧ w'.EE_DEVELOPMENT_TOOLS = w.EE_DEVELOPMENT_TOOLS
      ∧ (∀ p ∈ ps, ∃ e', Heap.read w'.heap p = some e' ∧ e'.m_mapID = w.map.m_ID
          ∧ e'.m_status = Entity.Status.Unloaded
          ∧ THashMap.find w'.map.m_entityIDLookupMap e'.m_ID = some p)
      ∧ (∀ q, q ∉ ps → Heap.read w'.heap q = Heap.read w.heap q)
      ∧ (∀ k v, THashMap.find w.map.m_entityIDLookupMap k = some v →
          THashMap.find w'.map.m_entityIDLookupMap k = some v) := by
  induction ps with
  | nil =>
    intro w _ _ _ _
    exact ⟨w, rfl, by simp, by simp, rfl, rfl, rfl, rfl, rfl, rfl, rfl, rfl, rfl, rfl,
      fun p hp => absurd hp (List.not_mem_nil p), fun _ _ => rfl, fun _ _ h => h⟩
  | cons a l ih =>
    intro w hnd hfresh hids hsize
    obtain ⟨hal, hndl⟩ := List.nodup_cons.1 hnd
    obtain ⟨ha0, haq, ea, hea, hamap, hast, haid, hatools⟩ := hfresh a (List.mem_cons_self _ _)
    obtain ⟨name, _, hadd⟩ := AddEntity_isSome w a ea ha0 hea hamap hast haq
      (fun ht => ⟨(hatools ht).1, (hatools ht).2, by
        have := hsize ht
        simp only [List.length_cons] at this
        omega⟩)
    -- the state after the first addition
    have hread : ∀ q, q ≠ a → Heap.read (Heap.modify w.heap a fun x =>
        { x with m_name := name, m_mapID := w.map.m_ID }) q = Heap.read w.heap q :=
      fun q hq => Heap.read_modify_ne _ _ hq
    have hreada : Heap.read (Heap.modify w.heap a fun x =>
        { x with m_name := name, m_mapID := w.map.m_ID }) a
          = some { ea with m_name := name, m_mapID := w.map.m_ID } := by
      rw [Heap.read_modify_self, hea]; rfl
    obtain ⟨w', hw', hE, hL, hC, hR, hEd, hH, hS, hI, hU, hT, hID, hTl, hres, hframe, hmono⟩ :=
      ih { w with
          heap := Heap.modify w.heap a fun x => { x with m_name := name, m_mapID := w.map.m_ID },
          map := { w.map with
            m_entities := w.map.m_entities ++ [a],
            m_entitiesToLoad := w.map.m_entitiesToLoad ++ [a],
            m_entityIDLookupMap := THashMap.insert w.map.m_entityIDLookupMap ea.m_ID a,
            m_entityNameLookupMap :=
              if w.EE_DEVELOPMENT_TOOLS then
                THashMap.insert w.map.m_entityNameLookupMap name a
              else w.map.m_entityNameLookupMap } } hndl
        (by
          intro p hp
          have hpa : p ≠ a := fun h => hal (h ▸ hp)
          obtain ⟨hp0, hpq, ep, hep, hpmap, hpst, hpid, hptools⟩ :=
            hfresh p (List.mem_cons_of_mem _ hp)
          refine ⟨hp0, ?_, ep, ?_, hpmap, hpst, ?_, hptools⟩
          · simp only [List.mem_append, List.mem_singleton, not_or]
            exact ⟨hpq, hpa⟩
          · simp only; rw [hread p hpa]; exact hep
          · simp only
            have hne : ep.m_ID ≠ ea.m_ID := by
              intro hc
              exact hpa (hids p (List.mem_cons_of_mem _ hp) a (List.mem_cons_self _ _)
                ep ea hep hea hc)
            rw [THashMap.find_insert_of_ne _ _ hne haid]
            exact hpid)
        (by
          intro p hp q hq ep eq hep heq hid
          have hpa : p ≠ a := fun h => hal (h ▸ hp)
          have hqa : q ≠ a := fun h => hal (h ▸ hq)
          simp only at hep heq
          rw [hread p hpa] at hep
          rw [hread q hqa] at heq
          exact hids p (List.mem_cons_of_mem _ hp) q (List.mem_cons_of_mem _ hq) ep eq hep heq hid)
        (by
          intro ht
          have ht' : w.EE_DEVELOPMENT_TOOLS = true := ht
          have := hsize ht'
          simp only [List.length_cons] at this
          simp only [ht', if_true]
          have hlen : (THashMap.insert w.map.m_entityNameLookupMap name a).length
              ≤ w.map.m_entityNameLookupMap.length + 1 := by
            unfold THashMap.insert
            split <;> simp
          omega)
    refine ⟨w', ?_, ?_, ?_, hC, hR, hEd, hH, hS, hI, hU, hT, hID, hTl, ?_, ?_, ?_⟩
    · unfold AddEntities at hw' ⊢
      simp only [List.foldlM_cons, hadd, Option.bind_eq_bind, Option.some_bind]
      exact hw'
    · rw [hE]; simp
    · rw [hL]; simp
    · intro p hp
      rcases List.mem_cons.1 hp with rfl | hp
      · refine ⟨{ ea with m_name := name, m_mapID := w.map.m_ID }, ?_, rfl, hast, ?_⟩
        · rw [hframe p hal]; exact hreada
        · exact hmono _ _ (THashMap.find_insert_self _ _ haid)
      · exact hres p hp
    · intro q hq
      simp only [List.mem_cons, not_or] at hq
      rw [hframe q hq.2]
      exact hread q hq.1
    · intro k v hk
      refine hmono k v ?_
      simp only
      have hne : k ≠ ea.m_ID := by
        intro hc
        rw [hc, haid] at hk
        cases hk
      rw [THashMap.find_insert_of_ne _ _ hne haid]
      exact hk

/-- The load-request loop over distinct, live entities of this map that are not
activated and not yet loading: every one of them joins the loading list. -/
theorem requestLoad_fold (l : List EntityPtr) :
    ∀ w : World, l.Nodup →
    (∀ p ∈ l, p ≠ nullptr ∧ p ∉ w.map.m_entitiesCurrentlyLoading
      ∧ ∃ e, Heap.read w.heap p = some e ∧ e.m_mapID = w.map.m_ID
        ∧ e.m_status = Entity.Status.Unloaded) →
    ∃ w', l.foldlM ProcessEntityAdditionAndRemoval.requestLoad w = some w'
      ∧ w'.map = { w.map with
          m_entitiesCurrentlyLoading := w.map.m_entitiesCurrentlyLoading ++ l }
      ∧ w'.EE_DEVELOPMENT_TOOLS = w.EE_DEVELOPMENT_TOOLS
      ∧ (∀ q, (Heap.read w'.heap q).map Entity.m_ID = (Heap.read w.heap q).map Entity.m_ID) := by
  induction l with
  | nil =>
    intro w _ _
    refine ⟨w, rfl, ?_, rfl, fun _ => rfl⟩
    simp
  | cons a l ih =>
    intro w hnd hl
    obtain ⟨hal, hndl⟩ := List.nodup_cons.1 hnd
    obtain ⟨ha0, haq, ea, hea, hamap, hast⟩ := hl a (List.mem_cons_self _ _)
    have h1 : EE_ASSERT (decide (a ≠ nullptr) && decide (ea.m_mapID = w.map.m_ID)
        && !ea.IsActivated) = some () := by
      rw [EE_ASSERT_eq_some]
      simp [ha0, hamap, Entity.IsActivated, hast]
    have h2 : EE_ASSERT (!VectorContains w.map.m_entitiesCurrentlyLoading a) = some () := by
      rw [EE_ASSERT_eq_some]
      simpa [VectorContains] using haq
    have hstep : ProcessEntityAdditionAndRemoval.requestLoad w a = some
        { w with heap := Entity.LoadComponents w.heap a,
                 trace := w.trace ++ [Event.LoadComponents a],
                 map := { w.map with
                   m_entitiesCurrentlyLoading := w.map.m_entitiesCurrentlyLoading ++ [a] } } := by
      unfold ProcessEntityAdditionAndRemoval.requestLoad call_LoadComponents
      simp only [hea, h1, h2, Option.bind_eq_bind, Option.some_bind]
    have hread : ∀ q, q ≠ a → Heap.read (Entity.LoadComponents w.heap a) q = Heap.read w.heap q :=
      fun q hq => Heap.read_modify_ne _ _ hq
    obtain ⟨w', hw', hmap, htl, hheap⟩ := ih
      { w with heap := Entity.LoadComponents w.heap a,
               trace := w.trace ++ [Event.LoadComponents a],
               map := { w.map with
                 m_entitiesCurrentlyLoading := w.map.m_entitiesCurrentlyLoading ++ [a] } }
      hndl
      (by
        intro p hp
        have hpa : p ≠ a := fun h => hal (h ▸ hp)
        obtain ⟨hp0, hpq, ep, hep, hpmap, hpst⟩ := hl p (List.mem_cons_of_mem _ hp)
        refine ⟨hp0, ?_, ep, ?_, hpmap, hpst⟩
        · simp only [List.mem_append, List.mem_singleton, not_or]
          exact ⟨hpq, hpa⟩
        · show Heap.read (Entity.LoadComponents w.heap a) p = some ep
          rw [hread p hpa]; exact hep)
    refine ⟨w', ?_, ?_, htl, ?_⟩
    · simp only [List.foldlM_cons, hstep, Option.bind_eq_bind, Option.some_bind]
      exact hw'
    · rw [hmap]
      simp
    · intro q
      rw [hheap q]
      show (Heap.read (Entity.LoadComponents w.heap a) q).map Entity.m_ID = _
      unfold Entity.LoadComponents
      rw [Heap.read_modify]
      split
      · rename_i hqa
        rw [Option.map_map, hqa]; rfl
      · rfl

/-- The loading batch on a map that is not activated, when every entity of the
list is live and finishes loading: no entity is kept as still loading, and the
map and the heap are untouched. -/
theorem EntityLoadingTask.item_fold (ctx : EntityLoadingContext) (l : List EntityPtr) :
    ∀ acc : World × List EntityPtr,
    (∀ p ∈ l, (Heap.read acc.1.heap p).isSome = true ∧ ctx.updateEntityState p = true) →
    ∃ w', l.foldlM (EntityLoadingTask.item ctx false) acc = some (w', acc.2)
      ∧ w'.map = acc.1.map ∧ w'.heap = acc.1.heap
      ∧ w'.EE_DEVELOPMENT_TOOLS = acc.1.EE_DEVELOPMENT_TOOLS := by
  induction l with
  | nil =>
    intro acc _
    exact ⟨acc.1, rfl, rfl, rfl, rfl⟩
  | cons a l ih =>
    intro acc hl
    obtain ⟨hlive, hfin⟩ := hl a (List.mem_cons_self _ _)
    obtain ⟨ea, hea⟩ := Option.isSome_iff_exists.1 hlive
    have hstep : EntityLoadingTask.item ctx false acc a
        = some ({ acc.1 with trace := acc.1.trace ++ [Event.UpdateEntityState a] }, acc.2) := by
      unfold EntityLoadingTask.item
      simp only [hea, hfin, Option.bind_eq_bind, Option.some_bind, if_true, Bool.false_and,
        Bool.false_eq_true, if_false]
    obtain ⟨w', hw', hmap, hheap, htl⟩ := ih
      ({ acc.1 with trace := acc.1.trace ++ [Event.UpdateEntityState a] }, acc.2)
      (fun p hp => hl p (List.mem_cons_of_mem _ hp))
    refine ⟨w', ?_, hmap, hheap, htl⟩
    simp only [List.foldlM_cons, hstep, Option.bind_eq_bind, Option.some_bind]
    exact hw'

/-- The last two steps of a pass on an instantiated, loaded map with nothing
loading, removed or edited, whose queued entities all finish loading on their
first state update: the queue drains, nothing stays in the loading list and the
pass reports that the map is quiet. -/
theorem processEntities_load (w : World) (ctx : EntityLoadingContext)
    (hrem : w.map.m_entitiesToRemove = [])
    (hload : w.map.m_entitiesCurrentlyLoading = [])
    (hed : w.EE_DEVELOPMENT_TOOLS = true → w.map.m_editedEntities = [])
    (hinst : w.map.m_isMapInstantiated = true)
    (hst : w.map.m_status = EntityMap.Status.Loaded)
    (hnd : w.map.m_entitiesToLoad.Nodup)
    (hl : ∀ p ∈ w.map.m_entitiesToLoad, p ≠ nullptr
      ∧ ∃ e, Heap.read w.heap p = some e ∧ e.m_mapID = w.map.m_ID
        ∧ e.m_status = Entity.Status.Unloaded)
    (hfin : ∀ p ∈ w.map.m_entitiesToLoad, ctx.updateEntityState p = true) :
    ∃ w', UpdateState.processEntities w ctx = some (w', true)
      ∧ w'.map = { w.map with m_entitiesToLoad := [] }
      ∧ (∀ q, (Heap.read w'.heap q).map Entity.m_ID = (Heap.read w.heap q).map Entity.m_ID) := by
  have h1 : ProcessEntityAdditionAndRemoval.editedEntities w = some w := by
    unfold ProcessEntityAdditionAndRemoval.editedEntities
    split
    · rename_i ht
      rw [hed ht]
      simp only [List.foldlM_nil, Option.pure_def, Option.map_some', Option.some.injEq]
      exact World.editedEntities_nil_eq w (hed ht)
    · rfl
  obtain ⟨wl, hwl, hmapl, _, hheapl⟩ := requestLoad_fold w.map.m_entitiesToLoad w hnd
    (fun p hp => ⟨(hl p hp).1, by rw [hload]; exact List.not_mem_nil p, (hl p hp).2⟩)
  have h3 : ProcessEntityAdditionAndRemoval.loading w
      = some { wl with map := { wl.map with m_entitiesToLoad := [] } } := by
    unfold ProcessEntityAdditionAndRemoval.loading
    rw [if_pos hinst, hwl]
    rfl
  have hpear : ProcessEntityAdditionAndRemoval w
      = some { wl with map := { wl.map with m_entitiesToLoad := [] } } := by
    unfold ProcessEntityAdditionAndRemoval
    simp only [h1, Option.bind_eq_bind, Option.some_bind, hrem, List.length_nil,
      ProcessEntityAdditionAndRemoval.removalLoop, h3]
  have hact : ({ wl with map := { wl.map with m_entitiesToLoad := [] } } : World).map.IsActivated
      = false := by
    show decide (wl.map.m_status = EntityMap.Status.Activated) = false
    rw [hmapl]
    show decide (w.map.m_status = EntityMap.Status.Activated) = false
    rw [hst]; rfl
  have hcur : wl.map.m_entitiesCurrentlyLoading = w.map.m_entitiesToLoad := by
    rw [hmapl]
    show w.map.m_entitiesCurrentlyLoading ++ w.map.m_entitiesToLoad = _
    rw [hload]; rfl
  obtain ⟨wb, hwb, hmapb, hheapb, _⟩ := EntityLoadingTask.item_fold ctx w.map.m_entitiesToLoad
    (({ wl with map := { wl.map with m_entitiesToLoad := [] } } : World), [])
    (by
      intro p hp
      refine ⟨?_, hfin p hp⟩
      obtain ⟨_, e, he, _⟩ := hl p hp
      have := hheapl p
      rw [he] at this
      show (Heap.read wl.heap p).isSome = true
      cases hr : Heap.read wl.heap p with
      | none => rw [hr] at this; cases this
      | some _ => rfl)
  have hbatch : ∃ wB, ProcessEntityLoadingAndActivation.batch
      { wl with map := { wl.map with m_entitiesToLoad := [] } } ctx = some wB
      ∧ wB.map = { w.map with m_entitiesToLoad := [] }
      ∧ wB.heap = wl.heap := by
    unfold ProcessEntityLoadingAndActivation.batch
    cases hemp : w.map.m_entitiesToLoad with
    | nil =>
      have hemp' : ({ wl with map := { wl.map with m_entitiesToLoad := [] } } :
          World).map.m_entitiesCurrentlyLoading.isEmpty = true := by
        show wl.map.m_entitiesCurrentlyLoading.isEmpty = true
        rw [hcur, hemp]; rfl
      refine ⟨{ wl with map := { wl.map with m_entitiesToLoad := [] } }, ?_, ?_, rfl⟩
      · rw [if_pos hemp']
      · show { wl.map with m_entitiesToLoad := [] } = _
        simp only [hmapl, hload, hemp, List.append_nil]
    | cons a l =>
      have hemp' : ¬ ({ wl with map := { wl.map with m_entitiesToLoad := [] } } :
          World).map.m_entitiesCurrentlyLoading.isEmpty = true := by
        show ¬ wl.map.m_entitiesCurrentlyLoading.isEmpty = true
        rw [hcur, hemp]; simp
      refine ⟨{ wb with map := { wb.map with m_entitiesCurrentlyLoading := [] } }, ?_, ?_, hheapb⟩
      · rw [if_neg hemp', hact]
        show Option.map _ (List.foldlM _ _ wl.map.m_entitiesCurrentlyLoading) = _
        rw [hcur, hwb]
        rfl
      · show { wb.map with m_entitiesCurrentlyLoading := [] } = _
        simp only [hmapb, hmapl, hload]
  obtain ⟨wB, hwB, hmapB, hheapB⟩ := hbatch
  have hfinish : ProcessEntityLoadingAndActivation.finish wB = some wB := by
    unfold ProcessEntityLoadingAndActivation.finish
    rw [if_neg]
    rw [hmapB]
    show ¬ (w.map.m_status = EntityMap.Status.MapEntitiesLoading ∧ _)
    rw [hst]
    exact fun h => absurd h.1 (by decide)
  refine ⟨wB, ?_, hmapB, ?_⟩
  · unfold UpdateState.processEntities ProcessEntityLoadingAndActivation
    simp only [hpear, hwB, hfinish, Option.bind_eq_bind, Option.some_bind]
    rw [hmapB]
    show some (wB, w.map.m_entitiesCurrentlyLoading.isEmpty) = _
    rw [hload]; rfl
  · intro q
    rw [hheapB]
    exact hheapl q

/-- C3: for every n, on a freshly constructed transient map to which n distinct
entities are added (distinct addresses and ids, in no map and unloaded; with
development tools also validly named, without spatial parent and fewer than
2^32 - 1 of them, the range of the name counter), every addition succeeds, `Load`
succeeds and leaves status Loaded and the map instantiated, and, when every
entity finishes loading on its first state update, the first `UpdateState` pass
succeeds and returns true with the queue of entities to load and the loading
list empty, the n entities in the entity list and each of them found under its
id in the id lookup map. -/
theorem C3_transient_map_loads (w0 : World) (mapID : EntityMapID) (ps : List EntityPtr)
    (ctx : EntityLoadingContext)
    (hmap : w0.map = EntityMap.mkTransient mapID)
    (hnd : ps.Nodup)
    (hfresh : ∀ p ∈ ps, p ≠ nullptr ∧ ∃ e, Heap.read w0.heap p = some e ∧ e.m_mapID = 0
      ∧ e.m_status = Entity.Status.Unloaded
      ∧ (w0.EE_DEVELOPMENT_TOOLS = true →
          StringID.IsValid e.m_name = true ∧ e.m_pParentSpatialEntity = none))
    (hids : ∀ p ∈ ps, ∀ q ∈ ps, ∀ ep eq, Heap.read w0.heap p = some ep →
      Heap.read w0.heap q = some eq → ep.m_ID = eq.m_ID → p = q)
    (hsize : w0.EE_DEVELOPMENT_TOOLS = true → ps.length + 1 ≤ 2 ^ 32)
    (hfin : ∀ p ∈ ps, ctx.updateEntityState p = true) :
    ∃ w1 w2 w3, AddEntities w0 ps = some w1
      ∧ Load w1 = some w2
      ∧ w2.map.m_status = EntityMap.Status.Loaded
      ∧ w2.map.m_isMapInstantiated = true
      ∧ UpdateState w2 ctx = some (w3, true)
      ∧ w3.map.m_status = EntityMap.Status.Loaded
      ∧ w3.map.m_isMapInstantiated = true
      ∧ w3.map.m_entitiesToLoad = []
      ∧ w3.map.m_entitiesCurrentlyLoading = []
      ∧ w3.map.m_entities = ps
      ∧ ∀ p ∈ ps, ∃ e, Heap.read w3.heap p = some e ∧ w3.map.FindEntity e.m_ID = some p := by
  obtain ⟨w1, hw1, hE, hL, hC, hR, hEd, hH, hS, hI, hU, hT, hID, hTl, hres, _, _⟩ :=
    AddEntities_fold ps w0 hnd
      (by
        intro p hp
        obtain ⟨hp0, e, he, hm, hs, ht⟩ := hfresh p hp
        refine ⟨hp0, ?_, e, he, hm, hs, ?_, ht⟩
        · rw [hmap]; exact List.not_mem_nil p
        · rw [hmap]; rfl)
      hids
      (by
        intro ht
        have := hsize ht
        rw [hmap]
        show 0 + ps.length + 1 ≤ 2 ^ 32
        omega)
  rw [hmap] at hE hL hC hR hEd hH hS hI hU hT
  have hload : Load w1 = some { w1 with map := { w1.map with
      m_status := EntityMap.Status.Loaded, m_isMapInstantiated := true } } := by
    unfold Load
    have h1 : EE_ASSERT (decide (w1.map.m_status = EntityMap.Status.Unloaded)) = some () := by
      rw [EE_ASSERT_eq_some, hS]; rfl
    simp only [h1, Option.bind_eq_bind, Option.some_bind]
    rw [if_pos]
    rw [hT]; rfl
  obtain ⟨w3, hw3, hmap3, hheap3⟩ := processEntities_load
    { w1 with map := { w1.map with
      m_status := EntityMap.Status.Loaded, m_isMapInstantiated := true } } ctx
    hR hC (fun _ => hEd) rfl rfl
    (by show w1.map.m_entitiesToLoad.Nodup; rw [hL]; exact hnd)
    (by
      intro p hp
      have hp' : p ∈ ps := by
        have : p ∈ w1.map.m_entitiesToLoad := hp
        rw [hL] at this; exact this
      obtain ⟨e, he, hm, hs, _⟩ := hres p hp'
      exact ⟨(hfresh p hp').1, e, he, by rw [hm]; exact hID.symm, hs⟩)
    (by
      intro p hp
      have : p ∈ w1.map.m_entitiesToLoad := hp
      rw [hL] at this
      exact hfin p this)
  have hpass : UpdateState { w1 with map := { w1.map with
      m_status := EntityMap.Status.Loaded, m_isMapInstantiated := true } } ctx
        = some (w3, true) := by
    unfold UpdateState
    have h1 : EE_ASSERT (!({ w1 with map := { w1.map with
        m_status := EntityMap.Status.Loaded, m_isMapInstantiated := true } } :
          World).EE_DEVELOPMENT_TOOLS
        || ({ w1 with map := { w1.map with
          m_status := EntityMap.Status.Loaded, m_isMapInstantiated := true } } :
            World).map.m_entitiesToHotReload.isEmpty) = some () := by
      rw [EE_ASSERT_eq_some]
      show (!w1.EE_DEVELOPMENT_TOOLS || w1.map.m_entitiesToHotReload.isEmpty) = true
      rw [hH]; simp [EntityMap.mkTransient]
    simp only [h1, Option.bind_eq_bind, Option.some_bind]
    unfold UpdateState.processUnload
    rw [if_neg (by show ¬ w1.map.m_isUnloadRequested = true; rw [hU]; exact Bool.false_ne_true)]
    unfold UpdateState.processLoading
    rw [if_neg (by
      show ¬ EntityMap.Status.Loaded = EntityMap.Status.MapDescriptorLoading
      decide)]
    exact hw3
  refine ⟨w1, _, w3, hw1, hload, rfl, rfl, hpass, ?_, ?_, ?_, ?_, ?_, ?_⟩
  · rw [hmap3]
  · rw [hmap3]
  · rw [hmap3]
  · rw [hmap3]; exact hC
  · rw [hmap3]
    show w1.map.m_entities = ps
    rw [hE]; rfl
  · intro p hp
    obtain ⟨e, he, _, _, hfind⟩ := hres p hp
    have h3 := hheap3 p
    have he' : Heap.read ({ w1 with map := { w1.map with
      m_status := EntityMap.Status.Loaded, m_isMapInstantiated := true } } : World).heap p
        = some e := he
    rw [he'] at h3
    cases hr : Heap.read w3.heap p with
    | none => rw [hr] at h3; cases h3
    | some e3 =>
      rw [hr] at h3
      have hid : e3.m_ID = e.m_ID := Option.some.inj h3
      refine ⟨e3, rfl, ?_⟩
      rw [hid]
      unfold EntityMap.FindEntity
      rw [hmap3]
      exact hfind

theorem C3_transient_map_loads_witness :
    ∃ w1 w2 w3, AddEntities exampleWorldFresh [1, 2, 3] = some w1
      ∧ Load w1 = some w2
      ∧ w2.map.m_status = EntityMap.Status.Loaded
      ∧ w2.map.m_isMapInstantiated = true
      ∧ UpdateState w2 (exampleContext true) = some (w3, true)
      ∧ w3.map.m_status = EntityMap.Status.Loaded
      ∧ w3.map.m_isMapInstantiated = true
      ∧ w3.map.m_entitiesToLoad = []
      ∧ w3.map.m_entitiesCurrentlyLoading = []
      ∧ w3.map.m_entities = [1, 2, 3]
      ∧ ∀ p ∈ [1, 2, 3], ∃ e, Heap.read w3.heap p = some e ∧ w3.map.FindEntity e.m_ID = some p :=
  C3_transient_map_loads exampleWorldFresh 7 [1, 2, 3] (exampleContext true) rfl (by decide)
    (by
      intro p hp
      have hp' : p = 1 ∨ p = 2 ∨ p = 3 := by simpa using hp
      rcases hp' with rfl | rfl | rfl
      · exact ⟨by decide, _, rfl, rfl, rfl, fun _ => ⟨by decide, rfl⟩⟩
      · exact ⟨by decide, _, rfl, rfl, rfl, fun _ => ⟨by decide, rfl⟩⟩
      · exact ⟨by decide, _, rfl, rfl, rfl, fun _ => ⟨by decide, rfl⟩⟩)
    (by
      intro p hp q hq ep eq hep heq hid
      have hp' : p = 1 ∨ p = 2 ∨ p = 3 := by simpa using hp
      have hq' : q = 1 ∨ q = 2 ∨ q = 3 := by simpa using hq
      have h1 : Heap.read exampleWorldFresh.heap 1 = some (exampleEntity 11 "Foo".toList) := rfl
      have h2 : Heap.read exampleWorldFresh.heap 2 = some (exampleEntity 12 "Foo".toList) := rfl
      have h3 : Heap.read exampleWorldFresh.heap 3 = some (exampleEntity 13 "Bar".toList) := rfl
      rcases hp' with rfl | rfl | rfl <;> rcases hq' with rfl | rfl | rfl <;>
        first
        | rfl
        | (rw [h1] at hep; rw [h2] at heq; cases hep; cases heq; exact absurd hid (by decide))
        | (rw [h1] at hep; rw [h3] at heq; cases hep; cases heq; exact absurd hid (by decide))
        | (rw [h2] at hep; rw [h1] at heq; cases hep; cases heq; exact absurd hid (by decide))
        | (rw [h2] at hep; rw [h3] at heq; cases hep; cases heq; exact absurd hid (by decide))
        | (rw [h3] at hep; rw [h1] at heq; cases hep; cases heq; exact absurd hid (by decide))
        | (rw [h3] at hep; rw [h2] at heq; cases hep; cases heq; exact absurd hid (by decide)))
    (by intro _; decide)
    (by intro p _; rfl)

/-- C8, as stated, fails in the direction from the entity to the index while a
removal is deferred.  On the loaded map with id 7 holding the entities at 1 and
2, `RemoveEntity` of the entity with id 12 hands back the entity at 2, which is
no longer found in the id lookup map but still records the map id 7; the next
`UpdateState` pass completes the removal and clears the recorded id. -/
theorem C8_counterexample :
    (RemoveEntity exampleWorldLoaded 12).map (fun r =>
        (r.2, (Heap.read r.1.heap 2).map Entity.m_mapID, r.1.map.m_ID, r.1.map.FindEntity 12))
      = some (2, some 7, 7, none)
    ∧ (RemoveEntity exampleWorldLoaded 12).map (fun r => r.1.map.m_entitiesToRemove)
      = some [{ m_pEntity := 2, m_shouldDestroy := false }]
    ∧ ((RemoveEntity exampleWorldLoaded 12).bind fun r =>
        (UpdateState r.1 (exampleContext true)).map fun r2 =>
          ((Heap.read r2.1.heap 2).map Entity.m_mapID, r2.1.map.m_ID, r2.1.map.FindEntity 12))
      = some (some 0, 7, none) := by
  refine ⟨by decide, by decide, by decide⟩

/-- The load-cancelling branch of `RemoveEntityInternal` hands the entity back
as it is.  On the transient map with id 7 holding the queued entities at 1 and
2, `RemoveEntity` of the entity with id 12 hands back the entity at 2, which is
no longer found in the id lookup map and is in no worklist, and which records the
map id 7 after the call and after `Load` and a full `UpdateState` pass. -/
theorem RemoveEntity_cancelled_load_keeps_map_id :
    (RemoveEntity exampleWorldQueued 12).map (fun r =>
        (r.2, (Heap.read r.1.heap 2).map Entity.m_mapID, r.1.map.m_ID, r.1.map.FindEntity 12))
      = some (2, some 7, 7, none)
    ∧ (RemoveEntity exampleWorldQueued 12).map (fun r =>
        (r.1.map.m_entitiesToLoad, r.1.map.m_entitiesToRemove)) = some ([1], [])
    ∧ ((RemoveEntity exampleWorldQueued 12).bind fun r => (Load r.1).bind fun w =>
        (UpdateState w (exampleContext true)).map fun r2 =>
          ((Heap.read r2.1.heap 2).map Entity.m_mapID, r2.1.map.m_ID, r2.1.map.FindEntity 12))
      = some (some 7, 7, none) := by
  refine ⟨by decide, by decide, by decide⟩
/-! ## C8: the id lookup map and the membership recorded on the entities -/

theorem Heap.membership_modify (h : Heap) (p : EntityPtr) (f : Entity → Entity)
    (hf : ∀ e, (f e).membership = e.membership) (q : EntityPtr) :
    (Heap.read (Heap.modify h p f) q).map Entity.membership
      = (Heap.read h q).map Entity.membership := by
  rw [Heap.read_modify]
  split
  · rename_i hq
    rw [hq, Option.map_map]
    cases Heap.read h p with
    | none => rfl
    | some e => exact congrArg some (hf e)
  · rfl

theorem Heap.membership_Deactivate (h : Heap) (p q : EntityPtr) :
    (Heap.read (Entity.Deactivate h p) q).map Entity.membership
      = (Heap.read h q).map Entity.membership := by
  rw [Entity.read_Deactivate, Option.map_map]
  cases Heap.read h q with
  | none => rfl
  | some e =>
    simp only [Option.map_some', Function.comp_apply, Option.some.injEq]
    split <;> rfl

theorem Heap.membership_LoadComponents (h : Heap) (p q : EntityPtr) :
    (Heap.read (Entity.LoadComponents h p) q).map Entity.membership
      = (Heap.read h q).map Entity.membership := by
  unfold Entity.LoadComponents
  apply Heap.membership_modify
  intro _; rfl

theorem Heap.membership_UnloadComponents (h : Heap) (p q : EntityPtr) :
    (Heap.read (Entity.UnloadComponents h p) q).map Entity.membership
      = (Heap.read h q).map Entity.membership := by
  unfold Entity.UnloadComponents
  apply Heap.membership_modify
  intro _; rfl

theorem Heap.membership_Activate (h : Heap) (p q : EntityPtr) :
    (Heap.read (Entity.Activate h p) q).map Entity.membership
      = (Heap.read h q).map Entity.membership := by
  unfold Entity.Activate
  apply Heap.membership_modify
  intro _; rfl

theorem Heap.membership_of_sameCore {h h' : Heap} (hsc : Heap.SameCore h h') (q : EntityPtr) :
    (Heap.read h' q).map Entity.membership = (Heap.read h q).map Entity.membership := by
  have := hsc q
  cases h1 : Heap.read h' q with
  | none =>
    rw [h1] at this
    cases h2 : Heap.read h q with
    | none => rfl
    | some e => rw [h2] at this; cases this
  | some e' =>
    rw [h1] at this
    cases h2 : Heap.read h q with
    | none => rw [h2] at this; cases this
    | some e =>
      rw [h2] at this
      have hc : e'.core = e.core := Option.some.inj this
      show some e'.membership = some e.membership
      unfold Entity.membership
      rw [Entity.core_ID hc, Entity.core_mapID hc]

theorem Heap.read_of_membership {h h' : Heap} {q : EntityPtr} {e : Entity}
    (hm : (Heap.read h' q).map Entity.membership = (Heap.read h q).map Entity.membership)
    (he : Heap.read h q = some e) :
    ∃ e', Heap.read h' q = some e' ∧ e'.m_ID = e.m_ID ∧ e'.m_mapID = e.m_mapID := by
  rw [he] at hm
  cases h1 : Heap.read h' q with
  | none => rw [h1] at hm; cases hm
  | some e' =>
    rw [h1] at hm
    have hc : e'.membership = e.membership := Option.some.inj hm
    unfold Entity.membership at hc
    exact ⟨e', rfl, congrArg Prod.fst hc, congrArg Prod.snd hc⟩

/-- The invariant only depends on the id of the map, the id lookup map, the two
queues and the ids recorded on the entities. -/
theorem MembershipInv.congr {w w' : World} (hinv : MembershipInv w)
    (hid : w'.map.m_ID = w.map.m_ID)
    (hidx : w'.map.m_entityIDLookupMap = w.map.m_entityIDLookupMap)
    (hrem : w'.map.m_entitiesToRemove = w.map.m_entitiesToRemove)
    (hload : ∀ p ∈ w'.map.m_entitiesToLoad, p ∈ w.map.m_entitiesToLoad)
    (hheap : ∀ q, (Heap.read w'.heap q).map Entity.membership
      = (Heap.read w.heap q).map Entity.membership) :
    MembershipInv w' := by
  obtain ⟨h0, ha, hb, hg, hc⟩ := hinv
  refine ⟨by rw [hid]; exact h0, ?_, by rw [hidx]; exact hb, by rw [hrem]; exact hg, ?_⟩
  · intro id p hp
    rw [hidx] at hp
    obtain ⟨e, he, heid, hem⟩ := ha id p hp
    obtain ⟨e', he', h1, h2⟩ := Heap.read_of_membership (hheap p) he
    exact ⟨e', he', h1.trans heid, by rw [h2, hem, hid]⟩
  · intro r hr
    rw [hrem] at hr
    obtain ⟨⟨e, he, hem⟩, hnl, hni⟩ := hc r hr
    obtain ⟨e', he', _, h2⟩ := Heap.read_of_membership (hheap r.m_pEntity) he
    refine ⟨⟨e', he', by rw [h2, hem, hid]⟩, fun hp => hnl (hload _ hp), ?_⟩
    rw [hidx]; exact hni

theorem call_LoadComponents_membership {w w' : World} {p : EntityPtr}
    (hinv : MembershipInv w) (h : call_LoadComponents w p = some w') : MembershipInv w' := by
  obtain ⟨_, rfl⟩ := call_LoadComponents_eq h
  exact hinv.congr rfl rfl rfl (fun _ hp => hp) (Heap.membership_LoadComponents _ _)

theorem call_UnloadComponents_membership {w w' : World} {p : EntityPtr}
    (hinv : MembershipInv w) (h : call_UnloadComponents w p = some w') : MembershipInv w' := by
  obtain ⟨_, rfl⟩ := call_UnloadComponents_eq h
  exact hinv.congr rfl rfl rfl (fun _ hp => hp) (Heap.membership_UnloadComponents _ _)

theorem call_Activate_membership {w w' : World} {p : EntityPtr}
    (hinv : MembershipInv w) (h : call_Activate w p = some w') : MembershipInv w' := by
  obtain ⟨_, rfl⟩ := call_Activate_eq h
  exact hinv.congr rfl rfl rfl (fun _ hp => hp) (Heap.membership_Activate _ _)

theorem call_Deactivate_membership {w w' : World} {p : EntityPtr}
    (hinv : MembershipInv w) (h : call_Deactivate w p = some w') : MembershipInv w' := by
  obtain ⟨_, rfl⟩ := call_Deactivate_eq h
  exact hinv.congr rfl rfl rfl (fun _ hp => hp) (Heap.membership_Deactivate _ _)

theorem erase_unsorted_subset {α : Type} (l : List α) (i : Nat) :
    ∀ x ∈ erase_unsorted l i, x ∈ l := by
  intro x hx
  by_cases hi : i < l.length
  · exact (List.eraseIdx_sublist l i).subset ((erase_unsorted_perm l i hi).subset hx)
  · rw [erase_unsorted_of_ge l i (Nat.le_of_not_lt hi)] at hx
    exact hx

theorem erase_unsorted_map {α β : Type} (f : α → β) (l : List α) (i : Nat) :
    (erase_unsorted l i).map f = erase_unsorted (l.map f) i := by
  unfold erase_unsorted
  rw [List.getLast?_map]
  cases l.getLast? with
  | none => rfl
  | some b =>
    simp only [Option.map_some', List.length_map]
    split
    · rw [List.map_dropLast, List.map_set]
    · rfl

/-- The invariant survives any step that keeps the id of the map, only drops
entries of the id lookup map and of the two queues, and keeps the ids recorded on
the entities that remain entered or queued for removal. -/
theorem MembershipInv.mono {w w' : World} (hinv : MembershipInv w)
    (hid : w'.map.m_ID = w.map.m_ID)
    (hidx : ∀ x ∈ w'.map.m_entityIDLookupMap, x ∈ w.map.m_entityIDLookupMap)
    (hkeys : (w'.map.m_entityIDLookupMap.map Prod.fst).Nodup)
    (hrem : ∀ r ∈ w'.map.m_entitiesToRemove, r ∈ w.map.m_entitiesToRemove)
    (hremnd : (w'.map.m_entitiesToRemove.map RemovalRequest.m_pEntity).Nodup)
    (hload : ∀ p ∈ w'.map.m_entitiesToLoad, p ∈ w.map.m_entitiesToLoad)
    (hheap : ∀ q, ((∃ id, (id, q) ∈ w'.map.m_entityIDLookupMap)
        ∨ ∃ r ∈ w'.map.m_entitiesToRemove, r.m_pEntity = q) →
      (Heap.read w'.heap q).map Entity.membership
        = (Heap.read w.heap q).map Entity.membership) :
    MembershipInv w' := by
  obtain ⟨h0, ha, _, _, hc⟩ := hinv
  refine ⟨by rw [hid]; exact h0, ?_, hkeys, hremnd, ?_⟩
  · intro id p hp
    obtain ⟨e, he, heid, hem⟩ := ha id p (hidx _ hp)
    obtain ⟨e', he', h1, h2⟩ := Heap.read_of_membership (hheap p (Or.inl ⟨id, hp⟩)) he
    exact ⟨e', he', h1.trans heid, by rw [h2, hem, hid]⟩
  · intro r hr
    obtain ⟨⟨e, he, hem⟩, hnl, hni⟩ := hc r (hrem r hr)
    obtain ⟨e', he', _, h2⟩ :=
      Heap.read_of_membership (hheap r.m_pEntity (Or.inr ⟨r, hr, rfl⟩)) he
    exact ⟨⟨e', he', by rw [h2, hem, hid]⟩, fun hp => hnl (hload _ hp),
      fun id hp => hni id (hidx _ hp)⟩

theorem MembershipInv.values_ne_queued {w : World} (hinv : MembershipInv w) {id : EntityID}
    {p : EntityPtr} (hp : (id, p) ∈ w.map.m_entityIDLookupMap) :
    ∀ r ∈ w.map.m_entitiesToRemove, r.m_pEntity ≠ p := by
  intro r hr h
  exact (hinv.2.2.2.2 r hr).2.2 id (h ▸ hp)

theorem THashMap.mem_insert {κ ν : Type} [DecidableEq κ] {m : List (κ × ν)} {k : κ} {v : ν}
    {x : κ × ν} (hx : x ∈ THashMap.insert m k v) : x ∈ m ∨ x = (k, v) := by
  unfold THashMap.insert at hx
  split at hx
  · exact Or.inl hx
  · simpa using hx

theorem THashMap.nodup_insert {κ ν : Type} [DecidableEq κ] {m : List (κ × ν)} (k : κ) (v : ν)
    (hnd : (m.map Prod.fst).Nodup) : ((THashMap.insert m k v).map Prod.fst).Nodup := by
  unfold THashMap.insert
  split
  · exact hnd
  · rename_i hnone
    rw [List.map_append, List.nodup_append]
    refine ⟨hnd, by simp, ?_⟩
    intro a ha hb
    simp only [List.map_cons, List.map_nil, List.mem_singleton] at hb
    subst hb
    exact (THashMap.find_eq_none_iff m a).1 hnone ha

theorem AddEntity_membership {w w' : World} {p : EntityPtr} (hinv : MembershipInv w)
    (h : AddEntity w p = some w') : MembershipInv w' := by
  obtain ⟨e, name, _, he, hadd, _, hnq, _, rfl⟩ := AddEntity_eq h
  obtain ⟨h0, ha, hb, hg, hc⟩ := hinv
  have hmap0 : e.m_mapID = 0 := by
    simpa [Entity.IsAddedToMap] using hadd
  have hread : ∀ q, q ≠ p → Heap.read (Heap.modify w.heap p fun x =>
      { x with m_name := name, m_mapID := w.map.m_ID }) q = Heap.read w.heap q :=
    fun q hq => Heap.read_modify_ne _ _ hq
  have hreadp : Heap.read (Heap.modify w.heap p fun x =>
      { x with m_name := name, m_mapID := w.map.m_ID }) p
        = some { e with m_name := name, m_mapID := w.map.m_ID } := by
    rw [Heap.read_modify_self, he]; rfl
  have hrp : ∀ r ∈ w.map.m_entitiesToRemove, r.m_pEntity ≠ p := by
    intro r hr hrp
    obtain ⟨⟨er, her, hem⟩, _, _⟩ := hc r hr
    rw [hrp, he] at her
    cases her
    exact h0 (hem.symm.trans hmap0)
  refine ⟨h0, ?_, THashMap.nodup_insert _ _ hb, hg, ?_⟩
  · intro id q hq
    by_cases hqp : q = p
    · subst hqp
      refine ⟨_, hreadp, ?_, rfl⟩
      rcases THashMap.mem_insert hq with hq | hq
      · obtain ⟨e0, he0, heid, _⟩ := ha id q hq
        rw [he] at he0
        cases he0
        exact heid
      · exact (congrArg Prod.fst hq).symm
    · rcases THashMap.mem_insert hq with hq | hq
      · obtain ⟨e0, he0, heid, hem⟩ := ha id q hq
        exact ⟨e0, (hread q hqp).trans he0, heid, hem⟩
      · exact absurd (congrArg Prod.snd hq) hqp
  · intro r hr
    obtain ⟨⟨er, her, hem⟩, hnl, hni⟩ := hc r hr
    have hne := hrp r hr
    refine ⟨⟨er, (hread _ hne).trans her, hem⟩, ?_, ?_⟩
    · show r.m_pEntity ∉ w.map.m_entitiesToLoad ++ [p]
      simp only [List.mem_append, List.mem_singleton, not_or]
      exact ⟨hnl, hne⟩
    · intro id hmem
      rcases THashMap.mem_insert hmem with hmem | hmem
      · exact hni id hmem
      · exact hne (congrArg Prod.snd hmem)

theorem queuedWithID_eq_true {h : Heap} {id : EntityID} {q : EntityPtr}
    (hq : queuedWithID h id q = true) : ∃ e, Heap.read h q = some e ∧ e.m_ID = id := by
  unfold queuedWithID at hq
  cases hr : Heap.read h q with
  | none => rw [hr] at hq; cases hq
  | some e =>
    rw [hr] at hq
    exact ⟨e, rfl, by simpa using hq⟩

theorem RemoveEntityInternal_membership {w w' : World} {id : EntityID} {d : Bool}
    {r : Option EntityPtr} (hinv : MembershipInv w)
    (h : RemoveEntityInternal w id d = some (w', r)) : MembershipInv w' := by
  obtain ⟨p, e, w1, e1, nl, hfind, he, hw1, he1, _, _, hsched⟩ := RemoveEntityInternal_spec h
  obtain ⟨hsc, hmap1, _⟩ := reparent_frame hw1
  -- after the spatial hierarchy was handled
  have hinv1 : MembershipInv w1 :=
    hinv.congr (by rw [hmap1]) (by rw [hmap1]) (by rw [hmap1])
      (fun _ hp => by rw [hmap1] at hp; exact hp) (Heap.membership_of_sameCore hsc)
  have hmem : (id, p) ∈ w.map.m_entityIDLookupMap := THashMap.mem_of_find hfind
  obtain ⟨h0, ha, hb, hg, hc⟩ := hinv1
  rw [hmap1] at h0 ha hb hg hc
  obtain ⟨e1', he1', heid, hem1⟩ := ha id p hmem
  rw [he1] at he1'
  cases he1'
  -- an entity that carries the erased id is not entered any more
  have hgone : ∀ q eq, Heap.read w1.heap q = some eq → eq.m_ID = id →
      ∀ id', (id', q) ∉ THashMap.erase w.map.m_entityIDLookupMap e1.m_ID := by
    intro q eq heq hqid id' hmem'
    obtain ⟨hin, hne⟩ := THashMap.mem_erase hb hmem'
    obtain ⟨eq', heq', heqid, _⟩ := ha id' q hin
    rw [heq] at heq'
    cases heq'
    exact hne (heqid.symm.trans (hqid.trans heid.symm))
  obtain ⟨_, _, hidx, _, _, hmid, _, _, _, _, hcase⟩ := scheduleUnload_spec hsched
  have hidx' : w'.map.m_entityIDLookupMap = THashMap.erase w.map.m_entityIDLookupMap e1.m_ID :=
    hidx
  have hmid' : w'.map.m_ID = w.map.m_ID := hmid.trans (by rw [← hmap1])
  have hkeys : (w'.map.m_entityIDLookupMap.map Prod.fst).Nodup := by
    rw [hidx']; exact THashMap.nodup_erase _ hb
  have hsub : ∀ x ∈ w'.map.m_entityIDLookupMap, x ∈ w.map.m_entityIDLookupMap := by
    intro x hx
    rw [hidx'] at hx
    exact (THashMap.erase_sublist _ _).subset hx
  rcases hcase with ⟨idx, q, hvf, hq, hload, hrem, hheap⟩ | ⟨hvf, _, hload, hrem, hheap, _, _⟩
  · -- the load request is cancelled
    have hload' : w'.map.m_entitiesToLoad = erase_unsorted w.map.m_entitiesToLoad idx := by
      rw [hload]; show erase_unsorted w1.map.m_entitiesToLoad idx = _; rw [hmap1]
    have hrem' : w'.map.m_entitiesToRemove = w.map.m_entitiesToRemove := by
      rw [hrem]; show w1.map.m_entitiesToRemove = _; rw [hmap1]
    have hq' : w.map.m_entitiesToLoad[idx]? = some q := by
      have : w1.map.m_entitiesToLoad[idx]? = some q := hq
      rw [hmap1] at this; exact this
    have hqmem : q ∈ w.map.m_entitiesToLoad := List.getElem?_mem hq'
    obtain ⟨x, hx, hpx, _⟩ := VectorFindIndex_some hvf
    have hxq : x = q := by
      have hx' : w1.map.m_entitiesToLoad[idx]? = some x := hx
      rw [hmap1, hq'] at hx'
      exact (Option.some.inj hx').symm
    subst hxq
    obtain ⟨eq, heq, hqid⟩ := queuedWithID_eq_true hpx
    have heq' : Heap.read w1.heap x = some eq := heq
    have hinv1 : MembershipInv { w1 with map := w.map } := ⟨h0, ha, hb, hg, hc⟩
    refine hinv1.mono hmid' hsub hkeys (by rw [hrem']; exact fun _ h => h)
      (by rw [hrem']; exact hg)
      (by rw [hload']; exact erase_unsorted_subset _ _) ?_
    intro q' hq'rel
    rcases hheap with ⟨_, _, hfree, _, _⟩ | ⟨_, hsame, _, _⟩
    · have hne : q' ≠ x := by
        rcases hq'rel with ⟨id', hin⟩ | ⟨r', hr', hr'q⟩
        · intro hc'
          rw [hidx', hc'] at hin
          exact hgone x eq heq' hqid id' hin
        · intro hc'
          rw [hrem'] at hr'
          exact (hc r' hr').2.1 (by rw [hr'q, hc']; exact hqmem)
      rw [hfree]
      show (Heap.read (Heap.free w1.heap x) q').map _ = _
      rw [Heap.read_free, if_neg hne]
    · rw [hsame]
  · -- the removal is queued
    have hload' : w'.map.m_entitiesToLoad = w.map.m_entitiesToLoad := by
      rw [hload]; show w1.map.m_entitiesToLoad = _; rw [hmap1]
    have hrem' : w'.map.m_entitiesToRemove
        = w.map.m_entitiesToRemove ++ [{ m_pEntity := p, m_shouldDestroy := d }] := by
      rw [hrem]; show w1.map.m_entitiesToRemove ++ _ = _; rw [hmap1]
    have hheap' : w'.heap = w1.heap := hheap
    have hpr : ∀ r' ∈ w.map.m_entitiesToRemove, r'.m_pEntity ≠ p :=
      fun r' hr' hrp => (hc r' hr').2.2 id (hrp ▸ hmem)
    refine ⟨by rw [hmid']; exact h0, ?_, hkeys, ?_, ?_⟩
    · intro id' q' hin
      obtain ⟨eq, heq, hqid, hqm⟩ := ha id' q' (hsub _ hin)
      exact ⟨eq, by rw [hheap']; exact heq, hqid, by rw [hmid']; exact hqm⟩
    · rw [hrem', List.map_append, List.nodup_append]
      refine ⟨hg, by simp, ?_⟩
      intro a ha1 ha2
      simp only [List.map_cons, List.map_nil, List.mem_singleton] at ha2
      obtain ⟨r', hr', hr'a⟩ := List.mem_map.1 ha1
      exact hpr r' hr' (hr'a.trans ha2)
    · intro r' hr'
      rw [hrem'] at hr'
      rcases List.mem_append.1 hr' with hr' | hr'
      · obtain ⟨⟨er, her, hem⟩, hnl, hni⟩ := hc r' hr'
        refine ⟨⟨er, by rw [hheap']; exact her, by rw [hmid']; exact hem⟩,
          by rw [hload']; exact hnl, fun id' hin => hni id' (hsub _ hin)⟩
      · simp only [List.mem_singleton] at hr'
        subst hr'
        refine ⟨⟨e1, by rw [hheap']; exact he1, by rw [hmid']; exact hem1⟩, ?_, ?_⟩
        · rw [hload']
          intro hpl
          have := VectorFindIndex_none hvf p (by
            show p ∈ w1.map.m_entitiesToLoad
            rw [hmap1]; exact hpl)
          have hp1 : queuedWithID w1.heap id p = true := by
            unfold queuedWithID
            rw [he1]
            simpa using heid
          rw [hp1] at this
          cases this
        · intro id' hin
          rw [hidx'] at hin
          exact hgone p e1 he1 heid id' hin

/-- A step that touches neither the id of the map, the id lookup map, the queues
nor the heap keeps the invariant. -/
theorem MembershipInv.of_eq {w w' : World} (hinv : MembershipInv w)
    (hid : w'.map.m_ID = w.map.m_ID)
    (hidx : w'.map.m_entityIDLookupMap = w.map.m_entityIDLookupMap)
    (hrem : w'.map.m_entitiesToRemove = w.map.m_entitiesToRemove)
    (hload : ∀ p ∈ w'.map.m_entitiesToLoad, p ∈ w.map.m_entitiesToLoad)
    (hheap : w'.heap = w.heap) : MembershipInv w' :=
  hinv.congr hid hidx hrem hload (fun q => by rw [hheap])

theorem endEditing_membership {w w' : World} {p : EntityPtr} (hinv : MembershipInv w)
    (h : ProcessEntityAdditionAndRemoval.endEditing w p = some w') : MembershipInv w' := by
  unfold ProcessEntityAdditionAndRemoval.endEditing at h
  simp only [Option.bind_eq_bind, Option.bind_eq_some, Option.some.injEq] at h
  obtain ⟨_, _, _, _, rfl⟩ := h
  exact hinv.of_eq rfl rfl rfl (fun _ hp => hp) rfl

theorem editedEntities_membership {w w' : World} (hinv : MembershipInv w)
    (h : ProcessEntityAdditionAndRemoval.editedEntities w = some w') : MembershipInv w' := by
  unfold ProcessEntityAdditionAndRemoval.editedEntities at h
  split at h
  · obtain ⟨w1, h1, rfl⟩ := Option.map_eq_some'.1 h
    have := foldlM_inv ProcessEntityAdditionAndRemoval.endEditing MembershipInv
      (fun b a b' hb hs => endEditing_membership hb hs) _ _ _ hinv h1
    exact this.of_eq rfl rfl rfl (fun _ hp => hp) rfl
  · cases h
    exact hinv

theorem removeEntity_membership {w w' : World} {i : Nat} {r : RemovalRequest}
    (hinv : MembershipInv w) (hr : w.map.m_entitiesToRemove[i]? = some r)
    (h : ProcessEntityAdditionAndRemoval.removeEntity w i r = some w') : MembershipInv w' := by
  unfold ProcessEntityAdditionAndRemoval.removeEntity at h
  simp only [Option.bind_eq_bind, Option.bind_eq_some, Option.some.injEq] at h
  obtain ⟨w1, h1, w2, h2, rfl⟩ := h
  obtain ⟨_, rfl⟩ := call_UnloadComponents_eq h1
  have hrmem : r ∈ w.map.m_entitiesToRemove := List.getElem?_mem hr
  have hptr : (w.map.m_entitiesToRemove.map RemovalRequest.m_pEntity)[i]? = some r.m_pEntity := by
    rw [List.getElem?_map, hr]; rfl
  -- the heap away from the removed entity
  have hw2 : w2.map.m_ID = w.map.m_ID ∧ w2.map.m_entityIDLookupMap = w.map.m_entityIDLookupMap
      ∧ w2.map.m_entitiesToRemove = w.map.m_entitiesToRemove
      ∧ w2.map.m_entitiesToLoad = w.map.m_entitiesToLoad
      ∧ ∀ q, q ≠ r.m_pEntity → Heap.read w2.heap q = Heap.read w.heap q := by
    unfold ProcessEntityAdditionAndRemoval.destroyIfRequested at h2
    split at h2
    · obtain ⟨_, rfl⟩ := call_Delete_eq h2
      refine ⟨rfl, rfl, rfl, rfl, ?_⟩
      intro q hq
      dsimp only
      rw [Heap.read_free, if_neg hq, Heap.read_modify_ne _ _ hq]
      exact Heap.read_modify_ne _ _ hq
    · cases h2
      refine ⟨rfl, rfl, rfl, rfl, ?_⟩
      intro q hq
      dsimp only
      rw [Heap.read_modify_ne _ _ hq]
      exact Heap.read_modify_ne _ _ hq
  obtain ⟨hid, hidx, hrem, hload, hheap⟩ := hw2
  have hg := hinv.2.2.2.1
  have hc := hinv.2.2.2.2
  refine hinv.mono hid (by rw [hidx]; exact fun _ h => h) (by rw [hidx]; exact hinv.2.2.1)
    ?_ ?_ (by rw [hload]; exact fun _ h => h) ?_
  · show ∀ r' ∈ erase_unsorted w2.map.m_entitiesToRemove i, r' ∈ w.map.m_entitiesToRemove
    rw [hrem]
    exact erase_unsorted_subset _ _
  · show ((erase_unsorted w2.map.m_entitiesToRemove i).map RemovalRequest.m_pEntity).Nodup
    rw [hrem, erase_unsorted_map]
    exact nodup_erase_unsorted i hg
  · intro q hq
    have hne : q ≠ r.m_pEntity := by
      rcases hq with ⟨id, hin⟩ | ⟨r', hr', hr'q⟩
      · intro hqr
        have hin' : (id, q) ∈ w.map.m_entityIDLookupMap := by
          have : (id, q) ∈ w2.map.m_entityIDLookupMap := hin
          rw [hidx] at this; exact this
        exact (hc r hrmem).2.2 id (hqr ▸ hin')
      · have hr'' : r' ∈ erase_unsorted w2.map.m_entitiesToRemove i := hr'
        rw [hrem] at hr''
        have hm : r'.m_pEntity ∈ erase_unsorted
            (w.map.m_entitiesToRemove.map RemovalRequest.m_pEntity) i := by
          rw [← erase_unsorted_map]
          exact List.mem_map_of_mem _ hr''
        rw [← hr'q]
        exact ((mem_erase_unsorted hg hptr).1 hm).1
    show (Heap.read w2.heap q).map _ = _
    rw [hheap q hne]

theorem removalStep_membership {w w' : World} {i : Nat} (hinv : MembershipInv w)
    (h : ProcessEntityAdditionAndRemoval.removalStep w i = some w') : MembershipInv w' := by
  unfold ProcessEntityAdditionAndRemoval.removalStep at h
  simp only [Option.bind_eq_bind, Option.bind_eq_some] at h
  obtain ⟨req, hreq, e, _, h⟩ := h
  split at h
  · exact call_Deactivate_membership hinv h
  · exact removeEntity_membership hinv hreq h

theorem removalLoop_membership {n : Nat} {w w' : World} (hinv : MembershipInv w)
    (h : ProcessEntityAdditionAndRemoval.removalLoop n w = some w') : MembershipInv w' := by
  induction n generalizing w with
  | zero =>
    simp only [ProcessEntityAdditionAndRemoval.removalLoop, Option.some.injEq] at h
    subst h
    exact hinv
  | succ n ih =>
    simp only [ProcessEntityAdditionAndRemoval.removalLoop, Option.bind_eq_bind,
      Option.bind_eq_some] at h
    obtain ⟨w1, h1, h2⟩ := h
    exact ih (removalStep_membership hinv h1) h2

theorem requestLoad_membership {w w' : World} {p : EntityPtr} (hinv : MembershipInv w)
    (h : ProcessEntityAdditionAndRemoval.requestLoad w p = some w') : MembershipInv w' := by
  unfold ProcessEntityAdditionAndRemoval.requestLoad at h
  simp only [Option.bind_eq_bind, Option.bind_eq_some, Option.some.injEq] at h
  obtain ⟨_, _, _, _, w1, h1, _, _, rfl⟩ := h
  exact (call_LoadComponents_membership hinv h1).of_eq rfl rfl rfl (fun _ hp => hp) rfl

theorem loading_membership {w w' : World} (hinv : MembershipInv w)
    (h : ProcessEntityAdditionAndRemoval.loading w = some w') : MembershipInv w' := by
  unfold ProcessEntityAdditionAndRemoval.loading at h
  split at h
  · obtain ⟨w1, h1, rfl⟩ := Option.map_eq_some'.1 h
    have := foldlM_inv ProcessEntityAdditionAndRemoval.requestLoad MembershipInv
      (fun b a b' hb hs => requestLoad_membership hb hs) _ _ _ hinv h1
    exact this.of_eq rfl rfl rfl (fun _ hp => absurd hp (List.not_mem_nil _)) rfl
  · cases h
    exact hinv

theorem ProcessEntityAdditionAndRemoval_membership {w w' : World} (hinv : MembershipInv w)
    (h : ProcessEntityAdditionAndRemoval w = some w') : MembershipInv w' := by
  unfold ProcessEntityAdditionAndRemoval at h
  simp only [Option.bind_eq_bind, Option.bind_eq_some] at h
  obtain ⟨w1, h1, w2, h2, h3⟩ := h
  exact loading_membership (removalLoop_membership (editedEntities_membership hinv h1) h2) h3

theorem EntityLoadingTask.loadingItem_membership {ctx : EntityLoadingContext} {act : Bool}
    {acc acc' : World × List EntityPtr} {p : EntityPtr} (hinv : MembershipInv acc.1)
    (h : EntityLoadingTask.item ctx act acc p = some acc') : MembershipInv acc'.1 := by
  unfold EntityLoadingTask.item at h
  simp only [Option.bind_eq_bind, Option.bind_eq_some] at h
  obtain ⟨e, _, h⟩ := h
  have hinv1 : MembershipInv
      { acc.1 with trace := acc.1.trace ++ [Event.UpdateEntityState p] } :=
    hinv.of_eq rfl rfl rfl (fun _ hp => hp) rfl
  split at h
  · split at h
    · obtain ⟨w2, h2, rfl⟩ := Option.map_eq_some'.1 h
      exact call_Activate_membership hinv1 h2
    · cases h
      exact hinv1
  · cases h
    exact hinv1

theorem ProcessEntityLoadingAndActivation_membership {w w' : World} {ctx : EntityLoadingContext}
    {r : Bool} (hinv : MembershipInv w)
    (h : ProcessEntityLoadingAndActivation w ctx = some (w', r)) : MembershipInv w' := by
  unfold ProcessEntityLoadingAndActivation at h
  simp only [Option.bind_eq_bind, Option.bind_eq_some, Option.some.injEq, Prod.mk.injEq] at h
  obtain ⟨w1, h1, w2, h2, rfl, _⟩ := h
  have hinv1 : MembershipInv w1 := by
    unfold ProcessEntityLoadingAndActivation.batch at h1
    split at h1
    · cases h1
      exact hinv
    · obtain ⟨r1, hr1, rfl⟩ := Option.map_eq_some'.1 h1
      have := foldlM_inv (EntityLoadingTask.item ctx w.map.IsActivated)
        (fun acc => MembershipInv acc.1)
        (fun b a b' hb hs => EntityLoadingTask.loadingItem_membership hb hs) _ _ _ hinv hr1
      exact this.of_eq rfl rfl rfl (fun _ hp => hp) rfl
  unfold ProcessEntityLoadingAndActivation.finish at h2
  split at h2
  · simp only [Option.bind_eq_bind, Option.bind_eq_some, Option.some.injEq] at h2
    obtain ⟨_, _, rfl⟩ := h2
    exact hinv1.of_eq rfl rfl rfl (fun _ hp => hp) rfl
  · cases h2
    exact hinv1

theorem processEntities_membership {w w' : World} {ctx : EntityLoadingContext} {r : Bool}
    (hinv : MembershipInv w) (h : UpdateState.processEntities w ctx = some (w', r)) :
    MembershipInv w' := by
  unfold UpdateState.processEntities at h
  simp only [Option.bind_eq_bind, Option.bind_eq_some] at h
  obtain ⟨w1, h1, h2⟩ := h
  exact ProcessEntityLoadingAndActivation_membership
    (ProcessEntityAdditionAndRemoval_membership hinv h1) h2

theorem allocateEntities_membership {w : World} {heap : Heap} {created : List (EntityPtr × Entity)}
    (hinv : MembershipInv w) (h : allocateEntities w.heap created = some heap) :
    MembershipInv { w with heap := heap } := by
  unfold allocateEntities at h
  split at h
  · cases h
    have hkeep : ∀ q e, Heap.read w.heap q = some e →
        Heap.read (w.heap ++ created) q = some e := by
      intro q e he
      rw [Heap.read_append, he]; rfl
    refine hinv.mono rfl (fun _ h => h) hinv.2.2.1 (fun _ h => h) hinv.2.2.2.1
      (fun _ h => h) ?_
    intro q hq
    have hlive : ∃ e, Heap.read w.heap q = some e := by
      rcases hq with ⟨id, hin⟩ | ⟨r, hr, hrq⟩
      · obtain ⟨e, he, _⟩ := hinv.2.1 id q hin
        exact ⟨e, he⟩
      · obtain ⟨⟨e, he, _⟩, _⟩ := hinv.2.2.2.2 r hr
        exact ⟨e, hrq ▸ he⟩
    obtain ⟨e, he⟩ := hlive
    show (Heap.read (w.heap ++ created) q).map _ = _
    rw [hkeep q e he, he]
  · cases h

theorem ProcessMapLoading_membership {w w' : World} {ctx : EntityLoadingContext} {r : Bool}
    (hinv : MembershipInv w) (h : ProcessMapLoading w ctx = some (w', r)) :
    MembershipInv w' := by
  unfold ProcessMapLoading at h
  simp only [Option.bind_eq_bind, Option.bind_eq_some] at h
  obtain ⟨_, _, _, _, h⟩ := h
  split at h
  · simp only [Option.some.injEq, Prod.mk.injEq] at h
    obtain ⟨rfl, _⟩ := h
    exact hinv
  · obtain ⟨w1, h1, h2⟩ := Option.map_eq_some'.1 h
    simp only [Prod.mk.injEq] at h2
    obtain ⟨rfl, _⟩ := h2
    have hinv1 : MembershipInv w1 := by
      unfold ProcessMapLoading.finish at h1
      split at h1
      · cases h1
        exact hinv.of_eq rfl rfl rfl (fun _ hp => hp) rfl
      · split at h1
        · split at h1
          · unfold ProcessMapLoading.instantiate at h1
            simp only [Option.bind_eq_bind, Option.bind_eq_some, Option.some.injEq] at h1
            obtain ⟨heap, hheap, w2, hw2, rfl⟩ := h1
            have := foldlM_inv AddEntity MembershipInv
              (fun b a b' hb hs => AddEntity_membership hb hs) _ _ _
              (allocateEntities_membership hinv hheap) hw2
            exact this.of_eq rfl rfl rfl (fun _ hp => hp) rfl
          · cases h1
            exact hinv.of_eq rfl rfl rfl (fun _ hp => hp) rfl
        · cases h1
          exact hinv
    exact hinv1.of_eq rfl rfl rfl (fun _ hp => hp) rfl

theorem EntityDeactivationTask.deactivationItem_membership {w w' : World} {p : EntityPtr}
    (hinv : MembershipInv w) (h : EntityDeactivationTask.item w p = some w') :
    MembershipInv w' := by
  unfold EntityDeactivationTask.item at h
  simp only [Option.bind_eq_bind, Option.bind_eq_some] at h
  obtain ⟨e, _, h⟩ := h
  split at h
  · exact call_Deactivate_membership hinv h
  · cases h
    exact hinv

theorem EntityActivationTask.activationItem_membership {w w' : World} {p : EntityPtr}
    (hinv : MembershipInv w) (h : EntityActivationTask.item w p = some w') :
    MembershipInv w' := by
  unfold EntityActivationTask.item at h
  simp only [Option.bind_eq_bind, Option.bind_eq_some] at h
  obtain ⟨e, _, h⟩ := h
  split at h
  · exact call_Activate_membership hinv h
  · cases h
    exact hinv

theorem Deactivate_membership {w w' : World} (hinv : MembershipInv w)
    (h : Deactivate w = some w') : MembershipInv w' := by
  unfold Deactivate at h
  simp only [Option.bind_eq_bind, Option.bind_eq_some, Option.some.injEq] at h
  obtain ⟨_, _, w1, h1, rfl⟩ := h
  have := foldlM_inv EntityDeactivationTask.item MembershipInv
    (fun b a b' hb hs => EntityDeactivationTask.deactivationItem_membership hb hs) _ _ _ hinv h1
  exact this.of_eq rfl rfl rfl (fun _ hp => hp) rfl

theorem Activate_membership {w w' : World} (hinv : MembershipInv w)
    (h : Activate w = some w') : MembershipInv w' := by
  unfold Activate at h
  simp only [Option.bind_eq_bind, Option.bind_eq_some, Option.some.injEq] at h
  obtain ⟨_, _, w1, h1, rfl⟩ := h
  have := foldlM_inv EntityActivationTask.item MembershipInv
    (fun b a b' hb hs => EntityActivationTask.activationItem_membership hb hs) _ _ _ hinv h1
  exact this.of_eq rfl rfl rfl (fun _ hp => hp) rfl

theorem Load_membership {w w' : World} (hinv : MembershipInv w)
    (h : Load w = some w') : MembershipInv w' := by
  unfold Load at h
  simp only [Option.bind_eq_bind, Option.bind_eq_some] at h
  obtain ⟨_, _, h⟩ := h
  split at h
  · cases h
    exact hinv.of_eq rfl rfl rfl (fun _ hp => hp) rfl
  · cases h
    exact hinv.of_eq rfl rfl rfl (fun _ hp => hp) rfl

theorem Unload_membership {w w' : World} (hinv : MembershipInv w)
    (h : Unload w = some w') : MembershipInv w' := by
  unfold Unload at h
  simp only [Option.bind_eq_bind, Option.bind_eq_some, Option.some.injEq] at h
  obtain ⟨_, _, rfl⟩ := h
  exact hinv.of_eq rfl rfl rfl (fun _ hp => hp) rfl

theorem OnEntityStateUpdated_membership {w w' : World} {p : EntityPtr}
    (hinv : MembershipInv w) (h : OnEntityStateUpdated w p = some w') : MembershipInv w' := by
  unfold OnEntityStateUpdated at h
  simp only [Option.bind_eq_bind, Option.bind_eq_some] at h
  obtain ⟨e, _, h⟩ := h
  split at h
  · simp only [Option.bind_eq_bind, Option.bind_eq_some] at h
    obtain ⟨_, _, h⟩ := h
    split at h
    · cases h
      exact hinv
    · cases h
      exact hinv.of_eq rfl rfl rfl (fun _ hp => hp) rfl
  · cases h
    exact hinv

theorem MembershipInv_of_empty {w : World} (hid : w.map.m_ID ≠ 0)
    (hidx : w.map.m_entityIDLookupMap = []) (hrem : w.map.m_entitiesToRemove = []) :
    MembershipInv w := by
  refine ⟨hid, ?_, by rw [hidx]; exact List.nodup_nil, by rw [hrem]; exact List.nodup_nil, ?_⟩
  · intro id p hp
    rw [hidx] at hp
    cases hp
  · intro r hr
    rw [hrem] at hr
    cases hr

theorem unloadEntity_membership {w w' : World} {p : EntityPtr} (hinv : MembershipInv w)
    (h : ProcessMapUnloadRequest.unloadEntity w p = some w') : MembershipInv w' := by
  unfold ProcessMapUnloadRequest.unloadEntity at h
  simp only [Option.bind_eq_bind, Option.bind_eq_some] at h
  obtain ⟨_, _, _, _, h⟩ := h
  exact call_UnloadComponents_membership hinv h

theorem deleteEntity_map {w w' : World} {p : EntityPtr}
    (h : DestroyAllEntities.deleteEntity w p = some w') : w'.map = w.map := by
  unfold DestroyAllEntities.deleteEntity at h
  simp only [Option.bind_eq_bind, Option.bind_eq_some] at h
  obtain ⟨_, _, _, _, h⟩ := h
  obtain ⟨_, rfl⟩ := call_Delete_eq h
  rfl

theorem DestroyAllEntities_membership {w w' : World} (hinv : MembershipInv w)
    (h : DestroyAllEntities w = some w') : MembershipInv w' := by
  unfold DestroyAllEntities at h
  simp only [Option.bind_eq_bind, Option.bind_eq_some, Option.some.injEq,
    EE_ASSERT_eq_some] at h
  obtain ⟨_, _, _, hrem, w1, h1, rfl⟩ := h
  have hmap : w1.map = w.map :=
    foldlM_inv DestroyAllEntities.deleteEntity (fun b => b.map = w.map)
      (fun b a b' hb hs => (deleteEntity_map hs).trans hb) _ _ _ rfl h1
  refine MembershipInv_of_empty ?_ rfl ?_
  · show w1.map.m_ID ≠ 0
    rw [hmap]; exact hinv.1
  · show w1.map.m_entitiesToRemove = []
    rw [hmap]; exact List.isEmpty_iff.1 hrem

theorem ProcessMapUnloadRequest_membership {w w' : World} {r : Bool} (hinv : MembershipInv w)
    (h : ProcessMapUnloadRequest w = some (w', r)) : MembershipInv w' := by
  unfold ProcessMapUnloadRequest at h
  simp only [Option.bind_eq_bind, Option.bind_eq_some] at h
  obtain ⟨_, _, h⟩ := h
  split at h
  · obtain ⟨w1, h1, h2⟩ := Option.map_eq_some'.1 h
    simp only [Prod.mk.injEq] at h2
    obtain ⟨rfl, _⟩ := h2
    exact Deactivate_membership hinv h1
  · obtain ⟨w1, h1, h2⟩ := Option.map_eq_some'.1 h
    simp only [Prod.mk.injEq] at h2
    obtain ⟨rfl, _⟩ := h2
    have hinv1 : MembershipInv w1 := by
      unfold ProcessMapUnloadRequest.unloadEntities at h1
      split at h1
      · simp only [Option.bind_eq_bind, Option.bind_eq_some, Option.some.injEq] at h1
        obtain ⟨w2, h2, rfl⟩ := h1
        have hinv2 : MembershipInv w2 := by
          unfold ProcessMapUnloadRequest.destroyInstantiated at h2
          split at h2
          · simp only [Option.bind_eq_bind, Option.bind_eq_some, Option.some.injEq] at h2
            obtain ⟨w3, h3, w4, h4, rfl⟩ := h2
            have := foldlM_inv ProcessMapUnloadRequest.unloadEntity MembershipInv
              (fun b a b' hb hs => unloadEntity_membership hb hs) _ _ _ hinv h3
            exact (DestroyAllEntities_membership this h4).of_eq rfl rfl rfl
              (fun _ hp => hp) rfl
          · cases h2
            exact hinv
        exact hinv2.mono rfl (fun _ h => h) hinv2.2.2.1
          (fun _ h => absurd h (List.not_mem_nil _)) List.nodup_nil
          (fun _ h => absurd h (List.not_mem_nil _)) (fun _ _ => rfl)
      · cases h1
        exact hinv
    obtain ⟨hh, _, _, _, hidx, hload, _, hrem, _, _, _, _, hid⟩ := unloadResource_frame w1
    exact hinv1.of_eq hid hidx hrem (fun _ hp => by
      have : _ ∈ (ProcessMapUnloadRequest.unloadResource w1).map.m_entitiesToLoad := hp
      rw [hload] at this; exact this) hh

theorem UpdateState_membership {w w' : World} {ctx : EntityLoadingContext} {r : Bool}
    (hinv : MembershipInv w) (h : UpdateState w ctx = some (w', r)) : MembershipInv w' := by
  have hload : ∀ {v v' : World} {b : Bool}, MembershipInv v →
      UpdateState.processLoading v ctx = some (v', b) → MembershipInv v' := by
    intro v v' b hv hl
    unfold UpdateState.processLoading at hl
    split at hl
    · simp only [Option.bind_eq_bind, Option.bind_eq_some] at hl
      obtain ⟨⟨w1, b1⟩, h1, h2⟩ := hl
      have hinv1 := ProcessMapLoading_membership hv h1
      split at h2
      · exact processEntities_membership hinv1 h2
      · simp only [Option.some.injEq, Prod.mk.injEq] at h2
        obtain ⟨rfl, _⟩ := h2
        exact hinv1
    · exact processEntities_membership hv hl
  unfold UpdateState at h
  simp only [Option.bind_eq_bind, Option.bind_eq_some] at h
  obtain ⟨_, _, h⟩ := h
  unfold UpdateState.processUnload at h
  split at h
  · simp only [Option.bind_eq_bind, Option.bind_eq_some] at h
    obtain ⟨⟨w1, b1⟩, h1, h2⟩ := h
    have hinv1 := ProcessMapUnloadRequest_membership hinv h1
    split at h2
    · exact hload hinv1 h2
    · simp only [Option.some.injEq, Prod.mk.injEq] at h2
      obtain ⟨rfl, _⟩ := h2
      exact hinv1
  · exact hload hinv h

theorem runOps_membership {w0 w : World} {ops : List MapOp} (hinv : MembershipInv w0)
    (hrun : runOps w0 ops = some w) : MembershipInv w := by
  unfold runOps at hrun
  refine foldlM_inv MapOp.run MembershipInv ?_ ops w0 w hinv hrun
  intro b c b' hb hs
  cases c with
  | AddEntity p => exact AddEntity_membership hb hs
  | RemoveEntity id =>
    simp only [MapOp.run, RemoveEntity, Option.bind_eq_bind, Option.map_eq_some',
      Option.bind_eq_some, Option.some.injEq] at hs
    obtain ⟨⟨w1, p1⟩, ⟨⟨w2, r⟩, hr, _, _, h3⟩, rfl⟩ := hs
    simp only [Prod.mk.injEq] at h3
    obtain ⟨rfl, _⟩ := h3
    exact RemoveEntityInternal_membership hb hr
  | DestroyEntity id =>
    simp only [MapOp.run, DestroyEntity, Option.bind_eq_bind, Option.bind_eq_some,
      Option.some.injEq] at hs
    obtain ⟨⟨w2, r⟩, hr, rfl⟩ := hs
    exact RemoveEntityInternal_membership hb hr
  | Load => exact Load_membership hb hs
  | Unload => exact Unload_membership hb hs
  | Activate => exact Activate_membership hb hs
  | Deactivate => exact Deactivate_membership hb hs
  | OnEntityStateUpdated p => exact OnEntityStateUpdated_membership hb hs
  | UpdateState ctx =>
    simp only [MapOp.run, Option.map_eq_some'] at hs
    obtain ⟨⟨w1, r⟩, h1, rfl⟩ := hs
    exact UpdateState_membership hb h1

theorem exampleOps_state :
    (World.after (runOps exampleWorldFresh exampleOps)).map.m_entitiesToRemove
      = [{ m_pEntity := 2, m_shouldDestroy := false }]
    ∧ (World.after (runOps exampleWorldFresh exampleOps)).map.m_entityIDLookupMap
      = [(11, 1), (13, 3)] := by
  decide
/-! ## C11: the name generated for "Foo" next to "Foo" alone -/

/-- `AddEntity` on a live, unmapped, unloaded entity that is not queued, once
the entity validation yields a name. -/
theorem AddEntity_of_validate (w : World) (p : EntityPtr) (e : Entity) (name : StringID)
    (hp : p ≠ nullptr) (he : Heap.read w.heap p = some e)
    (hmap : e.IsAddedToMap = false) (hst : e.HasRequestedComponentLoad = false)
    (hq : p ∉ w.map.m_entitiesToLoad)
    (hname : AddEntity.validate w e = some name) :
    AddEntity w p = some { w with
      heap := Heap.modify w.heap p fun x => { x with m_name := name, m_mapID := w.map.m_ID },
      map := { w.map with
        m_entities := w.map.m_entities ++ [p],
        m_entitiesToLoad := w.map.m_entitiesToLoad ++ [p],
        m_entityIDLookupMap := THashMap.insert w.map.m_entityIDLookupMap e.m_ID p,
        m_entityNameLookupMap :=
          if w.EE_DEVELOPMENT_TOOLS then
            THashMap.insert w.map.m_entityNameLookupMap name p
          else w.map.m_entityNameLookupMap } } := by
  have h1 : EE_ASSERT (decide (p ≠ nullptr)) = some () := by
    rw [EE_ASSERT_eq_some]; simpa using hp
  have h2 : EE_ASSERT (!e.IsAddedToMap && !e.HasRequestedComponentLoad) = some () := by
    rw [EE_ASSERT_eq_some, hmap, hst]; rfl
  have h3 : EE_ASSERT (!VectorContains w.map.m_entitiesToLoad p) = some () := by
    rw [EE_ASSERT_eq_some]
    simpa [VectorContains] using hq
  unfold AddEntity
  simp only [h1, he, h2, h3, hname, Option.bind_eq_bind, Option.some_bind]

theorem GenerateUniqueEntityNameID_Foo_alone {ν : Type} (m : List (StringID × ν))
    (hkeys : ∀ k, k ∈ m.map Prod.fst ↔ k = "Foo".toList) :
    GenerateUniqueEntityNameID m "Foo".toList = some "Foo 000".toList := by
  have h1 : (THashMap.find m "Foo".toList).isNone = false := by
    have h := (THashMap.find_isSome_iff m _).2 ((hkeys _).2 rfl)
    cases hf : THashMap.find m "Foo".toList with
    | none => rw [hf] at h; exact absurd h (by simp)
    | some v => rfl
  have h2 : (THashMap.find m "Foo 000".toList).isNone = true := by
    cases hf : THashMap.find m "Foo 000".toList with
    | none => rfl
    | some v =>
      have h : (THashMap.find m "Foo 000".toList).isSome = true := by rw [hf]; rfl
      exact absurd ((hkeys _).1 ((THashMap.find_isSome_iff m _).1 h)) (by decide)
  have hv : StringID.IsValid "Foo".toList = true := by decide
  unfold GenerateUniqueEntityNameID
  simp only [hv, EE_ASSERT, if_true, Option.bind_eq_bind, Option.some_bind]
  show GenerateUniqueEntityNameID.loop m "Foo".toList (m.length + 1 + 1) "Foo".toList 0 = _
  unfold GenerateUniqueEntityNameID.loop
  simp only [h1, Bool.false_eq_true, if_false]
  unfold GenerateUniqueEntityNameID.loop
  rw [GenerateUniqueName_Foo_zero]
  simp only [h2, if_true]

/-- C11: with development tools, when "Foo" is the only name in the name lookup
map, `GenerateUniqueEntityNameID( "Foo" )` returns "Foo 000" (the base name, one
space, the counter 0 padded to three digits), and `AddEntity` on an entity that
it accepts (live, in no map, unloaded, not queued, without spatial parent) whose
desired name is "Foo" succeeds, assigns it the name "Foo 000" and enters it in
the name lookup map under that name. -/
theorem C11_name_for_Foo_alone (w : World) (p : EntityPtr) (e : Entity)
    (htools : w.EE_DEVELOPMENT_TOOLS = true)
    (hkeys : ∀ k, k ∈ w.map.m_entityNameLookupMap.map Prod.fst ↔ k = "Foo".toList)
    (hp : p ≠ nullptr) (he : Heap.read w.heap p = some e) (hname : e.m_name = "Foo".toList)
    (hmap : e.IsAddedToMap = false) (hst : e.HasRequestedComponentLoad = false)
    (hq : p ∉ w.map.m_entitiesToLoad) (hpar : e.m_pParentSpatialEntity = none) :
    GenerateUniqueEntityNameID w.map.m_entityNameLookupMap "Foo".toList
        = some ("Foo".toList ++ [' '] ++ sprintf_03u 0)
    ∧ "Foo".toList ++ [' '] ++ sprintf_03u 0 = "Foo 000".toList
    ∧ ∃ w', AddEntity w p = some w'
      ∧ (Heap.read w'.heap p).map Entity.m_name = some "Foo 000".toList
      ∧ THashMap.find w'.map.m_entityNameLookupMap "Foo 000".toList = some p := by
  have hgen := GenerateUniqueEntityNameID_Foo_alone w.map.m_entityNameLookupMap hkeys
  have hform : "Foo".toList ++ [' '] ++ sprintf_03u 0 = "Foo 000".toList := by decide
  have hval : AddEntity.validate w e = some "Foo 000".toList := by
    unfold AddEntity.validate
    rw [if_pos htools]
    simp only [AddEntity.checkSpatialParent, hpar, Option.bind_eq_bind, Option.some_bind,
      hname, hgen]
  have hnone : THashMap.find w.map.m_entityNameLookupMap "Foo 000".toList = none := by
    rw [THashMap.find_eq_none_iff]
    intro hmem
    exact absurd ((hkeys _).1 hmem) (by decide)
  refine ⟨by rw [hform]; exact hgen, hform, _,
    AddEntity_of_validate w p e _ hp he hmap hst hq hval, ?_, ?_⟩
  · dsimp only
    rw [Heap.read_modify_self, he]
    rfl
  · dsimp only
    rw [if_pos htools, THashMap.insert_of_find_none _ hnone, THashMap.find_append, hnone]
    simp [THashMap.find]

theorem C11_name_for_Foo_alone_witness :
    GenerateUniqueEntityNameID
        (World.after (AddEntity exampleWorldFresh 1)).map.m_entityNameLookupMap "Foo".toList
        = some ("Foo".toList ++ [' '] ++ sprintf_03u 0)
    ∧ "Foo".toList ++ [' '] ++ sprintf_03u 0 = "Foo 000".toList
    ∧ ∃ w', AddEntity (World.after (AddEntity exampleWorldFresh 1)) 2 = some w'
      ∧ (Heap.read w'.heap 2).map Entity.m_name = some "Foo 000".toList
      ∧ THashMap.find w'.map.m_entityNameLookupMap "Foo 000".toList = some 2 :=
  C11_name_for_Foo_alone (World.after (AddEntity exampleWorldFresh 1)) 2
    (exampleEntity 12 "Foo".toList) (by decide)
    (by
      have hm : (World.after (AddEntity exampleWorldFresh 1)).map.m_entityNameLookupMap
          = [("Foo".toList, 1)] := by decide
      intro k
      rw [hm]
      simp only [List.map_cons, List.map_nil, List.mem_singleton])
    (by decide) (by decide) rfl (by decide) (by decide) (by decide) rfl
/-! ## C12: the two forms of `GenerateUniqueName` -/

theorem lastThree_isdigit (b : InlineString) (h : 3 ≤ b.length) :
    (isdigit (b.getD (b.length - 1) ' ') = true
      ∧ isdigit (b.getD (b.length - 2) ' ') = true
      ∧ isdigit (b.getD (b.length - 3) ' ') = true)
    ↔ (b.drop (b.length - 3)).all isdigit = true := by
  have hlen : (b.drop (b.length - 3)).length = 3 := by
    rw [List.length_drop]; omega
  have h0 : (b.drop (b.length - 3))[0]? = b[b.length - 3]? := by
    rw [List.getElem?_drop]; rfl
  have h1 : (b.drop (b.length - 3))[1]? = b[b.length - 2]? := by
    rw [List.getElem?_drop]
    congr 1; omega
  have h2 : (b.drop (b.length - 3))[2]? = b[b.length - 1]? := by
    rw [List.getElem?_drop]
    congr 1; omega
  rw [List.getD_eq_getElem?_getD, List.getD_eq_getElem?_getD, List.getD_eq_getElem?_getD,
    ← h0, ← h1, ← h2]
  match hd : b.drop (b.length - 3), hlen with
  | [x, y, z], _ =>
    simp only [List.getElem?_cons_zero, List.getElem?_cons_succ, Option.getD_some,
      List.all_cons, List.all_nil, Bool.and_true, Bool.and_eq_true]
    constructor
    · rintro ⟨hz, hy, hx⟩; exact ⟨hx, hy, hz⟩
    · rintro ⟨hx, hy, hz⟩; exact ⟨hz, hy, hx⟩

theorem GenerateUniqueName_replace (b : InlineString) (c : Nat)
    (h : 3 < b.length) (hd : endsInThreeDigits b = true) :
    GenerateUniqueName b c = b.take (b.length - 3) ++ sprintf_03u c := by
  unfold endsInThreeDigits at hd
  simp only [Bool.and_eq_true, decide_eq_true_eq] at hd
  unfold GenerateUniqueName
  rw [if_pos]
  exact ⟨h, (lastThree_isdigit b hd.1).2 hd.2⟩

theorem GenerateUniqueName_append (b : InlineString) (c : Nat)
    (h : endsInThreeDigits b = false ∨ b.length = 3) :
    GenerateUniqueName b c = b ++ [' '] ++ sprintf_03u c := by
  unfold GenerateUniqueName
  rw [if_neg]
  rintro ⟨hlen, hdig⟩
  rcases h with h | h
  · unfold endsInThreeDigits at h
    have h3 : 3 ≤ b.length := by omega
    rw [(lastThree_isdigit b h3).1 hdig] at h
    simp only [Bool.and_true, decide_eq_false_iff_not] at h
    exact h h3
  · omega

theorem sprintf_03u_length (c : Nat) : 3 ≤ (sprintf_03u c).length := by
  unfold sprintf_03u
  simp only [List.length_append, List.length_replicate]
  omega

/-- C12, as stated, fails for a base name of exactly three digits: "123" ends in
three decimal digits, yet `GenerateUniqueName( "123", 0 )` is the space-separated
"123 000", not the three digits replaced by the counter. -/
theorem C12_counterexample :
    endsInThreeDigits "123".toList = true
    ∧ GenerateUniqueName "123".toList 0 = "123 000".toList
    ∧ GenerateUniqueName "123".toList 0 = "123".toList ++ [' '] ++ sprintf_03u 0
    ∧ GenerateUniqueName_spec "123".toList 0 = "000".toList
    ∧ GenerateUniqueName "123".toList 0 ≠ GenerateUniqueName_spec "123".toList 0 := by
  decide

/-- C12, amended: for every base name and counter value, `GenerateUniqueName`
produces the space-separated form "<base> NNN" if and only if the base name does
not end in three decimal digits or has exactly three characters; when the base
name is longer than three characters and ends in three decimal digits, those
three characters are replaced by the zero-padded counter with no space inserted.
So the function agrees with the spec's wording on every base name but those
that consist of exactly three digits. -/
theorem C12_GenerateUniqueName_form (baseName : InlineString) (counterValue : Nat) :
    (GenerateUniqueName baseName counterValue = baseName ++ [' '] ++ sprintf_03u counterValue
      ↔ (endsInThreeDigits baseName = false ∨ baseName.length = 3))
    ∧ (endsInThreeDigits baseName = true ∧ baseName.length ≠ 3 →
        GenerateUniqueName baseName counterValue
          = baseName.take (baseName.length - 3) ++ sprintf_03u counterValue)
    ∧ (GenerateUniqueName baseName counterValue = GenerateUniqueName_spec baseName counterValue
      ↔ ¬ (endsInThreeDigits baseName = true ∧ baseName.length = 3)) := by
  have hlong : endsInThreeDigits baseName = true → baseName.length ≠ 3 →
      3 < baseName.length := by
    intro hd hne
    unfold endsInThreeDigits at hd
    simp only [Bool.and_eq_true, decide_eq_true_eq] at hd
    omega
  have hlenne : baseName.take (baseName.length - 3) ++ sprintf_03u counterValue
      ≠ baseName ++ [' '] ++ sprintf_03u counterValue := by
    intro heq
    have := congrArg List.length heq
    simp only [List.length_append, List.length_take, List.length_cons, List.length_nil] at this
    omega
  refine ⟨⟨?_, GenerateUniqueName_append baseName counterValue⟩, ?_, ⟨?_, ?_⟩⟩
  · intro heq
    by_cases hd : endsInThreeDigits baseName = true
    · by_cases h3 : baseName.length = 3
      · exact Or.inr h3
      · rw [GenerateUniqueName_replace baseName counterValue (hlong hd h3) hd] at heq
        exact absurd heq hlenne
    · exact Or.inl (by simpa using hd)
  · rintro ⟨hd, h3⟩
    exact GenerateUniqueName_replace baseName counterValue (hlong hd h3) hd
  · rintro heq ⟨hd, h3⟩
    rw [GenerateUniqueName_append baseName counterValue (Or.inr h3)] at heq
    unfold GenerateUniqueName_spec at heq
    rw [if_pos hd] at heq
    exact hlenne heq.symm
  · intro hn
    unfold GenerateUniqueName_spec
    by_cases hd : endsInThreeDigits baseName = true
    · have h3 : baseName.length ≠ 3 := fun h3 => hn ⟨hd, h3⟩
      rw [if_pos hd, GenerateUniqueName_replace baseName counterValue (hlong hd h3) hd]
    · rw [if_neg hd, GenerateUniqueName_append baseName counterValue (Or.inl (by simpa using hd))]

theorem C12_GenerateUniqueName_form_witness :
    (GenerateUniqueName "Foo001".toList 2 = "Foo001".toList ++ [' '] ++ sprintf_03u 2
      ↔ (endsInThreeDigits "Foo001".toList = false ∨ "Foo001".toList.length = 3))
    ∧ GenerateUniqueName "Foo001".toList 2 = "Foo002".toList
    ∧ GenerateUniqueName "Foo".toList 2 = "Foo 002".toList :=
  ⟨(C12_GenerateUniqueName_form "Foo001".toList 2).1,
    ((C12_GenerateUniqueName_form "Foo001".toList 2).2.1 ⟨by decide, by decide⟩).trans
      (by decide),
    (((C12_GenerateUniqueName_form "Foo".toList 2).1).2 (Or.inl (by decide))).trans
      (by decide)⟩
/-! ## C13: termination and freshness of `GenerateUniqueEntityNameID` -/

theorem GenerateUniqueName_ne_nil (b : InlineString) (c : Nat) : GenerateUniqueName b c ≠ [] := by
  intro h
  have hl := congrArg List.length h
  have h3 := sprintf_03u_length c
  unfold GenerateUniqueName at hl
  split at hl <;> simp only [List.length_append, List.length_nil] at hl <;> omega

theorem GenerateUniqueEntityNameID.loop_result {ν : Type} (m : List (StringID × ν))
    (desired : InlineString) :
    ∀ (fuel : Nat) (name : StringID) (counter : Nat) (r : StringID),
      GenerateUniqueEntityNameID.loop m desired fuel name counter = some r →
      r = name ∨ ∃ c, r = GenerateUniqueName desired c := by
  intro fuel
  induction fuel with
  | zero => intro name counter r h; simp [GenerateUniqueEntityNameID.loop] at h
  | succ fuel ih =>
    intro name counter r h
    rw [GenerateUniqueEntityNameID.loop] at h
    split at h
    · exact Or.inl (Option.some.inj h).symm
    · rcases ih _ _ _ h with h' | h'
      · exact Or.inr ⟨counter, h'⟩
      · exact Or.inr h'

theorem GenerateUniqueEntityNameID_valid {ν : Type} {m : List (StringID × ν)}
    {desired r : StringID} (h : GenerateUniqueEntityNameID m desired = some r) :
    StringID.IsValid r = true := by
  unfold GenerateUniqueEntityNameID at h
  simp only [Option.bind_eq_bind, Option.bind_eq_some, EE_ASSERT_eq_some] at h
  obtain ⟨_, hv, h⟩ := h
  rcases GenerateUniqueEntityNameID.loop_result m desired _ _ _ _ h with rfl | ⟨c, rfl⟩
  · exact hv
  · unfold StringID.IsValid
    cases hg : GenerateUniqueName desired c with
    | nil => exact absurd hg (GenerateUniqueName_ne_nil _ _)
    | cons a l => rfl

/-- While the current name is a key and so is every name the counter can still
produce, the loop makes no progress, whatever the number of iterations. -/
theorem GenerateUniqueEntityNameID.loop_stuck {ν : Type} (m : List (StringID × ν))
    (desired : InlineString)
    (hall : ∀ c, c < 2 ^ 32 → GenerateUniqueName desired c ∈ m.map Prod.fst) :
    ∀ (fuel : Nat) (name : StringID) (counter : Nat), name ∈ m.map Prod.fst →
      counter < 2 ^ 32 → GenerateUniqueEntityNameID.loop m desired fuel name counter = none := by
  intro fuel
  induction fuel with
  | zero => intro name counter _ _; rfl
  | succ fuel ih =>
    intro name counter hname hc
    rw [GenerateUniqueEntityNameID.loop]
    have hsome : (THashMap.find m name).isSome = true := (THashMap.find_isSome_iff m name).2 hname
    have hnot : ¬ (THashMap.find m name).isNone = true := by
      cases hf : THashMap.find m name with
      | none => rw [hf] at hsome; cases hsome
      | some v => simp
    rw [if_neg hnot]
    exact ih _ _ (hall counter hc) (Nat.mod_lt _ (by decide))

theorem exampleFullNameIndex_keys :
    "Foo".toList ∈ exampleFullNameIndex.map Prod.fst
    ∧ ∀ c, c < 2 ^ 32 →
        GenerateUniqueName "Foo".toList c ∈ exampleFullNameIndex.map Prod.fst := by
  unfold exampleFullNameIndex
  refine ⟨?_, ?_⟩
  · rw [List.map_cons]
    exact List.mem_cons_self _ _
  · intro c hc
    rw [List.map_cons, List.map_map]
    exact List.mem_cons_of_mem _ (List.mem_map.2 ⟨c, List.mem_range.2 hc, rfl⟩)

/-- C13, as stated, fails on a name lookup map that is finite but holds "Foo" and
all 2^32 names the 32-bit counter can derive from it: for the valid desired name
"Foo" the loop of `GenerateUniqueEntityNameID` has not returned after any number
of iterations (the counter wraps and the same names are tried again), and the
function yields no name. -/
theorem C13_counterexample :
    StringID.IsValid "Foo".toList = true
    ∧ (∀ fuel, GenerateUniqueEntityNameID.loop exampleFullNameIndex "Foo".toList fuel
        "Foo".toList 0 = none)
    ∧ GenerateUniqueEntityNameID exampleFullNameIndex "Foo".toList = none := by
  have hstuck : ∀ fuel, GenerateUniqueEntityNameID.loop exampleFullNameIndex "Foo".toList fuel
      "Foo".toList 0 = none := fun fuel =>
    GenerateUniqueEntityNameID.loop_stuck exampleFullNameIndex "Foo".toList
      exampleFullNameIndex_keys.2 fuel _ 0 exampleFullNameIndex_keys.1 (by decide)
  refine ⟨by decide, hstuck, ?_⟩
  unfold GenerateUniqueEntityNameID
  rw [(EE_ASSERT_eq_some (u := ())).2 (by decide), Option.bind_eq_bind, Option.some_bind]
  exact hstuck _

/-- C13, amended: for every name lookup map with fewer than 2^32 - 1 entries and
every valid desired name, `GenerateUniqueEntityNameID` terminates (within one
lookup more than there are entries, plus one) and returns a name that is not a
key of the lookup map; when the desired name is itself not a key it is returned
unchanged, and applying the generator to its own result against the same lookup
map returns that result. -/
theorem C13_unique_name_terminates (m : List (StringID × EntityPtr)) (desired : StringID)
    (hv : StringID.IsValid desired = true) (hsize : m.length + 2 ≤ 2 ^ 32) :
    ∃ name, GenerateUniqueEntityNameID m desired = some name
      ∧ name ∉ m.map Prod.fst
      ∧ (desired ∉ m.map Prod.fst → name = desired)
      ∧ GenerateUniqueEntityNameID m name = some name := by
  obtain ⟨name, hname⟩ := GenerateUniqueEntityNameID_isSome m desired hv hsize
  have hfresh := GenerateUniqueEntityNameID_fresh hname
  refine ⟨name, hname, (THashMap.find_eq_none_iff m name).1 hfresh, ?_, ?_⟩
  · intro hd
    have := GenerateUniqueEntityNameID_of_fresh hv ((THashMap.find_eq_none_iff m desired).2 hd)
    rw [this] at hname
    exact (Option.some.inj hname).symm
  · exact GenerateUniqueEntityNameID_of_fresh (GenerateUniqueEntityNameID_valid hname) hfresh

theorem C13_unique_name_terminates_witness :
    ∃ name, GenerateUniqueEntityNameID exampleWorldFoo.map.m_entityNameLookupMap "Foo".toList
        = some name
      ∧ name ∉ exampleWorldFoo.map.m_entityNameLookupMap.map Prod.fst
      ∧ ("Foo".toList ∉ exampleWorldFoo.map.m_entityNameLookupMap.map Prod.fst →
          name = "Foo".toList)
      ∧ GenerateUniqueEntityNameID exampleWorldFoo.map.m_entityNameLookupMap name = some name :=
  C13_unique_name_terminates exampleWorldFoo.map.m_entityNameLookupMap "Foo".toList
    (by decide) (by decide)
/-! ## C15: `Activate` -/

/-- The activation batch over live entities: the entities of the list that are
loaded are activated, each once, and nothing else changes. -/
theorem activation_fold_calls (l : List EntityPtr) :
    ∀ w : World, (∀ p ∈ l, (Heap.read w.heap p).isSome = true) →
    ∃ (w' : World) (called : List EntityPtr), l.foldlM EntityActivationTask.item w = some w'
      ∧ w'.map = w.map
      ∧ w'.EE_DEVELOPMENT_TOOLS = w.EE_DEVELOPMENT_TOOLS
      ∧ w'.trace = w.trace ++ called.map Event.Activate
      ∧ called.Nodup
      ∧ (∀ p, p ∈ called ↔ (p ∈ l ∧ ∃ e, Heap.read w.heap p = some e ∧ e.IsLoaded = true))
      ∧ (∀ q, Heap.read w'.heap q
          = if q ∈ called then
              (Heap.read w.heap q).map fun e => { e with m_status := Entity.Status.Activated }
            else Heap.read w.heap q) := by
  induction l with
  | nil =>
    intro w _
    exact ⟨w, [], rfl, rfl, rfl, by simp, List.nodup_nil, by simp, by simp⟩
  | cons a l ih =>
    intro w hlive
    obtain ⟨ea, hea⟩ := Option.isSome_iff_exists.1 (hlive a (List.mem_cons_self _ _))
    by_cases hl : ea.IsLoaded = true
    · -- the entity is activated
      have hstep : EntityActivationTask.item w a
          = some { w with heap := Entity.Activate w.heap a,
                          trace := w.trace ++ [Event.Activate a] } := by
        unfold EntityActivationTask.item call_Activate
        simp only [hea, hl, if_true, Option.bind_eq_bind, Option.some_bind]
      have hread : ∀ q, q ≠ a → Heap.read (Entity.Activate w.heap a) q = Heap.read w.heap q :=
        fun q hq => Heap.read_modify_ne _ _ hq
      have hreada : Heap.read (Entity.Activate w.heap a) a
          = some { ea with m_status := Entity.Status.Activated } := by
        unfold Entity.Activate
        rw [Heap.read_modify_self, hea]; rfl
      obtain ⟨w', called, hw', hmap, htl, htr, hnd, hmem, hheap⟩ :=
        ih { w with heap := Entity.Activate w.heap a, trace := w.trace ++ [Event.Activate a] }
          (fun p hp => by
            show (Heap.read (Entity.Activate w.heap a) p).isSome = true
            unfold Entity.Activate
            rw [Heap.isSome_read_modify]
            exact hlive p (List.mem_cons_of_mem _ hp))
      have hnot : a ∉ called := by
        intro ha
        obtain ⟨_, e, he, hel⟩ := (hmem a).1 ha
        have he' : Heap.read (Entity.Activate w.heap a) a = some e := he
        rw [hreada] at he'
        cases he'
        simp [Entity.IsLoaded] at hel
      refine ⟨w', a :: called, ?_, hmap, htl, ?_, List.nodup_cons.2 ⟨hnot, hnd⟩, ?_, ?_⟩
      · simp only [List.foldlM_cons, hstep, Option.bind_eq_bind, Option.some_bind]
        exact hw'
      · rw [htr]
        simp
      · intro p
        rw [List.mem_cons, hmem p]
        constructor
        · rintro (rfl | ⟨hp, e, he, hel⟩)
          · exact ⟨List.mem_cons_self _ _, ea, hea, hl⟩
          · have hpa : p ≠ a := by
              intro hpa
              subst hpa
              have he' : Heap.read (Entity.Activate w.heap p) p = some e := he
              rw [hreada] at he'
              cases he'
              simp [Entity.IsLoaded] at hel
            have he' : Heap.read (Entity.Activate w.heap a) p = some e := he
            rw [hread p hpa] at he'
            exact ⟨List.mem_cons_of_mem _ hp, e, he', hel⟩
        · rintro ⟨hp, e, he, hel⟩
          by_cases hpa : p = a
          · exact Or.inl hpa
          · refine Or.inr ⟨(List.mem_cons.1 hp).resolve_left hpa, e, ?_, hel⟩
            show Heap.read (Entity.Activate w.heap a) p = some e
            rw [hread p hpa]; exact he
      · intro q
        rw [hheap q]
        by_cases hqa : q = a
        · subst hqa
          rw [if_neg hnot, if_pos (List.mem_cons_self _ _)]
          show Heap.read (Entity.Activate w.heap q) q = _
          rw [hreada, hea]; rfl
        · have hiff : q ∈ a :: called ↔ q ∈ called := by
            simp [hqa]
          by_cases hqc : q ∈ called
          · rw [if_pos hqc, if_pos (hiff.2 hqc)]
            show (Heap.read (Entity.Activate w.heap a) q).map _ = _
            rw [hread q hqa]
          · rw [if_neg hqc, if_neg (fun h => hqc (hiff.1 h))]
            exact hread q hqa
    · -- the entity is left alone
      have hstep : EntityActivationTask.item w a = some w := by
        unfold EntityActivationTask.item
        simp only [hea, hl, Bool.false_eq_true, if_false, Option.bind_eq_bind, Option.some_bind]
      obtain ⟨w', called, hw', hmap, htl, htr, hnd, hmem, hheap⟩ :=
        ih w (fun p hp => hlive p (List.mem_cons_of_mem _ hp))
      refine ⟨w', called, ?_, hmap, htl, htr, hnd, ?_, hheap⟩
      · simp only [List.foldlM_cons, hstep, Option.bind_eq_bind, Option.some_bind]
        exact hw'
      · intro p
        rw [hmem p]
        constructor
        · rintro ⟨hp, h⟩
          exact ⟨List.mem_cons_of_mem _ hp, h⟩
        · rintro ⟨hp, e, he, hel⟩
          refine ⟨(List.mem_cons.1 hp).resolve_left ?_, e, he, hel⟩
          intro hpa
          subst hpa
          rw [hea] at he
          cases he
          exact hl hel

/-- C15: `Activate` succeeds only from status Loaded: from any other status it
fails on its assertion.  On a map with status Loaded whose entities are live it
succeeds, invokes the activation of an entity exactly for the members of the
entity list that are loaded (each once), turns these into activated entities,
leaves every other entity untouched, and sets the status to Activated without
changing anything else of the map. -/
theorem C15_Activate (w : World)
    (hst : w.map.m_status = EntityMap.Status.Loaded)
    (hlive : ∀ p ∈ w.map.m_entities, (Heap.read w.heap p).isSome = true) :
    (∀ v : World, v.map.m_status ≠ EntityMap.Status.Loaded → Activate v = none)
    ∧ ∃ (w' : World) (called : List EntityPtr), Activate w = some w'
      ∧ w'.map = { w.map with m_status := EntityMap.Status.Activated }
      ∧ w'.trace = w.trace ++ called.map Event.Activate
      ∧ called.Nodup
      ∧ (∀ p, p ∈ called ↔
          (p ∈ w.map.m_entities ∧ ∃ e, Heap.read w.heap p = some e ∧ e.IsLoaded = true))
      ∧ (∀ q, Heap.read w'.heap q
          = if q ∈ called then
              (Heap.read w.heap q).map fun e => { e with m_status := Entity.Status.Activated }
            else Heap.read w.heap q) := by
  constructor
  · intro v hv
    unfold Activate
    have : EE_ASSERT (decide (v.map.m_status = EntityMap.Status.Loaded)) = none := by
      unfold EE_ASSERT
      rw [if_neg]
      simpa using hv
    rw [this]
    rfl
  · obtain ⟨w1, called, hw1, hmap, _, htr, hnd, hmem, hheap⟩ :=
      activation_fold_calls w.map.m_entities w hlive
    refine ⟨{ w1 with map := { w1.map with m_status := EntityMap.Status.Activated } }, called,
      ?_, ?_, htr, hnd, hmem, hheap⟩
    · unfold Activate
      have : EE_ASSERT (decide (w.map.m_status = EntityMap.Status.Loaded)) = some () := by
        rw [EE_ASSERT_eq_some]; simpa using hst
      simp only [this, hw1, Option.bind_eq_bind, Option.some_bind]
    · show { w1.map with m_status := EntityMap.Status.Activated } = _
      rw [hmap]

theorem C15_Activate_witness :
    (∀ v : World, v.map.m_status ≠ EntityMap.Status.Loaded → Activate v = none)
    ∧ ∃ (w' : World) (called : List EntityPtr), Activate exampleWorldLoaded = some w'
      ∧ w'.map = { exampleWorldLoaded.map with m_status := EntityMap.Status.Activated }
      ∧ w'.trace = exampleWorldLoaded.trace ++ called.map Event.Activate
      ∧ called.Nodup
      ∧ (∀ p, p ∈ called ↔
          (p ∈ exampleWorldLoaded.map.m_entities
            ∧ ∃ e, Heap.read exampleWorldLoaded.heap p = some e ∧ e.IsLoaded = true))
      ∧ (∀ q, Heap.read w'.heap q
          = if q ∈ called then
              (Heap.read exampleWorldLoaded.heap q).map fun e =>
                { e with m_status := Entity.Status.Activated }
            else Heap.read exampleWorldLoaded.heap q) :=
  C15_Activate exampleWorldLoaded (by decide) (by decide)
/-! ## C14: `Deactivate` -/

theorem Heap.Quieter.back {h h' : Heap} (hq : Heap.Quieter h h') {q : EntityPtr} {e' : Entity}
    (he : Heap.read h' q = some e') :
    ∃ e, Heap.read h q = some e
      ∧ e'.m_pParentSpatialEntity = e.m_pParentSpatialEntity
      ∧ e'.m_isSpatialEntity = e.m_isSpatialEntity := by
  rcases hq.2 q with h1 | ⟨e0, he0, _, h1⟩
  · exact ⟨e', by rw [← h1]; exact he, rfl, rfl⟩
  · rw [h1] at he
    cases he
    exact ⟨e0, he0, rfl, rfl⟩

theorem deactivation_condition (a s p : Bool) :
    (a && (!s || !p)) = true ↔ (a = true ∧ ¬ (s = true ∧ p = true)) := by
  cases a <;> cases s <;> cases p <;> simp

/-- The deactivation batch over live entities, none of which has a spatial
parent without being a spatial entity: the entities of the list that are
activated and not spatially attached are deactivated, each once. -/
theorem deactivation_fold_calls (l : List EntityPtr) :
    ∀ w : World, (∀ p ∈ l, (Heap.read w.heap p).isSome = true) →
    (∀ p ∈ l, ∀ e, Heap.read w.heap p = some e → e.IsSpatialEntity = false →
      e.m_pParentSpatialEntity = none) →
    ∃ (w' : World) (called : List EntityPtr), l.foldlM EntityDeactivationTask.item w = some w'
      ∧ w'.trace = w.trace ++ called.map Event.Deactivate
      ∧ called.Nodup
      ∧ (∀ p, p ∈ called ↔
          (p ∈ l ∧ ∃ e, Heap.read w.heap p = some e ∧ e.IsActivated = true
            ∧ ¬ (e.IsSpatialEntity = true ∧ e.HasSpatialParent = true))) := by
  induction l with
  | nil =>
    intro w _ _
    exact ⟨w, [], rfl, by simp, List.nodup_nil, by simp⟩
  | cons a l ih =>
    intro w hlive hwf
    obtain ⟨ea, hea⟩ := Option.isSome_iff_exists.1 (hlive a (List.mem_cons_self _ _))
    by_cases hc : ea.IsActivated = true ∧ ¬ (ea.IsSpatialEntity = true ∧ ea.HasSpatialParent = true)
    · -- the entity is deactivated
      have hcond : (ea.IsActivated && (!ea.IsSpatialEntity || !ea.HasSpatialParent)) = true :=
        (deactivation_condition _ _ _).2 hc
      have hstep : EntityDeactivationTask.item w a
          = some { w with heap := Entity.Deactivate w.heap a,
                          trace := w.trace ++ [Event.Deactivate a] } := by
        unfold EntityDeactivationTask.item call_Deactivate
        simp only [hea, hcond, if_true, Option.bind_eq_bind, Option.some_bind]
      have hq : Heap.Quieter w.heap (Entity.Deactivate w.heap a) :=
        Entity.Deactivate_quieter _ _
      obtain ⟨w', called, hw', htr, hnd, hmem⟩ :=
        ih { w with heap := Entity.Deactivate w.heap a, trace := w.trace ++ [Event.Deactivate a] }
          (fun p hp => by
            obtain ⟨e, he⟩ := Option.isSome_iff_exists.1 (hlive p (List.mem_cons_of_mem _ hp))
            obtain ⟨e', he', _⟩ := hq.live he
            show (Heap.read (Entity.Deactivate w.heap a) p).isSome = true
            rw [he']; rfl)
          (fun p hp e' he' hns => by
            obtain ⟨e, he, hpar, hsp⟩ := hq.back he'
            rw [hpar]
            exact hwf p (List.mem_cons_of_mem _ hp) e he (by
              unfold Entity.IsSpatialEntity at hns ⊢
              rw [← hsp]; exact hns))
      have hnota : ∀ e, Heap.read (Entity.Deactivate w.heap a) a = some e →
          e.IsActivated = false :=
        fun e he => Entity.Deactivate_subtree w.heap a a e (Or.inl rfl) he
      have hnot : a ∉ called := by
        intro ha
        obtain ⟨_, e, he, hact, _⟩ := (hmem a).1 ha
        rw [hnota e he] at hact
        cases hact
      refine ⟨w', a :: called, ?_, ?_, List.nodup_cons.2 ⟨hnot, hnd⟩, ?_⟩
      · simp only [List.foldlM_cons, hstep, Option.bind_eq_bind, Option.some_bind]
        exact hw'
      · rw [htr]
        simp
      · intro p
        rw [List.mem_cons, hmem p]
        constructor
        · rintro (rfl | ⟨hp, e, he, hact, hns⟩)
          · exact ⟨List.mem_cons_self _ _, ea, hea, hc.1, hc.2⟩
          · exact ⟨List.mem_cons_of_mem _ hp, e, hq.activated he hact, hact, hns⟩
        · rintro ⟨hp, e, he, hact, hns⟩
          by_cases hpa : p = a
          · exact Or.inl hpa
          · have hpl : p ∈ l := (List.mem_cons.1 hp).resolve_left hpa
            refine Or.inr ⟨hpl, e, ?_, hact, hns⟩
            have hpar : e.m_pParentSpatialEntity = none := by
              cases hs : e.IsSpatialEntity with
              | false => exact hwf p hp e he hs
              | true =>
                have : ¬ e.HasSpatialParent = true := fun h => hns ⟨hs, h⟩
                unfold Entity.HasSpatialParent at this
                cases hpp : e.m_pParentSpatialEntity with
                | none => rfl
                | some q => rw [hpp] at this; exact absurd rfl this
            show Heap.read (Entity.Deactivate w.heap a) p = some e
            rw [Entity.Deactivate_other w.heap a p hpa
              (Heap.isAttachedTo_of_no_parent he hpar _ _)]
            exact he
    · -- the entity is skipped
      have hcond : (ea.IsActivated && (!ea.IsSpatialEntity || !ea.HasSpatialParent)) = false := by
        cases hb : (ea.IsActivated && (!ea.IsSpatialEntity || !ea.HasSpatialParent)) with
        | false => rfl
        | true => exact absurd ((deactivation_condition _ _ _).1 hb) hc
      have hstep : EntityDeactivationTask.item w a = some w := by
        unfold EntityDeactivationTask.item
        simp only [hea, hcond, Bool.false_eq_true, if_false, Option.bind_eq_bind,
          Option.some_bind]
      obtain ⟨w', called, hw', htr, hnd, hmem⟩ :=
        ih w (fun p hp => hlive p (List.mem_cons_of_mem _ hp))
          (fun p hp => hwf p (List.mem_cons_of_mem _ hp))
      refine ⟨w', called, ?_, htr, hnd, ?_⟩
      · simp only [List.foldlM_cons, hstep, Option.bind_eq_bind, Option.some_bind]
        exact hw'
      · intro p
        rw [hmem p]
        constructor
        · rintro ⟨hp, h⟩
          exact ⟨List.mem_cons_of_mem _ hp, h⟩
        · rintro ⟨hp, e, he, hact, hns⟩
          refine ⟨(List.mem_cons.1 hp).resolve_left ?_, e, he, hact, hns⟩
          intro hpa
          subst hpa
          rw [hea] at he
          cases he
          exact hc ⟨hact, hns⟩

/-- C14: on a map with status Activated whose entities are live (a spatial parent
being recorded on spatial entities only), `Deactivate` succeeds and invokes the
deactivation of an entity for a member of the entity list if and only if that
entity is activated and is not a spatial entity attached to a parent; it invokes
it at most once per entity; and it then sets the status to Loaded, the entity
list, the lookup maps and the worklists being left as they were. -/
theorem C14_Deactivate (w : World)
    (hact : w.map.m_status = EntityMap.Status.Activated)
    (hlive : ∀ p ∈ w.map.m_entities, (Heap.read w.heap p).isSome = true)
    (hwf : ∀ p ∈ w.map.m_entities, ∀ e, Heap.read w.heap p = some e →
      e.IsSpatialEntity = false → e.m_pParentSpatialEntity = none) :
    ∃ (w' : World) (called : List EntityPtr), Deactivate w = some w'
      ∧ w'.map = { w.map with m_status := EntityMap.Status.Loaded }
      ∧ w'.trace = w.trace ++ called.map Event.Deactivate
      ∧ called.Nodup
      ∧ (∀ p, p ∈ called ↔
          (p ∈ w.map.m_entities ∧ ∃ e, Heap.read w.heap p = some e ∧ e.IsActivated = true
            ∧ ¬ (e.IsSpatialEntity = true ∧ e.HasSpatialParent = true))) := by
  obtain ⟨w1, called, hw1, htr, hnd, hmem⟩ :=
    deactivation_fold_calls w.map.m_entities w hlive hwf
  obtain ⟨hmap, _, _⟩ := deactivation_fold_frame hw1
  refine ⟨{ w1 with map := { w1.map with m_status := EntityMap.Status.Loaded } }, called,
    ?_, ?_, htr, hnd, hmem⟩
  · unfold Deactivate
    have : EE_ASSERT (decide (w.map.m_status = EntityMap.Status.Activated)) = some () := by
      rw [EE_ASSERT_eq_some]; simpa using hact
    simp only [this, hw1, Option.bind_eq_bind, Option.some_bind]
  · show { w1.map with m_status := EntityMap.Status.Loaded } = _
    rw [hmap]

theorem C14_Deactivate_witness :
    ∃ (w' : World) (called : List EntityPtr), Deactivate exampleWorldActivated = some w'
      ∧ w'.map = { exampleWorldActivated.map with m_status := EntityMap.Status.Loaded }
      ∧ w'.trace = exampleWorldActivated.trace ++ called.map Event.Deactivate
      ∧ called.Nodup
      ∧ (∀ p, p ∈ called ↔
          (p ∈ exampleWorldActivated.map.m_entities
            ∧ ∃ e, Heap.read exampleWorldActivated.heap p = some e ∧ e.IsActivated = true
              ∧ ¬ (e.IsSpatialEntity = true ∧ e.HasSpatialParent = true))) :=
  C14_Deactivate exampleWorldActivated (by decide) (by decide)
    (by
      intro p hp e he _
      have hp' : p = 1 ∨ p = 2 := by
        have : exampleWorldActivated.map.m_entities = [1, 2] := by decide
        rw [this] at hp
        simpa using hp
      have h1 : (Heap.read exampleWorldActivated.heap 1).map Entity.m_pParentSpatialEntity
          = some none := by decide
      have h2 : (Heap.read exampleWorldActivated.heap 2).map Entity.m_pParentSpatialEntity
          = some none := by decide
      rcases hp' with rfl | rfl
      · rw [he] at h1; exact Option.some.inj h1
      · rw [he] at h2; exact Option.some.inj h2)
/-! ## C20: `AddEntity` -/

theorem AddEntity.validate_isSome (w : World) (e : Entity)
    (htools : w.EE_DEVELOPMENT_TOOLS = true →
      StringID.IsValid e.m_name = true
      ∧ (∀ q, e.m_pParentSpatialEntity = some q →
          ∃ eq, Heap.read w.heap q = some eq ∧ w.map.ContainsEntity eq.m_ID = true)
      ∧ w.map.m_entityNameLookupMap.length + 2 ≤ 2 ^ 32) :
    ∃ name, AddEntity.validate w e = some name
      ∧ (w.EE_DEVELOPMENT_TOOLS = false → name = e.m_name)
      ∧ (w.EE_DEVELOPMENT_TOOLS = true →
          GenerateUniqueEntityNameID w.map.m_entityNameLookupMap e.m_name = some name) := by
  unfold AddEntity.validate
  cases ht : w.EE_DEVELOPMENT_TOOLS with
  | false => exact ⟨e.m_name, by simp, fun _ => rfl, fun h => by cases h⟩
  | true =>
    obtain ⟨hv, hpar, hsize⟩ := htools ht
    obtain ⟨name, hname⟩ := GenerateUniqueEntityNameID_isSome
      w.map.m_entityNameLookupMap e.m_name hv hsize
    have hcheck : AddEntity.checkSpatialParent w e = some () := by
      unfold AddEntity.checkSpatialParent
      cases hp : e.m_pParentSpatialEntity with
      | none => rfl
      | some q =>
        obtain ⟨eq, heq, hc⟩ := hpar q hp
        simp only [heq, Option.bind_eq_bind, Option.some_bind]
        exact (EE_ASSERT_eq_some (u := ())).2 hc
    refine ⟨name, ?_, (fun h => by cases h), fun _ => hname⟩
    simp only [if_true, hcheck, Option.bind_eq_bind, Option.some_bind, hname]

/-- C20, as stated, fails with development tools: an entity that is non-null, in
no map, without component load requested and not in `toLoad` is still rejected
when its spatial parent is not in the map. -/
theorem C20_counterexample :
    exampleWorldAttached.EE_DEVELOPMENT_TOOLS = true
    ∧ (2 : EntityPtr) ≠ nullptr
    ∧ (Heap.read exampleWorldAttached.heap 2).map Entity.IsAddedToMap = some false
    ∧ (Heap.read exampleWorldAttached.heap 2).map Entity.HasRequestedComponentLoad = some false
    ∧ 2 ∉ exampleWorldAttached.map.m_entitiesToLoad
    ∧ AddEntity exampleWorldAttached 2 = none := by
  decide

/-- C20, amended: let the entity at `pEntity` be live, non-null, in no map,
without component load requested and not in `toLoad`; with development tools let
moreover its name be valid, its spatial parent, if any, be an entity of the map,
and the name lookup map hold fewer than 2^32 - 1 names.  Then `AddEntity`
succeeds: it records this map's id on the entity (and, with development tools,
the de-duplicated name, entered in the name lookup map), appends the entity to
the end of the entity list and of `toLoad`, and inserts (entity id -> entity)
into the id lookup map, where it is found under its id unless the id was already
a key; the loading list, `toRemove`, the status and `m_isMapInstantiated` are
unchanged, and so is every other entity.  An entity that is already in a map or
has a component load requested is rejected: `AddEntity` fails on its assertion
and produces no state. -/
theorem C20_AddEntity (w : World) (pEntity : EntityPtr) (e : Entity)
    (hp : pEntity ≠ nullptr) (he : Heap.read w.heap pEntity = some e)
    (hadded : e.IsAddedToMap = false) (hload : e.HasRequestedComponentLoad = false)
    (hq : pEntity ∉ w.map.m_entitiesToLoad)
    (htools : w.EE_DEVELOPMENT_TOOLS = true →
      StringID.IsValid e.m_name = true
      ∧ (∀ q, e.m_pParentSpatialEntity = some q →
          ∃ eq, Heap.read w.heap q = some eq ∧ w.map.ContainsEntity eq.m_ID = true)
      ∧ w.map.m_entityNameLookupMap.length + 2 ≤ 2 ^ 32) :
    (∃ (w' : World) (name : StringID), AddEntity w pEntity = some w'
      ∧ Heap.read w'.heap pEntity = some { e with m_name := name, m_mapID := w.map.m_ID }
      ∧ (∀ q, q ≠ pEntity → Heap.read w'.heap q = Heap.read w.heap q)
      ∧ w'.map.m_ID = w.map.m_ID
      ∧ w'.map.m_entities = w.map.m_entities ++ [pEntity]
      ∧ w'.map.m_entitiesToLoad = w.map.m_entitiesToLoad ++ [pEntity]
      ∧ w'.map.m_entityIDLookupMap = THashMap.insert w.map.m_entityIDLookupMap e.m_ID pEntity
      ∧ (e.m_ID ∉ w.map.m_entityIDLookupMap.map Prod.fst →
          w'.map.FindEntity e.m_ID = some pEntity)
      ∧ w'.map.m_entitiesCurrentlyLoading = w.map.m_entitiesCurrentlyLoading
      ∧ w'.map.m_entitiesToRemove = w.map.m_entitiesToRemove
      ∧ w'.map.m_status = w.map.m_status
      ∧ w'.map.m_isMapInstantiated = w.map.m_isMapInstantiated
      ∧ (w.EE_DEVELOPMENT_TOOLS = false →
          name = e.m_name ∧ w'.map.m_entityNameLookupMap = w.map.m_entityNameLookupMap)
      ∧ (w.EE_DEVELOPMENT_TOOLS = true →
          name ∉ w.map.m_entityNameLookupMap.map Prod.fst
          ∧ THashMap.find w'.map.m_entityNameLookupMap name = some pEntity))
    ∧ (∀ (v : World) (q : EntityPtr) (x : Entity), Heap.read v.heap q = some x →
        x.IsAddedToMap = true ∨ x.HasRequestedComponentLoad = true → AddEntity v q = none) := by
  constructor
  · obtain ⟨name, hval, hnt, ht⟩ := AddEntity.validate_isSome w e htools
    refine ⟨_, name, AddEntity_of_validate w pEntity e name hp he hadded hload hq hval,
      ?_, ?_, rfl, rfl, rfl, rfl, ?_, rfl, rfl, rfl, rfl, ?_, ?_⟩
    · dsimp only
      rw [Heap.read_modify_self, he]; rfl
    · intro q hq
      dsimp only
      exact Heap.read_modify_ne _ _ hq
    · intro hk
      exact THashMap.find_insert_self _ _ ((THashMap.find_eq_none_iff _ _).2 hk)
    · intro hf
      refine ⟨hnt hf, ?_⟩
      dsimp only
      rw [hf]; rfl
    · intro htrue
      have hfresh := GenerateUniqueEntityNameID_fresh (ht htrue)
      refine ⟨(THashMap.find_eq_none_iff _ _).1 hfresh, ?_⟩
      dsimp only
      rw [if_pos htrue]
      exact THashMap.find_insert_self _ _ hfresh
  · intro v q x hx hbad
    unfold AddEntity
    have h2 : EE_ASSERT (!x.IsAddedToMap && !x.HasRequestedComponentLoad) = none := by
      unfold EE_ASSERT
      rw [if_neg]
      rcases hbad with h | h <;> rw [h] <;> simp
    cases h1 : EE_ASSERT (decide (q ≠ nullptr)) with
    | none => rfl
    | some u =>
      simp only [hx, h2, Option.bind_eq_bind, Option.some_bind, Option.none_bind]

theorem C20_AddEntity_witness :
    (∃ (w' : World) (name : StringID), AddEntity exampleWorldQueued 3 = some w'
      ∧ Heap.read w'.heap 3
          = some { exampleEntity 13 "Bar".toList with
                     m_name := name, m_mapID := exampleWorldQueued.map.m_ID }
      ∧ (∀ q, q ≠ 3 → Heap.read w'.heap q = Heap.read exampleWorldQueued.heap q)
      ∧ w'.map.m_ID = exampleWorldQueued.map.m_ID
      ∧ w'.map.m_entities = exampleWorldQueued.map.m_entities ++ [3]
      ∧ w'.map.m_entitiesToLoad = exampleWorldQueued.map.m_entitiesToLoad ++ [3]
      ∧ w'.map.m_entityIDLookupMap
          = THashMap.insert exampleWorldQueued.map.m_entityIDLookupMap
              (exampleEntity 13 "Bar".toList).m_ID 3
      ∧ ((exampleEntity 13 "Bar".toList).m_ID
            ∉ exampleWorldQueued.map.m_entityIDLookupMap.map Prod.fst →
          w'.map.FindEntity (exampleEntity 13 "Bar".toList).m_ID = some 3)
      ∧ w'.map.m_entitiesCurrentlyLoading = exampleWorldQueued.map.m_entitiesCurrentlyLoading
      ∧ w'.map.m_entitiesToRemove = exampleWorldQueued.map.m_entitiesToRemove
      ∧ w'.map.m_status = exampleWorldQueued.map.m_status
      ∧ w'.map.m_isMapInstantiated = exampleWorldQueued.map.m_isMapInstantiated
      ∧ (exampleWorldQueued.EE_DEVELOPMENT_TOOLS = false →
          name = (exampleEntity 13 "Bar".toList).m_name
          ∧ w'.map.m_entityNameLookupMap = exampleWorldQueued.map.m_entityNameLookupMap)
      ∧ (exampleWorldQueued.EE_DEVELOPMENT_TOOLS = true →
          name ∉ exampleWorldQueued.map.m_entityNameLookupMap.map Prod.fst
          ∧ THashMap.find w'.map.m_entityNameLookupMap name = some 3))
    ∧ (∀ (v : World) (q : EntityPtr) (x : Entity), Heap.read v.heap q = some x →
        x.IsAddedToMap = true ∨ x.HasRequestedComponentLoad = true → AddEntity v q = none) :=
  C20_AddEntity exampleWorldQueued 3 (exampleEntity 13 "Bar".toList) (by decide) (by decide)
    (by decide) (by decide) (by decide)
    (fun _ => ⟨by decide, (fun q hq => by cases hq), by decide⟩)
/-! ## C19: `RemoveEntity` and `DestroyEntity` -/

/-- `RemoveEntityInternal` on an id that the id lookup map leads to a live
entity carrying it, with a live spatial hierarchy around the entity (and, with
development tools, its name in the name lookup map), on a map that is
instantiated or still holds the entity in `toLoad`: the call succeeds, and
either cancels the load request of a queued entity carrying the id or queues the
removal of the entity. -/
theorem RemoveEntityInternal_isSome (w : World) (id : EntityID) (p : EntityPtr) (e : Entity)
    (d : Bool)
    (hfind : w.map.FindEntity id = some p)
    (hlive : Heap.read w.heap p = some e) (hid : e.m_ID = id)
    (hattached : ∀ c ∈ e.m_attachedEntities, (Heap.read w.heap c).isSome = true)
    (hparent : ∀ q, e.m_pParentSpatialEntity = some q → (Heap.read w.heap q).isSome = true)
    (hname : w.EE_DEVELOPMENT_TOOLS = true →
      (THashMap.find w.map.m_entityNameLookupMap e.m_name).isSome = true)
    (hstate : w.map.m_isMapInstantiated = true ∨ p ∈ w.map.m_entitiesToLoad) :
    ∃ (w' : World) (r : Option EntityPtr), RemoveEntityInternal w id d = some (w', r)
      ∧ ((∃ q eq, q ∈ w.map.m_entitiesToLoad
            ∧ w'.map.m_entitiesToRemove = w.map.m_entitiesToRemove
            ∧ (d = true → r = none ∧ Heap.read w'.heap q = none ∧ Event.Delete q ∈ w'.trace)
            ∧ (d = false → r = some q ∧ Heap.read w'.heap q = some eq ∧ eq.m_ID = id))
          ∨ (w.map.m_isMapInstantiated = true
            ∧ w'.map.m_entitiesToRemove
                = w.map.m_entitiesToRemove ++ [{ m_pEntity := p, m_shouldDestroy := d }]
            ∧ r = (if d then none else some p)
            ∧ ∃ e1, Heap.read w'.heap p = some e1 ∧ e1.m_ID = id)) := by
  -- the steps before the schedule-unload block succeed
  obtain ⟨w1, hw1⟩ := reparent_isSome w p e hlive hattached hparent
  obtain ⟨hsc, hmap, htools⟩ := reparent_frame hw1
  obtain ⟨e1, he1, hcore⟩ := hsc.read hlive
  have hid1 : e1.m_ID = id := (Entity.core_ID hcore).trans hid
  have hname1 : e1.m_name = e.m_name := Entity.core_name hcore
  have hfind' : THashMap.find w1.map.m_entityIDLookupMap e1.m_ID = some p := by
    rw [hmap, hid1]; exact hfind
  obtain ⟨nl, hnl⟩ : ∃ nl, RemoveEntityInternal.eraseName w1 e1.m_name = some nl := by
    unfold RemoveEntityInternal.eraseName
    cases ht : w1.EE_DEVELOPMENT_TOOLS
    · exact ⟨w1.map.m_entityNameLookupMap, by simp⟩
    · have := hname (htools ▸ ht)
      obtain ⟨v, hv⟩ := Option.isSome_iff_exists.1 this
      rw [hmap, hname1]
      exact ⟨THashMap.erase w.map.m_entityNameLookupMap e.m_name, by simp [hv]⟩
  have hpred : queuedWithID w1.heap id p = true := by simp [queuedWithID, he1, hid1]
  have hrun : RemoveEntityInternal w id d
      = RemoveEntityInternal.scheduleUnload
          { w1 with map := { w1.map with
              m_entities := erase_first_unsorted w1.map.m_entities p,
              m_entityIDLookupMap := THashMap.erase w1.map.m_entityIDLookupMap e1.m_ID,
              m_entityNameLookupMap := nl } } p id d := by
    unfold RemoveEntityInternal
    simp only [hfind, hlive, hw1, he1, hfind', hnl, Option.bind_eq_bind, Option.some_bind]
  -- the schedule-unload block succeeds
  have hsome : ∃ x, RemoveEntityInternal.scheduleUnload
          { w1 with map := { w1.map with
              m_entities := erase_first_unsorted w1.map.m_entities p,
              m_entityIDLookupMap := THashMap.erase w1.map.m_entityIDLookupMap e1.m_ID,
              m_entityNameLookupMap := nl } } p id d = some x := by
    rw [scheduleUnload_eq]
    cases hv : VectorFindIndex (queuedWithID w1.heap id) w1.map.m_entitiesToLoad with
    | some idx =>
      obtain ⟨q, hq, hqp, _⟩ := VectorFindIndex_some hv
      obtain ⟨eq, heq, _⟩ := queuedWithID_eq_true hqp
      dsimp only
      unfold RemoveEntityInternal.cancelLoad
      dsimp only
      rw [hq]
      simp only [Option.bind_eq_bind, Option.some_bind]
      cases d with
      | true =>
        simp only [if_true, call_Delete, heq, Option.bind_eq_bind, Option.some_bind,
          Option.map_some']
        exact ⟨_, rfl⟩
      | false =>
        simp only [Bool.false_eq_true, if_false]
        exact ⟨_, rfl⟩
    | none =>
      have hinst : w1.map.m_isMapInstantiated = true := by
        rcases hstate with h | h
        · rw [hmap]; exact h
        · have := VectorFindIndex_none hv p (by rw [hmap]; exact h)
          rw [hpred] at this
          cases this
      dsimp only
      unfold RemoveEntityInternal.queueRemoval
      dsimp only
      rw [if_pos hinst]
      exact ⟨_, rfl⟩
  obtain ⟨⟨w', r⟩, hx⟩ := hsome
  refine ⟨w', r, hrun.trans hx, ?_⟩
  obtain ⟨_, _, _, _, _, _, _, _, _, _, hcase⟩ := scheduleUnload_spec hx
  rcases hcase with ⟨idx, q, hvf, hq, _, hrem, hheap⟩ | ⟨_, hinst, _, hrem, hheap, _, hr⟩
  · obtain ⟨x, hx', hpx, _⟩ := VectorFindIndex_some hvf
    have hxq : x = q := by
      rw [hq] at hx'
      exact (Option.some.inj hx').symm
    subst hxq
    obtain ⟨eq, heq, hqid⟩ := queuedWithID_eq_true hpx
    have hqmem : x ∈ w.map.m_entitiesToLoad := by
      have : x ∈ w1.map.m_entitiesToLoad := List.getElem?_mem hq
      rw [hmap] at this; exact this
    refine Or.inl ⟨x, eq, hqmem, by rw [hrem]; show w1.map.m_entitiesToRemove = _; rw [hmap],
      ?_, ?_⟩
    · intro hd
      rcases hheap with ⟨_, _, hfree, htr, hr⟩ | ⟨hd', _⟩
      · refine ⟨hr, ?_, ?_⟩
        · rw [hfree, Heap.read_free, if_pos rfl]
        · rw [htr]; simp
      · rw [hd] at hd'; cases hd'
    · intro hd
      rcases hheap with ⟨hd', _⟩ | ⟨_, hsame, _, hr⟩
      · rw [hd] at hd'; cases hd'
      · exact ⟨hr, by rw [hsame]; exact heq, hqid⟩
  · refine Or.inr ⟨by rw [← hmap]; exact hinst,
      by rw [hrem]; show w1.map.m_entitiesToRemove ++ _ = _; rw [hmap], hr,
      e1, by rw [hheap]; exact he1, hid1⟩

theorem removeEntity_spec {w w' : World} {i : Nat} {r : RemovalRequest}
    (h : ProcessEntityAdditionAndRemoval.removeEntity w i r = some w') :
    (r.m_shouldDestroy = true →
      Heap.read w'.heap r.m_pEntity = none ∧ Event.Delete r.m_pEntity ∈ w'.trace)
    ∧ (r.m_shouldDestroy = false →
        ∃ e, Heap.read w.heap r.m_pEntity = some e
          ∧ Heap.read w'.heap r.m_pEntity
              = some { e with m_status := Entity.Status.Unloaded, m_mapID := 0 }) := by
  unfold ProcessEntityAdditionAndRemoval.removeEntity at h
  simp only [Option.bind_eq_bind, Option.bind_eq_some, Option.some.injEq] at h
  obtain ⟨w1, h1, w2, h2, rfl⟩ := h
  obtain ⟨⟨e, he⟩, rfl⟩ := call_UnloadComponents_eq h1
  unfold ProcessEntityAdditionAndRemoval.destroyIfRequested at h2
  constructor
  · intro hd
    rw [if_pos hd] at h2
    obtain ⟨_, rfl⟩ := call_Delete_eq h2
    dsimp only
    refine ⟨?_, by simp⟩
    rw [Heap.read_free, if_pos rfl]
  · intro hd
    rw [if_neg (by rw [hd]; simp)] at h2
    cases h2
    refine ⟨e, he, ?_⟩
    dsimp only
    unfold Entity.UnloadComponents
    rw [Heap.read_modify_self, Heap.read_modify_self]
    have he' : Heap.read w.heap r.m_pEntity = some e := he
    rw [he']
    rfl

/-- C19: `RemoveEntity` and `DestroyEntity` do not return for an id that the id
lookup map holds, once an unload completed on a map that was not instantiated.
After an unload completed on a map whose descriptor was still loading, `toLoad`
is cleared while the entity the caller had added is still found under its id 11
and carries it; the map is not instantiated, and `RemoveEntity` and
`DestroyEntity` on that id return nothing: `RemoveEntityInternal` finds the
entity in neither queue and stops at `EE_UNREACHABLE_CODE`. -/
theorem C19_RemoveEntity_reaches_unknown_entity_branch :
    (World.afterPass (UpdateState exampleWorldDescriptorUnload
        (exampleContext true))).1.map.FindEntity 11 = some 1
    ∧ ((Heap.read (World.afterPass (UpdateState exampleWorldDescriptorUnload
        (exampleContext true))).1.heap 1).map Entity.m_ID) = some 11
    ∧ (World.afterPass (UpdateState exampleWorldDescriptorUnload
        (exampleContext true))).1.map.m_isMapInstantiated = false
    ∧ (World.afterPass (UpdateState exampleWorldDescriptorUnload
        (exampleContext true))).1.map.m_entitiesToLoad = []
    ∧ RemoveEntity (World.afterPass (UpdateState exampleWorldDescriptorUnload
        (exampleContext true))).1 11 = none
    ∧ DestroyEntity (World.afterPass (UpdateState exampleWorldDescriptorUnload
        (exampleContext true))).1 11 = none
    ∧ RemoveEntityInternal.queueRemoval (World.afterPass (UpdateState
        exampleWorldDescriptorUnload (exampleContext true))).1 1 false = none := by
  decide

/-- `RemoveEntity` and `DestroyEntity` on a known entity.  Let the id lookup map lead from the id to a live entity that
carries it, with the entities attached to it and its parent live (with
development tools, its name in the name lookup map), on a map that is
instantiated or still holds the entity in `toLoad`.  Then `RemoveEntity`
succeeds and returns a live entity carrying that id (its non-null assertion
holds); it either cancels a load request, queueing nothing, or queues the
removal of the entity with the destroy flag false.  `DestroyEntity` on the same
id succeeds and returns nothing; it either deletes the queued entity within the
call or queues the removal with the destroy flag true.  When the removal loop
completes a request, it deletes the entity if and only if the destroy flag is
set; with the flag not set the entity stays live, unloaded and without map id. -/
theorem RemoveEntity_DestroyEntity_of_known_entity (w : World) (id : EntityID) (p : EntityPtr) (e : Entity)
    (hfind : w.map.FindEntity id = some p)
    (hlive : Heap.read w.heap p = some e) (hid : e.m_ID = id)
    (hattached : ∀ c ∈ e.m_attachedEntities, (Heap.read w.heap c).isSome = true)
    (hparent : ∀ q, e.m_pParentSpatialEntity = some q → (Heap.read w.heap q).isSome = true)
    (hname : w.EE_DEVELOPMENT_TOOLS = true →
      (THashMap.find w.map.m_entityNameLookupMap e.m_name).isSome = true)
    (hstate : w.map.m_isMapInstantiated = true ∨ p ∈ w.map.m_entitiesToLoad) :
    (∃ (w' : World) (q : EntityPtr) (eq : Entity), RemoveEntity w id = some (w', q)
      ∧ Heap.read w'.heap q = some eq ∧ eq.m_ID = id
      ∧ ((q ∈ w.map.m_entitiesToLoad
            ∧ w'.map.m_entitiesToRemove = w.map.m_entitiesToRemove)
          ∨ (q = p ∧ w'.map.m_entitiesToRemove
              = w.map.m_entitiesToRemove ++ [{ m_pEntity := p, m_shouldDestroy := false }])))
    ∧ (∃ w' : World, DestroyEntity w id = some w'
      ∧ ((w'.map.m_entitiesToRemove = w.map.m_entitiesToRemove
            ∧ ∃ q ∈ w.map.m_entitiesToLoad,
                Heap.read w'.heap q = none ∧ Event.Delete q ∈ w'.trace)
          ∨ w'.map.m_entitiesToRemove
              = w.map.m_entitiesToRemove ++ [{ m_pEntity := p, m_shouldDestroy := true }]))
    ∧ (∀ (v v' : World) (i : Nat) (r : RemovalRequest),
        ProcessEntityAdditionAndRemoval.removeEntity v i r = some v' →
        (r.m_shouldDestroy = true →
          Heap.read v'.heap r.m_pEntity = none ∧ Event.Delete r.m_pEntity ∈ v'.trace)
        ∧ (r.m_shouldDestroy = false →
            ∃ x, Heap.read v.heap r.m_pEntity = some x
              ∧ Heap.read v'.heap r.m_pEntity
                  = some { x with m_status := Entity.Status.Unloaded, m_mapID := 0 })) := by
  refine ⟨?_, ?_, fun v v' i r h => removeEntity_spec h⟩
  · obtain ⟨w', r, hrun, hcase⟩ :=
      RemoveEntityInternal_isSome w id p e false hfind hlive hid hattached hparent hname hstate
    rcases hcase with ⟨q, eq, hq, hrem, _, hf⟩ | ⟨_, hrem, hr, e1, he1, hid1⟩
    · obtain ⟨hr, heq, hqid⟩ := hf rfl
      subst hr
      refine ⟨w', q, eq, ?_, heq, hqid, Or.inl ⟨hq, hrem⟩⟩
      unfold RemoveEntity
      simp only [hrun, Option.bind_eq_bind, Option.some_bind]
    · simp only [Bool.false_eq_true, if_false] at hr
      subst hr
      refine ⟨w', p, e1, ?_, he1, hid1, Or.inr ⟨rfl, hrem⟩⟩
      unfold RemoveEntity
      simp only [hrun, Option.bind_eq_bind, Option.some_bind]
  · obtain ⟨w', r, hrun, hcase⟩ :=
      RemoveEntityInternal_isSome w id p e true hfind hlive hid hattached hparent hname hstate
    refine ⟨w', ?_, ?_⟩
    · unfold DestroyEntity
      simp only [hrun, Option.bind_eq_bind, Option.some_bind]
    · rcases hcase with ⟨q, eq, hq, hrem, ht, _⟩ | ⟨_, hrem, _, _⟩
      · obtain ⟨_, hnone, hdel⟩ := ht rfl
        exact Or.inl ⟨hrem, q, hq, hnone, hdel⟩
      · exact Or.inr hrem

theorem RemoveEntity_DestroyEntity_of_known_entity_witness :
    (∃ (w' : World) (q : EntityPtr) (eq : Entity), RemoveEntity exampleWorldLoaded 12 = some (w', q)
      ∧ Heap.read w'.heap q = some eq ∧ eq.m_ID = 12
      ∧ ((q ∈ exampleWorldLoaded.map.m_entitiesToLoad
            ∧ w'.map.m_entitiesToRemove = exampleWorldLoaded.map.m_entitiesToRemove)
          ∨ (q = 2 ∧ w'.map.m_entitiesToRemove
              = exampleWorldLoaded.map.m_entitiesToRemove
                  ++ [{ m_pEntity := 2, m_shouldDestroy := false }])))
    ∧ (∃ w' : World, DestroyEntity exampleWorldLoaded 12 = some w'
      ∧ ((w'.map.m_entitiesToRemove = exampleWorldLoaded.map.m_entitiesToRemove
            ∧ ∃ q ∈ exampleWorldLoaded.map.m_entitiesToLoad,
                Heap.read w'.heap q = none ∧ Event.Delete q ∈ w'.trace)
          ∨ w'.map.m_entitiesToRemove
              = exampleWorldLoaded.map.m_entitiesToRemove
                  ++ [{ m_pEntity := 2, m_shouldDestroy := true }]))
    ∧ (∀ (v v' : World) (i : Nat) (r : RemovalRequest),
        ProcessEntityAdditionAndRemoval.removeEntity v i r = some v' →
        (r.m_shouldDestroy = true →
          Heap.read v'.heap r.m_pEntity = none ∧ Event.Delete r.m_pEntity ∈ v'.trace)
        ∧ (r.m_shouldDestroy = false →
            ∃ x, Heap.read v.heap r.m_pEntity = some x
              ∧ Heap.read v'.heap r.m_pEntity
                  = some { x with m_status := Entity.Status.Unloaded, m_mapID := 0 })) :=
  RemoveEntity_DestroyEntity_of_known_entity exampleWorldLoaded 12 2
    { exampleEntity 12 "Foo 000".toList with
        m_mapID := 7, m_status := Entity.Status.Loaded }
    (by decide) (by decide) rfl (fun c hc => by cases hc) (fun q hq => by cases hq)
    (fun _ => by decide) (Or.inl (by decide))
/-! ## C16: the instantiated flag follows the status -/

theorem StatusInst.of_fixed {m m' : EntityMap} (h : StatusInst m)
    (hs : m'.m_status = m.m_status)
    (hi : m'.m_isMapInstantiated = m.m_isMapInstantiated) : StatusInst m' := by
  unfold StatusInst at h ⊢
  rw [hs, hi]
  exact h

theorem StatusInst.not_instantiated {m : EntityMap} (h : StatusInst m)
    (h1 : m.m_status ≠ EntityMap.Status.MapEntitiesLoading)
    (h2 : m.m_status ≠ EntityMap.Status.Loaded)
    (h3 : m.m_status ≠ EntityMap.Status.Activated) : m.m_isMapInstantiated = false := by
  cases hi : m.m_isMapInstantiated with
  | false => rfl
  | true =>
    rcases h.1 hi with h | h | h
    · exact absurd h h1
    · exact absurd h h2
    · exact absurd h h3

theorem StatusInst.of_false {m : EntityMap} (hi : m.m_isMapInstantiated = false)
    (h1 : m.m_status ≠ EntityMap.Status.MapEntitiesLoading)
    (h2 : m.m_status ≠ EntityMap.Status.Loaded)
    (h3 : m.m_status ≠ EntityMap.Status.Activated) : StatusInst m := by
  unfold StatusInst
  rw [hi]
  constructor
  · intro h; cases h
  · rintro (h | h | h)
    · exact absurd h h1
    · exact absurd h h2
    · exact absurd h h3

theorem StatusInst.of_true {m : EntityMap} (hi : m.m_isMapInstantiated = true)
    (hs : m.m_status = EntityMap.Status.MapEntitiesLoading
      ∨ m.m_status = EntityMap.Status.Loaded
      ∨ m.m_status = EntityMap.Status.Activated) : StatusInst m :=
  ⟨fun _ => hs, fun _ => hi⟩

theorem AddEntity_status {w w' : World} {p : EntityPtr} (h : AddEntity w p = some w') :
    w'.map.m_status = w.map.m_status
    ∧ w'.map.m_isMapInstantiated = w.map.m_isMapInstantiated
    ∧ w'.map.m_isUnloadRequested = w.map.m_isUnloadRequested := by
  obtain ⟨_, _, _, _, _, _, _, _, rfl⟩ := AddEntity_eq h
  exact ⟨rfl, rfl, rfl⟩

theorem AddEntities_status {w w' : World} {ps : List EntityPtr}
    (h : AddEntities w ps = some w') :
    w'.map.m_status = w.map.m_status
    ∧ w'.map.m_isMapInstantiated = w.map.m_isMapInstantiated
    ∧ w'.map.m_isUnloadRequested = w.map.m_isUnloadRequested :=
  foldlM_inv AddEntity
    (fun x => x.map.m_status = w.map.m_status
      ∧ x.map.m_isMapInstantiated = w.map.m_isMapInstantiated
      ∧ x.map.m_isUnloadRequested = w.map.m_isUnloadRequested)
    (fun b a b' hb hs => by
      obtain ⟨s1, s2, s3⟩ := AddEntity_status hs
      exact ⟨s1.trans hb.1, s2.trans hb.2.1, s3.trans hb.2.2⟩)
    ps w w' ⟨rfl, rfl, rfl⟩ h

theorem RemoveEntityInternal_status {w w' : World} {id : EntityID} {d : Bool}
    {r : Option EntityPtr} (h : RemoveEntityInternal w id d = some (w', r)) :
    w'.map.m_status = w.map.m_status
    ∧ w'.map.m_isMapInstantiated = w.map.m_isMapInstantiated
    ∧ w'.map.m_isUnloadRequested = w.map.m_isUnloadRequested := by
  obtain ⟨p, e, w1, e1, nl, _, _, hw1, _, _, _, hsched⟩ := RemoveEntityInternal_spec h
  obtain ⟨_, hmap, _⟩ := reparent_frame hw1
  obtain ⟨_, _, _, _, _, _, hs, hi, hu, _⟩ := scheduleUnload_spec hsched
  refine ⟨hs.trans ?_, hi.trans ?_, hu.trans ?_⟩
  · show w1.map.m_status = _; rw [hmap]
  · show w1.map.m_isMapInstantiated = _; rw [hmap]
  · show w1.map.m_isUnloadRequested = _; rw [hmap]

theorem activation_fold_frame {l : List EntityPtr} {w w' : World}
    (h : l.foldlM EntityActivationTask.item w = some w') : w'.map = w.map :=
  foldlM_inv EntityActivationTask.item (fun x => x.map = w.map)
    (fun b a b' hb hs => by
      unfold EntityActivationTask.item at hs
      simp only [Option.bind_eq_bind, Option.bind_eq_some] at hs
      obtain ⟨e, _, hs⟩ := hs
      split at hs
      · obtain ⟨_, rfl⟩ := call_Activate_eq hs
        exact hb
      · cases hs
        exact hb)
    l w w' rfl h

theorem Deactivate_statusInst {w w' : World} (hinv : StatusInst w.map)
    (h : Deactivate w = some w') : StatusInst w'.map := by
  unfold Deactivate at h
  simp only [Option.bind_eq_bind, Option.bind_eq_some, Option.some.injEq, EE_ASSERT_eq_some,
    decide_eq_true_eq] at h
  obtain ⟨_, hs, w1, h1, rfl⟩ := h
  obtain ⟨hm, _, _⟩ := deactivation_fold_frame h1
  refine StatusInst.of_true ?_ (Or.inr (Or.inl rfl))
  show w1.map.m_isMapInstantiated = true
  rw [hm]
  exact hinv.2 (Or.inr (Or.inr hs))

theorem MapOp_run_statusInst {w w' : World} {c : MapOp} (hinv : StatusInst w.map)
    (h : MapOp.run w c = some w') : StatusInst w'.map := by
  cases c with
  | AddEntity p =>
    obtain ⟨s1, s2, _⟩ := AddEntity_status h
    exact hinv.of_fixed s1 s2
  | RemoveEntity id =>
    simp only [MapOp.run, RemoveEntity, Option.bind_eq_bind, Option.map_eq_some',
      Option.bind_eq_some, Option.some.injEq] at h
    obtain ⟨⟨w1, p1⟩, ⟨⟨w2, r⟩, hr, _, _, h3⟩, rfl⟩ := h
    simp only [Prod.mk.injEq] at h3
    obtain ⟨rfl, _⟩ := h3
    obtain ⟨s1, s2, _⟩ := RemoveEntityInternal_status hr
    exact hinv.of_fixed s1 s2
  | DestroyEntity id =>
    simp only [MapOp.run, DestroyEntity, Option.bind_eq_bind, Option.bind_eq_some,
      Option.some.injEq] at h
    obtain ⟨⟨w2, r⟩, hr, rfl⟩ := h
    obtain ⟨s1, s2, _⟩ := RemoveEntityInternal_status hr
    exact hinv.of_fixed s1 s2
  | Load =>
    simp only [MapOp.run] at h
    unfold Load at h
    simp only [Option.bind_eq_bind, Option.bind_eq_some, EE_ASSERT_eq_some,
      decide_eq_true_eq] at h
    obtain ⟨_, hs, h⟩ := h
    have hi : w.map.m_isMapInstantiated = false :=
      hinv.not_instantiated (by rw [hs]; decide) (by rw [hs]; decide) (by rw [hs]; decide)
    split at h
    · cases h
      exact StatusInst.of_true rfl (Or.inr (Or.inl rfl))
    · cases h
      exact StatusInst.of_false hi (by simp) (by simp) (by simp)
  | Unload =>
    simp only [MapOp.run] at h
    unfold Unload at h
    simp only [Option.bind_eq_bind, Option.bind_eq_some, Option.some.injEq] at h
    obtain ⟨_, _, rfl⟩ := h
    exact hinv.of_fixed rfl rfl
  | Activate =>
    simp only [MapOp.run] at h
    unfold Activate at h
    simp only [Option.bind_eq_bind, Option.bind_eq_some, Option.some.injEq, EE_ASSERT_eq_some,
      decide_eq_true_eq] at h
    obtain ⟨_, hs, w1, h1, rfl⟩ := h
    have hm := activation_fold_frame h1
    refine StatusInst.of_true ?_ (Or.inr (Or.inr rfl))
    show w1.map.m_isMapInstantiated = true
    rw [hm]
    exact hinv.2 (Or.inr (Or.inl hs))
  | Deactivate => exact Deactivate_statusInst hinv h
  | OnEntityStateUpdated p =>
    simp only [MapOp.run] at h
    unfold OnEntityStateUpdated at h
    simp only [Option.bind_eq_bind, Option.bind_eq_some] at h
    obtain ⟨e, _, h⟩ := h
    split at h
    · simp only [Option.bind_eq_bind, Option.bind_eq_some] at h
      obtain ⟨_, _, h⟩ := h
      split at h
      · cases h
        exact hinv
      · cases h
        exact hinv.of_fixed rfl rfl
    · cases h
      exact hinv
  | UpdateState ctx =>
    simp only [MapOp.run, Option.map_eq_some'] at h
    obtain ⟨⟨w1, r⟩, h1, rfl⟩ := h
    have hentities : ∀ {v v' : World} {b : Bool}, StatusInst v.map →
        UpdateState.processEntities v ctx = some (v', b) → StatusInst v'.map := by
      intro v v' b hv hp
      obtain ⟨_, hst, _⟩ := processEntities_result hp
      obtain ⟨hi, _⟩ := processEntities_fixed hp
      rcases hst with hst | ⟨hmel, hld⟩
      · exact hv.of_fixed hst hi
      · exact StatusInst.of_true (hi.trans (hv.2 (Or.inl hmel))) (Or.inr (Or.inl hld))
    have hloading : ∀ {v v' : World} {b : Bool}, StatusInst v.map →
        UpdateState.processLoading v ctx = some (v', b) → StatusInst v'.map := by
      intro v v' b hv hl
      unfold UpdateState.processLoading at hl
      split at hl
      · rename_i hmdl
        simp only [Option.bind_eq_bind, Option.bind_eq_some] at hl
        obtain ⟨⟨w2, b2⟩, h2, h3⟩ := hl
        have hinv2 : StatusInst w2.map := by
          have hvi : v.map.m_isMapInstantiated = false :=
            hv.not_instantiated (by rw [hmdl]; decide) (by rw [hmdl]; decide)
              (by rw [hmdl]; decide)
          unfold ProcessMapLoading at h2
          simp only [Option.bind_eq_bind, Option.bind_eq_some] at h2
          obtain ⟨_, _, _, _, h2⟩ := h2
          split at h2
          · simp only [Option.some.injEq, Prod.mk.injEq] at h2
            obtain ⟨rfl, _⟩ := h2
            exact hv
          · obtain ⟨w3, h3', h4⟩ := Option.map_eq_some'.1 h2
            simp only [Prod.mk.injEq] at h4
            obtain ⟨rfl, _⟩ := h4
            have hinv3 : StatusInst w3.map := by
              unfold ProcessMapLoading.finish at h3'
              split at h3'
              · cases h3'
                exact StatusInst.of_false hvi (by simp) (by simp) (by simp)
              · split at h3'
                · split at h3'
                  · unfold ProcessMapLoading.instantiate at h3'
                    simp only [Option.bind_eq_bind, Option.bind_eq_some,
                      Option.some.injEq] at h3'
                    obtain ⟨_, _, _, _, rfl⟩ := h3'
                    exact StatusInst.of_true rfl (Or.inl rfl)
                  · cases h3'
                    exact StatusInst.of_false hvi (by simp) (by simp) (by simp)
                · cases h3'
                  exact hv
            exact hinv3.of_fixed rfl rfl
        split at h3
        · exact hentities hinv2 h3
        · simp only [Option.some.injEq, Prod.mk.injEq] at h3
          obtain ⟨rfl, _⟩ := h3
          exact hinv2
      · exact hentities hv hl
    unfold UpdateState at h1
    simp only [Option.bind_eq_bind, Option.bind_eq_some] at h1
    obtain ⟨_, _, h1⟩ := h1
    unfold UpdateState.processUnload at h1
    split at h1
    · simp only [Option.bind_eq_bind, Option.bind_eq_some] at h1
      obtain ⟨⟨w2, b2⟩, h2, h3⟩ := h1
      have hinv2 : StatusInst w2.map := by
        by_cases hact : w.map.m_status = EntityMap.Status.Activated
        · unfold ProcessMapUnloadRequest at h2
          simp only [Option.bind_eq_bind, Option.bind_eq_some] at h2
          obtain ⟨_, _, h2⟩ := h2
          rw [if_pos (by simp [EntityMap.IsActivated, hact])] at h2
          obtain ⟨w3, h3', h4⟩ := Option.map_eq_some'.1 h2
          simp only [Prod.mk.injEq] at h4
          obtain ⟨rfl, _⟩ := h4
          exact Deactivate_statusInst hinv h3'
        · obtain ⟨_, hs2, _, hi2⟩ := ProcessMapUnloadRequest_notActivated hact h2
          refine StatusInst.of_false (hi2 ?_) (by rw [hs2]; decide) (by rw [hs2]; decide)
            (by rw [hs2]; decide)
          by_cases hlf : w.map.m_status = EntityMap.Status.LoadFailed
          · exact Or.inr (hinv.not_instantiated (by rw [hlf]; decide) (by rw [hlf]; decide)
              (by rw [hlf]; decide))
          · exact Or.inl hlf
      split at h3
      · exact hloading hinv2 h3
      · simp only [Option.some.injEq, Prod.mk.injEq] at h3
        obtain ⟨rfl, _⟩ := h3
        exact hinv2
    · exact hloading hinv h1
theorem QueuesFixed.qf_refl (w : World) : QueuesFixed w w :=
  ⟨rfl, rfl, rfl, rfl, rfl, rfl, rfl, fun _ => rfl⟩

theorem QueuesFixed.qf_trans {a b c : World} (h1 : QueuesFixed a b) (h2 : QueuesFixed b c) :
    QueuesFixed a c := by
  obtain ⟨a1, a2, a3, a4, a5, a6, a7, a8⟩ := h1
  obtain ⟨b1, b2, b3, b4, b5, b6, b7, b8⟩ := h2
  exact ⟨b1.trans a1, b2.trans a2, b3.trans a3, b4.trans a4, b5.trans a5, b6.trans a6,
    b7.trans a7, fun q => (b8 q).trans (a8 q)⟩

theorem QueuesFixed.membership {w w' : World} (hf : QueuesFixed w w') (hinv : MembershipInv w) :
    MembershipInv w' := by
  obtain ⟨a1, _, _, _, a5, a6, a7, a8⟩ := hf
  exact hinv.congr a1 a5 a6 (fun p hp => by rw [a7] at hp; exact hp) a8

theorem QueuesFixed.qf_statusInst {w w' : World} (hf : QueuesFixed w w')
    (hinv : StatusInst w.map) : StatusInst w'.map :=
  hinv.of_fixed hf.2.1 hf.2.2.1

theorem RenameEntity_fixed {w w' : World} {p : EntityPtr} {n : StringID}
    (h : RenameEntity w p n = some w') : QueuesFixed w w' := by
  unfold RenameEntity at h
  split at h
  · simp only [Option.bind_eq_bind, Option.bind_eq_some, Option.some.injEq] at h
    obtain ⟨_, _, e, _, _, _, _, _, name, _, rfl⟩ := h
    refine ⟨rfl, rfl, rfl, rfl, rfl, rfl, rfl, ?_⟩
    intro q
    dsimp only
    apply Heap.membership_modify
    intro _; rfl
  · cases h

theorem ComponentEditingDeactivate_fixed {w w' : World} {id : EntityID} {c : ComponentID}
    (h : ComponentEditingDeactivate w id c = some w') : QueuesFixed w w' := by
  unfold ComponentEditingDeactivate at h
  split at h
  · simp only [Option.bind_eq_bind, Option.bind_eq_some, Option.some.injEq] at h
    obtain ⟨_, _, _, _, rfl⟩ := h
    exact ⟨rfl, rfl, rfl, rfl, rfl, rfl, rfl, fun _ => rfl⟩
  · cases h

theorem ComponentEditingUnload_fixed {w w' : World} {id : EntityID} {c : ComponentID}
    (h : ComponentEditingUnload w id c = some w') : QueuesFixed w w' := by
  unfold ComponentEditingUnload at h
  split at h
  · simp only [Option.bind_eq_bind, Option.bind_eq_some, Option.some.injEq] at h
    obtain ⟨_, _, _, _, _, _, rfl⟩ := h
    exact ⟨rfl, rfl, rfl, rfl, rfl, rfl, rfl, fun _ => rfl⟩
  · cases h

theorem call_Deactivate_queuesFixed {w w' : World} {p : EntityPtr}
    (h : call_Deactivate w p = some w') : QueuesFixed w w' := by
  obtain ⟨_, rfl⟩ := call_Deactivate_eq h
  exact ⟨rfl, rfl, rfl, rfl, rfl, rfl, rfl, Heap.membership_Deactivate _ _⟩

theorem call_UnloadComponents_queuesFixed {w w' : World} {p : EntityPtr}
    (h : call_UnloadComponents w p = some w') : QueuesFixed w w' := by
  obtain ⟨_, rfl⟩ := call_UnloadComponents_eq h
  exact ⟨rfl, rfl, rfl, rfl, rfl, rfl, rfl, Heap.membership_UnloadComponents _ _⟩

theorem call_LoadComponents_queuesFixed {w w' : World} {p : EntityPtr}
    (h : call_LoadComponents w p = some w') : QueuesFixed w w' := by
  obtain ⟨_, rfl⟩ := call_LoadComponents_eq h
  exact ⟨rfl, rfl, rfl, rfl, rfl, rfl, rfl, Heap.membership_LoadComponents _ _⟩

theorem HotReloadDeactivateEntities_fixed {w w' : World} {users : List EntityID}
    (h : HotReloadDeactivateEntities w users = some w') : QueuesFixed w w' := by
  unfold HotReloadDeactivateEntities at h
  split at h
  · simp only [Option.bind_eq_bind, Option.bind_eq_some] at h
    obtain ⟨_, _, _, _, h⟩ := h
    refine foldlM_inv HotReloadDeactivateEntities.deactivate (QueuesFixed w)
      (fun b a b' hb hs => by
        unfold HotReloadDeactivateEntities.deactivate at hs
        simp only [Option.bind_eq_bind, Option.bind_eq_some] at hs
        obtain ⟨e, _, hs⟩ := hs
        split at hs
        · exact hb.qf_trans (call_Deactivate_queuesFixed hs)
        · cases hs
          exact hb)
      _ _ _ ?_ h
    exact ⟨rfl, rfl, rfl, rfl, rfl, rfl, rfl, fun _ => rfl⟩
  · cases h

theorem HotReloadUnloadEntities_fixed {w w' : World}
    (h : HotReloadUnloadEntities w = some w') : QueuesFixed w w' := by
  unfold HotReloadUnloadEntities at h
  split at h
  · exact foldlM_inv HotReloadUnloadEntities.unload (QueuesFixed w)
      (fun b a b' hb hs => by
        unfold HotReloadUnloadEntities.unload at hs
        simp only [Option.bind_eq_bind, Option.bind_eq_some] at hs
        obtain ⟨e, _, _, _, hs⟩ := hs
        have h1 : QueuesFixed b { b with map := { b.map with
            m_entitiesCurrentlyLoading :=
              erase_first_unsorted b.map.m_entitiesCurrentlyLoading a } } :=
          ⟨rfl, rfl, rfl, rfl, rfl, rfl, rfl, fun _ => rfl⟩
        exact hb.qf_trans (h1.qf_trans (call_UnloadComponents_queuesFixed hs)))
      _ _ _ (QueuesFixed.qf_refl w) h
  · cases h

theorem HotReloadLoadEntities_fixed {w w' : World}
    (h : HotReloadLoadEntities w = some w') : QueuesFixed w w' := by
  unfold HotReloadLoadEntities at h
  split at h
  · obtain ⟨w1, h1, rfl⟩ := Option.map_eq_some'.1 h
    have := foldlM_inv HotReloadLoadEntities.load (QueuesFixed w)
      (fun b a b' hb hs => by
        unfold HotReloadLoadEntities.load at hs
        simp only [Option.bind_eq_bind, Option.bind_eq_some, Option.some.injEq] at hs
        obtain ⟨e, _, _, _, w2, h2, rfl⟩ := hs
        have h3 : QueuesFixed w2 { w2 with map := { w2.map with
            m_entitiesCurrentlyLoading := w2.map.m_entitiesCurrentlyLoading ++ [a] } } :=
          ⟨rfl, rfl, rfl, rfl, rfl, rfl, rfl, fun _ => rfl⟩
        exact hb.qf_trans ((call_LoadComponents_queuesFixed h2).qf_trans h3))
      _ _ _ (QueuesFixed.qf_refl w) h1
    exact this.qf_trans ⟨rfl, rfl, rfl, rfl, rfl, rfl, rfl, fun _ => rfl⟩
  · cases h

theorem AddEntityCollection_status {w w' : World} {created : List (EntityPtr × Entity)}
    (h : AddEntityCollection w created = some w') :
    w'.map.m_status = w.map.m_status
    ∧ w'.map.m_isMapInstantiated = w.map.m_isMapInstantiated
    ∧ w'.map.m_isUnloadRequested = w.map.m_isUnloadRequested := by
  unfold AddEntityCollection at h
  simp only [Option.bind_eq_bind, Option.bind_eq_some] at h
  obtain ⟨heap, _, h⟩ := h
  exact AddEntities_status (w := { w with heap := heap }) h

theorem PublicOp_run_statusInst {w w' : World} {c : PublicOp} (hinv : StatusInst w.map)
    (h : PublicOp.run w c = some w') : StatusInst w'.map := by
  cases c with
  | core op => exact MapOp_run_statusInst hinv h
  | AddEntities ps =>
    obtain ⟨s1, s2, _⟩ := AddEntities_status h
    exact hinv.of_fixed s1 s2
  | AddEntityCollection created =>
    obtain ⟨s1, s2, _⟩ := AddEntityCollection_status h
    exact hinv.of_fixed s1 s2
  | RenameEntity p n => exact (RenameEntity_fixed h).qf_statusInst hinv
  | ComponentEditingDeactivate id c => exact (ComponentEditingDeactivate_fixed h).qf_statusInst hinv
  | ComponentEditingUnload id c => exact (ComponentEditingUnload_fixed h).qf_statusInst hinv
  | HotReloadDeactivateEntities users =>
    exact (HotReloadDeactivateEntities_fixed h).qf_statusInst hinv
  | HotReloadUnloadEntities => exact (HotReloadUnloadEntities_fixed h).qf_statusInst hinv
  | HotReloadLoadEntities => exact (HotReloadLoadEntities_fixed h).qf_statusInst hinv

theorem Reachable.statusInst {w : World} (h : Reachable w) : StatusInst w.map := by
  induction h with
  | fresh w id h =>
    rcases h with h | h <;> rw [h] <;>
      exact StatusInst.of_false rfl (fun h => by cases h) (fun h => by cases h)
        (fun h => by cases h)
  | op w w' c _ h ih => exact PublicOp_run_statusInst ih h
  | environment w heap _ ih => exact ih
  | copyAssign w src m _ _ h ih _ =>
    unfold EntityMap.copyAssign at h
    simp only [Option.bind_eq_bind, Option.bind_eq_some, Option.some.injEq] at h
    obtain ⟨_, _, _, _, rfl⟩ := h
    exact ih.of_fixed rfl rfl
  | moveAssign w src r _ _ h _ ihsrc =>
    unfold EntityMap.moveAssign at h
    simp only [Option.bind_eq_bind, Option.bind_eq_some, Option.some.injEq] at h
    obtain ⟨_, _, rfl⟩ := h
    exact ihsrc.of_fixed rfl rfl
  | movedFrom w src r _ _ h _ _ =>
    unfold EntityMap.moveAssign at h
    simp only [Option.bind_eq_bind, Option.bind_eq_some, Option.some.injEq] at h
    obtain ⟨_, _, rfl⟩ := h
    exact StatusInst.of_false rfl (fun h => by cases h) (fun h => by cases h)
      (fun h => by cases h)

theorem Reachable.of_runPublic {w w' : World} {ops : List PublicOp} (hw : Reachable w)
    (h : runPublic w ops = some w') : Reachable w' :=
  foldlM_inv PublicOp.run Reachable (fun b c b' hb hs => Reachable.op b b' c hb hs) ops w w' hw h

/-- C16: in every state a map can reach from its construction through `Load`,
`Unload`, `Activate`, `Deactivate`, `AddEntity`, `RemoveEntity`, `DestroyEntity`,
`UpdateState`, the other exposed operations and copy or move assignment from
another such map, whatever the rest of the program does to the entities in
between, status Activated implies that the map is instantiated. -/
theorem C16_activated_is_instantiated (w : World) (hr : Reachable w)
    (hact : w.map.m_status = EntityMap.Status.Activated) :
    w.map.m_isMapInstantiated = true :=
  hr.statusInst.2 (Or.inr (Or.inr hact))

theorem C16_activated_is_instantiated_witness :
    exampleWorldActivated.map.m_isMapInstantiated = true :=
  C16_activated_is_instantiated exampleWorldActivated
    (Reachable.of_runPublic (Reachable.fresh exampleWorldFresh 7 (Or.inl rfl))
      (show runPublic exampleWorldFresh
          [PublicOp.AddEntities [1, 2], PublicOp.core MapOp.Load,
           PublicOp.core (MapOp.UpdateState (exampleContext true)),
           PublicOp.core MapOp.Activate] = some exampleWorldActivated by decide))
    (by decide)
/-! ## C17: `toRemove` and `toLoad` never share an entity -/

theorem MapOp_run_membership {w w' : World} {c : MapOp} (hb : MembershipInv w)
    (hs : MapOp.run w c = some w') : MembershipInv w' := by
  cases c with
  | AddEntity p => exact AddEntity_membership hb hs
  | RemoveEntity id =>
    simp only [MapOp.run, RemoveEntity, Option.bind_eq_bind, Option.map_eq_some',
      Option.bind_eq_some, Option.some.injEq] at hs
    obtain ⟨⟨w1, p1⟩, ⟨⟨w2, r⟩, hr, _, _, h3⟩, rfl⟩ := hs
    simp only [Prod.mk.injEq] at h3
    obtain ⟨rfl, _⟩ := h3
    exact RemoveEntityInternal_membership hb hr
  | DestroyEntity id =>
    simp only [MapOp.run, DestroyEntity, Option.bind_eq_bind, Option.bind_eq_some,
      Option.some.injEq] at hs
    obtain ⟨⟨w2, r⟩, hr, rfl⟩ := hs
    exact RemoveEntityInternal_membership hb hr
  | Load => exact Load_membership hb hs
  | Unload => exact Unload_membership hb hs
  | Activate => exact Activate_membership hb hs
  | Deactivate => exact Deactivate_membership hb hs
  | OnEntityStateUpdated p => exact OnEntityStateUpdated_membership hb hs
  | UpdateState ctx =>
    simp only [MapOp.run, Option.map_eq_some'] at hs
    obtain ⟨⟨w1, r⟩, h1, rfl⟩ := hs
    exact UpdateState_membership hb h1

theorem AddEntities_membership {w w' : World} {ps : List EntityPtr} (hinv : MembershipInv w)
    (h : AddEntities w ps = some w') : MembershipInv w' :=
  foldlM_inv AddEntity MembershipInv (fun _ _ _ hb hs => AddEntity_membership hb hs)
    ps w w' hinv h

theorem PublicOp_run_membership {w w' : World} {c : PublicOp} (hinv : MembershipInv w)
    (h : PublicOp.run w c = some w') : MembershipInv w' := by
  cases c with
  | core op => exact MapOp_run_membership hinv h
  | AddEntities ps => exact AddEntities_membership hinv h
  | AddEntityCollection created =>
    simp only [PublicOp.run] at h
    unfold AddEntityCollection at h
    simp only [Option.bind_eq_bind, Option.bind_eq_some] at h
    obtain ⟨heap, hheap, h⟩ := h
    exact AddEntities_membership (allocateEntities_membership hinv hheap) h
  | RenameEntity p n => exact (RenameEntity_fixed h).membership hinv
  | ComponentEditingDeactivate id c => exact (ComponentEditingDeactivate_fixed h).membership hinv
  | ComponentEditingUnload id c => exact (ComponentEditingUnload_fixed h).membership hinv
  | HotReloadDeactivateEntities users =>
    exact (HotReloadDeactivateEntities_fixed h).membership hinv
  | HotReloadUnloadEntities => exact (HotReloadUnloadEntities_fixed h).membership hinv
  | HotReloadLoadEntities => exact (HotReloadLoadEntities_fixed h).membership hinv

theorem runPublic_membership {w0 w : World} {ops : List PublicOp} (hinv : MembershipInv w0)
    (hrun : runPublic w0 ops = some w) : MembershipInv w :=
  foldlM_inv PublicOp.run MembershipInv (fun _ _ _ hb hs => PublicOp_run_membership hb hs)
    ops w0 w hinv hrun

/-- C17: start from an empty map (either constructor) with a valid id and run any
sequence of the operations the map exposes (`Load`, `Unload`, `Activate`,
`Deactivate`, `AddEntity`, `AddEntities`, `AddEntityCollection`, `RemoveEntity`,
`DestroyEntity`, `UpdateState`, the state-update notification and, with
development tools, renaming, component editing and hot reload), each called
within its precondition.  In the state after the sequence (hence after each
call) no entity is at the same time the subject of a request in `toRemove` and a
member of `toLoad`. -/
theorem C17_toRemove_disjoint_toLoad (w0 w : World) (mapID : EntityMapID)
    (ops : List PublicOp)
    (hempty : w0.map = EntityMap.mkTransient mapID ∨ w0.map = EntityMap.mkFromResource mapID)
    (hvalid : mapID ≠ 0)
    (hrun : runPublic w0 ops = some w) :
    ∀ r ∈ w.map.m_entitiesToRemove, r.m_pEntity ∉ w.map.m_entitiesToLoad := by
  have h0 : MembershipInv w0 := by
    rcases hempty with h | h <;>
      exact MembershipInv_of_empty (by rw [h]; exact hvalid) (by rw [h]; rfl) (by rw [h]; rfl)
  intro r hr
  exact ((runPublic_membership h0 hrun).2.2.2.2 r hr).2.1


theorem C17_toRemove_disjoint_toLoad_witness :
    (World.after (runPublic exampleWorldFresh examplePublicOps)).map.m_entitiesToRemove
        = [{ m_pEntity := 2, m_shouldDestroy := false }]
    ∧ (World.after (runPublic exampleWorldFresh examplePublicOps)).map.m_entitiesToLoad = [3]
    ∧ ∀ r ∈ (World.after (runPublic exampleWorldFresh examplePublicOps)).map.m_entitiesToRemove,
        r.m_pEntity ∉ (World.after (runPublic exampleWorldFresh examplePublicOps)).map.m_entitiesToLoad :=
  ⟨by decide, by decide,
    C17_toRemove_disjoint_toLoad exampleWorldFresh
      (World.after (runPublic exampleWorldFresh examplePublicOps)) 7 examplePublicOps
      (Or.inl rfl) (by decide) (by decide)⟩

/-! ## A map whose descriptor failed to load -/

theorem NoLoadRequest.nl_refl (w : World) : NoLoadRequest w w :=
  ⟨[], by simp, by simp⟩

theorem NoLoadRequest.nl_trans {a b c : World} (h1 : NoLoadRequest a b)
    (h2 : NoLoadRequest b c) : NoLoadRequest a c := by
  obtain ⟨e1, t1, n1⟩ := h1
  obtain ⟨e2, t2, n2⟩ := h2
  refine ⟨e1 ++ e2, by rw [t2, t1, List.append_assoc], ?_⟩
  intro p hp
  rcases List.mem_append.1 hp with h | h
  · exact n1 p h
  · exact n2 p h

theorem NoLoadRequest.of_event {w w' : World} (ev : Event) (ht : w'.trace = w.trace ++ [ev])
    (hev : ∀ p, ev ≠ Event.LoadComponents p) : NoLoadRequest w w' :=
  ⟨[ev], ht, fun p hp => hev p (List.mem_singleton.1 hp).symm⟩

theorem NoLoadRequest.of_trace {w w' : World} (ht : w'.trace = w.trace) : NoLoadRequest w w' :=
  ⟨[], by simp [ht], by simp⟩

/-- Composition of two steps that request no component load and keep `toLoad`. -/
theorem calm_trans {a b c : World}
    (h1 : NoLoadRequest a b ∧ b.map.m_entitiesToLoad = a.map.m_entitiesToLoad)
    (h2 : NoLoadRequest b c ∧ c.map.m_entitiesToLoad = b.map.m_entitiesToLoad) :
    NoLoadRequest a c ∧ c.map.m_entitiesToLoad = a.map.m_entitiesToLoad :=
  ⟨h1.1.nl_trans h2.1, h2.2.trans h1.2⟩

theorem endEditing_calm {w w' : World} {p : EntityPtr}
    (h : ProcessEntityAdditionAndRemoval.endEditing w p = some w') :
    NoLoadRequest w w' ∧ w'.map.m_entitiesToLoad = w.map.m_entitiesToLoad := by
  unfold ProcessEntityAdditionAndRemoval.endEditing at h
  simp only [Option.bind_eq_bind, Option.bind_eq_some, Option.some.injEq] at h
  obtain ⟨_, _, _, _, rfl⟩ := h
  exact ⟨NoLoadRequest.of_event _ rfl (fun _ hc => by cases hc), rfl⟩

theorem editedEntities_calm {w w' : World}
    (h : ProcessEntityAdditionAndRemoval.editedEntities w = some w') :
    NoLoadRequest w w' ∧ w'.map.m_entitiesToLoad = w.map.m_entitiesToLoad := by
  unfold ProcessEntityAdditionAndRemoval.editedEntities at h
  split at h
  · obtain ⟨w1, h1, rfl⟩ := Option.map_eq_some'.1 h
    have := foldlM_inv ProcessEntityAdditionAndRemoval.endEditing
      (fun b => NoLoadRequest w b ∧ b.map.m_entitiesToLoad = w.map.m_entitiesToLoad)
      (fun _ _ _ hb hs => calm_trans hb (endEditing_calm hs)) _ _ _
      ⟨NoLoadRequest.nl_refl w, rfl⟩ h1
    exact calm_trans this ⟨NoLoadRequest.of_trace rfl, rfl⟩
  · cases h
    exact ⟨NoLoadRequest.nl_refl w, rfl⟩

theorem destroyIfRequested_calm {w w' : World} {r : RemovalRequest}
    (h : ProcessEntityAdditionAndRemoval.destroyIfRequested w r = some w') :
    NoLoadRequest w w' ∧ w'.map.m_entitiesToLoad = w.map.m_entitiesToLoad := by
  unfold ProcessEntityAdditionAndRemoval.destroyIfRequested at h
  split at h
  · obtain ⟨_, rfl⟩ := call_Delete_eq h
    exact ⟨NoLoadRequest.of_event _ rfl (fun _ hc => by cases hc), rfl⟩
  · cases h
    exact ⟨NoLoadRequest.nl_refl w, rfl⟩

theorem removeEntity_calm {w w' : World} {i : Nat} {r : RemovalRequest}
    (h : ProcessEntityAdditionAndRemoval.removeEntity w i r = some w') :
    NoLoadRequest w w' ∧ w'.map.m_entitiesToLoad = w.map.m_entitiesToLoad := by
  unfold ProcessEntityAdditionAndRemoval.removeEntity at h
  simp only [Option.bind_eq_bind, Option.bind_eq_some, Option.some.injEq] at h
  obtain ⟨w1, h1, w2, h2, rfl⟩ := h
  obtain ⟨_, rfl⟩ := call_UnloadComponents_eq h1
  have h3 := destroyIfRequested_calm h2
  refine calm_trans (b := w2) (calm_trans ?_ h3) ⟨NoLoadRequest.of_trace rfl, rfl⟩
  exact ⟨NoLoadRequest.of_event _ rfl (fun _ hc => by cases hc), rfl⟩

theorem removalStep_calm {w w' : World} {i : Nat}
    (h : ProcessEntityAdditionAndRemoval.removalStep w i = some w') :
    NoLoadRequest w w' ∧ w'.map.m_entitiesToLoad = w.map.m_entitiesToLoad := by
  unfold ProcessEntityAdditionAndRemoval.removalStep at h
  simp only [Option.bind_eq_bind, Option.bind_eq_some] at h
  obtain ⟨req, _, e, _, h⟩ := h
  split at h
  · obtain ⟨_, rfl⟩ := call_Deactivate_eq h
    exact ⟨NoLoadRequest.of_event _ rfl (fun _ hc => by cases hc), rfl⟩
  · exact removeEntity_calm h

theorem removalLoop_calm {n : Nat} {w w' : World}
    (h : ProcessEntityAdditionAndRemoval.removalLoop n w = some w') :
    NoLoadRequest w w' ∧ w'.map.m_entitiesToLoad = w.map.m_entitiesToLoad := by
  induction n generalizing w with
  | zero =>
    simp only [ProcessEntityAdditionAndRemoval.removalLoop, Option.some.injEq] at h
    subst h
    exact ⟨NoLoadRequest.nl_refl w, rfl⟩
  | succ n ih =>
    simp only [ProcessEntityAdditionAndRemoval.removalLoop, Option.bind_eq_bind,
      Option.bind_eq_some] at h
    obtain ⟨w1, h1, h2⟩ := h
    exact calm_trans (removalStep_calm h1) (ih h2)

/-- The addition and removal step on a map that is not instantiated: the queued
entities wait, no component load is requested. -/
theorem ProcessEntityAdditionAndRemoval_calm {w w' : World}
    (hni : w.map.m_isMapInstantiated = false)
    (h : ProcessEntityAdditionAndRemoval w = some w') :
    NoLoadRequest w w' ∧ w'.map.m_entitiesToLoad = w.map.m_entitiesToLoad := by
  unfold ProcessEntityAdditionAndRemoval at h
  simp only [Option.bind_eq_bind, Option.bind_eq_some] at h
  obtain ⟨w1, h1, w2, h2, h3⟩ := h
  have hi2 : w2.map.m_isMapInstantiated = false :=
    ((editedEntities_fixed h1).mf_trans (removalLoop_fixed h2)).2.2.2.2.1.trans hni
  unfold ProcessEntityAdditionAndRemoval.loading at h3
  rw [if_neg (by rw [hi2]; exact Bool.false_ne_true)] at h3
  cases h3
  exact calm_trans (editedEntities_calm h1) (removalLoop_calm h2)

theorem EntityLoadingTask.item_calm {ctx : EntityLoadingContext} {act : Bool}
    {acc acc' : World × List EntityPtr} {p : EntityPtr}
    (h : EntityLoadingTask.item ctx act acc p = some acc') :
    NoLoadRequest acc.1 acc'.1 ∧ acc'.1.map.m_entitiesToLoad = acc.1.map.m_entitiesToLoad := by
  unfold EntityLoadingTask.item at h
  simp only [Option.bind_eq_bind, Option.bind_eq_some] at h
  obtain ⟨e, _, h⟩ := h
  split at h
  · split at h
    · obtain ⟨w2, h2, rfl⟩ := Option.map_eq_some'.1 h
      obtain ⟨_, rfl⟩ := call_Activate_eq h2
      refine calm_trans (b := { acc.1 with trace := acc.1.trace ++ [Event.UpdateEntityState p] })
        ⟨NoLoadRequest.of_event _ rfl (fun _ hc => by cases hc), rfl⟩
        ⟨NoLoadRequest.of_event _ rfl (fun _ hc => by cases hc), rfl⟩
    · cases h
      exact ⟨NoLoadRequest.of_event _ rfl (fun _ hc => by cases hc), rfl⟩
  · cases h
    exact ⟨NoLoadRequest.of_event _ rfl (fun _ hc => by cases hc), rfl⟩

theorem ProcessEntityLoadingAndActivation_calm {w w' : World} {ctx : EntityLoadingContext}
    {r : Bool} (h : ProcessEntityLoadingAndActivation w ctx = some (w', r)) :
    NoLoadRequest w w' ∧ w'.map.m_entitiesToLoad = w.map.m_entitiesToLoad := by
  unfold ProcessEntityLoadingAndActivation at h
  simp only [Option.bind_eq_bind, Option.bind_eq_some, Option.some.injEq, Prod.mk.injEq] at h
  obtain ⟨w1, h1, w2, h2, rfl, _⟩ := h
  have hb : NoLoadRequest w w1 ∧ w1.map.m_entitiesToLoad = w.map.m_entitiesToLoad := by
    unfold ProcessEntityLoadingAndActivation.batch at h1
    split at h1
    · cases h1
      exact ⟨NoLoadRequest.nl_refl w, rfl⟩
    · obtain ⟨r1, hf, rfl⟩ := Option.map_eq_some'.1 h1
      have := foldlM_inv (EntityLoadingTask.item ctx w.map.IsActivated)
        (fun acc => NoLoadRequest w acc.1 ∧ acc.1.map.m_entitiesToLoad = w.map.m_entitiesToLoad)
        (fun _ _ _ hb hs => calm_trans hb (EntityLoadingTask.item_calm hs)) _ _ _
        ⟨NoLoadRequest.nl_refl w, rfl⟩ hf
      exact calm_trans this ⟨NoLoadRequest.of_trace rfl, rfl⟩
  refine calm_trans hb ?_
  unfold ProcessEntityLoadingAndActivation.finish at h2
  split at h2
  · simp only [Option.bind_eq_bind, Option.bind_eq_some, Option.some.injEq] at h2
    obtain ⟨_, _, rfl⟩ := h2
    exact ⟨NoLoadRequest.of_trace rfl, rfl⟩
  · cases h2
    exact ⟨NoLoadRequest.nl_refl w1, rfl⟩

/-- The entity steps of a pass on a map that is not instantiated request no
component load and keep `toLoad`. -/
theorem processEntities_calm {w w' : World} {ctx : EntityLoadingContext} {r : Bool}
    (hni : w.map.m_isMapInstantiated = false)
    (h : UpdateState.processEntities w ctx = some (w', r)) :
    NoLoadRequest w w' ∧ w'.map.m_entitiesToLoad = w.map.m_entitiesToLoad := by
  unfold UpdateState.processEntities at h
  simp only [Option.bind_eq_bind, Option.bind_eq_some] at h
  obtain ⟨w1, h1, h2⟩ := h
  exact calm_trans (ProcessEntityAdditionAndRemoval_calm hni h1)
    (ProcessEntityLoadingAndActivation_calm h2)

/-- A pass on a map in the status LoadFailed on which no unload is requested is
the entity steps alone. -/
theorem UpdateState_loadFailed_eq {w : World} {ctx : EntityLoadingContext} {r : World × Bool}
    (hs : w.map.m_status = EntityMap.Status.LoadFailed)
    (hu : w.map.m_isUnloadRequested = false)
    (h : UpdateState w ctx = some r) : UpdateState.processEntities w ctx = some r := by
  unfold UpdateState at h
  simp only [Option.bind_eq_bind, Option.bind_eq_some] at h
  obtain ⟨_, _, h⟩ := h
  unfold UpdateState.processUnload at h
  rw [if_neg (by rw [hu]; exact Bool.false_ne_true)] at h
  unfold UpdateState.processLoading at h
  rw [if_neg (by rw [hs]; exact fun hc => by cases hc)] at h
  exact h

/-- The status after an operation of `MapOp` on a map in the status LoadFailed. -/
theorem MapOp_run_loadFailed {w w' : World} {c : MapOp}
    (hs : w.map.m_status = EntityMap.Status.LoadFailed)
    (h : MapOp.run w c = some w') :
    w'.map.m_status = EntityMap.Status.LoadFailed
    ∨ (w.map.m_isUnloadRequested = true ∧ (∃ ctx, c = MapOp.UpdateState ctx)
        ∧ w'.map.m_status = EntityMap.Status.Unloaded) := by
  cases c with
  | AddEntity p => exact Or.inl ((AddEntity_status h).1.trans hs)
  | RemoveEntity id =>
    simp only [MapOp.run, RemoveEntity, Option.bind_eq_bind, Option.map_eq_some',
      Option.bind_eq_some, Option.some.injEq] at h
    obtain ⟨⟨w1, p1⟩, ⟨⟨w2, r⟩, hr, _, _, h3⟩, rfl⟩ := h
    simp only [Prod.mk.injEq] at h3
    obtain ⟨rfl, _⟩ := h3
    exact Or.inl ((RemoveEntityInternal_status hr).1.trans hs)
  | DestroyEntity id =>
    simp only [MapOp.run, DestroyEntity, Option.bind_eq_bind, Option.bind_eq_some,
      Option.some.injEq] at h
    obtain ⟨⟨w2, r⟩, hr, rfl⟩ := h
    exact Or.inl ((RemoveEntityInternal_status hr).1.trans hs)
  | Load =>
    simp only [MapOp.run] at h
    unfold Load at h
    simp only [Option.bind_eq_bind, Option.bind_eq_some, EE_ASSERT_eq_some,
      decide_eq_true_eq] at h
    obtain ⟨_, hc, _⟩ := h
    rw [hs] at hc
    cases hc
  | Unload =>
    simp only [MapOp.run] at h
    unfold Unload at h
    simp only [Option.bind_eq_bind, Option.bind_eq_some, Option.some.injEq] at h
    obtain ⟨_, _, rfl⟩ := h
    exact Or.inl hs
  | Activate =>
    simp only [MapOp.run] at h
    unfold Activate at h
    simp only [Option.bind_eq_bind, Option.bind_eq_some, EE_ASSERT_eq_some,
      decide_eq_true_eq] at h
    obtain ⟨_, hc, _⟩ := h
    rw [hs] at hc
    cases hc
  | Deactivate =>
    simp only [MapOp.run] at h
    unfold Deactivate at h
    simp only [Option.bind_eq_bind, Option.bind_eq_some, EE_ASSERT_eq_some,
      decide_eq_true_eq] at h
    obtain ⟨_, hc, _⟩ := h
    rw [hs] at hc
    cases hc
  | OnEntityStateUpdated p =>
    simp only [MapOp.run] at h
    unfold OnEntityStateUpdated at h
    simp only [Option.bind_eq_bind, Option.bind_eq_some] at h
    obtain ⟨e, _, h⟩ := h
    split at h
    · simp only [Option.bind_eq_bind, Option.bind_eq_some] at h
      obtain ⟨_, _, h⟩ := h
      split at h
      · cases h
        exact Or.inl hs
      · cases h
        exact Or.inl hs
    · cases h
      exact Or.inl hs
  | UpdateState ctx =>
    simp only [MapOp.run, Option.map_eq_some'] at h
    obtain ⟨⟨w1, r⟩, h1, rfl⟩ := h
    cases hu : w.map.m_isUnloadRequested with
    | true =>
      exact Or.inr ⟨rfl, ⟨ctx, rfl⟩,
        (UpdateState_unload_status hu (by rw [hs]; exact fun hc => by cases hc) w1 r h1).1⟩
    | false =>
      obtain ⟨_, hst, _⟩ := processEntities_result (UpdateState_loadFailed_eq hs hu h1)
      rcases hst with hst | ⟨hst, _⟩
      · exact Or.inl (hst.trans hs)
      · rw [hs] at hst
        cases hst

/-- The status after an exposed operation on a map in the status LoadFailed. -/
theorem PublicOp_run_loadFailed {w w' : World} {c : PublicOp}
    (hs : w.map.m_status = EntityMap.Status.LoadFailed)
    (h : PublicOp.run w c = some w') :
    w'.map.m_status = EntityMap.Status.LoadFailed
    ∨ (w.map.m_isUnloadRequested = true
        ∧ (∃ ctx, c = PublicOp.core (MapOp.UpdateState ctx))
        ∧ w'.map.m_status = EntityMap.Status.Unloaded) := by
  cases c with
  | core op =>
    rcases MapOp_run_loadFailed hs h with h1 | ⟨h1, ⟨ctx, h2⟩, h3⟩
    · exact Or.inl h1
    · exact Or.inr ⟨h1, ⟨ctx, by rw [h2]⟩, h3⟩
  | AddEntities ps => exact Or.inl ((AddEntities_status h).1.trans hs)
  | AddEntityCollection created => exact Or.inl ((AddEntityCollection_status h).1.trans hs)
  | RenameEntity p n => exact Or.inl ((RenameEntity_fixed h).2.1.trans hs)
  | ComponentEditingDeactivate id c =>
    exact Or.inl ((ComponentEditingDeactivate_fixed h).2.1.trans hs)
  | ComponentEditingUnload id c => exact Or.inl ((ComponentEditingUnload_fixed h).2.1.trans hs)
  | HotReloadDeactivateEntities users =>
    exact Or.inl ((HotReloadDeactivateEntities_fixed h).2.1.trans hs)
  | HotReloadUnloadEntities => exact Or.inl ((HotReloadUnloadEntities_fixed h).2.1.trans hs)
  | HotReloadLoadEntities => exact Or.inl ((HotReloadLoadEntities_fixed h).2.1.trans hs)

/-- C18: take a map that is in a state the program can reach, has the status
LoadFailed and on which no unload is requested.  Every `UpdateState` pass on it
that returns leaves the status LoadFailed, the map not instantiated, the unload
request flag clear and `toLoad` as it was, and the calls it issues include no
component-load request: the queued entities wait.  The pass does return, with
nothing changed and the flag true, at least when no removal, loading entity, edit
or hot reload is pending.  For any map in the status LoadFailed, an exposed
operation called within its precondition leaves the status LoadFailed, the one
exception being an `UpdateState` pass with the unload request flag set; and such
a pass, when it returns, ends in Unloaded with the flag cleared. -/
theorem C18_LoadFailed_is_terminal (w : World) (hr : Reachable w)
    (hs : w.map.m_status = EntityMap.Status.LoadFailed)
    (hu : w.map.m_isUnloadRequested = false) :
    (∀ (ctx : EntityLoadingContext) (w' : World) (r : Bool),
      UpdateState w ctx = some (w', r) →
        w'.map.m_status = EntityMap.Status.LoadFailed
        ∧ w'.map.m_isMapInstantiated = false
        ∧ w'.map.m_isUnloadRequested = false
        ∧ w'.map.m_entitiesToLoad = w.map.m_entitiesToLoad
        ∧ NoLoadRequest w w')
    ∧ (∀ ctx : EntityLoadingContext,
        w.map.m_entitiesToRemove = [] → w.map.m_entitiesCurrentlyLoading = [] →
        (w.EE_DEVELOPMENT_TOOLS = true →
          w.map.m_editedEntities = [] ∧ w.map.m_entitiesToHotReload = []) →
        UpdateState w ctx = some (w, true))
    ∧ (∀ (v v' : World) (c : PublicOp),
        v.map.m_status = EntityMap.Status.LoadFailed → PublicOp.run v c = some v' →
          v'.map.m_status = EntityMap.Status.LoadFailed
          ∨ (v.map.m_isUnloadRequested = true
              ∧ (∃ ctx, c = PublicOp.core (MapOp.UpdateState ctx))
              ∧ v'.map.m_status = EntityMap.Status.Unloaded))
    ∧ (∀ (v v' : World) (ctx : EntityLoadingContext) (r : Bool),
        v.map.m_status = EntityMap.Status.LoadFailed → v.map.m_isUnloadRequested = true →
        UpdateState v ctx = some (v', r) →
          v'.map.m_status = EntityMap.Status.Unloaded
          ∧ v'.map.m_isUnloadRequested = false) := by
  have hni : w.map.m_isMapInstantiated = false :=
    hr.statusInst.not_instantiated (by rw [hs]; exact fun hc => by cases hc)
      (by rw [hs]; exact fun hc => by cases hc) (by rw [hs]; exact fun hc => by cases hc)
  refine ⟨?_, ?_, ?_, ?_⟩
  · intro ctx w' r h
    have hp := UpdateState_loadFailed_eq hs hu h
    obtain ⟨_, hst, _⟩ := processEntities_result hp
    obtain ⟨hinst, hflag, _, _⟩ := processEntities_fixed hp
    obtain ⟨hnl, htl⟩ := processEntities_calm hni hp
    refine ⟨?_, hinst.trans hni, hflag.trans hu, htl, hnl⟩
    rcases hst with hst | ⟨hst, _⟩
    · exact hst.trans hs
    · rw [hs] at hst
      cases hst
  · intro ctx hrem hload hed
    have hassert : EE_ASSERT (!w.EE_DEVELOPMENT_TOOLS || w.map.m_entitiesToHotReload.isEmpty)
        = some () := by
      rw [EE_ASSERT_eq_some]
      cases ht : w.EE_DEVELOPMENT_TOOLS with
      | false => rfl
      | true => rw [(hed ht).2]; rfl
    unfold UpdateState
    rw [hassert]
    simp only [Option.bind_eq_bind, Option.some_bind]
    unfold UpdateState.processUnload
    rw [if_neg (by rw [hu]; exact Bool.false_ne_true)]
    unfold UpdateState.processLoading
    rw [if_neg (by rw [hs]; exact fun hc => by cases hc)]
    exact processEntities_quiet w ctx hrem hload (fun ht => (hed ht).1) (Or.inl hni)
      (by rw [hs]; exact fun hc => by cases hc)
  · intro v v' c hv h
    exact PublicOp_run_loadFailed hv h
  · intro v v' ctx r hv hf h
    have := UpdateState_unload_status hf (by rw [hv]; exact fun hc => by cases hc) v' r h
    exact ⟨this.1, this.2.1⟩

theorem C18_LoadFailed_is_terminal_witness :
    exampleWorldLoadFailed.map.m_status = EntityMap.Status.LoadFailed
    ∧ exampleWorldLoadFailed.map.m_isUnloadRequested = false
    ∧ exampleWorldLoadFailed.map.m_entitiesToLoad = [1]
    ∧ UpdateState exampleWorldLoadFailed (exampleContext true)
        = some (exampleWorldLoadFailed, true)
    ∧ ∀ (ctx : EntityLoadingContext) (w' : World) (r : Bool),
        UpdateState exampleWorldLoadFailed ctx = some (w', r) →
          w'.map.m_status = EntityMap.Status.LoadFailed
          ∧ w'.map.m_isMapInstantiated = false
          ∧ w'.map.m_isUnloadRequested = false
          ∧ w'.map.m_entitiesToLoad = exampleWorldLoadFailed.map.m_entitiesToLoad
          ∧ NoLoadRequest exampleWorldLoadFailed w' :=
  ⟨by decide, by decide, by decide, by decide,
    (C18_LoadFailed_is_terminal exampleWorldLoadFailed
      (Reachable.of_runPublic
        (Reachable.fresh { exampleWorldFresh with map := EntityMap.mkFromResource 7 } 7
          (Or.inr rfl))
        (show runPublic { exampleWorldFresh with map := EntityMap.mkFromResource 7 }
            (exampleFailingOps ++ [PublicOp.core (MapOp.AddEntity 1)])
          = some exampleWorldLoadFailed by decide))
      (by decide) (by decide)).1⟩

/-! ## C21: the unload request flag -/

/-- A pass on an activated map with an unload requested: it only deactivates the
map, reports that it has not drained and keeps the request. -/
theorem UpdateState_unload_pending {w w' : World} {ctx : EntityLoadingContext} {r : Bool}
    (hreq : w.map.m_isUnloadRequested = true)
    (hact : w.map.m_status = EntityMap.Status.Activated)
    (h : UpdateState w ctx = some (w', r)) :
    r = false ∧ Deactivate w = some w'
    ∧ w'.map.m_isUnloadRequested = true
    ∧ w'.map.m_status = EntityMap.Status.Loaded := by
  unfold UpdateState at h
  simp only [Option.bind_eq_bind, Option.bind_eq_some] at h
  obtain ⟨_, _, h⟩ := h
  unfold UpdateState.processUnload at h
  rw [if_pos hreq] at h
  simp only [Option.bind_eq_bind, Option.bind_eq_some] at h
  obtain ⟨⟨w1, b⟩, h1, h2⟩ := h
  unfold ProcessMapUnloadRequest at h1
  simp only [Option.bind_eq_bind, Option.bind_eq_some] at h1
  obtain ⟨_, _, h1⟩ := h1
  rw [if_pos (by simp [EntityMap.IsActivated, hact])] at h1
  obtain ⟨w2, hD, h3⟩ := Option.map_eq_some'.1 h1
  simp only [Prod.mk.injEq] at h3
  obtain ⟨rfl, rfl⟩ := h3
  simp only [Bool.false_eq_true, if_false, Option.some.injEq, Prod.mk.injEq] at h2
  obtain ⟨rfl, rfl⟩ := h2
  refine ⟨rfl, hD, ?_, ?_⟩
  · unfold Deactivate at hD
    simp only [Option.bind_eq_bind, Option.bind_eq_some, Option.some.injEq] at hD
    obtain ⟨_, _, w3, h3, rfl⟩ := hD
    show w3.map.m_isUnloadRequested = true
    rw [(deactivation_fold_frame h3).1]
    exact hreq
  · unfold Deactivate at hD
    simp only [Option.bind_eq_bind, Option.bind_eq_some, Option.some.injEq] at hD
    obtain ⟨_, _, w3, h3, rfl⟩ := hD
    rfl

/-- The request flag after an operation of `MapOp` other than an update pass. -/
theorem MapOp_run_unloadRequested {w w' : World} {c : MapOp}
    (hreq : w.map.m_isUnloadRequested = true)
    (hc : ∀ ctx, c ≠ MapOp.UpdateState ctx)
    (h : MapOp.run w c = some w') : w'.map.m_isUnloadRequested = true := by
  cases c with
  | AddEntity p => exact (AddEntity_status h).2.2.trans hreq
  | RemoveEntity id =>
    simp only [MapOp.run, RemoveEntity, Option.bind_eq_bind, Option.map_eq_some',
      Option.bind_eq_some, Option.some.injEq] at h
    obtain ⟨⟨w1, p1⟩, ⟨⟨w2, r⟩, hr, _, _, h3⟩, rfl⟩ := h
    simp only [Prod.mk.injEq] at h3
    obtain ⟨rfl, _⟩ := h3
    exact (RemoveEntityInternal_status hr).2.2.trans hreq
  | DestroyEntity id =>
    simp only [MapOp.run, DestroyEntity, Option.bind_eq_bind, Option.bind_eq_some,
      Option.some.injEq] at h
    obtain ⟨⟨w2, r⟩, hr, rfl⟩ := h
    exact (RemoveEntityInternal_status hr).2.2.trans hreq
  | Load =>
    simp only [MapOp.run] at h
    unfold Load at h
    simp only [Option.bind_eq_bind, Option.bind_eq_some] at h
    obtain ⟨_, _, h⟩ := h
    split at h
    · cases h
      exact hreq
    · cases h
      exact hreq
  | Unload =>
    simp only [MapOp.run] at h
    unfold Unload at h
    simp only [Option.bind_eq_bind, Option.bind_eq_some, Option.some.injEq] at h
    obtain ⟨_, _, rfl⟩ := h
    rfl
  | Activate =>
    simp only [MapOp.run] at h
    unfold Activate at h
    simp only [Option.bind_eq_bind, Option.bind_eq_some, Option.some.injEq] at h
    obtain ⟨_, _, w1, h1, rfl⟩ := h
    show w1.map.m_isUnloadRequested = true
    rw [activation_fold_frame h1]
    exact hreq
  | Deactivate =>
    simp only [MapOp.run] at h
    unfold Deactivate at h
    simp only [Option.bind_eq_bind, Option.bind_eq_some, Option.some.injEq] at h
    obtain ⟨_, _, w1, h1, rfl⟩ := h
    show w1.map.m_isUnloadRequested = true
    rw [(deactivation_fold_frame h1).1]
    exact hreq
  | OnEntityStateUpdated p =>
    simp only [MapOp.run] at h
    unfold OnEntityStateUpdated at h
    simp only [Option.bind_eq_bind, Option.bind_eq_some] at h
    obtain ⟨e, _, h⟩ := h
    split at h
    · simp only [Option.bind_eq_bind, Option.bind_eq_some] at h
      obtain ⟨_, _, h⟩ := h
      split at h
      · cases h
        exact hreq
      · cases h
        exact hreq
    · cases h
      exact hreq
  | UpdateState ctx => exact absurd rfl (hc ctx)

/-- The request flag after an exposed operation other than an update pass. -/
theorem PublicOp_run_unloadRequested {w w' : World} {c : PublicOp}
    (hreq : w.map.m_isUnloadRequested = true)
    (hc : ∀ ctx, c ≠ PublicOp.core (MapOp.UpdateState ctx))
    (h : PublicOp.run w c = some w') : w'.map.m_isUnloadRequested = true := by
  cases c with
  | core op =>
    exact MapOp_run_unloadRequested hreq (fun ctx hop => hc ctx (by rw [hop])) h
  | AddEntities ps => exact (AddEntities_status h).2.2.trans hreq
  | AddEntityCollection created => exact (AddEntityCollection_status h).2.2.trans hreq
  | RenameEntity p n => exact (RenameEntity_fixed h).2.2.2.1.trans hreq
  | ComponentEditingDeactivate id c =>
    exact (ComponentEditingDeactivate_fixed h).2.2.2.1.trans hreq
  | ComponentEditingUnload id c => exact (ComponentEditingUnload_fixed h).2.2.2.1.trans hreq
  | HotReloadDeactivateEntities users =>
    exact (HotReloadDeactivateEntities_fixed h).2.2.2.1.trans hreq
  | HotReloadUnloadEntities => exact (HotReloadUnloadEntities_fixed h).2.2.2.1.trans hreq
  | HotReloadLoadEntities => exact (HotReloadLoadEntities_fixed h).2.2.2.1.trans hreq

/-- C21: on a map whose status is not Unloaded, `Unload` succeeds and changes
nothing but `m_isUnloadRequested`, which it sets: the status, the instantiated
flag, the entity list, the lookup maps and every worklist, the entities and the
calls issued are as before.  Once the flag is set, an `UpdateState` pass that
returns either leaves it set (the map was activated: the pass only deactivates
it, ends in Loaded and returns false) or completes the unload path (the map was
not activated: the pass ends in Unloaded with the flag cleared); every other
exposed operation leaves the flag set. -/
theorem C21_Unload_sets_only_the_flag (w : World)
    (hs : w.map.m_status ≠ EntityMap.Status.Unloaded) :
    Unload w = some { w with map := { w.map with m_isUnloadRequested := true } }
    ∧ (∀ (v v' : World) (ctx : EntityLoadingContext) (r : Bool),
        v.map.m_isUnloadRequested = true → UpdateState v ctx = some (v', r) →
          (v.map.m_status = EntityMap.Status.Activated ∧ r = false
              ∧ v'.map.m_isUnloadRequested = true
              ∧ v'.map.m_status = EntityMap.Status.Loaded)
          ∨ (v.map.m_status ≠ EntityMap.Status.Activated
              ∧ v'.map.m_isUnloadRequested = false
              ∧ v'.map.m_status = EntityMap.Status.Unloaded))
    ∧ (∀ (v v' : World) (c : PublicOp),
        v.map.m_isUnloadRequested = true →
        (∀ ctx, c ≠ PublicOp.core (MapOp.UpdateState ctx)) →
        PublicOp.run v c = some v' → v'.map.m_isUnloadRequested = true) := by
  refine ⟨?_, ?_, ?_⟩
  · unfold Unload
    rw [(EE_ASSERT_eq_some (u := ())).2 (by simpa using hs)]
    rfl
  · intro v v' ctx r hreq h
    by_cases hact : v.map.m_status = EntityMap.Status.Activated
    · obtain ⟨h1, _, h2, h3⟩ := UpdateState_unload_pending hreq hact h
      exact Or.inl ⟨hact, h1, h2, h3⟩
    · obtain ⟨h1, h2, _⟩ := UpdateState_unload_status hreq hact v' r h
      exact Or.inr ⟨hact, h2, h1⟩
  · intro v v' c hreq hc h
    exact PublicOp_run_unloadRequested hreq hc h

theorem C21_Unload_sets_only_the_flag_witness :
    exampleWorldActivated.map.m_status ≠ EntityMap.Status.Unloaded
    ∧ Unload exampleWorldActivated
        = some { exampleWorldActivated with
            map := { exampleWorldActivated.map with m_isUnloadRequested := true } }
    ∧ (UpdateState (World.after (Unload exampleWorldActivated)) (exampleContext true)).map
        (fun x => (x.1.map.m_isUnloadRequested, x.1.map.m_status, x.2))
        = some (true, EntityMap.Status.Loaded, false)
    ∧ (UpdateState (World.afterPass (UpdateState (World.after (Unload exampleWorldActivated))
        (exampleContext true))).1 (exampleContext true)).map
        (fun x => (x.1.map.m_isUnloadRequested, x.1.map.m_status, x.2))
        = some (false, EntityMap.Status.Unloaded, true) :=
  ⟨by decide,
    (C21_Unload_sets_only_the_flag exampleWorldActivated (by decide)).1,
    by decide, by decide⟩

/-! ## C22: the id of the map -/

theorem IdentityFixed.if_refl (w : World) : IdentityFixed w w := ⟨rfl, rfl⟩

theorem IdentityFixed.if_trans {a b c : World} (h1 : IdentityFixed a b)
    (h2 : IdentityFixed b c) : IdentityFixed a c :=
  ⟨h2.1.trans h1.1, h2.2.trans h1.2⟩

theorem IdentityFixed.of_map {w w' : World} (h : w'.map = w.map) : IdentityFixed w w' := by
  unfold IdentityFixed
  rw [h]
  exact ⟨rfl, rfl⟩

theorem MapFixed.identity {w w' : World} (h : MapFixed w w') : IdentityFixed w w' :=
  ⟨h.2.1, h.2.2.2.2.2.1⟩

theorem AddEntity_identity {w w' : World} {p : EntityPtr} (h : AddEntity w p = some w') :
    IdentityFixed w w' := by
  obtain ⟨_, _, _, _, _, _, _, _, rfl⟩ := AddEntity_eq h
  exact ⟨rfl, rfl⟩

theorem AddEntities_identity {w w' : World} {ps : List EntityPtr}
    (h : AddEntities w ps = some w') : IdentityFixed w w' :=
  foldlM_inv AddEntity (IdentityFixed w)
    (fun _ _ _ hb hs => hb.if_trans (AddEntity_identity hs)) ps w w' (IdentityFixed.if_refl w) h

theorem RemoveEntityInternal_identity {w w' : World} {id : EntityID} {d : Bool}
    {r : Option EntityPtr} (h : RemoveEntityInternal w id d = some (w', r)) :
    IdentityFixed w w' := by
  obtain ⟨p, e, w1, e1, nl, _, _, hw1, _, _, _, hsched⟩ := RemoveEntityInternal_spec h
  obtain ⟨_, hmap, _⟩ := reparent_frame hw1
  obtain ⟨_, _, _, _, _, hid, _, _, _, ht, _⟩ := scheduleUnload_spec hsched
  refine ⟨hid.trans ?_, ht.trans ?_⟩
  · show w1.map.m_ID = _; rw [hmap]
  · show w1.map.m_isTransientMap = _; rw [hmap]

theorem Deactivate_identity {w w' : World} (h : Deactivate w = some w') :
    IdentityFixed w w' := by
  unfold Deactivate at h
  simp only [Option.bind_eq_bind, Option.bind_eq_some, Option.some.injEq] at h
  obtain ⟨_, _, w1, h1, rfl⟩ := h
  have hm := (deactivation_fold_frame h1).1
  have e1 : w1.map.m_ID = w.map.m_ID := congrArg EntityMap.m_ID hm
  have e2 : w1.map.m_isTransientMap = w.map.m_isTransientMap :=
    congrArg EntityMap.m_isTransientMap hm
  exact ⟨e1, e2⟩

theorem DestroyAllEntities_identity {w w' : World} (h : DestroyAllEntities w = some w') :
    IdentityFixed w w' := by
  unfold DestroyAllEntities at h
  simp only [Option.bind_eq_bind, Option.bind_eq_some, Option.some.injEq] at h
  obtain ⟨_, _, _, _, w1, h1, rfl⟩ := h
  have hm : w1.map = w.map :=
    foldlM_inv DestroyAllEntities.deleteEntity (fun x => x.map = w.map)
      (fun _ _ _ hb hs => (deleteEntity_map hs).trans hb) _ _ _ rfl h1
  have e1 : w1.map.m_ID = w.map.m_ID := congrArg EntityMap.m_ID hm
  have e2 : w1.map.m_isTransientMap = w.map.m_isTransientMap :=
    congrArg EntityMap.m_isTransientMap hm
  exact ⟨e1, e2⟩

theorem ProcessMapUnloadRequest_identity {w w' : World} {r : Bool}
    (h : ProcessMapUnloadRequest w = some (w', r)) : IdentityFixed w w' := by
  unfold ProcessMapUnloadRequest at h
  simp only [Option.bind_eq_bind, Option.bind_eq_some] at h
  obtain ⟨_, _, h⟩ := h
  split at h
  · obtain ⟨w1, hD, h3⟩ := Option.map_eq_some'.1 h
    simp only [Prod.mk.injEq] at h3
    obtain ⟨rfl, _⟩ := h3
    exact Deactivate_identity hD
  · obtain ⟨w1, h1, h3⟩ := Option.map_eq_some'.1 h
    simp only [Prod.mk.injEq] at h3
    obtain ⟨rfl, _⟩ := h3
    have hres : IdentityFixed w1 (ProcessMapUnloadRequest.unloadResource w1) := by
      unfold ProcessMapUnloadRequest.unloadResource
      split
      · exact ⟨rfl, rfl⟩
      · exact IdentityFixed.if_refl w1
    have h1' : IdentityFixed w w1 := by
      unfold ProcessMapUnloadRequest.unloadEntities at h1
      split at h1
      · simp only [Option.bind_eq_bind, Option.bind_eq_some, Option.some.injEq] at h1
        obtain ⟨w2, h2, rfl⟩ := h1
        have h2' : IdentityFixed w w2 := by
          unfold ProcessMapUnloadRequest.destroyInstantiated at h2
          split at h2
          · simp only [Option.bind_eq_bind, Option.bind_eq_some, Option.some.injEq] at h2
            obtain ⟨w3, h3, w4, h4, rfl⟩ := h2
            have hm : w3.map = w.map :=
              foldlM_inv ProcessMapUnloadRequest.unloadEntity (fun x => x.map = w.map)
                (fun b a b' hb hs => by
                  unfold ProcessMapUnloadRequest.unloadEntity at hs
                  simp only [Option.bind_eq_bind, Option.bind_eq_some] at hs
                  obtain ⟨_, _, _, _, hs⟩ := hs
                  obtain ⟨_, rfl⟩ := call_UnloadComponents_eq hs
                  exact hb) _ _ _ rfl h3
            have h4' := DestroyAllEntities_identity h4
            have e1 : w3.map.m_ID = w.map.m_ID := congrArg EntityMap.m_ID hm
            have e2 : w3.map.m_isTransientMap = w.map.m_isTransientMap :=
              congrArg EntityMap.m_isTransientMap hm
            exact ⟨h4'.1.trans e1, h4'.2.trans e2⟩
          · cases h2
            exact IdentityFixed.if_refl w
        exact ⟨h2'.1, h2'.2⟩
      · cases h1
        exact IdentityFixed.if_refl w
    exact ⟨hres.1.trans h1'.1, hres.2.trans h1'.2⟩

theorem ProcessMapLoading_identity {w w' : World} {ctx : EntityLoadingContext} {r : Bool}
    (h : ProcessMapLoading w ctx = some (w', r)) : IdentityFixed w w' := by
  unfold ProcessMapLoading at h
  simp only [Option.bind_eq_bind, Option.bind_eq_some] at h
  obtain ⟨_, _, _, _, h⟩ := h
  split at h
  · simp only [Option.some.injEq, Prod.mk.injEq] at h
    obtain ⟨rfl, _⟩ := h
    exact IdentityFixed.if_refl w
  · obtain ⟨w1, h1, h2⟩ := Option.map_eq_some'.1 h
    simp only [Prod.mk.injEq] at h2
    obtain ⟨rfl, _⟩ := h2
    have h1' : IdentityFixed w w1 := by
      unfold ProcessMapLoading.finish at h1
      split at h1
      · cases h1
        exact ⟨rfl, rfl⟩
      · split at h1
        · split at h1
          · unfold ProcessMapLoading.instantiate at h1
            simp only [Option.bind_eq_bind, Option.bind_eq_some, Option.some.injEq] at h1
            obtain ⟨heap, _, w2, hw2, rfl⟩ := h1
            have := AddEntities_identity (w := { w with heap := heap }) hw2
            exact ⟨this.1, this.2⟩
          · cases h1
            exact ⟨rfl, rfl⟩
        · cases h1
          exact IdentityFixed.if_refl w
    exact ⟨h1'.1, h1'.2⟩

theorem processEntities_identity {w w' : World} {ctx : EntityLoadingContext} {r : Bool}
    (h : UpdateState.processEntities w ctx = some (w', r)) : IdentityFixed w w' := by
  unfold UpdateState.processEntities at h
  simp only [Option.bind_eq_bind, Option.bind_eq_some] at h
  obtain ⟨w1, h1, h2⟩ := h
  have f1 := (ProcessEntityAdditionAndRemoval_fixed h1).identity
  unfold ProcessEntityLoadingAndActivation at h2
  simp only [Option.bind_eq_bind, Option.bind_eq_some, Option.some.injEq, Prod.mk.injEq] at h2
  obtain ⟨w2, hb, w3, hf, rfl, _⟩ := h2
  have f2 := (batch_fixed hb).identity
  have f3 : IdentityFixed w2 w3 := by
    unfold ProcessEntityLoadingAndActivation.finish at hf
    split at hf
    · simp only [Option.bind_eq_bind, Option.bind_eq_some, Option.some.injEq] at hf
      obtain ⟨_, _, rfl⟩ := hf
      exact ⟨rfl, rfl⟩
    · cases hf
      exact IdentityFixed.if_refl w2
  exact f1.if_trans (f2.if_trans f3)

theorem processLoading_identity {w w' : World} {ctx : EntityLoadingContext} {r : Bool}
    (h : UpdateState.processLoading w ctx = some (w', r)) : IdentityFixed w w' := by
  unfold UpdateState.processLoading at h
  split at h
  · simp only [Option.bind_eq_bind, Option.bind_eq_some] at h
    obtain ⟨⟨w1, b⟩, h1, h2⟩ := h
    have f1 := ProcessMapLoading_identity h1
    split at h2
    · exact f1.if_trans (processEntities_identity h2)
    · simp only [Option.some.injEq, Prod.mk.injEq] at h2
      obtain ⟨rfl, _⟩ := h2
      exact f1
  · exact processEntities_identity h

theorem UpdateState_identity {w w' : World} {ctx : EntityLoadingContext} {r : Bool}
    (h : UpdateState w ctx = some (w', r)) : IdentityFixed w w' := by
  unfold UpdateState at h
  simp only [Option.bind_eq_bind, Option.bind_eq_some] at h
  obtain ⟨_, _, h⟩ := h
  unfold UpdateState.processUnload at h
  split at h
  · simp only [Option.bind_eq_bind, Option.bind_eq_some] at h
    obtain ⟨⟨w1, b⟩, h1, h2⟩ := h
    have f1 := ProcessMapUnloadRequest_identity h1
    split at h2
    · exact f1.if_trans (processLoading_identity h2)
    · simp only [Option.some.injEq, Prod.mk.injEq] at h2
      obtain ⟨rfl, _⟩ := h2
      exact f1
  · exact processLoading_identity h

theorem MapOp_run_identity {w w' : World} {c : MapOp} (h : MapOp.run w c = some w') :
    IdentityFixed w w' := by
  cases c with
  | AddEntity p => exact AddEntity_identity h
  | RemoveEntity id =>
    simp only [MapOp.run, RemoveEntity, Option.bind_eq_bind, Option.map_eq_some',
      Option.bind_eq_some, Option.some.injEq] at h
    obtain ⟨⟨w1, p1⟩, ⟨⟨w2, r⟩, hr, _, _, h3⟩, rfl⟩ := h
    simp only [Prod.mk.injEq] at h3
    obtain ⟨rfl, _⟩ := h3
    exact RemoveEntityInternal_identity hr
  | DestroyEntity id =>
    simp only [MapOp.run, DestroyEntity, Option.bind_eq_bind, Option.bind_eq_some,
      Option.some.injEq] at h
    obtain ⟨⟨w2, r⟩, hr, rfl⟩ := h
    exact RemoveEntityInternal_identity hr
  | Load =>
    simp only [MapOp.run] at h
    unfold Load at h
    simp only [Option.bind_eq_bind, Option.bind_eq_some] at h
    obtain ⟨_, _, h⟩ := h
    split at h
    · cases h
      exact ⟨rfl, rfl⟩
    · cases h
      exact ⟨rfl, rfl⟩
  | Unload =>
    simp only [MapOp.run] at h
    unfold Unload at h
    simp only [Option.bind_eq_bind, Option.bind_eq_some, Option.some.injEq] at h
    obtain ⟨_, _, rfl⟩ := h
    exact ⟨rfl, rfl⟩
  | Activate =>
    simp only [MapOp.run] at h
    unfold Activate at h
    simp only [Option.bind_eq_bind, Option.bind_eq_some, Option.some.injEq] at h
    obtain ⟨_, _, w1, h1, rfl⟩ := h
    have hm := activation_fold_frame h1
    have e1 : w1.map.m_ID = w.map.m_ID := congrArg EntityMap.m_ID hm
    have e2 : w1.map.m_isTransientMap = w.map.m_isTransientMap :=
      congrArg EntityMap.m_isTransientMap hm
    exact ⟨e1, e2⟩
  | Deactivate => exact Deactivate_identity h
  | OnEntityStateUpdated p =>
    simp only [MapOp.run] at h
    unfold OnEntityStateUpdated at h
    simp only [Option.bind_eq_bind, Option.bind_eq_some] at h
    obtain ⟨e, _, h⟩ := h
    split at h
    · simp only [Option.bind_eq_bind, Option.bind_eq_some] at h
      obtain ⟨_, _, h⟩ := h
      split at h
      · cases h
        exact IdentityFixed.if_refl w
      · cases h
        exact ⟨rfl, rfl⟩
    · cases h
      exact IdentityFixed.if_refl w
  | UpdateState ctx =>
    simp only [MapOp.run, Option.map_eq_some'] at h
    obtain ⟨⟨w1, r⟩, h1, rfl⟩ := h
    exact UpdateState_identity h1

theorem PublicOp_run_identity {w w' : World} {c : PublicOp} (h : PublicOp.run w c = some w') :
    IdentityFixed w w' := by
  cases c with
  | core op => exact MapOp_run_identity h
  | AddEntities ps => exact AddEntities_identity h
  | AddEntityCollection created =>
    simp only [PublicOp.run] at h
    unfold AddEntityCollection at h
    simp only [Option.bind_eq_bind, Option.bind_eq_some] at h
    obtain ⟨heap, _, h⟩ := h
    have := AddEntities_identity (w := { w with heap := heap }) h
    exact ⟨this.1, this.2⟩
  | RenameEntity p n =>
    simp only [PublicOp.run] at h
    unfold RenameEntity at h
    split at h
    · simp only [Option.bind_eq_bind, Option.bind_eq_some, Option.some.injEq] at h
      obtain ⟨_, _, e, _, _, _, _, _, name, _, rfl⟩ := h
      exact ⟨rfl, rfl⟩
    · cases h
  | ComponentEditingDeactivate id c =>
    simp only [PublicOp.run] at h
    unfold ComponentEditingDeactivate at h
    split at h
    · simp only [Option.bind_eq_bind, Option.bind_eq_some, Option.some.injEq] at h
      obtain ⟨_, _, _, _, rfl⟩ := h
      exact ⟨rfl, rfl⟩
    · cases h
  | ComponentEditingUnload id c =>
    simp only [PublicOp.run] at h
    unfold ComponentEditingUnload at h
    split at h
    · simp only [Option.bind_eq_bind, Option.bind_eq_some, Option.some.injEq] at h
      obtain ⟨_, _, _, _, _, _, rfl⟩ := h
      exact ⟨rfl, rfl⟩
    · cases h
  | HotReloadDeactivateEntities users =>
    simp only [PublicOp.run] at h
    unfold HotReloadDeactivateEntities at h
    split at h
    · simp only [Option.bind_eq_bind, Option.bind_eq_some] at h
      obtain ⟨_, _, _, _, h⟩ := h
      refine foldlM_inv HotReloadDeactivateEntities.deactivate (IdentityFixed w)
        (fun b a b' hb hs => by
          unfold HotReloadDeactivateEntities.deactivate at hs
          simp only [Option.bind_eq_bind, Option.bind_eq_some] at hs
          obtain ⟨e, _, hs⟩ := hs
          split at hs
          · obtain ⟨_, rfl⟩ := call_Deactivate_eq hs
            exact hb
          · cases hs
            exact hb)
        _ _ _ ?_ h
      exact ⟨rfl, rfl⟩
    · cases h
  | HotReloadUnloadEntities =>
    simp only [PublicOp.run] at h
    unfold HotReloadUnloadEntities at h
    split at h
    · exact foldlM_inv HotReloadUnloadEntities.unload (IdentityFixed w)
        (fun b a b' hb hs => by
          unfold HotReloadUnloadEntities.unload at hs
          simp only [Option.bind_eq_bind, Option.bind_eq_some] at hs
          obtain ⟨e, _, _, _, hs⟩ := hs
          obtain ⟨_, rfl⟩ := call_UnloadComponents_eq hs
          exact hb)
        _ _ _ (IdentityFixed.if_refl w) h
    · cases h
  | HotReloadLoadEntities =>
    simp only [PublicOp.run] at h
    unfold HotReloadLoadEntities at h
    split at h
    · obtain ⟨w1, h1, rfl⟩ := Option.map_eq_some'.1 h
      have := foldlM_inv HotReloadLoadEntities.load (IdentityFixed w)
        (fun b a b' hb hs => by
          unfold HotReloadLoadEntities.load at hs
          simp only [Option.bind_eq_bind, Option.bind_eq_some, Option.some.injEq] at hs
          obtain ⟨e, _, _, _, w2, h2, rfl⟩ := hs
          obtain ⟨_, rfl⟩ := call_LoadComponents_eq h2
          exact hb)
        _ _ _ (IdentityFixed.if_refl w) h1
      exact ⟨this.1, this.2⟩
    · cases h

theorem runPublic_identity {w w' : World} {ops : List PublicOp}
    (h : runPublic w ops = some w') : IdentityFixed w w' :=
  foldlM_inv PublicOp.run (IdentityFixed w)
    (fun _ _ _ hb hs => hb.if_trans (PublicOp_run_identity hs)) ops w w'
    (IdentityFixed.if_refl w) h

/-- C22, as stated, fails: the id is neither assigned by `Load` nor cleared on
unload.  A fresh transient map with the valid id 7 is loaded and unloaded again:
the update pass completes the unload path (status back to Unloaded, flag cleared)
and the id is still 7.  And `Load` on a map whose id is cleared, the source of a
move assignment, succeeds and leaves the id cleared. -/
theorem C22_counterexample :
    exampleWorldFresh.map.m_ID = 7
    ∧ (World.after (Load exampleWorldFresh)).map.m_ID = 7
    ∧ (runPublic exampleWorldFresh exampleUnloadOps).map
        (fun x => (x.map.m_status, x.map.m_isUnloadRequested, x.map.m_ID))
        = some (EntityMap.Status.Unloaded, false, 7)
    ∧ (World.after (runPublic exampleWorldFresh exampleUnloadOps)).map.m_ID ≠ 0
    ∧ ((EntityMap.moveAssign true (EntityMap.mkTransient 8) exampleWorldFresh.map).bind
        fun r => (Load { exampleWorldFresh with map := r.2 }).map
          fun x => (x.map.m_status, x.map.m_ID)) = some (EntityMap.Status.Loaded, 0) := by
  decide

/-- C22, amended: the id of a map is neither assigned on load nor cleared on
unload, it is kept.  `Load`, every `UpdateState` pass (also one that completes
the unload path) and every other exposed operation leave the id as it was, so a
map keeps its id through any sequence of them; the id changes only in a move
assignment, which gives the target the id of the source and clears the id of the
source. -/
theorem C22_id_is_kept (w : World) :
    (∀ w', Load w = some w' → w'.map.m_ID = w.map.m_ID)
    ∧ (∀ (ctx : EntityLoadingContext) (w' : World) (r : Bool),
        UpdateState w ctx = some (w', r) → w'.map.m_ID = w.map.m_ID)
    ∧ (∀ (ops : List PublicOp) (w' : World),
        runPublic w ops = some w' → w'.map.m_ID = w.map.m_ID)
    ∧ (∀ (self : EntityMap) (r : EntityMap × EntityMap),
        EntityMap.moveAssign w.EE_DEVELOPMENT_TOOLS self w.map = some r →
          r.1.m_ID = w.map.m_ID ∧ r.2.m_ID = 0) := by
  refine ⟨?_, ?_, ?_, ?_⟩
  · intro w' h
    exact (MapOp_run_identity (c := MapOp.Load) h).1
  · intro ctx w' r h
    exact (UpdateState_identity h).1
  · intro ops w' h
    exact (runPublic_identity h).1
  · intro self r h
    unfold EntityMap.moveAssign at h
    simp only [Option.bind_eq_bind, Option.bind_eq_some, Option.some.injEq] at h
    obtain ⟨_, _, rfl⟩ := h
    exact ⟨rfl, rfl⟩

theorem C22_id_is_kept_witness :
    (World.after (Load exampleWorldFresh)).map.m_ID = exampleWorldFresh.map.m_ID
    ∧ (World.after (runPublic exampleWorldFresh exampleUnloadOps)).map.m_ID
        = exampleWorldFresh.map.m_ID :=
  ⟨(C22_id_is_kept exampleWorldFresh).1 (World.after (Load exampleWorldFresh)) (by decide),
    (C22_id_is_kept exampleWorldFresh).2.2.1 exampleUnloadOps
      (World.after (runPublic exampleWorldFresh exampleUnloadOps)) (by decide)⟩

/-! ## C30: a descriptor that is still loading -/

theorem processEntities_descriptorLoading {w w' : World} {ctx : EntityLoadingContext} {r : Bool}
    (h : UpdateState.processEntities w ctx = some (w', r))
    (hs : w'.map.m_status = EntityMap.Status.MapDescriptorLoading) :
    w.map.m_status = EntityMap.Status.MapDescriptorLoading := by
  obtain ⟨_, hst, _⟩ := processEntities_result h
  rcases hst with hst | ⟨_, hst⟩
  · exact hst ▸ hs
  · rw [hs] at hst
    cases hst

/-- No update pass enters the status MapDescriptorLoading. -/
theorem UpdateState_descriptorLoading {w w' : World} {ctx : EntityLoadingContext} {r : Bool}
    (h : UpdateState w ctx = some (w', r))
    (hs : w'.map.m_status = EntityMap.Status.MapDescriptorLoading) :
    w.map.m_status = EntityMap.Status.MapDescriptorLoading := by
  cases hreq : w.map.m_isUnloadRequested with
  | true =>
    by_cases hact : w.map.m_status = EntityMap.Status.Activated
    · have := (UpdateState_unload_pending hreq hact h).2.2.2
      rw [hs] at this
      cases this
    · have := (UpdateState_unload_status hreq hact w' r h).1
      rw [hs] at this
      cases this
  | false =>
    unfold UpdateState at h
    simp only [Option.bind_eq_bind, Option.bind_eq_some] at h
    obtain ⟨_, _, h⟩ := h
    unfold UpdateState.processUnload at h
    rw [if_neg (by rw [hreq]; exact Bool.false_ne_true)] at h
    unfold UpdateState.processLoading at h
    split at h
    · rename_i hm
      exact hm
    · exact processEntities_descriptorLoading h hs

theorem DescriptorInv.di_of_fixed {w w' : World} (hinv : DescriptorInv w.map)
    (hid : IdentityFixed w w')
    (hs : w'.map.m_status = EntityMap.Status.MapDescriptorLoading →
      w.map.m_status = EntityMap.Status.MapDescriptorLoading) : DescriptorInv w'.map :=
  fun h => hid.2.trans (hinv (hs h))

theorem MapOp_run_descriptorInv {w w' : World} {c : MapOp} (hinv : DescriptorInv w.map)
    (h : MapOp.run w c = some w') : DescriptorInv w'.map := by
  have hid := MapOp_run_identity h
  cases c with
  | AddEntity p => exact hinv.di_of_fixed hid (fun hs => (AddEntity_status h).1 ▸ hs)
  | RemoveEntity id =>
    refine hinv.di_of_fixed hid ?_
    simp only [MapOp.run, RemoveEntity, Option.bind_eq_bind, Option.map_eq_some',
      Option.bind_eq_some, Option.some.injEq] at h
    obtain ⟨⟨w1, p1⟩, ⟨⟨w2, r⟩, hr, _, _, h3⟩, rfl⟩ := h
    simp only [Prod.mk.injEq] at h3
    obtain ⟨rfl, _⟩ := h3
    exact fun hs => (RemoveEntityInternal_status hr).1 ▸ hs
  | DestroyEntity id =>
    refine hinv.di_of_fixed hid ?_
    simp only [MapOp.run, DestroyEntity, Option.bind_eq_bind, Option.bind_eq_some,
      Option.some.injEq] at h
    obtain ⟨⟨w2, r⟩, hr, rfl⟩ := h
    exact fun hs => (RemoveEntityInternal_status hr).1 ▸ hs
  | Load =>
    simp only [MapOp.run] at h
    unfold Load at h
    simp only [Option.bind_eq_bind, Option.bind_eq_some] at h
    obtain ⟨_, _, h⟩ := h
    split at h
    · cases h
      intro hs
      cases hs
    · rename_i ht
      cases h
      intro _
      show w.map.m_isTransientMap = false
      simpa using ht
  | Unload =>
    refine hinv.di_of_fixed hid ?_
    simp only [MapOp.run] at h
    unfold Unload at h
    simp only [Option.bind_eq_bind, Option.bind_eq_some, Option.some.injEq] at h
    obtain ⟨_, _, rfl⟩ := h
    exact fun hs => hs
  | Activate =>
    simp only [MapOp.run] at h
    unfold Activate at h
    simp only [Option.bind_eq_bind, Option.bind_eq_some, Option.some.injEq] at h
    obtain ⟨_, _, w1, h1, rfl⟩ := h
    intro hs
    cases hs
  | Deactivate =>
    simp only [MapOp.run] at h
    unfold Deactivate at h
    simp only [Option.bind_eq_bind, Option.bind_eq_some, Option.some.injEq] at h
    obtain ⟨_, _, w1, h1, rfl⟩ := h
    intro hs
    cases hs
  | OnEntityStateUpdated p =>
    refine hinv.di_of_fixed hid ?_
    simp only [MapOp.run] at h
    unfold OnEntityStateUpdated at h
    simp only [Option.bind_eq_bind, Option.bind_eq_some] at h
    obtain ⟨e, _, h⟩ := h
    split at h
    · simp only [Option.bind_eq_bind, Option.bind_eq_some] at h
      obtain ⟨_, _, h⟩ := h
      split at h
      · cases h
        exact fun hs => hs
      · cases h
        exact fun hs => hs
    · cases h
      exact fun hs => hs
  | UpdateState ctx =>
    refine hinv.di_of_fixed hid ?_
    simp only [MapOp.run, Option.map_eq_some'] at h
    obtain ⟨⟨w1, r⟩, h1, rfl⟩ := h
    exact UpdateState_descriptorLoading h1

theorem PublicOp_run_descriptorInv {w w' : World} {c : PublicOp} (hinv : DescriptorInv w.map)
    (h : PublicOp.run w c = some w') : DescriptorInv w'.map := by
  have hid := PublicOp_run_identity h
  cases c with
  | core op => exact MapOp_run_descriptorInv hinv h
  | AddEntities ps => exact hinv.di_of_fixed hid (fun hs => (AddEntities_status h).1 ▸ hs)
  | AddEntityCollection created =>
    exact hinv.di_of_fixed hid (fun hs => (AddEntityCollection_status h).1 ▸ hs)
  | RenameEntity p n => exact hinv.di_of_fixed hid (fun hs => (RenameEntity_fixed h).2.1 ▸ hs)
  | ComponentEditingDeactivate id c =>
    exact hinv.di_of_fixed hid (fun hs => (ComponentEditingDeactivate_fixed h).2.1 ▸ hs)
  | ComponentEditingUnload id c =>
    exact hinv.di_of_fixed hid (fun hs => (ComponentEditingUnload_fixed h).2.1 ▸ hs)
  | HotReloadDeactivateEntities users =>
    exact hinv.di_of_fixed hid (fun hs => (HotReloadDeactivateEntities_fixed h).2.1 ▸ hs)
  | HotReloadUnloadEntities =>
    exact hinv.di_of_fixed hid (fun hs => (HotReloadUnloadEntities_fixed h).2.1 ▸ hs)
  | HotReloadLoadEntities =>
    exact hinv.di_of_fixed hid (fun hs => (HotReloadLoadEntities_fixed h).2.1 ▸ hs)

/-- In every state the program can reach, a map in the status
MapDescriptorLoading is not transient. -/
theorem Reachable.descriptorInv {w : World} (h : Reachable w) : DescriptorInv w.map := by
  induction h with
  | fresh w id h =>
    rcases h with h | h <;> rw [h] <;> exact fun hs => by cases hs
  | op w w' c _ h ih => exact PublicOp_run_descriptorInv ih h
  | environment w heap _ ih => exact ih
  | copyAssign w src m _ _ h ih _ =>
    unfold EntityMap.copyAssign at h
    simp only [Option.bind_eq_bind, Option.bind_eq_some, Option.some.injEq, EE_ASSERT_eq_some,
      Bool.and_eq_true, decide_eq_true_eq] at h
    obtain ⟨_, ⟨hs, _⟩, _, _, rfl⟩ := h
    intro hc
    have hc' : w.map.m_status = EntityMap.Status.MapDescriptorLoading := hc
    rw [hs] at hc'
    cases hc'
  | moveAssign w src r _ _ h _ ihsrc =>
    unfold EntityMap.moveAssign at h
    simp only [Option.bind_eq_bind, Option.bind_eq_some, Option.some.injEq] at h
    obtain ⟨_, _, rfl⟩ := h
    exact fun hc => ihsrc hc
  | movedFrom w src r _ _ h _ _ =>
    unfold EntityMap.moveAssign at h
    simp only [Option.bind_eq_bind, Option.bind_eq_some, Option.some.injEq] at h
    obtain ⟨_, _, rfl⟩ := h
    exact fun hc => by cases hc

/-- C30: take a map, in a state the program can reach, with the status
MapDescriptorLoading and no unload requested, and a pass in which the descriptor
handle still reports loading (with development tools, no hot reload is in
progress, as `UpdateState` requires).  The pass succeeds, returns false and
leaves the whole state as it was: the status, the instantiated flag, the entity
list, the lookup maps, `toLoad`, the loading list and `toRemove`, the entities,
and the calls issued, so no removal, addition or batch processing was run. -/
theorem C30_descriptor_still_loading (w : World) (ctx : EntityLoadingContext)
    (hr : Reachable w)
    (hs : w.map.m_status = EntityMap.Status.MapDescriptorLoading)
    (hu : w.map.m_isUnloadRequested = false)
    (hd : ctx.mapDesc.IsLoading = true)
    (hhot : w.EE_DEVELOPMENT_TOOLS = true → w.map.m_entitiesToHotReload = []) :
    UpdateState w ctx = some (w, false) := by
  have ht : w.map.m_isTransientMap = false := hr.descriptorInv hs
  have hassert : EE_ASSERT (!w.EE_DEVELOPMENT_TOOLS || w.map.m_entitiesToHotReload.isEmpty)
      = some () := by
    rw [EE_ASSERT_eq_some]
    cases hdev : w.EE_DEVELOPMENT_TOOLS with
    | false => rfl
    | true => rw [hhot hdev]; rfl
  unfold UpdateState
  rw [hassert]
  simp only [Option.bind_eq_bind, Option.some_bind]
  unfold UpdateState.processUnload
  rw [if_neg (by rw [hu]; exact Bool.false_ne_true)]
  unfold UpdateState.processLoading
  rw [if_pos hs]
  unfold ProcessMapLoading
  rw [(EE_ASSERT_eq_some (u := ())).2 (by simp [hs]),
    (EE_ASSERT_eq_some (u := ())).2 (by simp [ht])]
  simp only [Option.bind_eq_bind, Option.some_bind, hd, if_true, Bool.false_eq_true, if_false]

theorem C30_descriptor_still_loading_witness :
    exampleWorldDescriptor.map.m_status = EntityMap.Status.MapDescriptorLoading
    ∧ (exampleContext true).mapDesc.IsLoading = true
    ∧ UpdateState exampleWorldDescriptor (exampleContext true)
        = some (exampleWorldDescriptor, false) :=
  ⟨by decide, by decide,
    C30_descriptor_still_loading exampleWorldDescriptor (exampleContext true)
      (Reachable.of_runPublic
        (Reachable.fresh { exampleWorldFresh with map := EntityMap.mkFromResource 7 } 7
          (Or.inr rfl))
        (show runPublic { exampleWorldFresh with map := EntityMap.mkFromResource 7 }
            [PublicOp.core MapOp.Load] = some exampleWorldDescriptor by decide))
      (by decide) (by decide) (by decide) (by decide)⟩

/-! ## C23 and C24: assertions of the map that its own operations can violate -/

/-- C23: the branch `EE_UNREACHABLE_CODE` of `RemoveEntityInternal` is reached
from a state the exposed operations produce.  On a map bound to a descriptor,
`Load`, `AddEntity` of entity 1 (id 11), `Unload` and one update pass all
succeed; the pass completes the unload path of the map, which is not
instantiated, by clearing `toLoad` while the entity list and the id lookup map
keep the entity.  In the resulting state the id 11 is found in the id lookup map
and leads to a live entity carrying it, the map is not instantiated and the
entity is not in `toLoad`: the search of the add queue finds nothing and
`RemoveEntity` and `DestroyEntity` stop in the unknown-entity branch.  The same
calls succeed when the map is instantiated. -/
theorem C23_unknown_entity_branch_reached :
    (runPublic exampleWorldFreshResource exampleStrandedOps).isSome = true
    ∧ (World.after (runPublic exampleWorldFreshResource exampleStrandedOps)).map.m_status
        = EntityMap.Status.Unloaded
    ∧ (World.after (runPublic exampleWorldFreshResource exampleStrandedOps)).map.FindEntity 11
        = some 1
    ∧ (Heap.read (World.after (runPublic exampleWorldFreshResource exampleStrandedOps)).heap
        1).map Entity.m_ID = some 11
    ∧ (World.after (runPublic exampleWorldFreshResource exampleStrandedOps)).map.m_entities
        = [1]
    ∧ (World.after (runPublic exampleWorldFreshResource
        exampleStrandedOps)).map.m_isMapInstantiated = false
    ∧ (World.after (runPublic exampleWorldFreshResource exampleStrandedOps)).map.m_entitiesToLoad
        = []
    ∧ VectorFindIndex
        (queuedWithID (World.after (runPublic exampleWorldFreshResource exampleStrandedOps)).heap
          11)
        (World.after (runPublic exampleWorldFreshResource
          exampleStrandedOps)).map.m_entitiesToLoad = none
    ∧ RemoveEntityInternal.queueRemoval
        (World.after (runPublic exampleWorldFreshResource exampleStrandedOps)) 1 false = none
    ∧ RemoveEntity (World.after (runPublic exampleWorldFreshResource exampleStrandedOps)) 11
        = none
    ∧ DestroyEntity (World.after (runPublic exampleWorldFreshResource exampleStrandedOps)) 11
        = none
    ∧ (RemoveEntity
        { World.after (runPublic exampleWorldFreshResource exampleStrandedOps) with
          map := { (World.after (runPublic exampleWorldFreshResource exampleStrandedOps)).map
            with m_isMapInstantiated := true } } 11).isSome = true := by
  decide

/-- C24: the assertions at the head of `DestroyAllEntities` fail on the unload
path of an instantiated map when an entity was added or removed after the last
update pass.  On a loaded transient map a third entity is added and `Unload` is
called: every call succeeds, the map is instantiated with the flag set and
`toLoad` holds the entity.  The next update pass enters the unload path, unloads
the components of every entity and reaches `DestroyAllEntities` with `toLoad` not
empty; its first assertion fails and the pass does not return.  With an entity
removed instead of added, `toRemove` holds a request and the second assertion
fails in the same way. -/
theorem C24_DestroyAllEntities_assertion_fails :
    (runPublic exampleWorldFresh examplePendingAddOps).isSome = true
    ∧ (World.after (runPublic exampleWorldFresh examplePendingAddOps)).map.m_isMapInstantiated
        = true
    ∧ (World.after (runPublic exampleWorldFresh examplePendingAddOps)).map.m_isUnloadRequested
        = true
    ∧ (World.after (runPublic exampleWorldFresh examplePendingAddOps)).map.m_status
        = EntityMap.Status.Loaded
    ∧ (World.after (runPublic exampleWorldFresh examplePendingAddOps)).map.m_entitiesToLoad
        = [3]
    ∧ ((World.after (runPublic exampleWorldFresh examplePendingAddOps)).map.m_entities.foldlM
        ProcessMapUnloadRequest.unloadEntity
        (World.after (runPublic exampleWorldFresh examplePendingAddOps))).isSome = true
    ∧ (((World.after (runPublic exampleWorldFresh examplePendingAddOps)).map.m_entities.foldlM
        ProcessMapUnloadRequest.unloadEntity
        (World.after (runPublic exampleWorldFresh examplePendingAddOps))).bind
          fun w1 => EE_ASSERT w1.map.m_entitiesToLoad.isEmpty) = none
    ∧ (((World.after (runPublic exampleWorldFresh examplePendingAddOps)).map.m_entities.foldlM
        ProcessMapUnloadRequest.unloadEntity
        (World.after (runPublic exampleWorldFresh examplePendingAddOps))).bind
          DestroyAllEntities) = none
    ∧ UpdateState (World.after (runPublic exampleWorldFresh examplePendingAddOps))
        (exampleContext true) = none
    ∧ (runPublic exampleWorldFresh examplePendingRemoveOps).isSome = true
    ∧ (World.after (runPublic exampleWorldFresh examplePendingRemoveOps)).map.m_entitiesToLoad
        = []
    ∧ (World.after (runPublic exampleWorldFresh examplePendingRemoveOps)).map.m_entitiesToRemove
        = [{ m_pEntity := 2, m_shouldDestroy := false }]
    ∧ (((World.after (runPublic exampleWorldFresh
        examplePendingRemoveOps)).map.m_entities.foldlM
        ProcessMapUnloadRequest.unloadEntity
        (World.after (runPublic exampleWorldFresh examplePendingRemoveOps))).bind
          fun w1 => EE_ASSERT w1.map.m_entitiesToRemove.isEmpty) = none
    ∧ UpdateState (World.after (runPublic exampleWorldFresh examplePendingRemoveOps))
        (exampleContext true) = none := by
  decide

/-! ## C27: the loading list after the batch -/

/-- The work items of the loading batch over live entities: the batch succeeds,
and the entities collected as still loading are, in order, the entities of the
list whose state update reported that they are still loading. -/
theorem EntityLoadingTask.item_fold_stillLoading (ctx : EntityLoadingContext) (act : Bool)
    (l : List EntityPtr) :
    ∀ acc : World × List EntityPtr, (∀ p ∈ l, (Heap.read acc.1.heap p).isSome = true) →
    ∃ w1, l.foldlM (EntityLoadingTask.item ctx act) acc
        = some (w1, acc.2 ++ l.filter fun p => !ctx.updateEntityState p)
      ∧ ∀ q, (Heap.read w1.heap q).isSome = (Heap.read acc.1.heap q).isSome := by
  induction l with
  | nil =>
    intro acc _
    exact ⟨acc.1, by simp, fun _ => rfl⟩
  | cons a l ih =>
    intro acc hl
    obtain ⟨ea, hea⟩ := Option.isSome_iff_exists.1 (hl a (List.mem_cons_self _ _))
    have hstep : ∃ w2, EntityLoadingTask.item ctx act acc a
        = some (w2, acc.2 ++ [a].filter fun p => !ctx.updateEntityState p)
        ∧ ∀ q, (Heap.read w2.heap q).isSome = (Heap.read acc.1.heap q).isSome := by
      unfold EntityLoadingTask.item
      simp only [hea, Option.bind_eq_bind, Option.some_bind]
      cases hu : ctx.updateEntityState a with
      | true =>
        have hf : ([a].filter fun p => !ctx.updateEntityState p) = [] := by simp [hu]
        rw [hf, List.append_nil]
        simp only [if_true]
        cases hc : (act && ea.IsLoaded) with
        | true =>
          simp only [if_true]
          have hlive : Heap.read
              ({ acc.1 with trace := acc.1.trace ++ [Event.UpdateEntityState a] } : World).heap a
              = some ea := hea
          rw [call_Activate_of_live hlive]
          refine ⟨_, rfl, fun q => ?_⟩
          show (Heap.read (Entity.Activate acc.1.heap a) q).isSome = _
          unfold Entity.Activate
          exact Heap.isSome_read_modify _ _ _ _
        | false =>
          simp only [Bool.false_eq_true, if_false]
          exact ⟨_, rfl, fun _ => rfl⟩
      | false =>
        have hf : ([a].filter fun p => !ctx.updateEntityState p) = [a] := by simp [hu]
        rw [hf]
        simp only [Bool.false_eq_true, if_false]
        exact ⟨_, rfl, fun _ => rfl⟩
    obtain ⟨w2, h2, hlive2⟩ := hstep
    obtain ⟨w3, h3, hlive3⟩ := ih (w2, acc.2 ++ [a].filter fun p => !ctx.updateEntityState p)
      (fun p hp => by
        show (Heap.read w2.heap p).isSome = true
        rw [hlive2]
        exact hl p (List.mem_cons_of_mem _ hp))
    refine ⟨w3, ?_, fun q => (hlive3 q).trans (hlive2 q)⟩
    simp only [List.foldlM_cons, h2, Option.bind_eq_bind, Option.some_bind]
    rw [h3]
    simp only [List.append_assoc, ← List.filter_append, List.singleton_append]

theorem ProcessEntityLoadingAndActivation.drain_eq (q : List EntityPtr) :
    ProcessEntityLoadingAndActivation.drain q = some q := by
  unfold ProcessEntityLoadingAndActivation.drain LockFreeQueue.try_dequeue_bulk
    LockFreeQueue.size_approx
  simp [EE_ASSERT]

/-- The loading list after the batch, whenever the batch returns. -/
theorem batch_stillLoading {w w' : World} {ctx : EntityLoadingContext}
    (h : ProcessEntityLoadingAndActivation.batch w ctx = some w') :
    w'.map.m_entitiesCurrentlyLoading
      = w.map.m_entitiesCurrentlyLoading.filter fun p => !ctx.updateEntityState p := by
  unfold ProcessEntityLoadingAndActivation.batch at h
  split at h
  · rename_i he
    cases h
    rw [List.isEmpty_iff.1 he]
    rfl
  · obtain ⟨r, h1, rfl⟩ := Option.map_eq_some'.1 h
    have key : ∀ (l : List EntityPtr) (acc r : World × List EntityPtr),
        l.foldlM (EntityLoadingTask.item ctx w.map.IsActivated) acc = some r →
        r.2 = acc.2 ++ l.filter fun p => !ctx.updateEntityState p := by
      intro l
      induction l with
      | nil =>
        intro acc r hr
        simp only [List.foldlM_nil, Option.pure_def, Option.some.injEq] at hr
        subst hr
        simp
      | cons a l ih =>
        intro acc r hr
        simp only [List.foldlM_cons, Option.bind_eq_bind, Option.bind_eq_some] at hr
        obtain ⟨b, hb, hr⟩ := hr
        rw [ih b r hr]
        have hb2 : b.2 = acc.2 ++ [a].filter fun p => !ctx.updateEntityState p := by
          unfold EntityLoadingTask.item at hb
          simp only [Option.bind_eq_bind, Option.bind_eq_some] at hb
          obtain ⟨e, _, hb⟩ := hb
          split at hb
          · rename_i hu
            have h2 : b.2 = acc.2 := by
              split at hb
              · obtain ⟨w2, _, rfl⟩ := Option.map_eq_some'.1 hb
                rfl
              · cases hb
                rfl
            rw [h2]
            simp [hu]
          · rename_i hu
            cases hb
            simp [hu]
        rw [hb2]
        simp only [List.append_assoc, ← List.filter_append, List.singleton_append]
    have := key _ _ _ h1
    simpa using this

/-- C27: let the entities of the loading list be live.  The loading batch
succeeds, and afterwards the loading list is exactly the entities of the previous
loading list whose state update reported that they are still loading: an entity
is in the new list if and only if it was in the old one and reported still
loading, it occurs there as often as before (once, the old list being free of
duplicates), and the order is kept.  The list is what the fan-in takes out of the
queue of still-loading entities, and the assertion of the fan-in holds: the
number of entities dequeued is the number recorded as still loading.  The end of
`ProcessEntityLoadingAndActivation` leaves the list as the batch produced it and
the function returns whether it is empty. -/
theorem C27_loading_list_after_batch (w : World) (ctx : EntityLoadingContext)
    (hlive : ∀ p ∈ w.map.m_entitiesCurrentlyLoading, (Heap.read w.heap p).isSome = true) :
    (∃ w', ProcessEntityLoadingAndActivation.batch w ctx = some w'
      ∧ w'.map.m_entitiesCurrentlyLoading
          = w.map.m_entitiesCurrentlyLoading.filter (fun p => !ctx.updateEntityState p)
      ∧ ProcessEntityLoadingAndActivation.drain
          (w.map.m_entitiesCurrentlyLoading.filter fun p => !ctx.updateEntityState p)
          = some w'.map.m_entitiesCurrentlyLoading
      ∧ LockFreeQueue.size_approx
          (w.map.m_entitiesCurrentlyLoading.filter fun p => !ctx.updateEntityState p)
          = w'.map.m_entitiesCurrentlyLoading.length
      ∧ (∀ p, p ∈ w'.map.m_entitiesCurrentlyLoading
          ↔ (p ∈ w.map.m_entitiesCurrentlyLoading ∧ ctx.updateEntityState p = false))
      ∧ (∀ p, w'.map.m_entitiesCurrentlyLoading.count p
          = if ctx.updateEntityState p then 0 else w.map.m_entitiesCurrentlyLoading.count p)
      ∧ (w.map.m_entitiesCurrentlyLoading.Nodup → w'.map.m_entitiesCurrentlyLoading.Nodup))
    ∧ (∀ (w'' : World) (r : Bool), ProcessEntityLoadingAndActivation w ctx = some (w'', r) →
        w''.map.m_entitiesCurrentlyLoading
          = w.map.m_entitiesCurrentlyLoading.filter (fun p => !ctx.updateEntityState p)
        ∧ r = w''.map.m_entitiesCurrentlyLoading.isEmpty) := by
  have hbatch : ∃ w', ProcessEntityLoadingAndActivation.batch w ctx = some w' := by
    unfold ProcessEntityLoadingAndActivation.batch
    split
    · exact ⟨w, rfl⟩
    · obtain ⟨w1, h1, _⟩ := EntityLoadingTask.item_fold_stillLoading ctx w.map.IsActivated
        w.map.m_entitiesCurrentlyLoading (w, []) hlive
      rw [h1]
      exact ⟨_, rfl⟩
  obtain ⟨w', hw'⟩ := hbatch
  have hl := batch_stillLoading hw'
  refine ⟨⟨w', hw', hl, ?_, ?_, ?_, ?_, ?_⟩, ?_⟩
  · rw [ProcessEntityLoadingAndActivation.drain_eq, hl]
  · rw [hl]
    rfl
  · intro p
    rw [hl, List.mem_filter]
    simp
  · intro p
    rw [hl]
    cases hu : ctx.updateEntityState p with
    | true =>
      simp only [if_true]
      rw [List.count_eq_zero, List.mem_filter]
      simp [hu]
    | false =>
      simp only [Bool.false_eq_true, if_false]
      exact List.count_filter (by simp [hu])
  · intro hnd
    rw [hl]
    exact hnd.filter _
  · intro w'' r h
    unfold ProcessEntityLoadingAndActivation at h
    simp only [Option.bind_eq_bind, Option.bind_eq_some, Option.some.injEq, Prod.mk.injEq] at h
    obtain ⟨w1, h1, w2, h2, rfl, rfl⟩ := h
    have h12 : w2.map.m_entitiesCurrentlyLoading = w1.map.m_entitiesCurrentlyLoading := by
      unfold ProcessEntityLoadingAndActivation.finish at h2
      split at h2
      · simp only [Option.bind_eq_bind, Option.bind_eq_some, Option.some.injEq] at h2
        obtain ⟨_, _, rfl⟩ := h2
        rfl
      · cases h2
        rfl
    exact ⟨h12.trans (batch_stillLoading h1), rfl⟩

theorem C27_loading_list_after_batch_witness :
    exampleWorldLoading.map.m_entitiesCurrentlyLoading = [1, 2, 3]
    ∧ (ProcessEntityLoadingAndActivation.batch exampleWorldLoading exampleContextMixed).map
        (fun x => x.map.m_entitiesCurrentlyLoading) = some [2]
    ∧ ∃ w', ProcessEntityLoadingAndActivation.batch exampleWorldLoading exampleContextMixed
        = some w'
      ∧ w'.map.m_entitiesCurrentlyLoading
          = exampleWorldLoading.map.m_entitiesCurrentlyLoading.filter
              (fun p => !exampleContextMixed.updateEntityState p)
      ∧ ProcessEntityLoadingAndActivation.drain
          (exampleWorldLoading.map.m_entitiesCurrentlyLoading.filter
            fun p => !exampleContextMixed.updateEntityState p)
          = some w'.map.m_entitiesCurrentlyLoading
      ∧ LockFreeQueue.size_approx
          (exampleWorldLoading.map.m_entitiesCurrentlyLoading.filter
            fun p => !exampleContextMixed.updateEntityState p)
          = w'.map.m_entitiesCurrentlyLoading.length
      ∧ (∀ p, p ∈ w'.map.m_entitiesCurrentlyLoading
          ↔ (p ∈ exampleWorldLoading.map.m_entitiesCurrentlyLoading
              ∧ exampleContextMixed.updateEntityState p = false))
      ∧ (∀ p, w'.map.m_entitiesCurrentlyLoading.count p
          = if exampleContextMixed.updateEntityState p then 0
            else exampleWorldLoading.map.m_entitiesCurrentlyLoading.count p)
      ∧ (exampleWorldLoading.map.m_entitiesCurrentlyLoading.Nodup →
          w'.map.m_entitiesCurrentlyLoading.Nodup) :=
  ⟨by decide, by decide,
    (C27_loading_list_after_batch exampleWorldLoading exampleContextMixed (by decide)).1⟩

/-! ## C28: the addition step of a pass -/

theorem requestLoad_eq {w w' : World} {p : EntityPtr}
    (h : ProcessEntityAdditionAndRemoval.requestLoad w p = some w') :
    ∃ e, Heap.read w.heap p = some e ∧ p ≠ nullptr ∧ e.m_mapID = w.map.m_ID
      ∧ e.IsActivated = false ∧ p ∉ w.map.m_entitiesCurrentlyLoading
      ∧ w' = { w with
          heap := Entity.LoadComponents w.heap p,
          trace := w.trace ++ [Event.LoadComponents p],
          map := { w.map with
            m_entitiesCurrentlyLoading := w.map.m_entitiesCurrentlyLoading ++ [p] } } := by
  unfold ProcessEntityAdditionAndRemoval.requestLoad at h
  simp only [Option.bind_eq_bind, Option.bind_eq_some, Option.some.injEq, EE_ASSERT_eq_some,
    Bool.and_eq_true, decide_eq_true_eq, Bool.not_eq_true'] at h
  obtain ⟨e, he, _, ⟨⟨h1, h2⟩, h3⟩, w1, hw1, _, h4, rfl⟩ := h
  obtain ⟨_, rfl⟩ := call_LoadComponents_eq hw1
  refine ⟨e, he, h1, h2, h3, ?_, rfl⟩
  simpa [VectorContains] using h4

theorem requestLoad_of {w : World} {p : EntityPtr} {e : Entity}
    (he : Heap.read w.heap p = some e) (hp : p ≠ nullptr) (hm : e.m_mapID = w.map.m_ID)
    (ha : e.IsActivated = false) (hl : p ∉ w.map.m_entitiesCurrentlyLoading) :
    ProcessEntityAdditionAndRemoval.requestLoad w p = some { w with
      heap := Entity.LoadComponents w.heap p,
      trace := w.trace ++ [Event.LoadComponents p],
      map := { w.map with
        m_entitiesCurrentlyLoading := w.map.m_entitiesCurrentlyLoading ++ [p] } } := by
  have h1 : EE_ASSERT (decide (p ≠ nullptr) && decide (e.m_mapID = w.map.m_ID)
      && !e.IsActivated) = some () := by
    rw [EE_ASSERT_eq_some]
    simp [hp, hm, ha]
  have h2 : EE_ASSERT (!VectorContains w.map.m_entitiesCurrentlyLoading p) = some () := by
    rw [EE_ASSERT_eq_some]
    simpa [VectorContains] using hl
  unfold ProcessEntityAdditionAndRemoval.requestLoad call_LoadComponents
  simp only [he, h1, h2, Option.bind_eq_bind, Option.some_bind]

/-- What the load-request loop did, whenever it returns: every entity of the list
had its components requested, once and in order, and joined the loading list. -/
theorem requestLoad_fold_spec (l : List EntityPtr) :
    ∀ w w' : World, l.foldlM ProcessEntityAdditionAndRemoval.requestLoad w = some w' →
      w'.map = { w.map with
          m_entitiesCurrentlyLoading := w.map.m_entitiesCurrentlyLoading ++ l }
      ∧ w'.trace = w.trace ++ l.map Event.LoadComponents
      ∧ w'.EE_DEVELOPMENT_TOOLS = w.EE_DEVELOPMENT_TOOLS
      ∧ l.Nodup
      ∧ (∀ p ∈ l, p ∉ w.map.m_entitiesCurrentlyLoading)
      ∧ (∀ q, q ∉ l → Heap.read w'.heap q = Heap.read w.heap q)
      ∧ (∀ p ∈ l, ∃ e, Heap.read w.heap p = some e
          ∧ Heap.read w'.heap p = some { e with m_status := Entity.Status.Loaded }) := by
  induction l with
  | nil =>
    intro w w' h
    simp only [List.foldlM_nil, Option.pure_def, Option.some.injEq] at h
    subst h
    simp
  | cons a l ih =>
    intro w w' h
    simp only [List.foldlM_cons, Option.bind_eq_bind, Option.bind_eq_some] at h
    obtain ⟨w1, h1, h2⟩ := h
    obtain ⟨e, he, _, _, _, hal, rfl⟩ := requestLoad_eq h1
    obtain ⟨hmap, htrace, htools, hnd, hnl, hout, hin⟩ := ih _ _ h2
    have hread : ∀ q, q ≠ a → Heap.read (Entity.LoadComponents w.heap a) q = Heap.read w.heap q :=
      fun q hq => Heap.read_modify_ne _ _ hq
    have hanl : a ∉ l := fun ha => hnl a ha (List.mem_append_right _ (List.mem_singleton_self a))
    refine ⟨?_, ?_, htools, List.nodup_cons.2 ⟨hanl, hnd⟩, ?_, ?_, ?_⟩
    · rw [hmap]
      simp only [List.append_assoc, List.singleton_append]
    · rw [htrace]
      simp only [List.append_assoc, List.singleton_append, List.map_cons]
    · intro p hp
      rcases List.mem_cons.1 hp with rfl | hp
      · exact hal
      · exact fun hc => hnl p hp (List.mem_append_left _ hc)
    · intro q hq
      rw [hout q (fun hc => hq (List.mem_cons_of_mem _ hc))]
      exact hread q (fun hc => hq (hc ▸ List.mem_cons_self _ _))
    · intro p hp
      rcases List.mem_cons.1 hp with rfl | hp
      · refine ⟨e, he, ?_⟩
        rw [hout p hanl]
        show Heap.read (Entity.LoadComponents w.heap p) p = _
        unfold Entity.LoadComponents
        rw [Heap.read_modify_self, he]
        rfl
      · obtain ⟨e', he', hres⟩ := hin p hp
        have hpa : p ≠ a := fun hc => hanl (hc ▸ hp)
        exact ⟨e', (hread p hpa).symm.trans he', hres⟩

/-- The load-request loop returns on distinct, live entities of this map that are
not activated and not in the loading list. -/
theorem requestLoad_fold_isSome (l : List EntityPtr) :
    ∀ w : World, l.Nodup →
    (∀ p ∈ l, p ≠ nullptr ∧ p ∉ w.map.m_entitiesCurrentlyLoading
      ∧ ∃ e, Heap.read w.heap p = some e ∧ e.m_mapID = w.map.m_ID ∧ e.IsActivated = false) →
    ∃ w', l.foldlM ProcessEntityAdditionAndRemoval.requestLoad w = some w' := by
  induction l with
  | nil => intro w _ _; exact ⟨w, rfl⟩
  | cons a l ih =>
    intro w hnd hl
    obtain ⟨hal, hndl⟩ := List.nodup_cons.1 hnd
    obtain ⟨ha0, haq, ea, hea, hamap, hact⟩ := hl a (List.mem_cons_self _ _)
    have hstep := requestLoad_of hea ha0 hamap hact haq
    have hread : ∀ q, q ≠ a → Heap.read (Entity.LoadComponents w.heap a) q = Heap.read w.heap q :=
      fun q hq => Heap.read_modify_ne _ _ hq
    obtain ⟨w', hw'⟩ := ih
      { w with heap := Entity.LoadComponents w.heap a,
               trace := w.trace ++ [Event.LoadComponents a],
               map := { w.map with
                 m_entitiesCurrentlyLoading := w.map.m_entitiesCurrentlyLoading ++ [a] } }
      hndl
      (by
        intro p hp
        obtain ⟨hp0, hpq, ep, hep, hpmap, hpact⟩ := hl p (List.mem_cons_of_mem _ hp)
        have hpa : p ≠ a := fun hc => hal (hc ▸ hp)
        refine ⟨hp0, ?_, ep, ?_, hpmap, hpact⟩
        · intro hc
          rcases List.mem_append.1 hc with hc | hc
          · exact hpq hc
          · exact hpa (List.mem_singleton.1 hc)
        · exact (hread p hpa).trans hep)
    exact ⟨w', by simp only [List.foldlM_cons, hstep, Option.bind_eq_bind, Option.some_bind, hw']⟩

/-- C28: the addition step of a pass (the loading block of
`ProcessEntityAdditionAndRemoval`).  On an instantiated map, whenever the step
returns, every entity of `toLoad` had component loading requested exactly once,
in `toLoad` order and for no other entity, the entities were appended to the
loading list in `toLoad` order, `toLoad` is empty afterwards and the rest of the
map is as before; each of these entities is then in the loaded state and no other
entity changed.  The step returns when the entities of `toLoad` are distinct,
live, non-null, carry this map's id, are not activated and not yet in the loading
list.  On a map that is not instantiated the step returns the state as it was:
`toLoad` and the loading list are unchanged and no load is requested. -/
theorem C28_addition_step (w : World) :
    (w.map.m_isMapInstantiated = true →
      (∀ w', ProcessEntityAdditionAndRemoval.loading w = some w' →
        w'.map = { w.map with
            m_entitiesToLoad := [],
            m_entitiesCurrentlyLoading :=
              w.map.m_entitiesCurrentlyLoading ++ w.map.m_entitiesToLoad }
        ∧ w'.trace = w.trace ++ w.map.m_entitiesToLoad.map Event.LoadComponents
        ∧ w.map.m_entitiesToLoad.Nodup
        ∧ (∀ p ∈ w.map.m_entitiesToLoad, ∃ e, Heap.read w.heap p = some e
            ∧ Heap.read w'.heap p = some { e with m_status := Entity.Status.Loaded })
        ∧ (∀ q, q ∉ w.map.m_entitiesToLoad → Heap.read w'.heap q = Heap.read w.heap q))
      ∧ (w.map.m_entitiesToLoad.Nodup →
          (∀ p ∈ w.map.m_entitiesToLoad, p ≠ nullptr
            ∧ p ∉ w.map.m_entitiesCurrentlyLoading
            ∧ ∃ e, Heap.read w.heap p = some e ∧ e.m_mapID = w.map.m_ID
              ∧ e.IsActivated = false) →
          ∃ w', ProcessEntityAdditionAndRemoval.loading w = some w'))
    ∧ (w.map.m_isMapInstantiated = false →
        ProcessEntityAdditionAndRemoval.loading w = some w) := by
  refine ⟨fun hi => ⟨?_, ?_⟩, ?_⟩
  · intro w' h
    unfold ProcessEntityAdditionAndRemoval.loading at h
    rw [if_pos hi] at h
    obtain ⟨w1, h1, rfl⟩ := Option.map_eq_some'.1 h
    obtain ⟨hmap, htrace, _, hnd, _, hout, hin⟩ := requestLoad_fold_spec _ _ _ h1
    refine ⟨?_, htrace, hnd, hin, hout⟩
    show ({ w1.map with m_entitiesToLoad := [] } : EntityMap) = _
    rw [hmap]
  · intro hnd hl
    obtain ⟨w1, h1⟩ := requestLoad_fold_isSome _ w hnd hl
    unfold ProcessEntityAdditionAndRemoval.loading
    rw [if_pos hi, h1]
    exact ⟨_, rfl⟩
  · intro hi
    unfold ProcessEntityAdditionAndRemoval.loading
    rw [if_neg (by rw [hi]; exact Bool.false_ne_true)]

theorem C28_addition_step_witness :
    (World.after (runOps exampleWorldFresh exampleOps)).map.m_isMapInstantiated = true
    ∧ (World.after (runOps exampleWorldFresh exampleOps)).map.m_entitiesToLoad = [3]
    ∧ (ProcessEntityAdditionAndRemoval.loading
        (World.after (runOps exampleWorldFresh exampleOps))).map
        (fun x => (x.map.m_entitiesToLoad, x.map.m_entitiesCurrentlyLoading))
        = some ([], [3])
    ∧ (∃ w', ProcessEntityAdditionAndRemoval.loading
        (World.after (runOps exampleWorldFresh exampleOps)) = some w')
    ∧ ProcessEntityAdditionAndRemoval.loading (World.after (AddEntity exampleWorldDescriptor 1))
        = some (World.after (AddEntity exampleWorldDescriptor 1)) :=
  ⟨by decide, by decide, by decide,
    ((C28_addition_step (World.after (runOps exampleWorldFresh exampleOps))).1
      (by decide)).2 (by decide) (by decide),
    (C28_addition_step (World.after (AddEntity exampleWorldDescriptor 1))).2 (by decide)⟩

/-! ## C25: the loading list holds no entity twice -/

theorem nodup_append_singleton {α : Type} {l : List α} {a : α} (hnd : l.Nodup) (ha : a ∉ l) :
    (l ++ [a]).Nodup := by
  rw [List.nodup_append]
  refine ⟨hnd, List.nodup_singleton a, ?_⟩
  intro x hx hxa
  exact ha ((List.mem_singleton.1 hxa) ▸ hx)

theorem AddEntity_loading {w w' : World} {p : EntityPtr} (h : AddEntity w p = some w') :
    w'.map.m_entitiesCurrentlyLoading = w.map.m_entitiesCurrentlyLoading
    ∧ w'.map.m_entitiesToHotReload = w.map.m_entitiesToHotReload := by
  obtain ⟨_, _, _, _, _, _, _, _, rfl⟩ := AddEntity_eq h
  exact ⟨rfl, rfl⟩

theorem AddEntities_loading {w w' : World} {ps : List EntityPtr}
    (h : AddEntities w ps = some w') :
    w'.map.m_entitiesCurrentlyLoading = w.map.m_entitiesCurrentlyLoading :=
  foldlM_inv AddEntity
    (fun x => x.map.m_entitiesCurrentlyLoading = w.map.m_entitiesCurrentlyLoading)
    (fun _ _ _ hb hs => (AddEntity_loading hs).1.trans hb) ps w w' rfl h

theorem endEditing_nodup {w w' : World} {p : EntityPtr}
    (hnd : w.map.m_entitiesCurrentlyLoading.Nodup)
    (h : ProcessEntityAdditionAndRemoval.endEditing w p = some w') :
    w'.map.m_entitiesCurrentlyLoading.Nodup := by
  unfold ProcessEntityAdditionAndRemoval.endEditing at h
  simp only [Option.bind_eq_bind, Option.bind_eq_some, Option.some.injEq, EE_ASSERT_eq_some,
    Bool.not_eq_true'] at h
  obtain ⟨_, _, _, hc, rfl⟩ := h
  exact nodup_append_singleton hnd (by simpa [VectorContains] using hc)

theorem editedEntities_nodup {w w' : World}
    (hnd : w.map.m_entitiesCurrentlyLoading.Nodup)
    (h : ProcessEntityAdditionAndRemoval.editedEntities w = some w') :
    w'.map.m_entitiesCurrentlyLoading.Nodup := by
  unfold ProcessEntityAdditionAndRemoval.editedEntities at h
  split at h
  · obtain ⟨w1, h1, rfl⟩ := Option.map_eq_some'.1 h
    have := foldlM_inv ProcessEntityAdditionAndRemoval.endEditing
      (fun x => x.map.m_entitiesCurrentlyLoading.Nodup)
      (fun _ _ _ hb hs => endEditing_nodup hb hs) _ _ _ hnd h1
    exact this
  · cases h
    exact hnd

theorem removeEntity_loading {w w' : World} {i : Nat} {r : RemovalRequest}
    (h : ProcessEntityAdditionAndRemoval.removeEntity w i r = some w') :
    w'.map.m_entitiesCurrentlyLoading
      = erase_first_unsorted w.map.m_entitiesCurrentlyLoading r.m_pEntity := by
  unfold ProcessEntityAdditionAndRemoval.removeEntity at h
  simp only [Option.bind_eq_bind, Option.bind_eq_some, Option.some.injEq] at h
  obtain ⟨w1, h1, w2, h2, rfl⟩ := h
  obtain ⟨_, rfl⟩ := call_UnloadComponents_eq h1
  unfold ProcessEntityAdditionAndRemoval.destroyIfRequested at h2
  split at h2
  · obtain ⟨_, rfl⟩ := call_Delete_eq h2
    rfl
  · cases h2
    rfl

theorem removalStep_nodup {w w' : World} {i : Nat}
    (hnd : w.map.m_entitiesCurrentlyLoading.Nodup)
    (h : ProcessEntityAdditionAndRemoval.removalStep w i = some w') :
    w'.map.m_entitiesCurrentlyLoading.Nodup := by
  unfold ProcessEntityAdditionAndRemoval.removalStep at h
  simp only [Option.bind_eq_bind, Option.bind_eq_some] at h
  obtain ⟨req, _, e, _, h⟩ := h
  split at h
  · obtain ⟨_, rfl⟩ := call_Deactivate_eq h
    exact hnd
  · rw [removeEntity_loading h]
    exact nodup_erase_first_unsorted _ hnd

theorem removalLoop_nodup {n : Nat} {w w' : World}
    (hnd : w.map.m_entitiesCurrentlyLoading.Nodup)
    (h : ProcessEntityAdditionAndRemoval.removalLoop n w = some w') :
    w'.map.m_entitiesCurrentlyLoading.Nodup := by
  induction n generalizing w with
  | zero =>
    simp only [ProcessEntityAdditionAndRemoval.removalLoop, Option.some.injEq] at h
    subst h
    exact hnd
  | succ n ih =>
    simp only [ProcessEntityAdditionAndRemoval.removalLoop, Option.bind_eq_bind,
      Option.bind_eq_some] at h
    obtain ⟨w1, h1, h2⟩ := h
    exact ih (removalStep_nodup hnd h1) h2

theorem loading_nodup {w w' : World}
    (hnd : w.map.m_entitiesCurrentlyLoading.Nodup)
    (h : ProcessEntityAdditionAndRemoval.loading w = some w') :
    w'.map.m_entitiesCurrentlyLoading.Nodup := by
  unfold ProcessEntityAdditionAndRemoval.loading at h
  split at h
  · obtain ⟨w1, h1, rfl⟩ := Option.map_eq_some'.1 h
    obtain ⟨hmap, _, _, hl, hdis, _, _⟩ := requestLoad_fold_spec _ _ _ h1
    show w1.map.m_entitiesCurrentlyLoading.Nodup
    rw [hmap]
    exact List.nodup_append.2 ⟨hnd, hl, fun x hx hxl => hdis x hxl hx⟩
  · cases h
    exact hnd

theorem processEntities_nodup {w w' : World} {ctx : EntityLoadingContext} {r : Bool}
    (hnd : w.map.m_entitiesCurrentlyLoading.Nodup)
    (h : UpdateState.processEntities w ctx = some (w', r)) :
    w'.map.m_entitiesCurrentlyLoading.Nodup := by
  unfold UpdateState.processEntities at h
  simp only [Option.bind_eq_bind, Option.bind_eq_some] at h
  obtain ⟨w1, h1, h2⟩ := h
  unfold ProcessEntityAdditionAndRemoval at h1
  simp only [Option.bind_eq_bind, Option.bind_eq_some] at h1
  obtain ⟨v1, g1, v2, g2, g3⟩ := h1
  have hnd1 := loading_nodup (removalLoop_nodup (editedEntities_nodup hnd g1) g2) g3
  unfold ProcessEntityLoadingAndActivation at h2
  simp only [Option.bind_eq_bind, Option.bind_eq_some, Option.some.injEq, Prod.mk.injEq] at h2
  obtain ⟨u1, k1, u2, k2, rfl, _⟩ := h2
  have hnd2 : u1.map.m_entitiesCurrentlyLoading.Nodup := by
    rw [batch_stillLoading k1]
    exact hnd1.filter _
  unfold ProcessEntityLoadingAndActivation.finish at k2
  split at k2
  · simp only [Option.bind_eq_bind, Option.bind_eq_some, Option.some.injEq] at k2
    obtain ⟨_, _, rfl⟩ := k2
    exact hnd2
  · cases k2
    exact hnd2

theorem ProcessMapLoading_loading {w w' : World} {ctx : EntityLoadingContext} {r : Bool}
    (h : ProcessMapLoading w ctx = some (w', r)) :
    w'.map.m_entitiesCurrentlyLoading = w.map.m_entitiesCurrentlyLoading := by
  unfold ProcessMapLoading at h
  simp only [Option.bind_eq_bind, Option.bind_eq_some] at h
  obtain ⟨_, _, _, _, h⟩ := h
  split at h
  · simp only [Option.some.injEq, Prod.mk.injEq] at h
    obtain ⟨rfl, _⟩ := h
    rfl
  · obtain ⟨w1, h1, h2⟩ := Option.map_eq_some'.1 h
    simp only [Prod.mk.injEq] at h2
    obtain ⟨rfl, _⟩ := h2
    show w1.map.m_entitiesCurrentlyLoading = _
    unfold ProcessMapLoading.finish at h1
    split at h1
    · cases h1
      rfl
    · split at h1
      · split at h1
        · unfold ProcessMapLoading.instantiate at h1
          simp only [Option.bind_eq_bind, Option.bind_eq_some, Option.some.injEq] at h1
          obtain ⟨heap, _, w2, hw2, rfl⟩ := h1
          have := AddEntities_loading (w := { w with heap := heap }) hw2
          exact this
        · cases h1
          rfl
      · cases h1
        rfl

theorem ProcessMapUnloadRequest_nodup {w w' : World} {r : Bool}
    (hnd : w.map.m_entitiesCurrentlyLoading.Nodup)
    (h : ProcessMapUnloadRequest w = some (w', r)) :
    w'.map.m_entitiesCurrentlyLoading.Nodup := by
  unfold ProcessMapUnloadRequest at h
  simp only [Option.bind_eq_bind, Option.bind_eq_some] at h
  obtain ⟨_, _, h⟩ := h
  split at h
  · obtain ⟨w1, hD, h3⟩ := Option.map_eq_some'.1 h
    simp only [Prod.mk.injEq] at h3
    obtain ⟨rfl, _⟩ := h3
    unfold Deactivate at hD
    simp only [Option.bind_eq_bind, Option.bind_eq_some, Option.some.injEq] at hD
    obtain ⟨_, _, w2, h2, rfl⟩ := hD
    show w2.map.m_entitiesCurrentlyLoading.Nodup
    rw [(deactivation_fold_frame h2).1]
    exact hnd
  · obtain ⟨w1, h1, h3⟩ := Option.map_eq_some'.1 h
    simp only [Prod.mk.injEq] at h3
    obtain ⟨rfl, _⟩ := h3
    show (ProcessMapUnloadRequest.unloadResource w1).map.m_entitiesCurrentlyLoading.Nodup
    rw [(unloadResource_frame w1).2.2.2.2.2.2.1]
    unfold ProcessMapUnloadRequest.unloadEntities at h1
    split at h1
    · simp only [Option.bind_eq_bind, Option.bind_eq_some, Option.some.injEq] at h1
      obtain ⟨w2, _, rfl⟩ := h1
      exact List.nodup_nil
    · cases h1
      exact hnd

theorem UpdateState_nodup {w w' : World} {ctx : EntityLoadingContext} {r : Bool}
    (hnd : w.map.m_entitiesCurrentlyLoading.Nodup)
    (h : UpdateState w ctx = some (w', r)) : w'.map.m_entitiesCurrentlyLoading.Nodup := by
  have hloading : ∀ {v v' : World} {b : Bool}, v.map.m_entitiesCurrentlyLoading.Nodup →
      UpdateState.processLoading v ctx = some (v', b) →
      v'.map.m_entitiesCurrentlyLoading.Nodup := by
    intro v v' b hv hl
    unfold UpdateState.processLoading at hl
    split at hl
    · simp only [Option.bind_eq_bind, Option.bind_eq_some] at hl
      obtain ⟨⟨w1, b1⟩, h1, h2⟩ := hl
      have hv1 : w1.map.m_entitiesCurrentlyLoading.Nodup := by
        rw [ProcessMapLoading_loading h1]
        exact hv
      split at h2
      · exact processEntities_nodup hv1 h2
      · simp only [Option.some.injEq, Prod.mk.injEq] at h2
        obtain ⟨rfl, _⟩ := h2
        exact hv1
    · exact processEntities_nodup hv hl
  unfold UpdateState at h
  simp only [Option.bind_eq_bind, Option.bind_eq_some] at h
  obtain ⟨_, _, h⟩ := h
  unfold UpdateState.processUnload at h
  split at h
  · simp only [Option.bind_eq_bind, Option.bind_eq_some] at h
    obtain ⟨⟨w1, b1⟩, h1, h2⟩ := h
    have hv1 := ProcessMapUnloadRequest_nodup hnd h1
    split at h2
    · exact hloading hv1 h2
    · simp only [Option.some.injEq, Prod.mk.injEq] at h2
      obtain ⟨rfl, _⟩ := h2
      exact hv1
  · exact hloading hnd h

theorem MapOp_run_nodup {w w' : World} {c : MapOp}
    (hnd : w.map.m_entitiesCurrentlyLoading.Nodup)
    (h : MapOp.run w c = some w') : w'.map.m_entitiesCurrentlyLoading.Nodup := by
  cases c with
  | AddEntity p =>
    rw [(AddEntity_loading h).1]
    exact hnd
  | RemoveEntity id =>
    simp only [MapOp.run, RemoveEntity, Option.bind_eq_bind, Option.map_eq_some',
      Option.bind_eq_some, Option.some.injEq] at h
    obtain ⟨⟨w1, p1⟩, ⟨⟨w2, r⟩, hr, _, _, h3⟩, rfl⟩ := h
    simp only [Prod.mk.injEq] at h3
    obtain ⟨rfl, _⟩ := h3
    obtain ⟨p, e, v1, e1, nl, _, _, hv1, _, _, _, hsched⟩ := RemoveEntityInternal_spec hr
    obtain ⟨_, hmap, _⟩ := reparent_frame hv1
    obtain ⟨_, _, _, _, hl, _⟩ := scheduleUnload_spec hsched
    rw [hl]
    show v1.map.m_entitiesCurrentlyLoading.Nodup
    rw [hmap]
    exact hnd
  | DestroyEntity id =>
    simp only [MapOp.run, DestroyEntity, Option.bind_eq_bind, Option.bind_eq_some,
      Option.some.injEq] at h
    obtain ⟨⟨w2, r⟩, hr, rfl⟩ := h
    obtain ⟨p, e, v1, e1, nl, _, _, hv1, _, _, _, hsched⟩ := RemoveEntityInternal_spec hr
    obtain ⟨_, hmap, _⟩ := reparent_frame hv1
    obtain ⟨_, _, _, _, hl, _⟩ := scheduleUnload_spec hsched
    rw [hl]
    show v1.map.m_entitiesCurrentlyLoading.Nodup
    rw [hmap]
    exact hnd
  | Load =>
    simp only [MapOp.run] at h
    unfold Load at h
    simp only [Option.bind_eq_bind, Option.bind_eq_some] at h
    obtain ⟨_, _, h⟩ := h
    split at h
    · cases h
      exact hnd
    · cases h
      exact hnd
  | Unload =>
    simp only [MapOp.run] at h
    unfold Unload at h
    simp only [Option.bind_eq_bind, Option.bind_eq_some, Option.some.injEq] at h
    obtain ⟨_, _, rfl⟩ := h
    exact hnd
  | Activate =>
    simp only [MapOp.run] at h
    unfold Activate at h
    simp only [Option.bind_eq_bind, Option.bind_eq_some, Option.some.injEq] at h
    obtain ⟨_, _, w1, h1, rfl⟩ := h
    show w1.map.m_entitiesCurrentlyLoading.Nodup
    rw [activation_fold_frame h1]
    exact hnd
  | Deactivate =>
    simp only [MapOp.run] at h
    unfold Deactivate at h
    simp only [Option.bind_eq_bind, Option.bind_eq_some, Option.some.injEq] at h
    obtain ⟨_, _, w1, h1, rfl⟩ := h
    show w1.map.m_entitiesCurrentlyLoading.Nodup
    rw [(deactivation_fold_frame h1).1]
    exact hnd
  | OnEntityStateUpdated p =>
    simp only [MapOp.run] at h
    unfold OnEntityStateUpdated at h
    simp only [Option.bind_eq_bind, Option.bind_eq_some] at h
    obtain ⟨e, _, h⟩ := h
    split at h
    · simp only [Option.bind_eq_bind, Option.bind_eq_some] at h
      obtain ⟨_, _, h⟩ := h
      split at h
      · cases h
        exact hnd
      · rename_i hc
        cases h
        exact nodup_append_singleton hnd (by simpa [VectorContains] using hc)
    · cases h
      exact hnd
  | UpdateState ctx =>
    simp only [MapOp.run, Option.map_eq_some'] at h
    obtain ⟨⟨w1, r⟩, h1, rfl⟩ := h
    exact UpdateState_nodup hnd h1

theorem HotReloadDeactivateEntities_spec {w w' : World} {users : List EntityID}
    (h : HotReloadDeactivateEntities w users = some w') :
    w.map.m_entitiesToHotReload = []
    ∧ w'.map = { w.map with
        m_entitiesToHotReload := users.filterMap fun requesterID => w.map.FindEntity requesterID } := by
  unfold HotReloadDeactivateEntities at h
  split at h
  · simp only [Option.bind_eq_bind, Option.bind_eq_some, EE_ASSERT_eq_some] at h
    obtain ⟨_, _, _, hempty, h⟩ := h
    have hnil : w.map.m_entitiesToHotReload = [] := List.isEmpty_iff.1 hempty
    refine ⟨hnil, ?_⟩
    have := foldlM_inv HotReloadDeactivateEntities.deactivate
      (fun x => x.map = { w.map with
        m_entitiesToHotReload := w.map.m_entitiesToHotReload
          ++ users.filterMap fun requesterID => w.map.FindEntity requesterID })
      (fun b a b' hb hs => by
        unfold HotReloadDeactivateEntities.deactivate at hs
        simp only [Option.bind_eq_bind, Option.bind_eq_some] at hs
        obtain ⟨e, _, hs⟩ := hs
        split at hs
        · obtain ⟨_, rfl⟩ := call_Deactivate_eq hs
          exact hb
        · cases hs
          exact hb)
      _ _ _ rfl h
    rw [this, hnil, List.nil_append]
  · cases h

/-- The unload loop of the hot reload: it keeps the loading list free of
duplicates and takes every entity it visits out of it. -/
theorem HotReloadUnloadEntities.unload_fold (l : List EntityPtr) :
    ∀ w w' : World, l.foldlM HotReloadUnloadEntities.unload w = some w' →
      w.map.m_entitiesCurrentlyLoading.Nodup →
      w'.map.m_entitiesCurrentlyLoading.Nodup
      ∧ (∀ p ∈ w'.map.m_entitiesCurrentlyLoading, p ∈ w.map.m_entitiesCurrentlyLoading)
      ∧ (∀ p ∈ l, p ∉ w'.map.m_entitiesCurrentlyLoading)
      ∧ w'.map.m_entitiesToHotReload = w.map.m_entitiesToHotReload := by
  induction l with
  | nil =>
    intro w w' h hnd
    simp only [List.foldlM_nil, Option.pure_def, Option.some.injEq] at h
    subst h
    exact ⟨hnd, fun _ hp => hp, fun _ hp => absurd hp (List.not_mem_nil _), rfl⟩
  | cons a l ih =>
    intro w w' h hnd
    simp only [List.foldlM_cons, Option.bind_eq_bind, Option.bind_eq_some] at h
    obtain ⟨w1, h1, h2⟩ := h
    unfold HotReloadUnloadEntities.unload at h1
    simp only [Option.bind_eq_bind, Option.bind_eq_some] at h1
    obtain ⟨e, _, _, _, h1⟩ := h1
    obtain ⟨_, rfl⟩ := call_UnloadComponents_eq h1
    obtain ⟨hnd', hsub, hout, hhot⟩ := ih _ _ h2 (nodup_erase_first_unsorted a hnd)
    refine ⟨hnd', ?_, ?_, hhot⟩
    · intro p hp
      exact ((mem_erase_first_unsorted hnd).1 (hsub p hp)).2
    · intro p hp
      rcases List.mem_cons.1 hp with rfl | hp
      · exact fun hc => not_mem_erase_first_unsorted_of_nodup hnd (hsub p hc)
      · exact hout p hp

/-- The load loop of the hot reload, whenever it returns: the entities of the
list joined the loading list, in order, they were unloaded before and are
distinct. -/
theorem HotReloadLoadEntities.load_fold (l : List EntityPtr) :
    ∀ w w' : World, l.foldlM HotReloadLoadEntities.load w = some w' →
      w'.map = { w.map with
        m_entitiesCurrentlyLoading := w.map.m_entitiesCurrentlyLoading ++ l }
      ∧ l.Nodup
      ∧ (∀ p ∈ l, ∃ e, Heap.read w.heap p = some e ∧ e.IsUnloaded = true) := by
  induction l with
  | nil =>
    intro w w' h
    simp only [List.foldlM_nil, Option.pure_def, Option.some.injEq] at h
    subst h
    simp
  | cons a l ih =>
    intro w w' h
    simp only [List.foldlM_cons, Option.bind_eq_bind, Option.bind_eq_some] at h
    obtain ⟨w1, h1, h2⟩ := h
    unfold HotReloadLoadEntities.load at h1
    simp only [Option.bind_eq_bind, Option.bind_eq_some, Option.some.injEq, EE_ASSERT_eq_some]
      at h1
    obtain ⟨e, he, _, hu, w2, hw2, rfl⟩ := h1
    obtain ⟨_, rfl⟩ := call_LoadComponents_eq hw2
    obtain ⟨hmap, hnd, hun⟩ := ih _ _ h2
    have hself : Heap.read (Entity.LoadComponents w.heap a) a
        = some { e with m_status := Entity.Status.Loaded } := by
      unfold Entity.LoadComponents
      rw [Heap.read_modify_self, he]
      rfl
    have hanl : a ∉ l := by
      intro ha
      obtain ⟨e', he', hu'⟩ := hun a ha
      have he'' : Heap.read (Entity.LoadComponents w.heap a) a = some e' := he'
      rw [hself] at he''
      cases he''
      simp [Entity.IsUnloaded] at hu'
    refine ⟨?_, List.nodup_cons.2 ⟨hanl, hnd⟩, ?_⟩
    · rw [hmap]
      simp only [List.append_assoc, List.singleton_append]
    · intro p hp
      rcases List.mem_cons.1 hp with rfl | hp
      · exact ⟨e, he, hu⟩
      · obtain ⟨e', he', hu'⟩ := hun p hp
        have hpa : p ≠ a := fun hc => hanl (hc ▸ hp)
        have he'' : Heap.read (Entity.LoadComponents w.heap a) p = some e' := he'
        unfold Entity.LoadComponents at he''
        rw [Heap.read_modify_ne _ _ hpa] at he''
        exact ⟨e', he'', hu'⟩

theorem HotReloadLoadEntities_spec {w w' : World} (h : HotReloadLoadEntities w = some w') :
    w'.map.m_entitiesCurrentlyLoading
      = w.map.m_entitiesCurrentlyLoading ++ w.map.m_entitiesToHotReload
    ∧ w.map.m_entitiesToHotReload.Nodup := by
  unfold HotReloadLoadEntities at h
  split at h
  · obtain ⟨w1, h1, rfl⟩ := Option.map_eq_some'.1 h
    obtain ⟨hmap, hnd, _⟩ := HotReloadLoadEntities.load_fold _ _ _ h1
    refine ⟨?_, hnd⟩
    show w1.map.m_entitiesCurrentlyLoading = _
    rw [hmap]
  · cases h

theorem HotReloadUnloadEntities_spec {w w' : World} (h : HotReloadUnloadEntities w = some w')
    (hnd : w.map.m_entitiesCurrentlyLoading.Nodup) :
    w'.map.m_entitiesCurrentlyLoading.Nodup
    ∧ (∀ p ∈ w'.map.m_entitiesToHotReload, p ∉ w'.map.m_entitiesCurrentlyLoading)
    ∧ w'.map.m_entitiesToHotReload = w.map.m_entitiesToHotReload := by
  unfold HotReloadUnloadEntities at h
  split at h
  · obtain ⟨h1, _, h3, h4⟩ := HotReloadUnloadEntities.unload_fold _ _ _ h hnd
    exact ⟨h1, fun p hp => h3 p (h4 ▸ hp), h4⟩
  · cases h

/-- An exposed operation other than `HotReloadLoadEntities` keeps the loading list
free of duplicates. -/
theorem PublicOp_run_nodup {w w' : World} {c : PublicOp}
    (hnd : w.map.m_entitiesCurrentlyLoading.Nodup)
    (hc : c ≠ PublicOp.HotReloadLoadEntities)
    (h : PublicOp.run w c = some w') : w'.map.m_entitiesCurrentlyLoading.Nodup := by
  cases c with
  | core op => exact MapOp_run_nodup hnd h
  | AddEntities ps =>
    rw [AddEntities_loading h]
    exact hnd
  | AddEntityCollection created =>
    simp only [PublicOp.run] at h
    unfold AddEntityCollection at h
    simp only [Option.bind_eq_bind, Option.bind_eq_some] at h
    obtain ⟨heap, _, h⟩ := h
    have := AddEntities_loading (w := { w with heap := heap }) h
    rw [this]
    exact hnd
  | RenameEntity p n =>
    simp only [PublicOp.run] at h
    unfold RenameEntity at h
    split at h
    · simp only [Option.bind_eq_bind, Option.bind_eq_some, Option.some.injEq] at h
      obtain ⟨_, _, e, _, _, _, _, _, name, _, rfl⟩ := h
      exact hnd
    · cases h
  | ComponentEditingDeactivate id c =>
    simp only [PublicOp.run] at h
    unfold ComponentEditingDeactivate at h
    split at h
    · simp only [Option.bind_eq_bind, Option.bind_eq_some, Option.some.injEq] at h
      obtain ⟨_, _, _, _, rfl⟩ := h
      exact hnd
    · cases h
  | ComponentEditingUnload id c =>
    simp only [PublicOp.run] at h
    unfold ComponentEditingUnload at h
    split at h
    · simp only [Option.bind_eq_bind, Option.bind_eq_some, Option.some.injEq] at h
      obtain ⟨_, _, _, _, _, _, rfl⟩ := h
      exact hnd
    · cases h
  | HotReloadDeactivateEntities users =>
    rw [(HotReloadDeactivateEntities_spec h).2]
    exact hnd
  | HotReloadUnloadEntities => exact (HotReloadUnloadEntities_spec h hnd).1
  | HotReloadLoadEntities => exact absurd rfl hc

/-- The hot-reload sequence keeps the loading list free of duplicates, and it
returns only for requesters that name distinct entities of the map. -/
theorem HotReloadSequence_nodup {w w' : World} {users : List EntityID}
    (hnd : w.map.m_entitiesCurrentlyLoading.Nodup)
    (h : HotReloadSequence w users = some w') :
    w'.map.m_entitiesCurrentlyLoading.Nodup
    ∧ (users.filterMap fun requesterID => w.map.FindEntity requesterID).Nodup := by
  unfold HotReloadSequence at h
  simp only [Option.bind_eq_bind, Option.bind_eq_some] at h
  obtain ⟨w1, h1, w2, h2, h3⟩ := h
  obtain ⟨_, hmap1⟩ := HotReloadDeactivateEntities_spec h1
  have hnd1 : w1.map.m_entitiesCurrentlyLoading.Nodup := by
    rw [hmap1]
    exact hnd
  obtain ⟨hnd2, hdis, hhot⟩ := HotReloadUnloadEntities_spec h2 hnd1
  obtain ⟨hl, hndhot⟩ := HotReloadLoadEntities_spec h3
  refine ⟨?_, ?_⟩
  · rw [hl]
    exact List.nodup_append.2 ⟨hnd2, hndhot, fun x hx hxl => hdis x hxl hx⟩
  · rw [hhot, hmap1] at hndhot
    exact hndhot

theorem SessionOp_run_nodup {w w' : World} {c : SessionOp}
    (hnd : w.map.m_entitiesCurrentlyLoading.Nodup)
    (h : SessionOp.run w c = some w') : w'.map.m_entitiesCurrentlyLoading.Nodup := by
  cases c with
  | core op => exact MapOp_run_nodup hnd h
  | AddEntities ps =>
    exact PublicOp_run_nodup (c := PublicOp.AddEntities ps) hnd (fun hc => by cases hc) h
  | AddEntityCollection created =>
    exact PublicOp_run_nodup (c := PublicOp.AddEntityCollection created) hnd
      (fun hc => by cases hc) h
  | RenameEntity p n =>
    exact PublicOp_run_nodup (c := PublicOp.RenameEntity p n) hnd (fun hc => by cases hc) h
  | ComponentEditingDeactivate id c =>
    exact PublicOp_run_nodup (c := PublicOp.ComponentEditingDeactivate id c) hnd
      (fun hc => by cases hc) h
  | ComponentEditingUnload id c =>
    exact PublicOp_run_nodup (c := PublicOp.ComponentEditingUnload id c) hnd
      (fun hc => by cases hc) h
  | HotReloadSequence users => exact (HotReloadSequence_nodup hnd h).1

/-- The loading list holds no entity twice as long as the three hot-reload calls
run as one step.  Start from an empty
map (either constructor) and run any sequence of steps, each within its
precondition: the exposed operations (`AddEntity`, `RemoveEntity`,
`DestroyEntity`, `UpdateState`, state-update notifications, component editing,
renaming, the bulk additions, `Load`, `Unload`, `Activate`, `Deactivate`) and the
hot-reload sequence `HotReloadDeactivateEntities`, `HotReloadUnloadEntities`,
`HotReloadLoadEntities` for any list of requesters.  In the state after the steps
the loading list has no duplicates, so the batch has one work item for each
loading entity.  Every single step keeps a duplicate-free loading list
duplicate-free.  The hot-reload sequence returns only for requesters that name
distinct entities of the map: for a list naming a mapped entity twice it stops at
the assertion of `HotReloadLoadEntities` that the entity is unloaded.  Of the
separate calls, every exposed operation other than `HotReloadLoadEntities` keeps
the list duplicate-free, `HotReloadUnloadEntities` leaves no entity under hot
reload in the loading list, and `HotReloadLoadEntities` keeps the list
duplicate-free when it starts from such a state. -/
theorem loading_nodup_of_session :
    (∀ (w0 w : World) (mapID : EntityMapID) (steps : List SessionOp),
      (w0.map = EntityMap.mkTransient mapID ∨ w0.map = EntityMap.mkFromResource mapID) →
      runSession w0 steps = some w → w.map.m_entitiesCurrentlyLoading.Nodup)
    ∧ (∀ (w w' : World) (step : SessionOp),
        w.map.m_entitiesCurrentlyLoading.Nodup → SessionOp.run w step = some w' →
        w'.map.m_entitiesCurrentlyLoading.Nodup)
    ∧ (∀ (w w' : World) (users : List EntityID), HotReloadSequence w users = some w' →
        (users.filterMap fun requesterID => w.map.FindEntity requesterID).Nodup)
    ∧ (∀ (w w' : World) (c : PublicOp),
        w.map.m_entitiesCurrentlyLoading.Nodup → c ≠ PublicOp.HotReloadLoadEntities →
        PublicOp.run w c = some w' → w'.map.m_entitiesCurrentlyLoading.Nodup)
    ∧ (∀ w w' : World, w.map.m_entitiesCurrentlyLoading.Nodup →
        HotReloadUnloadEntities w = some w' →
        ∀ p ∈ w'.map.m_entitiesToHotReload, p ∉ w'.map.m_entitiesCurrentlyLoading)
    ∧ (∀ w w' : World, w.map.m_entitiesCurrentlyLoading.Nodup →
        (∀ p ∈ w.map.m_entitiesToHotReload, p ∉ w.map.m_entitiesCurrentlyLoading) →
        HotReloadLoadEntities w = some w' → w'.map.m_entitiesCurrentlyLoading.Nodup) := by
  refine ⟨?_, ?_, ?_, ?_, ?_, ?_⟩
  · intro w0 w mapID steps hfresh hrun
    have h0 : w0.map.m_entitiesCurrentlyLoading.Nodup := by
      rcases hfresh with hf | hf <;> rw [hf] <;> exact List.nodup_nil
    exact foldlM_inv SessionOp.run (fun x => x.map.m_entitiesCurrentlyLoading.Nodup)
      (fun _ _ _ hb hs => SessionOp_run_nodup hb hs) steps w0 w h0 hrun
  · intro w w' step hnd h
    exact SessionOp_run_nodup hnd h
  · intro w w' users h
    unfold HotReloadSequence at h
    simp only [Option.bind_eq_bind, Option.bind_eq_some] at h
    obtain ⟨w1, h1, w2, h2, h3⟩ := h
    obtain ⟨_, hmap1⟩ := HotReloadDeactivateEntities_spec h1
    have hhot2 : w2.map.m_entitiesToHotReload = w1.map.m_entitiesToHotReload := by
      unfold HotReloadUnloadEntities at h2
      split at h2
      · exact foldlM_inv HotReloadUnloadEntities.unload
          (fun x => x.map.m_entitiesToHotReload = w1.map.m_entitiesToHotReload)
          (fun b a b' hb hs => by
            unfold HotReloadUnloadEntities.unload at hs
            simp only [Option.bind_eq_bind, Option.bind_eq_some] at hs
            obtain ⟨e, _, _, _, hs⟩ := hs
            obtain ⟨_, rfl⟩ := call_UnloadComponents_eq hs
            exact hb)
          _ _ _ rfl h2
      · cases h2
    have := (HotReloadLoadEntities_spec h3).2
    rw [hhot2, hmap1] at this
    exact this
  · intro w w' c hnd hc h
    exact PublicOp_run_nodup hnd hc h
  · intro w w' hnd h
    exact (HotReloadUnloadEntities_spec h hnd).2.1
  · intro w w' hnd hdis h
    obtain ⟨hl, hndhot⟩ := HotReloadLoadEntities_spec h
    rw [hl]
    exact List.nodup_append.2 ⟨hnd, hndhot, fun x hx hxl => hdis x hxl hx⟩

theorem loading_nodup_of_session_witness :
    (World.after (runSession exampleWorldFresh exampleSession)).map.m_entitiesCurrentlyLoading
        = [1]
    ∧ (World.after (runSession exampleWorldFresh
        exampleSession)).map.m_entitiesCurrentlyLoading.Nodup
    ∧ HotReloadSequence exampleWorldLoaded [11, 11] = none :=
  ⟨by decide,
    loading_nodup_of_session.1 exampleWorldFresh
      (World.after (runSession exampleWorldFresh exampleSession)) 7 exampleSession
      (Or.inl rfl) (by decide),
    by decide⟩

/-! ## C26: the removal pass -/

theorem World.withToRemove_self (w : World) : w.withToRemove w.map.m_entitiesToRemove = w := rfl

theorem removalPass_spec.request_withToRemove (w : World) (L acc : List RemovalRequest)
    (r : RemovalRequest) :
    removalPass_spec.request (w.withToRemove L, acc) r
      = (removalPass_spec.request (w, acc) r).map fun x => (x.1.withToRemove L, x.2) := by
  unfold removalPass_spec.request World.withToRemove call_Deactivate call_UnloadComponents
    call_Delete
  simp only [Option.bind_eq_bind]
  cases he : Heap.read w.heap r.m_pEntity with
  | none => rfl
  | some e =>
    simp only [Option.some_bind]
    cases e.IsActivated with
    | true => rfl
    | false =>
      simp only [Bool.false_eq_true, if_false]
      cases r.m_shouldDestroy with
      | false => rfl
      | true =>
        simp only [if_true]
        cases Heap.read (Heap.modify (Entity.UnloadComponents w.heap r.m_pEntity) r.m_pEntity
            fun x => { x with m_mapID := 0 }) r.m_pEntity with
        | none => rfl
        | some e2 => rfl

theorem getElem?_append_mid {α : Type} (pre tail : List α) (r : α) :
    (pre ++ r :: tail)[pre.length]? = some r := by
  rw [List.getElem?_append_right (Nat.le_refl _)]
  simp

/-- Swap-with-last erasure at the end of a prefix: the prefix is untouched, and
what follows it is the rest up to its order. -/
theorem erase_unsorted_append_mid {α : Type} (pre tail : List α) (r : α) :
    ∃ tail', erase_unsorted (pre ++ r :: tail) pre.length = pre ++ tail' ∧ tail'.Perm tail := by
  unfold erase_unsorted
  rcases List.eq_nil_or_concat tail with ht | ⟨t, b, ht⟩
  · subst ht
    refine ⟨[], ?_, List.Perm.refl _⟩
    have hlast : (pre ++ [r]).getLast? = some r := by simp
    rw [hlast]
    simp
  · rw [List.concat_eq_append] at ht
    subst ht
    refine ⟨b :: t, ?_, ?_⟩
    · have hlast : (pre ++ r :: (t ++ [b])).getLast? = some b := by
        have : pre ++ r :: (t ++ [b]) = (pre ++ r :: t) ++ [b] := by simp
        rw [this, List.getLast?_append]
        simp
      rw [hlast]
      simp only [List.length_append, List.length_cons, List.length_singleton]
      rw [if_pos (by omega)]
      have hset : (pre ++ r :: (t ++ [b])).set pre.length b = (pre ++ b :: t) ++ [b] := by
        rw [List.set_append_right _ _ (Nat.le_refl _)]
        simp
      rw [hset, List.dropLast_concat]
    · exact (List.perm_append_singleton b t).symm

/-- One step of the removal loop is the processing of the request at the index,
as the spec words it; the request is either kept or erased by swap-with-last. -/
theorem removalStep_request {w w1 : World} {i : Nat} {r : RemovalRequest}
    (acc : List RemovalRequest)
    (hr : w.map.m_entitiesToRemove[i]? = some r)
    (h : ProcessEntityAdditionAndRemoval.removalStep w i = some w1) :
    ∃ x acc', removalPass_spec.request (w, acc) r = some (x, acc')
      ∧ x.withToRemove w1.map.m_entitiesToRemove = w1
      ∧ ((acc' = acc ++ [r] ∧ w1.map.m_entitiesToRemove = w.map.m_entitiesToRemove)
        ∨ (acc' = acc
            ∧ w1.map.m_entitiesToRemove = erase_unsorted w.map.m_entitiesToRemove i)) := by
  unfold ProcessEntityAdditionAndRemoval.removalStep at h
  simp only [Option.bind_eq_bind, Option.bind_eq_some] at h
  obtain ⟨req, hreq, e, he, h⟩ := h
  rw [hr] at hreq
  cases hreq
  unfold removalPass_spec.request
  simp only [he, Option.bind_eq_bind, Option.some_bind]
  split at h
  · rename_i hact
    rw [if_pos hact, h]
    exact ⟨w1, acc ++ [r], rfl, rfl, Or.inl ⟨rfl, by
      obtain ⟨_, rfl⟩ := call_Deactivate_eq h
      rfl⟩⟩
  · rename_i hact
    rw [if_neg hact]
    unfold ProcessEntityAdditionAndRemoval.removeEntity at h
    simp only [Option.bind_eq_bind, Option.bind_eq_some, Option.some.injEq] at h
    obtain ⟨v1, h1, v2, h2, rfl⟩ := h
    rw [h1]
    simp only [Option.some_bind]
    have hv1 : v1.map.m_entitiesToRemove = w.map.m_entitiesToRemove := by
      obtain ⟨_, rfl⟩ := call_UnloadComponents_eq h1
      rfl
    unfold ProcessEntityAdditionAndRemoval.destroyIfRequested at h2
    cases hd : r.m_shouldDestroy with
    | true =>
      rw [hd] at h2
      simp only [if_true] at h2 ⊢
      rw [h2]
      have hv2 : v2.map.m_entitiesToRemove = w.map.m_entitiesToRemove := by
        obtain ⟨_, rfl⟩ := call_Delete_eq h2
        exact hv1
      refine ⟨v2, acc, rfl, rfl, Or.inr ⟨rfl, ?_⟩⟩
      show erase_unsorted v2.map.m_entitiesToRemove i = _
      rw [hv2]
    | false =>
      rw [hd] at h2
      simp only [Bool.false_eq_true, if_false, Option.some.injEq] at h2 ⊢
      subst h2
      refine ⟨_, acc, rfl, rfl, Or.inr ⟨rfl, ?_⟩⟩
      show erase_unsorted v1.map.m_entitiesToRemove i = _
      rw [hv1]

/-- The removal loop over the requests in front of the ones already examined is
the spec's processing of these requests, from the last one to the first; the
requests left in the list are, up to their order, the ones the spec retains. -/
theorem removalLoop_refines (L0 : List RemovalRequest) (pre : List RemovalRequest) :
    ∀ (w w' : World) (tail acc : List RemovalRequest),
      w.map.m_entitiesToRemove = pre ++ tail → tail.Perm acc →
      ProcessEntityAdditionAndRemoval.removalLoop pre.length w = some w' →
      ∃ retained, pre.reverse.foldlM removalPass_spec.request (w.withToRemove L0, acc)
          = some (w'.withToRemove L0, retained)
        ∧ w'.map.m_entitiesToRemove.Perm retained := by
  induction pre using List.reverseRecOn with
  | nil =>
    intro w w' tail acc hw hperm h
    simp only [List.length_nil, ProcessEntityAdditionAndRemoval.removalLoop,
      Option.some.injEq] at h
    subst h
    refine ⟨acc, rfl, ?_⟩
    rw [hw, List.nil_append]
    exact hperm
  | append_singleton pre r ih =>
    intro w w' tail acc hw hperm h
    rw [List.length_append, List.length_singleton] at h
    simp only [ProcessEntityAdditionAndRemoval.removalLoop, Option.bind_eq_bind,
      Option.bind_eq_some] at h
    obtain ⟨w1, h1, h2⟩ := h
    have hw2 : w.map.m_entitiesToRemove = pre ++ r :: tail := by
      rw [hw, List.append_assoc, List.singleton_append]
    have hr : w.map.m_entitiesToRemove[pre.length]? = some r := by
      rw [hw2]
      exact getElem?_append_mid pre tail r
    obtain ⟨x, acc', hx, hxw, hcase⟩ := removalStep_request acc hr h1
    have hspec : removalPass_spec.request (w.withToRemove L0, acc) r
        = some (w1.withToRemove L0, acc') := by
      rw [removalPass_spec.request_withToRemove, hx, ← hxw]
      rfl
    have hfoldcons : ∀ res, pre.reverse.foldlM removalPass_spec.request
          (w1.withToRemove L0, acc') = some res →
        (pre ++ [r]).reverse.foldlM removalPass_spec.request (w.withToRemove L0, acc)
          = some res := by
      intro res hres
      rw [List.reverse_append, List.reverse_singleton, List.singleton_append, List.foldlM_cons,
        hspec]
      exact hres
    rcases hcase with ⟨rfl, htr⟩ | ⟨rfl, htr⟩
    · obtain ⟨retained, hfold, hp⟩ := ih w1 w' (r :: tail) (acc ++ [r])
        (by rw [htr, hw2])
        ((List.Perm.cons r hperm).trans (List.perm_append_singleton r acc).symm) h2
      exact ⟨retained, hfoldcons _ hfold, hp⟩
    · obtain ⟨tail', ht', hp'⟩ := erase_unsorted_append_mid pre tail r
      obtain ⟨retained, hfold, hp⟩ := ih w1 w' tail' acc'
        (by rw [htr, hw2]; exact ht') (hp'.trans hperm) h2
      exact ⟨retained, hfoldcons _ hfold, hp⟩

/-- The removal loop returns when the requests it has to examine name distinct,
live entities. -/
theorem removalLoop_returns (pre : List RemovalRequest) :
    ∀ (w : World) (tail : List RemovalRequest),
      w.map.m_entitiesToRemove = pre ++ tail →
      (pre.map RemovalRequest.m_pEntity).Nodup →
      (∀ r ∈ pre, (Heap.read w.heap r.m_pEntity).isSome = true) →
      ∃ w', ProcessEntityAdditionAndRemoval.removalLoop pre.length w = some w' := by
  induction pre using List.reverseRecOn with
  | nil =>
    intro w tail _ _ _
    exact ⟨w, rfl⟩
  | append_singleton pre r ih =>
    intro w tail hw hnd hlive
    have hw2 : w.map.m_entitiesToRemove = pre ++ r :: tail := by
      rw [hw, List.append_assoc, List.singleton_append]
    have hr : w.map.m_entitiesToRemove[pre.length]? = some r := by
      rw [hw2]
      exact getElem?_append_mid pre tail r
    obtain ⟨e, he⟩ := Option.isSome_iff_exists.1 (hlive r (by simp))
    rw [List.map_append, List.map_singleton] at hnd
    have hndpre : (pre.map RemovalRequest.m_pEntity).Nodup := (List.nodup_append.1 hnd).1
    have hne : ∀ r' ∈ pre, r'.m_pEntity ≠ r.m_pEntity := by
      intro r' hr' hc
      exact (List.nodup_append.1 hnd).2.2 (List.mem_map_of_mem _ hr')
        (List.mem_singleton.2 hc)
    have hstep : ∃ w1, ProcessEntityAdditionAndRemoval.removalStep w pre.length = some w1
        ∧ (∀ r' ∈ pre, (Heap.read w1.heap r'.m_pEntity).isSome = true)
        ∧ ∃ tail', w1.map.m_entitiesToRemove = pre ++ tail' := by
      unfold ProcessEntityAdditionAndRemoval.removalStep
      simp only [hr, he, Option.bind_eq_bind, Option.some_bind]
      cases hact : e.IsActivated with
      | true =>
        simp only [if_true]
        rw [call_Deactivate_of_live he]
        refine ⟨_, rfl, ?_, r :: tail, hw2⟩
        intro r' hr'
        show (Heap.read (Entity.Deactivate w.heap r.m_pEntity) r'.m_pEntity).isSome = true
        rw [Entity.isSome_read_Deactivate]
        exact hlive r' (List.mem_append_left _ hr')
      | false =>
        simp only [Bool.false_eq_true, if_false]
        unfold ProcessEntityAdditionAndRemoval.removeEntity
        have he1 : Heap.read ({ w with map := { w.map with
            m_entitiesCurrentlyLoading :=
              erase_first_unsorted w.map.m_entitiesCurrentlyLoading r.m_pEntity } } : World).heap
            r.m_pEntity = some e := he
        rw [call_UnloadComponents_of_live he1]
        simp only [Option.bind_eq_bind, Option.some_bind]
        obtain ⟨tail', ht', _⟩ := erase_unsorted_append_mid pre tail r
        have hlive2 : ∀ q, (Heap.read (Heap.modify (Entity.UnloadComponents w.heap r.m_pEntity)
            r.m_pEntity fun x => { x with m_mapID := 0 }) q).isSome
            = (Heap.read w.heap q).isSome := by
          intro q
          rw [Heap.isSome_read_modify]
          unfold Entity.UnloadComponents
          rw [Heap.isSome_read_modify]
        unfold ProcessEntityAdditionAndRemoval.destroyIfRequested
        cases hd : r.m_shouldDestroy with
        | true =>
          simp only [if_true]
          obtain ⟨e2, he2⟩ := Option.isSome_iff_exists.1
            ((hlive2 r.m_pEntity).trans (by rw [he]; rfl))
          rw [call_Delete_of_live (e := e2) he2]
          simp only [Option.some_bind]
          refine ⟨_, rfl, ?_, tail', ?_⟩
          · intro r' hr'
            dsimp only
            rw [Heap.read_free, if_neg (hne r' hr'), hlive2]
            exact hlive r' (List.mem_append_left _ hr')
          · dsimp only
            rw [hw2]
            exact ht'
        | false =>
          simp only [Bool.false_eq_true, if_false, Option.some_bind]
          refine ⟨_, rfl, ?_, tail', ?_⟩
          · intro r' hr'
            dsimp only
            rw [hlive2]
            exact hlive r' (List.mem_append_left _ hr')
          · dsimp only
            rw [hw2]
            exact ht'
    obtain ⟨w1, h1, hlive1, tail', htail'⟩ := hstep
    obtain ⟨w', hw'⟩ := ih w1 tail' htail' hndpre hlive1
    refine ⟨w', ?_⟩
    rw [List.length_append, List.length_singleton]
    simp only [ProcessEntityAdditionAndRemoval.removalLoop, h1, Option.bind_eq_bind,
      Option.some_bind]
    exact hw'

theorem removalPass_spec.request_retained {acc acc' : World × List RemovalRequest}
    {r : RemovalRequest} (h : removalPass_spec.request acc r = some acc') :
    ∀ x ∈ acc'.2, x ∈ acc.2 ∨ x = r := by
  unfold removalPass_spec.request at h
  simp only [Option.bind_eq_bind, Option.bind_eq_some] at h
  obtain ⟨e, _, h⟩ := h
  split at h
  · simp only [Option.bind_eq_bind, Option.bind_eq_some, Option.some.injEq] at h
    obtain ⟨_, _, rfl⟩ := h
    intro x hx
    rcases List.mem_append.1 hx with hx | hx
    · exact Or.inl hx
    · exact Or.inr (List.mem_singleton.1 hx)
  · simp only [Option.bind_eq_bind, Option.bind_eq_some] at h
    obtain ⟨w1, _, h⟩ := h
    split at h
    · simp only [Option.bind_eq_some, Option.some.injEq] at h
      obtain ⟨_, _, rfl⟩ := h
      exact fun x hx => Or.inl hx
    · simp only [Option.some_bind, Option.some.injEq] at h
      subst h
      exact fun x hx => Or.inl hx

/-- C26: one removal pass over `toRemove`, the list iterated from the back to the
front with swap-with-last erasure.  Whenever the pass returns, it did what the
spec words: every request present at the start was processed exactly once, from
the last to the first, none skipped; a request whose entity is activated when it
is examined was retained and its entity only deactivated; every other request was
dropped, after its entity was taken out of the loading list, had its components
unloaded, its map id cleared, was erased from the entity list and deleted exactly
when the destroy flag is set.  Apart from `toRemove` the state after the pass is
the state the spec's processing yields, and `toRemove` holds the retained
requests, up to their order; they are requests of the start of the pass.  The
pass returns when the requests name distinct, live entities. -/
theorem C26_removal_pass (w : World) :
    (∀ w', ProcessEntityAdditionAndRemoval.removalLoop w.map.m_entitiesToRemove.length w
        = some w' →
      ∃ retained, removalPass_spec w = some (w'.withToRemove w.map.m_entitiesToRemove, retained)
        ∧ w'.map.m_entitiesToRemove.Perm retained
        ∧ (∀ r ∈ w'.map.m_entitiesToRemove, r ∈ w.map.m_entitiesToRemove))
    ∧ ((w.map.m_entitiesToRemove.map RemovalRequest.m_pEntity).Nodup →
        (∀ r ∈ w.map.m_entitiesToRemove, (Heap.read w.heap r.m_pEntity).isSome = true) →
        ∃ w', ProcessEntityAdditionAndRemoval.removalLoop w.map.m_entitiesToRemove.length w
          = some w') := by
  refine ⟨?_, ?_⟩
  · intro w' h
    obtain ⟨retained, hfold, hperm⟩ := removalLoop_refines w.map.m_entitiesToRemove
      w.map.m_entitiesToRemove w w' [] [] (by simp) (List.Perm.refl _) h
    rw [World.withToRemove_self] at hfold
    refine ⟨retained, hfold, hperm, ?_⟩
    have hsub := foldlM_inv_mem removalPass_spec.request
      (fun acc => ∀ x ∈ acc.2, x ∈ w.map.m_entitiesToRemove) w.map.m_entitiesToRemove.reverse
      (fun b a b' ha hb hs x hx => by
        rcases removalPass_spec.request_retained hs x hx with hx | hx
        · exact hb x hx
        · exact hx ▸ List.mem_reverse.1 ha)
      _ _ (fun x hx => absurd hx (List.not_mem_nil _)) hfold
    intro r hr
    exact hsub r (hperm.mem_iff.1 hr)
  · intro hnd hlive
    exact removalLoop_returns w.map.m_entitiesToRemove w [] (by simp) hnd hlive

theorem C26_removal_pass_witness :
    exampleWorldRemovals.map.m_entitiesToRemove
        = [{ m_pEntity := 3, m_shouldDestroy := true }, { m_pEntity := 2, m_shouldDestroy := false }]
    ∧ (Heap.read exampleWorldRemovals.heap 2).map Entity.IsActivated = some true
    ∧ (Heap.read exampleWorldRemovals.heap 3).map Entity.IsActivated = some false
    ∧ (ProcessEntityAdditionAndRemoval.removalLoop 2 exampleWorldRemovals).map
        (fun x => x.map.m_entitiesToRemove)
        = some [{ m_pEntity := 2, m_shouldDestroy := false }]
    ∧ (ProcessEntityAdditionAndRemoval.removalLoop 2 exampleWorldRemovals).map
        (fun x => (x.map.m_entitiesCurrentlyLoading, (Heap.read x.heap 3).isSome,
          (Heap.read x.heap 2).map Entity.m_status))
        = some ([], false, some Entity.Status.Loaded)
    ∧ (ProcessEntityAdditionAndRemoval.removalLoop 2 exampleWorldRemovals).map
        (fun x => x.trace.drop exampleWorldRemovals.trace.length)
        = some [Event.Deactivate 2, Event.UnloadComponents 3, Event.Delete 3]
    ∧ ∃ w', ProcessEntityAdditionAndRemoval.removalLoop
        exampleWorldRemovals.map.m_entitiesToRemove.length exampleWorldRemovals = some w' :=
  ⟨by decide, by decide, by decide, by decide, by decide, by decide,
    (C26_removal_pass exampleWorldRemovals).2 (by decide) (by decide)⟩

/-! ## C29: a descriptor that has loaded -/

theorem EntityMap.loading_nil_eq (m : EntityMap) (h : m.m_entitiesCurrentlyLoading = []) :
    { m with m_entitiesCurrentlyLoading := [] } = m := by
  obtain ⟨a1, a2, a3, a4, a5, a6, a7, a8, a9, a10, a11, a12, a13, a14⟩ := m
  simp only at h
  subst h
  rfl

theorem batch_returns (w : World) (ctx : EntityLoadingContext)
    (hlive : ∀ p ∈ w.map.m_entitiesCurrentlyLoading, (Heap.read w.heap p).isSome = true) :
    ∃ w', ProcessEntityLoadingAndActivation.batch w ctx = some w' := by
  unfold ProcessEntityLoadingAndActivation.batch
  split
  · exact ⟨w, rfl⟩
  · obtain ⟨w1, h1, _⟩ := EntityLoadingTask.item_fold_stillLoading ctx w.map.IsActivated
      w.map.m_entitiesCurrentlyLoading (w, []) hlive
    rw [h1]
    exact ⟨_, rfl⟩

/-- The batch changes nothing in the map but the loading list. -/
theorem batch_map {w w' : World} {ctx : EntityLoadingContext}
    (h : ProcessEntityLoadingAndActivation.batch w ctx = some w') :
    w'.map = { w.map with
      m_entitiesCurrentlyLoading :=
        w.map.m_entitiesCurrentlyLoading.filter fun p => !ctx.updateEntityState p } := by
  have hl := batch_stillLoading h
  unfold ProcessEntityLoadingAndActivation.batch at h
  split at h
  · rename_i he
    cases h
    rw [List.isEmpty_iff.1 he]
    exact (EntityMap.loading_nil_eq w.map (List.isEmpty_iff.1 he)).symm
  · obtain ⟨r, h1, rfl⟩ := Option.map_eq_some'.1 h
    have hm : r.1.map = w.map :=
      foldlM_inv (EntityLoadingTask.item ctx w.map.IsActivated) (fun acc => acc.1.map = w.map)
        (fun _ _ _ hb hs => (EntityLoadingTask.item_fixed hs).2.trans hb) _ _ _ rfl h1
    have hl' : r.2 = w.map.m_entitiesCurrentlyLoading.filter fun p => !ctx.updateEntityState p :=
      hl
    show ({ r.1.map with m_entitiesCurrentlyLoading := r.2 } : EntityMap) = _
    rw [hm, hl']

/-- The entity steps of a pass on an instantiated map with no removal or edit
pending: component loading is requested for every entity of `toLoad`, the batch
runs over the loading list, and a map in the entity loading stage becomes loaded
when nothing is loading any more. -/
theorem processEntities_requests_loads (v : World) (ctx : EntityLoadingContext)
    (hrem : v.map.m_entitiesToRemove = [])
    (hed : v.EE_DEVELOPMENT_TOOLS = true → v.map.m_editedEntities = [])
    (hinst : v.map.m_isMapInstantiated = true)
    (hnd : v.map.m_entitiesToLoad.Nodup)
    (hl : ∀ p ∈ v.map.m_entitiesToLoad, p ≠ nullptr ∧ p ∉ v.map.m_entitiesCurrentlyLoading
      ∧ ∃ e, Heap.read v.heap p = some e ∧ e.m_mapID = v.map.m_ID ∧ e.IsActivated = false)
    (hlive : ∀ p ∈ v.map.m_entitiesCurrentlyLoading, (Heap.read v.heap p).isSome = true)
    (htr : v.map.m_status = EntityMap.Status.MapEntitiesLoading →
      v.map.m_isTransientMap = false) :
    ∃ v', UpdateState.processEntities v ctx
        = some (v', v'.map.m_entitiesCurrentlyLoading.isEmpty)
      ∧ v'.map = { v.map with
          m_entitiesToLoad := [],
          m_entitiesCurrentlyLoading :=
            (v.map.m_entitiesCurrentlyLoading ++ v.map.m_entitiesToLoad).filter
              fun p => !ctx.updateEntityState p,
          m_status :=
            if v.map.m_status = EntityMap.Status.MapEntitiesLoading
                ∧ ((v.map.m_entitiesCurrentlyLoading ++ v.map.m_entitiesToLoad).filter
                    fun p => !ctx.updateEntityState p).isEmpty = true
            then EntityMap.Status.Loaded else v.map.m_status }
      ∧ ∃ evs, v'.trace = v.trace ++ evs
          ∧ ∀ p ∈ v.map.m_entitiesToLoad, Event.LoadComponents p ∈ evs := by
  have h1 : ProcessEntityAdditionAndRemoval.editedEntities v = some v := by
    unfold ProcessEntityAdditionAndRemoval.editedEntities
    split
    · rename_i ht
      rw [hed ht]
      simp only [List.foldlM_nil, Option.pure_def, Option.map_some', Option.some.injEq]
      exact World.editedEntities_nil_eq v (hed ht)
    · rfl
  obtain ⟨vl, hvl⟩ := requestLoad_fold_isSome v.map.m_entitiesToLoad v hnd hl
  obtain ⟨hmapl, htracel, _, _, _, houtl, hinl⟩ := requestLoad_fold_spec _ _ _ hvl
  have hpear : ProcessEntityAdditionAndRemoval v
      = some { vl with map := { vl.map with m_entitiesToLoad := [] } } := by
    have h3 : ProcessEntityAdditionAndRemoval.loading v
        = some { vl with map := { vl.map with m_entitiesToLoad := [] } } := by
      unfold ProcessEntityAdditionAndRemoval.loading
      rw [if_pos hinst, hvl]
      rfl
    unfold ProcessEntityAdditionAndRemoval
    simp only [h1, Option.bind_eq_bind, Option.some_bind, hrem, List.length_nil,
      ProcessEntityAdditionAndRemoval.removalLoop, h3]
  have hlive2 : ∀ p ∈ ({ vl with map := { vl.map with m_entitiesToLoad := [] } }
      : World).map.m_entitiesCurrentlyLoading,
      (Heap.read ({ vl with map := { vl.map with m_entitiesToLoad := [] } } : World).heap
        p).isSome = true := by
    intro p hp
    have hp' : p ∈ v.map.m_entitiesCurrentlyLoading ++ v.map.m_entitiesToLoad := by
      have : p ∈ vl.map.m_entitiesCurrentlyLoading := hp
      rw [hmapl] at this
      exact this
    show (Heap.read vl.heap p).isSome = true
    by_cases hpl : p ∈ v.map.m_entitiesToLoad
    · obtain ⟨e, _, he⟩ := hinl p hpl
      rw [he]
      rfl
    · rw [houtl p hpl]
      rcases List.mem_append.1 hp' with h | h
      · exact hlive p h
      · exact absurd h hpl
  obtain ⟨v3, hv3⟩ := batch_returns _ ctx hlive2
  have hm3 := batch_map hv3
  have hm3' : v3.map = { v.map with
      m_entitiesToLoad := [],
      m_entitiesCurrentlyLoading :=
        (v.map.m_entitiesCurrentlyLoading ++ v.map.m_entitiesToLoad).filter
          fun p => !ctx.updateEntityState p } := by
    rw [hm3]
    show ({ ({ vl.map with m_entitiesToLoad := [] } : EntityMap) with
      m_entitiesCurrentlyLoading := vl.map.m_entitiesCurrentlyLoading.filter _ } : EntityMap) = _
    rw [hmapl]
  have hfinish : ∃ v4, ProcessEntityLoadingAndActivation.finish v3 = some v4
      ∧ v4.map = { v3.map with
          m_status :=
            if v.map.m_status = EntityMap.Status.MapEntitiesLoading
                ∧ ((v.map.m_entitiesCurrentlyLoading ++ v.map.m_entitiesToLoad).filter
                    fun p => !ctx.updateEntityState p).isEmpty = true
            then EntityMap.Status.Loaded else v.map.m_status }
      ∧ v4.trace = v3.trace := by
    unfold ProcessEntityLoadingAndActivation.finish
    have hs3 : v3.map.m_status = v.map.m_status := by rw [hm3']
    have hl3 : v3.map.m_entitiesCurrentlyLoading
        = (v.map.m_entitiesCurrentlyLoading ++ v.map.m_entitiesToLoad).filter
            fun p => !ctx.updateEntityState p := by rw [hm3']
    have ht3 : v3.map.m_isTransientMap = v.map.m_isTransientMap := by rw [hm3']
    rw [hs3, hl3]
    split
    · rename_i hc
      rw [(EE_ASSERT_eq_some (u := ())).2 (by rw [ht3, htr hc.1]; rfl)]
      exact ⟨_, rfl, rfl, rfl⟩
    · refine ⟨v3, rfl, ?_, rfl⟩
      rw [← hs3]
  obtain ⟨v4, hv4, hm4, ht4⟩ := hfinish
  have hpela : ProcessEntityLoadingAndActivation
      { vl with map := { vl.map with m_entitiesToLoad := [] } } ctx
      = some (v4, v4.map.m_entitiesCurrentlyLoading.isEmpty) := by
    unfold ProcessEntityLoadingAndActivation
    simp only [hv3, hv4, Option.bind_eq_bind, Option.some_bind]
  obtain ⟨⟨evs, hevs, _⟩, _⟩ := ProcessEntityLoadingAndActivation_calm hpela
  refine ⟨v4, ?_, ?_, List.map Event.LoadComponents v.map.m_entitiesToLoad ++ evs, ?_, ?_⟩
  · unfold UpdateState.processEntities
    simp only [hpear, Option.bind_eq_bind, Option.some_bind, hpela]
  · rw [hm4, hm3']
  · rw [hevs]
    show vl.trace ++ evs = _
    rw [htracel, List.append_assoc]
  · intro p hp
    exact List.mem_append_left _ (List.mem_map_of_mem _ hp)

theorem Heap.read_of_mem_nodup (l : Heap) (hnd : (l.map Prod.fst).Nodup)
    {x : EntityPtr × Entity} (hx : x ∈ l) : Heap.read l x.1 = some x.2 := by
  induction l with
  | nil => exact absurd hx (List.not_mem_nil x)
  | cons y l ih =>
    obtain ⟨q, e⟩ := y
    simp only [List.map_cons, List.nodup_cons] at hnd
    unfold Heap.read
    rcases List.mem_cons.1 hx with h | h
    · subst h
      simp
    · have hne : q ≠ x.1 := fun hq => hnd.1 (hq ▸ List.mem_map_of_mem Prod.fst h)
      rw [if_neg hne]
      exact ih hnd.2 h

theorem Heap.read_of_not_mem (l : Heap) {q : EntityPtr} (hq : q ∉ l.map Prod.fst) :
    Heap.read l q = none := by
  induction l with
  | nil => rfl
  | cons y l ih =>
    obtain ⟨a, e⟩ := y
    simp only [List.map_cons, List.mem_cons, not_or] at hq
    unfold Heap.read
    rw [if_neg (fun h => hq.1 h.symm)]
    exact ih hq.2

/-- `AddEntities` touches neither the trace nor the ids of the entities. -/
theorem AddEntities_ids {w w' : World} {ps : List EntityPtr} (h : AddEntities w ps = some w') :
    w'.trace = w.trace
      ∧ ∀ q, (Heap.read w'.heap q).map Entity.m_ID = (Heap.read w.heap q).map Entity.m_ID := by
  refine foldlM_inv AddEntity
    (fun b => b.trace = w.trace
      ∧ ∀ q, (Heap.read b.heap q).map Entity.m_ID = (Heap.read w.heap q).map Entity.m_ID)
    ?_ ps w w' ⟨rfl, fun _ => rfl⟩ h
  intro b a b' hb hs
  obtain ⟨e, name, _, _, _, _, _, _, rfl⟩ := AddEntity_eq hs
  refine ⟨hb.1, fun q => ?_⟩
  rw [← hb.2 q]
  dsimp only
  rw [Heap.read_modify]
  by_cases hq : q = a
  · subst hq
    simp only [if_true]
    cases Heap.read b.heap q <;> rfl
  · rw [if_neg hq]

/-- The descriptor step of a pass on a map whose descriptor has loaded and is
valid: the created entities become live and are added to the map, the map is
instantiated and enters the entity loading stage, and the descriptor is
released. -/
theorem ProcessMapLoading_instantiates (w : World) (ctx : EntityLoadingContext)
    (hs : w.map.m_status = EntityMap.Status.MapDescriptorLoading)
    (ht : w.map.m_isTransientMap = false)
    (hd : ctx.mapDesc = ResourceLoadState.Loaded true)
    (hnd : (ctx.createdEntities.map Prod.fst).Nodup)
    (hfresh : ∀ x ∈ ctx.createdEntities, x.1 ≠ nullptr ∧ Heap.read w.heap x.1 = none
      ∧ x.2.m_mapID = 0 ∧ x.2.m_status = Entity.Status.Unloaded
      ∧ THashMap.find w.map.m_entityIDLookupMap x.2.m_ID = none
      ∧ (w.EE_DEVELOPMENT_TOOLS = true →
          StringID.IsValid x.2.m_name = true ∧ x.2.m_pParentSpatialEntity = none))
    (hids : ∀ x ∈ ctx.createdEntities, ∀ y ∈ ctx.createdEntities,
      x.2.m_ID = y.2.m_ID → x.1 = y.1)
    (hlq : ∀ p ∈ w.map.m_entitiesToLoad, (Heap.read w.heap p).isSome = true)
    (hsize : w.EE_DEVELOPMENT_TOOLS = true →
      w.map.m_entityNameLookupMap.length + ctx.createdEntities.length + 1 ≤ 2 ^ 32) :
    ∃ w1, ProcessMapLoading w ctx = some (w1, true)
      ∧ w1.map.m_entities = w.map.m_entities ++ ctx.createdEntities.map Prod.fst
      ∧ w1.map.m_entitiesToLoad = w.map.m_entitiesToLoad ++ ctx.createdEntities.map Prod.fst
      ∧ w1.map.m_entitiesCurrentlyLoading = w.map.m_entitiesCurrentlyLoading
      ∧ w1.map.m_entitiesToRemove = w.map.m_entitiesToRemove
      ∧ w1.map.m_editedEntities = w.map.m_editedEntities
      ∧ w1.map.m_status = EntityMap.Status.MapEntitiesLoading
      ∧ w1.map.m_isMapInstantiated = true
      ∧ w1.map.m_isTransientMap = false
      ∧ w1.map.m_ID = w.map.m_ID
      ∧ w1.EE_DEVELOPMENT_TOOLS = w.EE_DEVELOPMENT_TOOLS
      ∧ w1.map.m_pMapDesc.WasRequested = false
      ∧ w1.trace = w.trace ++ [Event.UnloadResource]
      ∧ (∀ x ∈ ctx.createdEntities, ∃ e, Heap.read w1.heap x.1 = some e
          ∧ e.m_ID = x.2.m_ID ∧ e.m_mapID = w.map.m_ID
          ∧ e.m_status = Entity.Status.Unloaded
          ∧ THashMap.find w1.map.m_entityIDLookupMap x.2.m_ID = some x.1)
      ∧ (∀ q, q ∉ ctx.createdEntities.map Prod.fst → Heap.read w1.heap q = Heap.read w.heap q) := by
  have hread : ∀ x ∈ ctx.createdEntities,
      Heap.read (w.heap ++ ctx.createdEntities) x.1 = some x.2 := by
    intro x hx
    rw [Heap.read_append, (hfresh x hx).2.1]
    exact Heap.read_of_mem_nodup _ hnd hx
  have hout : ∀ q, q ∉ ctx.createdEntities.map Prod.fst →
      Heap.read (w.heap ++ ctx.createdEntities) q = Heap.read w.heap q := by
    intro q hq
    rw [Heap.read_append, Heap.read_of_not_mem _ hq]
    cases Heap.read w.heap q <;> rfl
  have halloc : allocateEntities w.heap ctx.createdEntities
      = some (w.heap ++ ctx.createdEntities) := by
    unfold allocateEntities
    rw [if_pos]
    simp only [Bool.and_eq_true, List.all_eq_true, decide_eq_true_eq]
    exact ⟨fun x hx => by rw [(hfresh x hx).2.1]; rfl, hnd⟩
  obtain ⟨w2, hw2, hE, hL, hC, hR, hEd, _, _, _, _, hT, hID, hTl, hres, hout2, _⟩ :=
    AddEntities_fold (ctx.createdEntities.map Prod.fst)
      { w with heap := w.heap ++ ctx.createdEntities } hnd
      (by
        intro p hp
        obtain ⟨x, hx, rfl⟩ := List.mem_map.1 hp
        obtain ⟨h0, hnone, hm, hst, hfind, htl⟩ := hfresh x hx
        refine ⟨h0, ?_, x.2, hread x hx, hm, hst, hfind, htl⟩
        intro hq
        have := hlq x.1 hq
        rw [hnone] at this
        cases this)
      (by
        intro p hp q hq ep eq hep heq hid
        obtain ⟨x, hx, rfl⟩ := List.mem_map.1 hp
        obtain ⟨y, hy, rfl⟩ := List.mem_map.1 hq
        have h1 : some ep = some x.2 := hep.symm.trans (hread x hx)
        have h2 : some eq = some y.2 := heq.symm.trans (hread y hy)
        cases h1
        cases h2
        exact hids x hx y hy hid)
      (by
        intro htl
        have := hsize htl
        simpa using this)
  obtain ⟨htr2, hid2⟩ := AddEntities_ids hw2
  refine ⟨call_UnloadResource { w2 with map := { w2.map with
      m_isMapInstantiated := true, m_status := EntityMap.Status.MapEntitiesLoading } },
    ?_, hE, hL, hC, hR, hEd, rfl, rfl, hT.trans ht, hID, hTl, rfl, ?_, ?_, ?_⟩
  · have hinst : ProcessMapLoading.instantiate w ctx
        = some { w2 with map := { w2.map with
            m_isMapInstantiated := true, m_status := EntityMap.Status.MapEntitiesLoading } } := by
      unfold ProcessMapLoading.instantiate
      simp only [halloc, Option.bind_eq_bind, Option.some_bind]
      have : List.foldlM AddEntity { w with heap := w.heap ++ ctx.createdEntities }
          (ctx.createdEntities.map Prod.fst) = some w2 := hw2
      rw [this]
      rfl
    unfold ProcessMapLoading
    rw [(EE_ASSERT_eq_some (u := ())).2 (by rw [hs]; simp),
      (EE_ASSERT_eq_some (u := ())).2 (by rw [ht]; rfl)]
    simp only [Option.bind_eq_bind, Option.some_bind, hd, ResourceLoadState.IsLoading,
      Bool.false_eq_true, if_false, ProcessMapLoading.finish, ResourceLoadState.HasLoadingFailed,
      ResourceLoadState.IsLoaded, ResourceLoadState.IsValid, if_true]
    rw [hinst]
    rfl
  · show w2.trace ++ [Event.UnloadResource] = _
    rw [htr2]
  · intro x hx
    obtain ⟨e, he, hm, hst, hfind⟩ := hres x.1 (List.mem_map_of_mem _ hx)
    have hid : e.m_ID = x.2.m_ID := by
      have := hid2 x.1
      rw [he] at this
      have h2 : Heap.read ({ w with heap := w.heap ++ ctx.createdEntities } : World).heap x.1
          = some x.2 := hread x hx
      rw [h2] at this
      exact Option.some.inj this
    refine ⟨e, he, hid, hm, hst, ?_⟩
    rw [← hid]
    exact hfind
  · intro q hq
    exact (hout2 q hq).trans (hout q hq)

/-- C29, as stated, fails: on a non-transient map in MapDescriptorLoading on
which an unload was requested, the pass in which the descriptor reports loaded
and valid with two entity descriptors ends in Unloaded with the map not
instantiated, no entity added, nothing created and no component load
requested. -/
theorem C29_counterexample :
    (World.after (Unload exampleWorldDescriptor)).map.m_status
        = EntityMap.Status.MapDescriptorLoading
    ∧ (World.after (Unload exampleWorldDescriptor)).map.m_isTransientMap = false
    ∧ exampleContextLoaded.mapDesc.IsLoading = false
    ∧ exampleContextLoaded.mapDesc.IsLoaded = true
    ∧ exampleContextLoaded.mapDesc.IsValid = true
    ∧ exampleContextLoaded.createdEntities.length = 2
    ∧ (UpdateState (World.after (Unload exampleWorldDescriptor)) exampleContextLoaded).map
        (fun r => (r.1.map.m_status, r.1.map.m_isMapInstantiated, r.2))
        = some (EntityMap.Status.Unloaded, false, true)
    ∧ (UpdateState (World.after (Unload exampleWorldDescriptor)) exampleContextLoaded).map
        (fun r => (r.1.map.m_entities, r.1.map.m_entityIDLookupMap))
        = some ([], [])
    ∧ (UpdateState (World.after (Unload exampleWorldDescriptor)) exampleContextLoaded).map
        (fun r => ((Heap.read r.1.heap 4).isSome, (Heap.read r.1.heap 5).isSome))
        = some (false, false)
    ∧ (UpdateState (World.after (Unload exampleWorldDescriptor)) exampleContextLoaded).map
        (fun r => r.1.trace)
        = some [Event.LoadResource, Event.UnloadResource] := by
  decide

/-- C29, amended: on a non-transient map in MapDescriptorLoading with no unload
requested and no removal, edit or hot reload pending, whose queued and loading
entities are live, whose descriptor has loaded and is valid, and for which k
entities are created (at distinct addresses that were not live, with distinct
ids not yet in the id lookup map, unmapped and unloaded; with development tools
also validly named, without spatial parent and within the range of the name
counter), the `UpdateState` pass succeeds; it appends the k created entities to
the entity list and enters each under its id in the id lookup map, sets
`m_isMapInstantiated`, releases the descriptor, requests component loading for
each created entity in this pass, empties the queue of entities to load, leaves
in the loading list the entities that are still loading after their state
update, returns whether that list is empty, and ends in MapEntitiesLoading if
the list is not empty and in Loaded otherwise. -/
theorem C29_descriptor_loaded (w : World) (ctx : EntityLoadingContext)
    (hs : w.map.m_status = EntityMap.Status.MapDescriptorLoading)
    (ht : w.map.m_isTransientMap = false)
    (hu : w.map.m_isUnloadRequested = false)
    (hd : ctx.mapDesc = ResourceLoadState.Loaded true)
    (htools : w.EE_DEVELOPMENT_TOOLS = true →
      w.map.m_editedEntities = [] ∧ w.map.m_entitiesToHotReload = [])
    (hrem : w.map.m_entitiesToRemove = [])
    (hlive : ∀ p ∈ w.map.m_entitiesCurrentlyLoading, (Heap.read w.heap p).isSome = true)
    (hq : w.map.m_entitiesToLoad.Nodup)
    (hql : ∀ p ∈ w.map.m_entitiesToLoad, p ≠ nullptr ∧ p ∉ w.map.m_entitiesCurrentlyLoading
      ∧ ∃ e, Heap.read w.heap p = some e ∧ e.m_mapID = w.map.m_ID ∧ e.IsActivated = false)
    (hnd : (ctx.createdEntities.map Prod.fst).Nodup)
    (hfresh : ∀ x ∈ ctx.createdEntities, x.1 ≠ nullptr ∧ Heap.read w.heap x.1 = none
      ∧ x.2.m_mapID = 0 ∧ x.2.m_status = Entity.Status.Unloaded
      ∧ THashMap.find w.map.m_entityIDLookupMap x.2.m_ID = none
      ∧ (w.EE_DEVELOPMENT_TOOLS = true →
          StringID.IsValid x.2.m_name = true ∧ x.2.m_pParentSpatialEntity = none))
    (hids : ∀ x ∈ ctx.createdEntities, ∀ y ∈ ctx.createdEntities,
      x.2.m_ID = y.2.m_ID → x.1 = y.1)
    (hsize : w.EE_DEVELOPMENT_TOOLS = true →
      w.map.m_entityNameLookupMap.length + ctx.createdEntities.length + 1 ≤ 2 ^ 32) :
    ∃ w', UpdateState w ctx = some (w', w'.map.m_entitiesCurrentlyLoading.isEmpty)
      ∧ w'.map.m_entities = w.map.m_entities ++ ctx.createdEntities.map Prod.fst
      ∧ (∀ x ∈ ctx.createdEntities, w'.map.FindEntity x.2.m_ID = some x.1)
      ∧ w'.map.m_isMapInstantiated = true
      ∧ w'.map.m_pMapDesc.WasRequested = false
      ∧ (∃ evs, w'.trace = w.trace ++ evs ∧ Event.UnloadResource ∈ evs
          ∧ ∀ x ∈ ctx.createdEntities, Event.LoadComponents x.1 ∈ evs)
      ∧ w'.map.m_entitiesToLoad = []
      ∧ w'.map.m_entitiesCurrentlyLoading
          = (w.map.m_entitiesCurrentlyLoading ++ w.map.m_entitiesToLoad
              ++ ctx.createdEntities.map Prod.fst).filter (fun p => !ctx.updateEntityState p)
      ∧ w'.map.m_status
          = if w'.map.m_entitiesCurrentlyLoading.isEmpty then EntityMap.Status.Loaded
            else EntityMap.Status.MapEntitiesLoading := by
  have hlq : ∀ p ∈ w.map.m_entitiesToLoad, (Heap.read w.heap p).isSome = true := by
    intro p hp
    obtain ⟨_, _, e, he, _⟩ := hql p hp
    rw [he]
    rfl
  obtain ⟨w1, hw1, hE, hL, hC, hR, hEd, hS, hI, hT, hID, hTl, hD, hTr, hres, hout⟩ :=
    ProcessMapLoading_instantiates w ctx hs ht hd hnd hfresh hids hlq hsize
  have hnotin : ∀ p, (Heap.read w.heap p).isSome = true →
      p ∉ ctx.createdEntities.map Prod.fst := by
    intro p hp hmem
    obtain ⟨x, hx, rfl⟩ := List.mem_map.1 hmem
    rw [(hfresh x hx).2.1] at hp
    cases hp
  obtain ⟨w2, hw2, hm2, evs, hevs, hlc⟩ := processEntities_requests_loads w1 ctx
    (hR.trans hrem)
    (fun h => hEd.trans (htools (hTl ▸ h)).1)
    hI
    (by
      rw [hL]
      refine List.nodup_append.2 ⟨hq, hnd, ?_⟩
      intro p hp hp'
      exact hnotin p (hlq p hp) hp')
    (by
      intro p hp
      rw [hL] at hp
      rw [hC, hID]
      rcases List.mem_append.1 hp with h | h
      · obtain ⟨h0, hnl, e, he, hm, ha⟩ := hql p h
        exact ⟨h0, hnl, e, (hout p (hnotin p (hlq p h))).trans he, hm, ha⟩
      · obtain ⟨x, hx, rfl⟩ := List.mem_map.1 h
        obtain ⟨e, he, _, hm, hst, _⟩ := hres x hx
        refine ⟨(hfresh x hx).1, ?_, e, he, hm, ?_⟩
        · intro hin
          exact hnotin x.1 (hlive x.1 hin) h
        · simp [Entity.IsActivated, hst])
    (by
      intro p hp
      rw [hC] at hp
      rw [hout p (hnotin p (hlive p hp))]
      exact hlive p hp)
    (fun _ => hT)
  have hload2 : w2.map.m_entitiesCurrentlyLoading
      = (w.map.m_entitiesCurrentlyLoading ++ w.map.m_entitiesToLoad
          ++ ctx.createdEntities.map Prod.fst).filter fun p => !ctx.updateEntityState p := by
    rw [hm2]
    show List.filter _ (w1.map.m_entitiesCurrentlyLoading ++ w1.map.m_entitiesToLoad) = _
    rw [hC, hL, List.append_assoc]
  refine ⟨w2, ?_, ?_, ?_, ?_, ?_, ?_, ?_, hload2, ?_⟩
  · have hasrt : EE_ASSERT (!w.EE_DEVELOPMENT_TOOLS || w.map.m_entitiesToHotReload.isEmpty)
        = some () := by
      rw [EE_ASSERT_eq_some]
      cases hdev : w.EE_DEVELOPMENT_TOOLS
      · rfl
      · rw [(htools hdev).2]
        rfl
    unfold UpdateState
    rw [hasrt]
    simp only [Option.bind_eq_bind, Option.some_bind]
    unfold UpdateState.processUnload
    rw [hu]
    simp only [Bool.false_eq_true, if_false]
    unfold UpdateState.processLoading
    rw [if_pos hs, hw1]
    simp only [Option.bind_eq_bind, Option.some_bind, if_true]
    exact hw2
  · rw [hm2]
    exact hE
  · intro x hx
    obtain ⟨_, _, _, _, _, hfind⟩ := hres x hx
    unfold EntityMap.FindEntity
    rw [hm2]
    exact hfind
  · rw [hm2]
    exact hI
  · rw [hm2]
    exact hD
  · refine ⟨[Event.UnloadResource] ++ evs, ?_, List.mem_append_left _ (List.mem_singleton_self _),
      ?_⟩
    · rw [hevs, hTr, List.append_assoc]
    · intro x hx
      refine List.mem_append_right _ (hlc x.1 ?_)
      rw [hL]
      exact List.mem_append_right _ (List.mem_map_of_mem _ hx)
  · rw [hm2]
  · have hst : w2.map.m_status
        = if w1.map.m_status = EntityMap.Status.MapEntitiesLoading
            ∧ ((w1.map.m_entitiesCurrentlyLoading ++ w1.map.m_entitiesToLoad).filter
                fun p => !ctx.updateEntityState p).isEmpty = true
          then EntityMap.Status.Loaded else w1.map.m_status := by
      rw [hm2]
    have hl' : (w1.map.m_entitiesCurrentlyLoading ++ w1.map.m_entitiesToLoad).filter
        (fun p => !ctx.updateEntityState p) = w2.map.m_entitiesCurrentlyLoading := by
      rw [hm2]
    rw [hst, hl', hS]
    by_cases he : w2.map.m_entitiesCurrentlyLoading.isEmpty = true
    · rw [if_pos ⟨rfl, he⟩, if_pos he]
    · rw [if_neg (fun h => he h.2), if_neg he]

theorem C29_descriptor_loaded_witness :
    ∃ w', UpdateState exampleWorldDescriptor exampleContextLoaded
        = some (w', w'.map.m_entitiesCurrentlyLoading.isEmpty)
      ∧ w'.map.m_entities = exampleWorldDescriptor.map.m_entities ++ [4, 5]
      ∧ (∀ x ∈ exampleContextLoaded.createdEntities, w'.map.FindEntity x.2.m_ID = some x.1)
      ∧ w'.map.m_isMapInstantiated = true
      ∧ w'.map.m_pMapDesc.WasRequested = false
      ∧ (∃ evs, w'.trace = exampleWorldDescriptor.trace ++ evs ∧ Event.UnloadResource ∈ evs
          ∧ ∀ x ∈ exampleContextLoaded.createdEntities, Event.LoadComponents x.1 ∈ evs)
      ∧ w'.map.m_entitiesToLoad = []
      ∧ w'.map.m_entitiesCurrentlyLoading = [5]
      ∧ w'.map.m_status
          = if w'.map.m_entitiesCurrentlyLoading.isEmpty then EntityMap.Status.Loaded
            else EntityMap.Status.MapEntitiesLoading :=
  C29_descriptor_loaded exampleWorldDescriptor exampleContextLoaded (by decide) (by decide)
    (by decide) rfl (by decide) (by decide) (by decide) (by decide) (by decide) (by decide)
    (by decide) (by decide) (by decide)

/-! ## C25: duplicates in the loading list -/

/-- The descriptor step reports that it has not completed only while the
descriptor is loading, and then leaves the state as it was. -/
theorem ProcessMapLoading_waiting {w w' : World} {ctx : EntityLoadingContext}
    (h : ProcessMapLoading w ctx = some (w', false)) :
    w' = w ∧ w.map.m_status = EntityMap.Status.MapDescriptorLoading := by
  unfold ProcessMapLoading at h
  simp only [Option.bind_eq_bind, Option.bind_eq_some, EE_ASSERT_eq_some,
    decide_eq_true_eq] at h
  obtain ⟨_, hs, _, _, h⟩ := h
  split at h
  · simp only [Option.some.injEq, Prod.mk.injEq, and_true] at h
    exact ⟨h.symm, hs⟩
  · obtain ⟨_, _, h2⟩ := Option.map_eq_some'.1 h
    simp at h2

theorem processLoading_entitiesLoading {w w' : World} {ctx : EntityLoadingContext} {r : Bool}
    (h : UpdateState.processLoading w ctx = some (w', r))
    (hs : w'.map.m_status = EntityMap.Status.MapEntitiesLoading) :
    w'.map.m_entitiesCurrentlyLoading ≠ [] := by
  have key : ∀ v : World, UpdateState.processEntities v ctx = some (w', r) →
      w'.map.m_entitiesCurrentlyLoading ≠ [] := by
    intro v hv hnil
    have := (processEntities_result hv).2.2 hs
    rw [hnil] at this
    cases this
  unfold UpdateState.processLoading at h
  split at h
  · simp only [Option.bind_eq_bind, Option.bind_eq_some] at h
    obtain ⟨⟨w1, b⟩, h1, h2⟩ := h
    cases b with
    | false =>
      simp only [Bool.false_eq_true, if_false, Option.some.injEq, Prod.mk.injEq] at h2
      obtain ⟨rfl, _⟩ := h2
      obtain ⟨rfl, hm⟩ := ProcessMapLoading_waiting h1
      rw [hm] at hs
      cases hs
    | true =>
      simp only [if_true] at h2
      exact key _ h2
  · exact key _ h

/-- C31: the loading and activation stage of a pass changes the status only by
moving a map in MapEntitiesLoading to Loaded, and does so exactly when the
loading list is empty after the batch.  When the stage returns, its flag says
whether the loading list is empty; a map left in MapEntitiesLoading has a
loading list that is not empty; a map that entered the stage in
MapEntitiesLoading is in Loaded if the list is empty and still in
MapEntitiesLoading otherwise; every other status is as before the stage.  Hence
after every `UpdateState` pass that returns, the status MapEntitiesLoading comes
with a loading list that is not empty.  The stage returns whenever the loading
entities are live and a map in MapEntitiesLoading is not transient. -/
theorem C31_entities_loading_until_drained (w : World) (ctx : EntityLoadingContext) :
    (∀ w' r, ProcessEntityLoadingAndActivation w ctx = some (w', r) →
      r = w'.map.m_entitiesCurrentlyLoading.isEmpty
      ∧ (w'.map.m_status = EntityMap.Status.MapEntitiesLoading →
          w'.map.m_entitiesCurrentlyLoading ≠ [])
      ∧ (w.map.m_status = EntityMap.Status.MapEntitiesLoading →
          w'.map.m_status = if w'.map.m_entitiesCurrentlyLoading.isEmpty
            then EntityMap.Status.Loaded else EntityMap.Status.MapEntitiesLoading)
      ∧ (w.map.m_status ≠ EntityMap.Status.MapEntitiesLoading →
          w'.map.m_status = w.map.m_status))
    ∧ (∀ w' r, UpdateState w ctx = some (w', r) →
        w'.map.m_status = EntityMap.Status.MapEntitiesLoading →
        w'.map.m_entitiesCurrentlyLoading ≠ [])
    ∧ ((∀ p ∈ w.map.m_entitiesCurrentlyLoading, (Heap.read w.heap p).isSome = true) →
        (w.map.m_status = EntityMap.Status.MapEntitiesLoading →
          w.map.m_isTransientMap = false) →
        ∃ w' r, ProcessEntityLoadingAndActivation w ctx = some (w', r)) := by
  refine ⟨?_, ?_, ?_⟩
  · intro w' r h
    obtain ⟨hr, hst, hmel⟩ := ProcessEntityLoadingAndActivation_result h
    have hne : w'.map.m_status = EntityMap.Status.MapEntitiesLoading →
        w'.map.m_entitiesCurrentlyLoading ≠ [] := by
      intro hs hnil
      have := hmel hs
      rw [hnil] at this
      cases this
    refine ⟨hr, hne, ?_, ?_⟩
    · intro hs
      unfold ProcessEntityLoadingAndActivation at h
      simp only [Option.bind_eq_bind, Option.bind_eq_some, Option.some.injEq, Prod.mk.injEq]
        at h
      obtain ⟨w1, h1, w2, h2, rfl, _⟩ := h
      have hs1 : w1.map.m_status = EntityMap.Status.MapEntitiesLoading :=
        (batch_fixed h1).2.2.1.trans hs
      unfold ProcessEntityLoadingAndActivation.finish at h2
      split at h2
      · rename_i hc
        simp only [Option.bind_eq_bind, Option.bind_eq_some, Option.some.injEq] at h2
        obtain ⟨_, _, rfl⟩ := h2
        show EntityMap.Status.Loaded = _
        have : w1.map.m_entitiesCurrentlyLoading.isEmpty = true := hc.2
        simp only [this, if_true]
      · rename_i hc
        cases h2
        have : ¬ w1.map.m_entitiesCurrentlyLoading.isEmpty = true := fun hl => hc ⟨hs1, hl⟩
        rw [if_neg this]
        exact hs1
    · intro hs
      rcases hst with hst | ⟨hst, _⟩
      · exact hst
      · exact absurd hst hs
  · intro w' r h hs
    unfold UpdateState at h
    simp only [Option.bind_eq_bind, Option.bind_eq_some] at h
    obtain ⟨_, _, h⟩ := h
    unfold UpdateState.processUnload at h
    split at h
    · rename_i hreq
      simp only [Option.bind_eq_bind, Option.bind_eq_some] at h
      obtain ⟨⟨w1, b⟩, h1, h2⟩ := h
      cases b with
      | false =>
        simp only [Bool.false_eq_true, if_false, Option.some.injEq, Prod.mk.injEq] at h2
        obtain ⟨rfl, _⟩ := h2
        unfold ProcessMapUnloadRequest at h1
        simp only [Option.bind_eq_bind, Option.bind_eq_some] at h1
        obtain ⟨_, _, h1⟩ := h1
        split at h1
        · obtain ⟨w2, hD, h3⟩ := Option.map_eq_some'.1 h1
          simp only [Prod.mk.injEq, and_true] at h3
          subst h3
          unfold Deactivate at hD
          simp only [Option.bind_eq_bind, Option.bind_eq_some, Option.some.injEq] at hD
          obtain ⟨_, _, w3, _, rfl⟩ := hD
          cases hs
        · obtain ⟨_, _, h3⟩ := Option.map_eq_some'.1 h1
          simp at h3
      | true =>
        simp only [if_true] at h2
        exact processLoading_entitiesLoading h2 hs
    · exact processLoading_entitiesLoading h hs
  · intro hlive htr
    obtain ⟨w1, h1⟩ := batch_returns w ctx hlive
    have hf := batch_fixed h1
    have hfin : ∃ w2, ProcessEntityLoadingAndActivation.finish w1 = some w2 := by
      unfold ProcessEntityLoadingAndActivation.finish
      split
      · rename_i hc
        have ht : w1.map.m_isTransientMap = false :=
          hf.2.2.2.2.2.1.trans (htr (hf.2.2.1 ▸ hc.1))
        rw [(EE_ASSERT_eq_some (u := ())).2 (by rw [ht]; rfl)]
        exact ⟨_, rfl⟩
      · exact ⟨_, rfl⟩
    obtain ⟨w2, h2⟩ := hfin
    refine ⟨w2, w2.map.m_entitiesCurrentlyLoading.isEmpty, ?_⟩
    unfold ProcessEntityLoadingAndActivation
    simp only [h1, h2, Option.bind_eq_bind, Option.some_bind]

theorem C31_entities_loading_until_drained_witness :
    (∃ w', ProcessEntityLoadingAndActivation exampleWorldEntitiesLoading (exampleContext false)
        = some (w', false)
      ∧ w'.map.m_status = EntityMap.Status.MapEntitiesLoading
      ∧ w'.map.m_entitiesCurrentlyLoading = [5])
    ∧ (∃ w', ProcessEntityLoadingAndActivation exampleWorldEntitiesLoading (exampleContext true)
        = some (w', true)
      ∧ w'.map.m_status = EntityMap.Status.Loaded
      ∧ w'.map.m_entitiesCurrentlyLoading = [])
    ∧ ((World.afterPass (UpdateState exampleWorldEntitiesLoading
          (exampleContext false))).1.map.m_status = EntityMap.Status.MapEntitiesLoading →
        (World.afterPass (UpdateState exampleWorldEntitiesLoading
          (exampleContext false))).1.map.m_entitiesCurrentlyLoading ≠ []) :=
  ⟨⟨_, rfl, by decide, by decide⟩, ⟨_, rfl, by decide, by decide⟩,
    (C31_entities_loading_until_drained exampleWorldEntitiesLoading (exampleContext false)).2.1
      _ false rfl⟩

/-! ## C37: a map that is loading is not transient -/

/-- No update pass enters a loading status from another status. -/
theorem UpdateState_loadingStatus {w w' : World} {ctx : EntityLoadingContext} {r : Bool}
    (h : UpdateState w ctx = some (w', r))
    (hs : w'.map.m_status = EntityMap.Status.MapDescriptorLoading
      ∨ w'.map.m_status = EntityMap.Status.MapEntitiesLoading) :
    w.map.m_status = EntityMap.Status.MapDescriptorLoading
      ∨ w.map.m_status = EntityMap.Status.MapEntitiesLoading := by
  rcases hs with hs | hs
  · exact Or.inl (UpdateState_descriptorLoading h hs)
  · cases hreq : w.map.m_isUnloadRequested with
    | true =>
      by_cases hact : w.map.m_status = EntityMap.Status.Activated
      · have := (UpdateState_unload_pending hreq hact h).2.2.2
        rw [hs] at this
        cases this
      · have := (UpdateState_unload_status hreq hact w' r h).1
        rw [hs] at this
        cases this
    | false =>
      unfold UpdateState at h
      simp only [Option.bind_eq_bind, Option.bind_eq_some] at h
      obtain ⟨_, _, h⟩ := h
      unfold UpdateState.processUnload at h
      rw [if_neg (by rw [hreq]; exact Bool.false_ne_true)] at h
      unfold UpdateState.processLoading at h
      split at h
      · rename_i hm
        exact Or.inl hm
      · obtain ⟨_, hst, _⟩ := processEntities_result h
        rcases hst with hst | ⟨_, hst⟩
        · exact Or.inr (hst ▸ hs)
        · rw [hs] at hst
          cases hst

theorem LoadingInv.li_of_fixed {w w' : World} (hinv : LoadingInv w.map)
    (hid : IdentityFixed w w')
    (hs : w'.map.m_status = EntityMap.Status.MapDescriptorLoading
        ∨ w'.map.m_status = EntityMap.Status.MapEntitiesLoading →
      w.map.m_status = EntityMap.Status.MapDescriptorLoading
        ∨ w.map.m_status = EntityMap.Status.MapEntitiesLoading) : LoadingInv w'.map :=
  fun h => hid.2.trans (hinv (hs h))

theorem LoadingInv.li_of_status {w w' : World} (hinv : LoadingInv w.map)
    (hid : IdentityFixed w w') (hs : w'.map.m_status = w.map.m_status) : LoadingInv w'.map :=
  hinv.li_of_fixed hid (fun h => hs ▸ h)

theorem MapOp_run_loadingInv {w w' : World} {c : MapOp} (hinv : LoadingInv w.map)
    (h : MapOp.run w c = some w') : LoadingInv w'.map := by
  have hid := MapOp_run_identity h
  cases c with
  | AddEntity p => exact hinv.li_of_status hid (AddEntity_status h).1
  | RemoveEntity id =>
    refine hinv.li_of_status hid ?_
    simp only [MapOp.run, RemoveEntity, Option.bind_eq_bind, Option.map_eq_some',
      Option.bind_eq_some, Option.some.injEq] at h
    obtain ⟨⟨w1, p1⟩, ⟨⟨w2, r⟩, hr, _, _, h3⟩, rfl⟩ := h
    simp only [Prod.mk.injEq] at h3
    obtain ⟨rfl, _⟩ := h3
    exact (RemoveEntityInternal_status hr).1
  | DestroyEntity id =>
    refine hinv.li_of_status hid ?_
    simp only [MapOp.run, DestroyEntity, Option.bind_eq_bind, Option.bind_eq_some,
      Option.some.injEq] at h
    obtain ⟨⟨w2, r⟩, hr, rfl⟩ := h
    exact (RemoveEntityInternal_status hr).1
  | Load =>
    simp only [MapOp.run] at h
    unfold Load at h
    simp only [Option.bind_eq_bind, Option.bind_eq_some] at h
    obtain ⟨_, _, h⟩ := h
    split at h
    · cases h
      intro hs
      rcases hs with hs | hs <;> cases hs
    · rename_i ht
      cases h
      intro _
      show w.map.m_isTransientMap = false
      simpa using ht
  | Unload =>
    refine hinv.li_of_status hid ?_
    simp only [MapOp.run] at h
    unfold Unload at h
    simp only [Option.bind_eq_bind, Option.bind_eq_some, Option.some.injEq] at h
    obtain ⟨_, _, rfl⟩ := h
    rfl
  | Activate =>
    simp only [MapOp.run] at h
    unfold Activate at h
    simp only [Option.bind_eq_bind, Option.bind_eq_some, Option.some.injEq] at h
    obtain ⟨_, _, w1, h1, rfl⟩ := h
    intro hs
    rcases hs with hs | hs <;> cases hs
  | Deactivate =>
    simp only [MapOp.run] at h
    unfold Deactivate at h
    simp only [Option.bind_eq_bind, Option.bind_eq_some, Option.some.injEq] at h
    obtain ⟨_, _, w1, h1, rfl⟩ := h
    intro hs
    rcases hs with hs | hs <;> cases hs
  | OnEntityStateUpdated p =>
    refine hinv.li_of_status hid ?_
    simp only [MapOp.run] at h
    unfold OnEntityStateUpdated at h
    simp only [Option.bind_eq_bind, Option.bind_eq_some] at h
    obtain ⟨e, _, h⟩ := h
    split at h
    · simp only [Option.bind_eq_bind, Option.bind_eq_some] at h
      obtain ⟨_, _, h⟩ := h
      split at h
      · cases h
        rfl
      · cases h
        rfl
    · cases h
      rfl
  | UpdateState ctx =>
    refine hinv.li_of_fixed hid ?_
    simp only [MapOp.run, Option.map_eq_some'] at h
    obtain ⟨⟨w1, r⟩, h1, rfl⟩ := h
    exact UpdateState_loadingStatus h1

theorem PublicOp_run_loadingInv {w w' : World} {c : PublicOp} (hinv : LoadingInv w.map)
    (h : PublicOp.run w c = some w') : LoadingInv w'.map := by
  have hid := PublicOp_run_identity h
  cases c with
  | core op => exact MapOp_run_loadingInv hinv h
  | AddEntities ps => exact hinv.li_of_status hid (AddEntities_status h).1
  | AddEntityCollection created => exact hinv.li_of_status hid (AddEntityCollection_status h).1
  | RenameEntity p n => exact hinv.li_of_status hid (RenameEntity_fixed h).2.1
  | ComponentEditingDeactivate id c =>
    exact hinv.li_of_status hid (ComponentEditingDeactivate_fixed h).2.1
  | ComponentEditingUnload id c =>
    exact hinv.li_of_status hid (ComponentEditingUnload_fixed h).2.1
  | HotReloadDeactivateEntities users =>
    exact hinv.li_of_status hid (HotReloadDeactivateEntities_fixed h).2.1
  | HotReloadUnloadEntities => exact hinv.li_of_status hid (HotReloadUnloadEntities_fixed h).2.1
  | HotReloadLoadEntities => exact hinv.li_of_status hid (HotReloadLoadEntities_fixed h).2.1

/-- In every state the program can reach, a map whose descriptor or entities
are loading is not transient. -/
theorem Reachable.loadingInv {w : World} (h : Reachable w) : LoadingInv w.map := by
  induction h with
  | fresh w id h =>
    rcases h with h | h <;> rw [h] <;> exact fun hs => by rcases hs with hs | hs <;> cases hs
  | op w w' c _ h ih => exact PublicOp_run_loadingInv ih h
  | environment w heap _ ih => exact ih
  | copyAssign w src m _ _ h ih _ =>
    unfold EntityMap.copyAssign at h
    simp only [Option.bind_eq_bind, Option.bind_eq_some, Option.some.injEq, EE_ASSERT_eq_some,
      Bool.and_eq_true, decide_eq_true_eq] at h
    obtain ⟨_, ⟨hs, _⟩, _, _, rfl⟩ := h
    intro hc
    have hc' : w.map.m_status = EntityMap.Status.MapDescriptorLoading
        ∨ w.map.m_status = EntityMap.Status.MapEntitiesLoading := hc
    rw [hs] at hc'
    rcases hc' with hc' | hc' <;> cases hc'
  | moveAssign w src r _ _ h _ ihsrc =>
    unfold EntityMap.moveAssign at h
    simp only [Option.bind_eq_bind, Option.bind_eq_some, Option.some.injEq] at h
    obtain ⟨_, _, rfl⟩ := h
    exact fun hc => ihsrc hc
  | movedFrom w src r _ _ h _ _ =>
    unfold EntityMap.moveAssign at h
    simp only [Option.bind_eq_bind, Option.bind_eq_some, Option.some.injEq] at h
    obtain ⟨_, _, rfl⟩ := h
    exact fun hc => by rcases hc with hc | hc <;> cases hc

/-- The descriptor step keeps a map that is loading non-transient. -/
theorem ProcessMapLoading_loadingInv {w w' : World} {ctx : EntityLoadingContext} {b : Bool}
    (h : ProcessMapLoading w ctx = some (w', b)) : LoadingInv w'.map := by
  have hid := ProcessMapLoading_identity h
  unfold ProcessMapLoading at h
  simp only [Option.bind_eq_bind, Option.bind_eq_some, EE_ASSERT_eq_some] at h
  obtain ⟨_, _, _, ht, _⟩ := h
  intro _
  rw [hid.2]
  simpa using ht

/-- C37: in every state a map reaches from its construction through `Load`,
`Unload`, `Activate`, `Deactivate`, `UpdateState`, the other exposed operations
and copy or move assignment, a map with the status MapDescriptorLoading or
MapEntitiesLoading is not transient.  Hence the assertions of
`ProcessMapLoading`, which a pass calls on such a state when its status is
MapDescriptorLoading, hold; and on every path of a pass (no unload requested
and no descriptor loading; after the descriptor step; after a completed
unload) the assertion of the transition from MapEntitiesLoading to Loaded
holds when the loading and activation stage reaches it, so the end of the stage
returns. -/
theorem C37_loading_map_is_not_transient (w : World) (hr : Reachable w) :
    (w.map.m_status = EntityMap.Status.MapDescriptorLoading
        ∨ w.map.m_status = EntityMap.Status.MapEntitiesLoading →
      w.map.m_isTransientMap = false)
    ∧ (w.map.m_status = EntityMap.Status.MapDescriptorLoading →
        EE_ASSERT (decide (w.map.m_status = EntityMap.Status.MapDescriptorLoading)) = some ()
        ∧ EE_ASSERT (!w.map.m_isTransientMap) = some ())
    ∧ (∀ (ctx : EntityLoadingContext) (v v1 v2 : World),
        ((w.map.m_isUnloadRequested = false
            ∧ w.map.m_status ≠ EntityMap.Status.MapDescriptorLoading ∧ v = w)
          ∨ (w.map.m_isUnloadRequested = false ∧ ProcessMapLoading w ctx = some (v, true))
          ∨ ProcessMapUnloadRequest w = some (v, true)) →
        ProcessEntityAdditionAndRemoval v = some v1 →
        ProcessEntityLoadingAndActivation.batch v1 ctx = some v2 →
        ∃ v3, ProcessEntityLoadingAndActivation.finish v2 = some v3) := by
  have hinv := hr.loadingInv
  refine ⟨hinv, ?_, ?_⟩
  · intro hs
    refine ⟨(EE_ASSERT_eq_some (u := ())).2 (by simp [hs]), ?_⟩
    rw [EE_ASSERT_eq_some, hinv (Or.inl hs)]
    rfl
  · intro ctx v v1 v2 hv h1 h2
    have hv' : LoadingInv v.map := by
      rcases hv with ⟨_, _, rfl⟩ | ⟨_, hp⟩ | hu
      · exact hinv
      · exact ProcessMapLoading_loadingInv hp
      · unfold ProcessMapUnloadRequest at hu
        simp only [Option.bind_eq_bind, Option.bind_eq_some] at hu
        obtain ⟨_, _, hu⟩ := hu
        split at hu
        · obtain ⟨_, _, h3⟩ := Option.map_eq_some'.1 hu
          simp at h3
        · obtain ⟨w1, _, h3⟩ := Option.map_eq_some'.1 hu
          simp only [Prod.mk.injEq, and_true] at h3
          subst h3
          intro hs
          rcases hs with hs | hs <;> cases hs
    have hf := (ProcessEntityAdditionAndRemoval_fixed h1).mf_trans (batch_fixed h2)
    unfold ProcessEntityLoadingAndActivation.finish
    split
    · rename_i hc
      have ht : v2.map.m_isTransientMap = false :=
        hf.2.2.2.2.2.1.trans (hv' (Or.inr (hf.2.2.1 ▸ hc.1)))
      rw [(EE_ASSERT_eq_some (u := ())).2 (by rw [ht]; rfl)]
      exact ⟨_, rfl⟩
    · exact ⟨_, rfl⟩

theorem C37_loading_map_is_not_transient_witness :
    exampleWorldEntitiesLoading.map.m_status = EntityMap.Status.MapEntitiesLoading
    ∧ exampleWorldEntitiesLoading.map.m_isTransientMap = false
    ∧ (ProcessEntityLoadingAndActivation.finish
        (World.after (ProcessEntityLoadingAndActivation.batch
          (World.after (ProcessEntityAdditionAndRemoval exampleWorldEntitiesLoading))
          (exampleContext true)))).isSome = true :=
  ⟨by decide,
    (C37_loading_map_is_not_transient exampleWorldEntitiesLoading
      (Reachable.of_runPublic
        (Reachable.fresh exampleWorldFreshResource 7 (Or.inr rfl))
        (show runPublic exampleWorldFreshResource
            [PublicOp.core MapOp.Load, PublicOp.core (MapOp.UpdateState exampleContextLoaded)]
            = some exampleWorldEntitiesLoading by rfl))).1 (Or.inr (by decide)),
    by decide⟩

/-! ## C36: move assignment -/

/-- C36: move assignment does not carry over the queues `toLoad` and `toRemove`,
and the source does not meet the preconditions of the destructor.  A loaded
transient map with one addition and one removal pending (no hot reload pending)
is move-assigned to a freshly constructed empty map.  The destination receives
the id, the status, the instantiated flag, the entity list and the id lookup
map, but its `toLoad` and `toRemove` are empty; the source is left Unloaded, not
instantiated, with empty entity list and id lookup map, but still holds the
pending addition and removal, so the third assertion of the destructor fails on
it.  For every pair of maps, the move leaves `toLoad` and `toRemove` of both
maps as they were. -/
theorem C36_move_leaves_worklists_behind :
    exampleWorldPending.map.m_entitiesToLoad = [3]
    ∧ exampleWorldPending.map.m_entitiesToRemove = [{ m_pEntity := 2, m_shouldDestroy := false }]
    ∧ exampleWorldPending.map.m_entitiesToHotReload = []
    ∧ (EntityMap.moveAssign true (EntityMap.mkTransient 8) exampleWorldPending.map).map
        (fun r => (r.1.m_ID, r.1.m_status, r.1.m_isMapInstantiated))
        = some (7, EntityMap.Status.Loaded, true)
    ∧ (EntityMap.moveAssign true (EntityMap.mkTransient 8) exampleWorldPending.map).map
        (fun r => (r.1.m_entities, r.1.m_entityIDLookupMap))
        = some ([1, 3], [(11, 1), (13, 3)])
    ∧ (EntityMap.moveAssign true (EntityMap.mkTransient 8) exampleWorldPending.map).map
        (fun r => (r.1.m_entitiesToLoad, r.1.m_entitiesToRemove)) = some ([], [])
    ∧ (EntityMap.moveAssign true (EntityMap.mkTransient 8) exampleWorldPending.map).map
        (fun r => (r.2.m_status, r.2.m_isMapInstantiated, r.2.m_entities,
          r.2.m_entityIDLookupMap))
        = some (EntityMap.Status.Unloaded, false, [], [])
    ∧ (EntityMap.moveAssign true (EntityMap.mkTransient 8) exampleWorldPending.map).map
        (fun r => (r.2.m_entitiesToLoad, r.2.m_entitiesToRemove))
        = some ([3], [{ m_pEntity := 2, m_shouldDestroy := false }])
    ∧ ((EntityMap.moveAssign true (EntityMap.mkTransient 8) exampleWorldPending.map).bind
        fun r => EntityMap.destructor { exampleWorldPending with map := r.2 }) = none
    ∧ ((EntityMap.moveAssign true (EntityMap.mkTransient 8) exampleWorldLoaded.map).bind
        fun r => EntityMap.destructor { exampleWorldLoaded with map := r.2 }).isSome = true
    ∧ (∀ (tools : Bool) (self src : EntityMap) (r : EntityMap × EntityMap),
        EntityMap.moveAssign tools self src = some r →
          r.1.m_entitiesToLoad = self.m_entitiesToLoad
          ∧ r.1.m_entitiesToRemove = self.m_entitiesToRemove
          ∧ r.2.m_entitiesToLoad = src.m_entitiesToLoad
          ∧ r.2.m_entitiesToRemove = src.m_entitiesToRemove) := by
  refine ⟨by decide, by decide, by decide, by decide, by decide, by decide, by decide,
    by decide, by decide, by decide, ?_⟩
  intro tools self src r h
  unfold EntityMap.moveAssign at h
  simp only [Option.bind_eq_bind, Option.bind_eq_some, Option.some.injEq] at h
  obtain ⟨_, _, rfl⟩ := h
  exact ⟨rfl, rfl, rfl, rfl⟩

/-! ## C35: renaming an entity -/

/-- Looking up a key in a lookup map from which one entry was erased and to
which an entry for a fresh key was added. -/
theorem THashMap.find_insert_erase {κ ν : Type} [DecidableEq κ] (m : List (κ × ν)) (old new : κ)
    (v : ν) (hfresh : THashMap.find (THashMap.erase m old) new = none) (k : κ) :
    THashMap.find (THashMap.insert (THashMap.erase m old) new v) k
      = if k = new then some v else THashMap.find (THashMap.erase m old) k := by
  by_cases hk : k = new
  · subst hk
    rw [if_pos rfl]
    exact THashMap.find_insert_self _ v hfresh
  · rw [if_neg hk]
    exact THashMap.find_insert_of_ne _ v hk hfresh

/-- C35: `RenameEntity` keeps the names of a map unique.  Take an entity of the
map (live, recording the map's id, entered in the name lookup map under its
name), a name lookup map without repeated names and within the range of the name
counter, and a valid new name.  `RenameEntity` succeeds: the entity gets the
unique name generated from the requested one against the other names of the
map; afterwards the name lookup map still has no repeated name and has as many
entries as before, the old name is a key exactly if it is also the new name, the
new name maps to the entity, and every other name is looked up as before.
Renaming an entity to its current name leaves its name as it was and every
lookup in the name lookup map as before. -/
theorem C35_RenameEntity (w : World) (pEntity : EntityPtr) (e : Entity) (newNameID : StringID)
    (htools : w.EE_DEVELOPMENT_TOOLS = true)
    (hp : pEntity ≠ nullptr)
    (he : Heap.read w.heap pEntity = some e)
    (hmap : e.m_mapID = w.map.m_ID)
    (hname : THashMap.find w.map.m_entityNameLookupMap e.m_name = some pEntity)
    (hnd : (w.map.m_entityNameLookupMap.map Prod.fst).Nodup)
    (hv : StringID.IsValid newNameID = true)
    (hsize : w.map.m_entityNameLookupMap.length + 1 ≤ 2 ^ 32) :
    ∃ w' name, RenameEntity w pEntity newNameID = some w'
      ∧ GenerateUniqueEntityNameID (THashMap.erase w.map.m_entityNameLookupMap e.m_name)
          newNameID = some name
      ∧ Heap.read w'.heap pEntity = some { e with m_name := name }
      ∧ (w'.map.m_entityNameLookupMap.map Prod.fst).Nodup
      ∧ w'.map.m_entityNameLookupMap.length = w.map.m_entityNameLookupMap.length
      ∧ (e.m_name ∈ w'.map.m_entityNameLookupMap.map Prod.fst ↔ name = e.m_name)
      ∧ THashMap.find w'.map.m_entityNameLookupMap name = some pEntity
      ∧ (∀ k, k ≠ e.m_name → k ≠ name →
          THashMap.find w'.map.m_entityNameLookupMap k
            = THashMap.find w.map.m_entityNameLookupMap k)
      ∧ (newNameID = e.m_name →
          name = e.m_name ∧ Heap.read w'.heap pEntity = some e
          ∧ ∀ k, THashMap.find w'.map.m_entityNameLookupMap k
              = THashMap.find w.map.m_entityNameLookupMap k) := by
  have hkey : e.m_name ∈ w.map.m_entityNameLookupMap.map Prod.fst :=
    (THashMap.find_isSome_iff _ _).1 (by rw [hname]; rfl)
  have hlen := THashMap.length_erase w.map.m_entityNameLookupMap e.m_name hkey
  obtain ⟨name, hgen⟩ := GenerateUniqueEntityNameID_isSome
    (THashMap.erase w.map.m_entityNameLookupMap e.m_name) newNameID hv (by omega)
  have hfresh := GenerateUniqueEntityNameID_fresh hgen
  have hold : THashMap.find (THashMap.erase w.map.m_entityNameLookupMap e.m_name) e.m_name
      = none :=
    (THashMap.find_eq_none_iff _ _).2 (THashMap.not_mem_erase _ _ hnd)
  have hins := THashMap.insert_of_find_none pEntity hfresh
  have hfind := THashMap.find_insert_erase w.map.m_entityNameLookupMap e.m_name name pEntity
    hfresh
  have hrun : RenameEntity w pEntity newNameID = some { w with
      heap := Heap.modify w.heap pEntity fun x => { x with m_name := name },
      map := { w.map with
        m_entityNameLookupMap :=
          THashMap.insert (THashMap.erase w.map.m_entityNameLookupMap e.m_name) name
            pEntity } } := by
    unfold RenameEntity
    rw [if_pos htools, (EE_ASSERT_eq_some (u := ())).2 (by simpa using hp)]
    simp only [Option.bind_eq_bind, Option.some_bind, he]
    rw [(EE_ASSERT_eq_some (u := ())).2 (by simpa using hmap)]
    simp only [Option.some_bind, hname, hgen]
  refine ⟨_, name, hrun, hgen, ?_, ?_, ?_, ?_, ?_, ?_, ?_⟩
  · dsimp only
    rw [Heap.read_modify_self, he]
    rfl
  · exact THashMap.nodup_insert name pEntity (THashMap.nodup_erase e.m_name hnd)
  · show (THashMap.insert (THashMap.erase w.map.m_entityNameLookupMap e.m_name) name
        pEntity).length = _
    rw [hins, List.length_append, List.length_singleton]
    exact hlen
  · show e.m_name ∈ (THashMap.insert (THashMap.erase w.map.m_entityNameLookupMap e.m_name)
        name pEntity).map Prod.fst ↔ _
    rw [← THashMap.find_isSome_iff, hfind]
    by_cases hk : e.m_name = name
    · rw [if_pos hk]
      exact ⟨fun _ => hk.symm, fun _ => rfl⟩
    · rw [if_neg hk, hold]
      exact ⟨fun h => Bool.noConfusion h, fun h => absurd h.symm hk⟩
  · show THashMap.find (THashMap.insert (THashMap.erase w.map.m_entityNameLookupMap e.m_name)
        name pEntity) name = _
    rw [hfind, if_pos rfl]
  · intro k hk1 hk2
    show THashMap.find (THashMap.insert (THashMap.erase w.map.m_entityNameLookupMap e.m_name)
        name pEntity) k = _
    rw [hfind, if_neg hk2]
    exact THashMap.find_erase_ne _ hk1
  · intro hsame
    have hn : name = e.m_name := by
      have := GenerateUniqueEntityNameID_of_fresh (hsame ▸ hv) hold
      rw [hsame] at hgen
      rw [this] at hgen
      exact (Option.some.inj hgen).symm
    refine ⟨hn, ?_, ?_⟩
    · dsimp only
      rw [Heap.read_modify_self, he, hn]
      rfl
    · intro k
      show THashMap.find (THashMap.insert (THashMap.erase w.map.m_entityNameLookupMap
          e.m_name) name pEntity) k = _
      rw [hfind]
      by_cases hk : k = name
      · rw [if_pos hk, hk, hn, hname]
      · rw [if_neg hk]
        exact THashMap.find_erase_ne _ (hn ▸ hk)

theorem C35_RenameEntity_witness :
    ∃ w' name, RenameEntity exampleWorldFoo 1 "Foo001".toList = some w'
      ∧ GenerateUniqueEntityNameID
          (THashMap.erase exampleWorldFoo.map.m_entityNameLookupMap "Foo".toList)
          "Foo001".toList = some name
      ∧ Heap.read w'.heap 1
          = some { { exampleEntity 11 "Foo".toList with m_mapID := 7 } with m_name := name }
      ∧ (w'.map.m_entityNameLookupMap.map Prod.fst).Nodup
      ∧ w'.map.m_entityNameLookupMap.length = exampleWorldFoo.map.m_entityNameLookupMap.length
      ∧ ("Foo".toList ∈ w'.map.m_entityNameLookupMap.map Prod.fst ↔ name = "Foo".toList)
      ∧ THashMap.find w'.map.m_entityNameLookupMap name = some 1
      ∧ (∀ k, k ≠ "Foo".toList → k ≠ name →
          THashMap.find w'.map.m_entityNameLookupMap k
            = THashMap.find exampleWorldFoo.map.m_entityNameLookupMap k)
      ∧ ("Foo001".toList = "Foo".toList →
          name = "Foo".toList
          ∧ Heap.read w'.heap 1 = some { exampleEntity 11 "Foo".toList with m_mapID := 7 }
          ∧ ∀ k, THashMap.find w'.map.m_entityNameLookupMap k
              = THashMap.find exampleWorldFoo.map.m_entityNameLookupMap k) :=
  C35_RenameEntity exampleWorldFoo 1 { exampleEntity 11 "Foo".toList with m_mapID := 7 }
    "Foo001".toList (by decide) (by decide) (by decide) (by decide) (by decide) (by decide)
    (by decide) (by decide)

/-! ## C32: inline activation in the loading batch -/

/-- The work items of the batch over a list of entities, started on the state
`w`: the calls issued include `Activate` for exactly the entities of the list
that meet the condition of the spec in `w`, and exactly these entities are
activated. -/
theorem EntityLoadingTask.item_fold_activation (w : World) (ctx : EntityLoadingContext)
    (l : List EntityPtr) :
    ∀ acc : World × List EntityPtr,
      l.foldlM (EntityLoadingTask.item ctx w.map.IsActivated) (w, []) = some acc →
      ∃ evs, acc.1.trace = w.trace ++ evs
        ∧ (∀ p, Event.Activate p ∈ evs ↔ p ∈ l ∧ activatedInline_spec w ctx p = true)
        ∧ (∀ p, Heap.read acc.1.heap p
            = if p ∈ l ∧ activatedInline_spec w ctx p = true then
                (Heap.read w.heap p).map fun e => { e with m_status := Entity.Status.Activated }
              else Heap.read w.heap p) := by
  induction l using List.reverseRecOn with
  | nil =>
    intro acc h
    simp only [List.foldlM_nil, Option.pure_def, Option.some.injEq] at h
    subst h
    refine ⟨[], by simp, fun p => by simp, fun p => by simp⟩
  | append_singleton l a ih =>
    intro acc h
    rw [List.foldlM_append] at h
    simp only [Option.bind_eq_bind, Option.bind_eq_some, List.foldlM_cons, List.foldlM_nil,
      Option.pure_def, Option.bind_some] at h
    obtain ⟨acc1, h1, h2⟩ := h
    obtain ⟨evs, htr, hev, hheap⟩ := ih acc1 h1
    unfold EntityLoadingTask.item at h2
    simp only [Option.bind_eq_bind, Option.bind_eq_some] at h2
    obtain ⟨e, he, h2⟩ := h2
    have hmem : ∀ p, p ≠ a → (p ∈ l ++ [a] ↔ p ∈ l) := by
      intro p hp
      simp [hp]
    -- the case in which nothing is activated by this work item
    have hquiet : (¬ (a ∉ l ∧ activatedInline_spec w ctx a = true)) →
        ∀ p, (p ∈ l ++ [a] ∧ activatedInline_spec w ctx p = true)
          ↔ (p ∈ l ∧ activatedInline_spec w ctx p = true) := by
      intro hn p
      by_cases hp : p = a
      · subst hp
        constructor
        · intro hc
          by_cases hl : p ∈ l
          · exact ⟨hl, hc.2⟩
          · exact absurd ⟨hl, hc.2⟩ hn
        · intro hc
          exact ⟨List.mem_append_left _ hc.1, hc.2⟩
      · rw [hmem p hp]
    have hnoevent : ∀ (p : EntityPtr), Event.Activate p ∈ evs ++ [Event.UpdateEntityState a]
        ↔ Event.Activate p ∈ evs := by
      intro p
      simp
    split at h2
    · rename_i hu
      split at h2
      · rename_i hact
        obtain ⟨w2, hw2, rfl⟩ := Option.map_eq_some'.1 h2
        obtain ⟨_, rfl⟩ := call_Activate_eq hw2
        simp only [Bool.and_eq_true] at hact
        -- the entity was not activated by an earlier work item
        have hfirst : ¬ (a ∈ l ∧ activatedInline_spec w ctx a = true) := by
          intro hc
          have := hheap a
          rw [if_pos hc, he] at this
          cases hw : Heap.read w.heap a with
          | none => rw [hw] at this; cases this
          | some e0 =>
            rw [hw] at this
            simp only [Option.map_some', Option.some.injEq] at this
            have hl := hact.2
            rw [this] at hl
            simp [Entity.IsLoaded] at hl
        have hread : Heap.read w.heap a = some e := by
          have := hheap a
          rw [if_neg hfirst] at this
          exact this.symm.trans he
        have hcond : activatedInline_spec w ctx a = true := by
          unfold activatedInline_spec
          rw [hu, hact.1, hread]
          exact hact.2
        refine ⟨evs ++ [Event.UpdateEntityState a, Event.Activate a], ?_, ?_, ?_⟩
        · show (acc1.1.trace ++ [Event.UpdateEntityState a]) ++ [Event.Activate a] = _
          rw [htr]
          simp
        · intro p
          by_cases hp : p = a
          · subst hp
            simp [hcond]
          · rw [hmem p hp, ← hev p]
            simp [hp]
        · intro p
          show Heap.read (Entity.Activate acc1.1.heap a) p = _
          unfold Entity.Activate
          rw [Heap.read_modify]
          by_cases hp : p = a
          · subst hp
            rw [if_pos rfl, if_pos ⟨List.mem_append_right _ (List.mem_singleton_self _), hcond⟩,
              he, hread]
          · rw [if_neg hp, hheap p]
            simp only [hmem p hp]
      · rename_i hact
        cases h2
        have hn : ¬ (a ∉ l ∧ activatedInline_spec w ctx a = true) := by
          intro hc
          have := hheap a
          rw [if_neg (fun hx => hc.1 hx.1), he] at this
          have hcond := hc.2
          unfold activatedInline_spec at hcond
          rw [← this] at hcond
          simp only [Bool.and_eq_true] at hcond
          exact hact (by simp [hcond.1.2, hcond.2])
        refine ⟨evs ++ [Event.UpdateEntityState a], ?_, ?_, ?_⟩
        · show acc1.1.trace ++ [Event.UpdateEntityState a] = _
          rw [htr, List.append_assoc]
        · intro p
          rw [hnoevent, hev, hquiet hn]
        · intro p
          show Heap.read acc1.1.heap p = _
          rw [hheap p]
          simp only [hquiet hn]
    · rename_i hu
      cases h2
      have hn : ¬ (a ∉ l ∧ activatedInline_spec w ctx a = true) := by
        intro hc
        have hcond := hc.2
        unfold activatedInline_spec at hcond
        simp only [Bool.and_eq_true] at hcond
        exact hu hcond.1.1
      refine ⟨evs ++ [Event.UpdateEntityState a], ?_, ?_, ?_⟩
      · show acc1.1.trace ++ [Event.UpdateEntityState a] = _
        rw [htr, List.append_assoc]
      · intro p
        rw [hnoevent, hev, hquiet hn]
      · intro p
        show Heap.read acc1.1.heap p = _
        rw [hheap p]
        simp only [hquiet hn]

/-- C32: within the loading and activation batch an entity is activated inline
exactly under the condition of the spec.  On a map whose loading entities are
live the batch returns; among the calls it issues, `Activate` is called on an
entity if and only if the entity is in the loading list, its state update in
this pass reported that it is no longer loading, the status of the map was
Activated when the batch started, and the entity is loaded.  These entities are
activated afterwards and every other entity is as before; in particular an
entity that reports that it is still loading is not activated by the batch. -/
theorem C32_inline_activation (w : World) (ctx : EntityLoadingContext)
    (hlive : ∀ p ∈ w.map.m_entitiesCurrentlyLoading, (Heap.read w.heap p).isSome = true) :
    ∃ w' evs, ProcessEntityLoadingAndActivation.batch w ctx = some w'
      ∧ w'.trace = w.trace ++ evs
      ∧ (∀ p, Event.Activate p ∈ evs ↔
          p ∈ w.map.m_entitiesCurrentlyLoading ∧ ctx.updateEntityState p = true
            ∧ w.map.m_status = EntityMap.Status.Activated
            ∧ ∃ e, Heap.read w.heap p = some e ∧ e.IsLoaded = true)
      ∧ (∀ p, Event.Activate p ∈ evs ↔
          p ∈ w.map.m_entitiesCurrentlyLoading ∧ activatedInline_spec w ctx p = true)
      ∧ (∀ p, Heap.read w'.heap p
          = if p ∈ w.map.m_entitiesCurrentlyLoading ∧ activatedInline_spec w ctx p = true then
              (Heap.read w.heap p).map fun e => { e with m_status := Entity.Status.Activated }
            else Heap.read w.heap p)
      ∧ (∀ p, ctx.updateEntityState p = false →
          Event.Activate p ∉ evs ∧ Heap.read w'.heap p = Heap.read w.heap p) := by
  have hspec : ∀ p, activatedInline_spec w ctx p = true ↔
      (ctx.updateEntityState p = true ∧ w.map.m_status = EntityMap.Status.Activated
        ∧ ∃ e, Heap.read w.heap p = some e ∧ e.IsLoaded = true) := by
    intro p
    unfold activatedInline_spec EntityMap.IsActivated
    cases hr : Heap.read w.heap p with
    | none => simp
    | some e => simp [and_assoc]
  have key : ∃ w' evs, ProcessEntityLoadingAndActivation.batch w ctx = some w'
      ∧ w'.trace = w.trace ++ evs
      ∧ (∀ p, Event.Activate p ∈ evs ↔
          p ∈ w.map.m_entitiesCurrentlyLoading ∧ activatedInline_spec w ctx p = true)
      ∧ (∀ p, Heap.read w'.heap p
          = if p ∈ w.map.m_entitiesCurrentlyLoading ∧ activatedInline_spec w ctx p = true then
              (Heap.read w.heap p).map fun e => { e with m_status := Entity.Status.Activated }
            else Heap.read w.heap p) := by
    obtain ⟨w', hw'⟩ := batch_returns w ctx hlive
    refine ⟨w', ?_⟩
    unfold ProcessEntityLoadingAndActivation.batch at hw'
    split at hw'
    · rename_i hempty
      cases hw'
      have hnil := List.isEmpty_iff.1 hempty
      refine ⟨[], ?_, by simp, ?_, ?_⟩
      · unfold ProcessEntityLoadingAndActivation.batch
        rw [if_pos hempty]
      · intro p
        simp [hnil]
      · intro p
        simp [hnil]
    · rename_i hne
      obtain ⟨r, hr, rfl⟩ := Option.map_eq_some'.1 hw'
      obtain ⟨evs, htr, hev, hheap⟩ :=
        EntityLoadingTask.item_fold_activation w ctx w.map.m_entitiesCurrentlyLoading r hr
      refine ⟨evs, ?_, htr, hev, hheap⟩
      unfold ProcessEntityLoadingAndActivation.batch
      rw [if_neg hne, hr]
      rfl
  obtain ⟨w', evs, hb, htr, hev, hheap⟩ := key
  refine ⟨w', evs, hb, htr, ?_, hev, hheap, ?_⟩
  · intro p
    rw [hev p, hspec p]
  · intro p hu
    have hn : ¬ (p ∈ w.map.m_entitiesCurrentlyLoading ∧ activatedInline_spec w ctx p = true) := by
      intro hc
      have := ((hspec p).1 hc.2).1
      rw [hu] at this
      cases this
    refine ⟨fun hc => hn ((hev p).1 hc), ?_⟩
    rw [hheap p, if_neg hn]

theorem C32_inline_activation_witness :
    exampleWorldActivatedLoading.map.m_entitiesCurrentlyLoading = [3]
    ∧ activatedInline_spec exampleWorldActivatedLoading (exampleContext true) 3 = true
    ∧ activatedInline_spec exampleWorldActivatedLoading (exampleContext false) 3 = false
    ∧ ∃ w' evs, ProcessEntityLoadingAndActivation.batch exampleWorldActivatedLoading
        (exampleContext true) = some w'
      ∧ w'.trace = exampleWorldActivatedLoading.trace ++ evs
      ∧ (∀ p, Event.Activate p ∈ evs ↔
          p ∈ exampleWorldActivatedLoading.map.m_entitiesCurrentlyLoading
            ∧ (exampleContext true).updateEntityState p = true
            ∧ exampleWorldActivatedLoading.map.m_status = EntityMap.Status.Activated
            ∧ ∃ e, Heap.read exampleWorldActivatedLoading.heap p = some e ∧ e.IsLoaded = true)
      ∧ (∀ p, Event.Activate p ∈ evs ↔
          p ∈ exampleWorldActivatedLoading.map.m_entitiesCurrentlyLoading
            ∧ activatedInline_spec exampleWorldActivatedLoading (exampleContext true) p = true)
      ∧ (∀ p, Heap.read w'.heap p
          = if p ∈ exampleWorldActivatedLoading.map.m_entitiesCurrentlyLoading
              ∧ activatedInline_spec exampleWorldActivatedLoading (exampleContext true) p = true
            then
              (Heap.read exampleWorldActivatedLoading.heap p).map
                fun e => { e with m_status := Entity.Status.Activated }
            else Heap.read exampleWorldActivatedLoading.heap p)
      ∧ (∀ p, (exampleContext true).updateEntityState p = false →
          Event.Activate p ∉ evs
            ∧ Heap.read w'.heap p = Heap.read exampleWorldActivatedLoading.heap p) :=
  ⟨by decide, by decide, by decide,
    C32_inline_activation exampleWorldActivatedLoading (exampleContext true) (by decide)⟩
/-! ## C33: the children of a removed entity -/

/-- The deactivation loop of `HotReloadDeactivateEntities` over live entities: it
returns, changes nothing in the map, only returns activated entities to the
loaded state, and leaves no entity of the list activated. -/
theorem HotReloadDeactivateEntities.deactivate_fold (l : List EntityPtr) :
    ∀ w : World, (∀ p ∈ l, (Heap.read w.heap p).isSome = true) →
    ∃ w', l.foldlM HotReloadDeactivateEntities.deactivate w = some w'
      ∧ w'.map = w.map
      ∧ w'.EE_DEVELOPMENT_TOOLS = w.EE_DEVELOPMENT_TOOLS
      ∧ Heap.Quieter w.heap w'.heap
      ∧ (∀ p ∈ l, ∃ e', Heap.read w'.heap p = some e' ∧ e'.IsActivated = false)
      ∧ ∃ evs, w'.trace = w.trace ++ evs ∧ ∀ ev ∈ evs, ∃ p ∈ l, ev = Event.Deactivate p := by
  induction l with
  | nil =>
    intro w _
    exact ⟨w, rfl, rfl, rfl, Heap.Quieter.q_refl _, fun p hp => absurd hp (List.not_mem_nil p),
      [], by simp, fun ev hev => absurd hev (List.not_mem_nil ev)⟩
  | cons a l ih =>
    intro w hlive
    obtain ⟨ea, hea⟩ := Option.isSome_iff_exists.1 (hlive a (List.mem_cons_self _ _))
    -- the first entity
    have hstep : ∃ w1, HotReloadDeactivateEntities.deactivate w a = some w1
        ∧ w1.map = w.map ∧ w1.EE_DEVELOPMENT_TOOLS = w.EE_DEVELOPMENT_TOOLS
        ∧ Heap.Quieter w.heap w1.heap
        ∧ (∃ e1, Heap.read w1.heap a = some e1 ∧ e1.IsActivated = false)
        ∧ ∃ evs, w1.trace = w.trace ++ evs ∧ ∀ ev ∈ evs, ev = Event.Deactivate a := by
      unfold HotReloadDeactivateEntities.deactivate
      simp only [hea, Option.bind_eq_bind, Option.some_bind]
      cases hact : ea.IsActivated with
      | true =>
        simp only [if_true]
        rw [call_Deactivate_of_live hea]
        refine ⟨_, rfl, rfl, rfl, Entity.Deactivate_quieter _ _, ?_, [Event.Deactivate a], rfl,
          fun ev hev => List.mem_singleton.1 hev⟩
        obtain ⟨e1, he1, _⟩ := (Entity.Deactivate_quieter w.heap a).live hea
        exact ⟨e1, he1, Entity.Deactivate_subtree w.heap a a e1 (Or.inl rfl) he1⟩
      | false =>
        simp only [Bool.false_eq_true, if_false]
        exact ⟨w, rfl, rfl, rfl, Heap.Quieter.q_refl _, ⟨ea, hea, hact⟩, [], by simp,
          fun ev hev => absurd hev (List.not_mem_nil ev)⟩
    obtain ⟨w1, h1, hm1, ht1, hq1, ⟨e1, he1, hna1⟩, evs1, htr1, hev1⟩ := hstep
    have hlive1 : ∀ p ∈ l, (Heap.read w1.heap p).isSome = true := by
      intro p hp
      obtain ⟨e, he⟩ := Option.isSome_iff_exists.1 (hlive p (List.mem_cons_of_mem _ hp))
      obtain ⟨e', he', _⟩ := hq1.live he
      rw [he']
      rfl
    obtain ⟨w', h2, hm2, ht2, hq2, hna2, evs2, htr2, hev2⟩ := ih w1 hlive1
    refine ⟨w', ?_, hm2.trans hm1, ht2.trans ht1, hq1.q_trans hq2, ?_, evs1 ++ evs2, ?_, ?_⟩
    · simp only [List.foldlM_cons, Option.bind_eq_bind, h1, Option.some_bind]
      exact h2
    · intro p hp
      rcases List.mem_cons.1 hp with rfl | hp
      · obtain ⟨e', he', _⟩ := hq2.live he1
        refine ⟨e', he', ?_⟩
        cases hact : e'.IsActivated with
        | false => rfl
        | true =>
          have := hq2.activated he' hact
          rw [he1] at this
          cases this
          rw [hna1] at hact
          cases hact
      · exact hna2 p hp
    · rw [htr2, htr1, List.append_assoc]
    · intro ev hev
      rcases List.mem_append.1 hev with h | h
      · exact ⟨a, List.mem_cons_self _ _, hev1 ev h⟩
      · obtain ⟨p, hp, rfl⟩ := hev2 ev h
        exact ⟨p, List.mem_cons_of_mem _ hp, rfl⟩

/-- The loop of `HotReloadUnloadEntities` over live entities that are not
activated: it returns; each entity of the list has its components unloaded and
is taken out of the loading list, and nothing else changes. -/
theorem HotReloadUnloadEntities.unload_fold_spec (l : List EntityPtr) :
    ∀ w : World,
      (∀ p ∈ l, ∃ e, Heap.read w.heap p = some e ∧ e.IsActivated = false) →
      w.map.m_entitiesCurrentlyLoading.Nodup →
      ∃ w', l.foldlM HotReloadUnloadEntities.unload w = some w'
        ∧ w'.map = { w.map with m_entitiesCurrentlyLoading := w'.map.m_entitiesCurrentlyLoading }
        ∧ w'.EE_DEVELOPMENT_TOOLS = w.EE_DEVELOPMENT_TOOLS
        ∧ w'.trace = w.trace ++ l.map Event.UnloadComponents
        ∧ (∀ p ∈ l, ∃ e', Heap.read w'.heap p = some e' ∧ e'.IsUnloaded = true)
        ∧ (∀ q, q ∉ l → Heap.read w'.heap q = Heap.read w.heap q)
        ∧ w'.map.m_entitiesCurrentlyLoading.Nodup
        ∧ (∀ q, q ∈ w'.map.m_entitiesCurrentlyLoading
            ↔ q ∈ w.map.m_entitiesCurrentlyLoading ∧ q ∉ l) := by
  induction l with
  | nil =>
    intro w _ hnd
    exact ⟨w, rfl, rfl, rfl, by simp, fun p hp => absurd hp (List.not_mem_nil p),
      fun _ _ => rfl, hnd, fun q => by simp⟩
  | cons a l ih =>
    intro w hl hnd
    obtain ⟨ea, hea, hna⟩ := hl a (List.mem_cons_self _ _)
    have h1 : HotReloadUnloadEntities.unload w a
        = some { w with
            heap := Entity.UnloadComponents w.heap a,
            trace := w.trace ++ [Event.UnloadComponents a],
            map := { w.map with
              m_entitiesCurrentlyLoading :=
                erase_first_unsorted w.map.m_entitiesCurrentlyLoading a } } := by
      unfold HotReloadUnloadEntities.unload
      simp only [hea, Option.bind_eq_bind, Option.some_bind]
      rw [(EE_ASSERT_eq_some (u := ())).2 (by rw [hna]; rfl)]
      simp only [Option.some_bind]
      rw [call_UnloadComponents_of_live (w := { w with map := { w.map with
        m_entitiesCurrentlyLoading :=
          erase_first_unsorted w.map.m_entitiesCurrentlyLoading a } }) (e := ea) hea]
    have hread1 : ∀ q, Heap.read (Entity.UnloadComponents w.heap a) q
        = if q = a then (Heap.read w.heap a).map
            (fun e => { e with m_status := Entity.Status.Unloaded })
          else Heap.read w.heap q := by
      intro q
      unfold Entity.UnloadComponents
      exact Heap.read_modify _ _ _ _
    obtain ⟨w', h2, hm2, ht2, htr2, hun2, hout2, hnd2, hmem2⟩ := ih
      { w with
        heap := Entity.UnloadComponents w.heap a,
        trace := w.trace ++ [Event.UnloadComponents a],
        map := { w.map with
          m_entitiesCurrentlyLoading :=
            erase_first_unsorted w.map.m_entitiesCurrentlyLoading a } }
      (by
        intro p hp
        obtain ⟨e, he, hne⟩ := hl p (List.mem_cons_of_mem _ hp)
        show ∃ e, Heap.read (Entity.UnloadComponents w.heap a) p = some e ∧ _
        rw [hread1]
        by_cases hpa : p = a
        · subst hpa
          rw [if_pos rfl, he]
          exact ⟨_, rfl, rfl⟩
        · rw [if_neg hpa]
          exact ⟨e, he, hne⟩)
      (nodup_erase_first_unsorted a hnd)
    refine ⟨w', ?_, ?_, ht2, ?_, ?_, ?_, hnd2, ?_⟩
    · simp only [List.foldlM_cons, Option.bind_eq_bind, h1, Option.some_bind]
      exact h2
    · rw [hm2]
    · rw [htr2]
      simp
    · intro p hp
      by_cases hpl : p ∈ l
      · exact hun2 p hpl
      · have hpa : p = a := by
          rcases List.mem_cons.1 hp with h | h
          · exact h
          · exact absurd h hpl
        subst hpa
        rw [hout2 p hpl]
        show ∃ e', Heap.read (Entity.UnloadComponents w.heap p) p = some e' ∧ _
        rw [hread1, if_pos rfl, hea]
        exact ⟨_, rfl, rfl⟩
    · intro q hq
      have hql : q ∉ l := fun h => hq (List.mem_cons_of_mem _ h)
      have hqa : q ≠ a := fun h => hq (h ▸ List.mem_cons_self _ _)
      rw [hout2 q hql]
      show Heap.read (Entity.UnloadComponents w.heap a) q = _
      rw [hread1, if_neg hqa]
    · intro q
      rw [hmem2 q]
      show q ∈ erase_first_unsorted w.map.m_entitiesCurrentlyLoading a ∧ q ∉ l ↔ _
      rw [mem_erase_first_unsorted hnd]
      simp only [List.mem_cons, not_or]
      constructor
      · rintro ⟨⟨h1, h2⟩, h3⟩
        exact ⟨h2, h1, h3⟩
      · rintro ⟨h2, h1, h3⟩
        exact ⟨⟨h1, h2⟩, h3⟩

/-- The loop of `HotReloadLoadEntities` over distinct live entities that are
unloaded: it returns; each entity of the list has its component load requested
and is appended to the loading list, and nothing else changes. -/
theorem HotReloadLoadEntities.load_fold_spec (l : List EntityPtr) :
    ∀ w : World, l.Nodup →
      (∀ p ∈ l, ∃ e, Heap.read w.heap p = some e ∧ e.IsUnloaded = true) →
      ∃ w', l.foldlM HotReloadLoadEntities.load w = some w'
        ∧ w'.map = { w.map with
            m_entitiesCurrentlyLoading := w.map.m_entitiesCurrentlyLoading ++ l }
        ∧ w'.EE_DEVELOPMENT_TOOLS = w.EE_DEVELOPMENT_TOOLS
        ∧ w'.trace = w.trace ++ l.map Event.LoadComponents
        ∧ (∀ p ∈ l, ∃ e', Heap.read w'.heap p = some e'
            ∧ e'.m_status = Entity.Status.Loaded)
        ∧ (∀ q, q ∉ l → Heap.read w'.heap q = Heap.read w.heap q) := by
  induction l with
  | nil =>
    intro w _ _
    refine ⟨w, rfl, ?_, rfl, by simp, fun p hp => absurd hp (List.not_mem_nil p),
      fun _ _ => rfl⟩
    simp
  | cons a l ih =>
    intro w hnd hl
    obtain ⟨hal, hndl⟩ := List.nodup_cons.1 hnd
    obtain ⟨ea, hea, hua⟩ := hl a (List.mem_cons_self _ _)
    have h1 : HotReloadLoadEntities.load w a
        = some { w with
            heap := Entity.LoadComponents w.heap a,
            trace := w.trace ++ [Event.LoadComponents a],
            map := { w.map with
              m_entitiesCurrentlyLoading := w.map.m_entitiesCurrentlyLoading ++ [a] } } := by
      unfold HotReloadLoadEntities.load
      simp only [hea, Option.bind_eq_bind, Option.some_bind]
      rw [(EE_ASSERT_eq_some (u := ())).2 hua]
      simp only [Option.some_bind]
      rw [call_LoadComponents_of_live hea]
      rfl
    have hread1 : ∀ q, Heap.read (Entity.LoadComponents w.heap a) q
        = if q = a then (Heap.read w.heap a).map
            (fun e => { e with m_status := Entity.Status.Loaded })
          else Heap.read w.heap q := by
      intro q
      unfold Entity.LoadComponents
      exact Heap.read_modify _ _ _ _
    obtain ⟨w', h2, hm2, ht2, htr2, hld2, hout2⟩ := ih
      { w with
        heap := Entity.LoadComponents w.heap a,
        trace := w.trace ++ [Event.LoadComponents a],
        map := { w.map with
          m_entitiesCurrentlyLoading := w.map.m_entitiesCurrentlyLoading ++ [a] } }
      hndl
      (by
        intro p hp
        obtain ⟨e, he, hue⟩ := hl p (List.mem_cons_of_mem _ hp)
        show ∃ e, Heap.read (Entity.LoadComponents w.heap a) p = some e ∧ _
        have hpa : p ≠ a := fun hpa => hal (hpa ▸ hp)
        rw [hread1, if_neg hpa]
        exact ⟨e, he, hue⟩)
    refine ⟨w', ?_, ?_, ht2, ?_, ?_, ?_⟩
    · simp only [List.foldlM_cons, Option.bind_eq_bind, h1, Option.some_bind]
      exact h2
    · rw [hm2]
      simp
    · rw [htr2]
      simp
    · intro p hp
      rcases List.mem_cons.1 hp with rfl | hp
      · rw [hout2 p hal]
        show ∃ e', Heap.read (Entity.LoadComponents w.heap p) p = some e' ∧ _
        rw [hread1, if_pos rfl, hea]
        exact ⟨_, rfl, rfl⟩
      · exact hld2 p hp
    · intro q hq
      have hql : q ∉ l := fun h => hq (List.mem_cons_of_mem _ h)
      have hqa : q ≠ a := fun h => hq (h ▸ List.mem_cons_self _ _)
      rw [hout2 q hql]
      show Heap.read (Entity.LoadComponents w.heap a) q = _
      rw [hread1, if_neg hqa]

/-- C34, as stated, fails: for the requester list that names the entity with id
11 twice, on a loaded map with no hot reload pending,
`HotReloadDeactivateEntities` enters the entity in `toHotReload` twice and
`HotReloadUnloadEntities` succeeds, but `HotReloadLoadEntities` stops at its
assertion that the entity is unloaded when it reaches the entity the second
time. -/
theorem C34_counterexample :
    exampleWorldLoaded.map.m_entitiesToHotReload = []
    ∧ exampleWorldLoaded.map.FindEntity 11 = some 1
    ∧ (HotReloadDeactivateEntities exampleWorldLoaded [11, 11]).map
        (fun w => w.map.m_entitiesToHotReload) = some [1, 1]
    ∧ ((HotReloadDeactivateEntities exampleWorldLoaded [11, 11]).bind
        HotReloadUnloadEntities).isSome = true
    ∧ ((HotReloadDeactivateEntities exampleWorldLoaded [11, 11]).bind
        HotReloadUnloadEntities).bind HotReloadLoadEntities = none := by
  decide

/-- C34, amended: take a non-empty requester list that names each entity of the
map at most once, on a map (with development tools) with empty `toHotReload`,
whose named entities are live and whose loading list has no duplicates.
`HotReloadDeactivateEntities`, `HotReloadUnloadEntities` and
`HotReloadLoadEntities` succeed in this order.  The first sets `toHotReload` to
the entities of the map whose id matches a requester (requesters naming no
entity of the map are ignored), only returns activated entities to the loaded
state, calls `Deactivate` on matched entities only, and leaves no matched entity
activated.  The second calls `UnloadComponents` on each matched entity, leaves it
unloaded and takes it out of the loading list, which keeps its other entities.
The third calls `LoadComponents` on each matched entity, appends it to the
loading list and empties `toHotReload`; afterwards every matched entity has its
component load requested and is in the loading list, and the entities that were
not matched are as after the deactivation. -/
theorem C34_hot_reload (w : World) (usersToReload : List EntityID)
    (htools : w.EE_DEVELOPMENT_TOOLS = true)
    (hne : usersToReload ≠ [])
    (hhot : w.map.m_entitiesToHotReload = [])
    (hnd : (usersToReload.filterMap (fun requesterID => w.map.FindEntity requesterID)).Nodup)
    (hlive : ∀ p ∈ usersToReload.filterMap (fun requesterID => w.map.FindEntity requesterID),
      (Heap.read w.heap p).isSome = true)
    (hload : w.map.m_entitiesCurrentlyLoading.Nodup) :
    ∃ w1 w2 w3,
      HotReloadDeactivateEntities w usersToReload = some w1
      ∧ HotReloadUnloadEntities w1 = some w2
      ∧ HotReloadLoadEntities w2 = some w3
      ∧ w1.map = { w.map with
          m_entitiesToHotReload :=
            usersToReload.filterMap (fun requesterID => w.map.FindEntity requesterID) }
      ∧ Heap.Quieter w.heap w1.heap
      ∧ (∀ p ∈ usersToReload.filterMap (fun requesterID => w.map.FindEntity requesterID),
          ∃ e1, Heap.read w1.heap p = some e1 ∧ e1.IsActivated = false)
      ∧ (∃ evs, w1.trace = w.trace ++ evs ∧ ∀ ev ∈ evs,
          ∃ p ∈ usersToReload.filterMap (fun requesterID => w.map.FindEntity requesterID),
            ev = Event.Deactivate p)
      ∧ w2.trace = w1.trace
          ++ (usersToReload.filterMap (fun requesterID => w.map.FindEntity requesterID)).map
              Event.UnloadComponents
      ∧ (∀ p ∈ usersToReload.filterMap (fun requesterID => w.map.FindEntity requesterID),
          p ∉ w2.map.m_entitiesCurrentlyLoading
            ∧ ∃ e2, Heap.read w2.heap p = some e2 ∧ e2.IsUnloaded = true)
      ∧ (∀ q, q ∈ w2.map.m_entitiesCurrentlyLoading ↔
          q ∈ w.map.m_entitiesCurrentlyLoading
            ∧ q ∉ usersToReload.filterMap (fun requesterID => w.map.FindEntity requesterID))
      ∧ w3.trace = w2.trace
          ++ (usersToReload.filterMap (fun requesterID => w.map.FindEntity requesterID)).map
              Event.LoadComponents
      ∧ w3.map.m_entitiesToHotReload = []
      ∧ w3.map.m_entitiesCurrentlyLoading = w2.map.m_entitiesCurrentlyLoading
          ++ usersToReload.filterMap (fun requesterID => w.map.FindEntity requesterID)
      ∧ (∀ p ∈ usersToReload.filterMap (fun requesterID => w.map.FindEntity requesterID),
          p ∈ w3.map.m_entitiesCurrentlyLoading
            ∧ ∃ e3, Heap.read w3.heap p = some e3 ∧ e3.HasRequestedComponentLoad = true)
      ∧ (∀ q, q ∉ usersToReload.filterMap (fun requesterID => w.map.FindEntity requesterID) →
          Heap.read w3.heap q = Heap.read w1.heap q) := by
  -- deactivation
  obtain ⟨w1, hf1, hm1, ht1, hq1, hna1, hev1⟩ :=
    HotReloadDeactivateEntities.deactivate_fold
      (usersToReload.filterMap (fun requesterID => w.map.FindEntity requesterID))
      { w with map := { w.map with
          m_entitiesToHotReload :=
            usersToReload.filterMap (fun requesterID => w.map.FindEntity requesterID) } }
      hlive
  have hD : HotReloadDeactivateEntities w usersToReload = some w1 := by
    unfold HotReloadDeactivateEntities
    rw [if_pos htools,
      (EE_ASSERT_eq_some (u := ())).2 (by
        cases usersToReload with
        | nil => exact absurd rfl hne
        | cons a l => rfl),
      (EE_ASSERT_eq_some (u := ())).2 (by rw [hhot]; rfl)]
    simp only [Option.bind_eq_bind, Option.some_bind, hhot, List.nil_append]
    exact hf1
  have hhot1 : w1.map.m_entitiesToHotReload
      = usersToReload.filterMap (fun requesterID => w.map.FindEntity requesterID) := by
    rw [hm1]
  have hl1 : w1.map.m_entitiesCurrentlyLoading = w.map.m_entitiesCurrentlyLoading := by
    rw [hm1]
  have htools1 : w1.EE_DEVELOPMENT_TOOLS = true := ht1.trans htools
  -- unload
  obtain ⟨w2, hf2, hm2, ht2, htr2, hun2, hout2, hnd2, hmem2⟩ :=
    HotReloadUnloadEntities.unload_fold_spec
      (usersToReload.filterMap (fun requesterID => w.map.FindEntity requesterID)) w1
      hna1 (hl1 ▸ hload)
  have hU : HotReloadUnloadEntities w1 = some w2 := by
    unfold HotReloadUnloadEntities
    rw [if_pos htools1, hhot1]
    exact hf2
  have hhot2 : w2.map.m_entitiesToHotReload
      = usersToReload.filterMap (fun requesterID => w.map.FindEntity requesterID) := by
    rw [hm2]
    exact hhot1
  have htools2 : w2.EE_DEVELOPMENT_TOOLS = true := ht2.trans htools1
  -- load
  obtain ⟨w3', hf3, hm3, _, htr3, hld3, hout3⟩ :=
    HotReloadLoadEntities.load_fold_spec
      (usersToReload.filterMap (fun requesterID => w.map.FindEntity requesterID)) w2 hnd hun2
  have hL : HotReloadLoadEntities w2
      = some { w3' with map := { w3'.map with m_entitiesToHotReload := [] } } := by
    unfold HotReloadLoadEntities
    rw [if_pos htools2, hhot2, hf3]
    rfl
  refine ⟨w1, w2, _, hD, hU, hL, hm1, hq1, hna1, hev1, htr2, ?_, ?_, htr3, rfl, ?_, ?_, ?_⟩
  · intro p hp
    exact ⟨fun hin => ((hmem2 p).1 hin).2 hp, hun2 p hp⟩
  · intro q
    rw [hmem2 q, hl1]
  · show w3'.map.m_entitiesCurrentlyLoading = _
    rw [hm3]
  · intro p hp
    refine ⟨?_, ?_⟩
    · show p ∈ w3'.map.m_entitiesCurrentlyLoading
      rw [hm3]
      exact List.mem_append_right _ hp
    · obtain ⟨e3, he3, hs3⟩ := hld3 p hp
      exact ⟨e3, he3, by simp [Entity.HasRequestedComponentLoad, hs3]⟩
  · intro q hq
    show Heap.read w3'.heap q = _
    rw [hout3 q hq, hout2 q hq]

theorem C34_hot_reload_witness :
    ∃ w1 w2 w3,
      HotReloadDeactivateEntities exampleWorldActivated [11, 99] = some w1
      ∧ HotReloadUnloadEntities w1 = some w2
      ∧ HotReloadLoadEntities w2 = some w3
      ∧ w1.map.m_entitiesToHotReload = [1]
      ∧ (w1.trace.getLast? = some (Event.Deactivate 1))
      ∧ w2.trace = w1.trace ++ [Event.UnloadComponents 1]
      ∧ w3.trace = w2.trace ++ [Event.LoadComponents 1]
      ∧ w3.map.m_entitiesToHotReload = []
      ∧ w3.map.m_entitiesCurrentlyLoading = [1] := by
  obtain ⟨w1, w2, w3, h1, h2, h3, hm1, _, _, _, htr2, _, _, htr3, hhot3, hl3, _, _⟩ :=
    C34_hot_reload exampleWorldActivated [11, 99] (by decide) (by decide) (by decide)
      (by decide) (by decide) (by decide)
  have e1 : World.after (HotReloadDeactivateEntities exampleWorldActivated [11, 99]) = w1 := by
    rw [h1]
    rfl
  have e2 : World.after (HotReloadUnloadEntities w1) = w2 := by
    rw [h2]
    rfl
  subst e1
  subst e2
  refine ⟨_, _, w3, h1, h2, h3, by decide, by decide, htr2, htr3, hhot3, ?_⟩
  rw [hl3]
  decide

/-! ## C38: descriptor requests and releases -/

theorem ResourceQuiet.rq_refl (w : World) : ResourceQuiet w w := ⟨rfl, rfl, rfl, rfl⟩

theorem ResourceQuiet.rq_trans {a b c : World} (h1 : ResourceQuiet a b)
    (h2 : ResourceQuiet b c) : ResourceQuiet a c :=
  ⟨h2.1.trans h1.1, h2.2.1.trans h1.2.1, h2.2.2.1.trans h1.2.2.1, h2.2.2.2.trans h1.2.2.2⟩

/-- A step that issues only calls into entities and keeps the descriptor handle
and the transient flag. -/
theorem ResourceQuiet.of_events {w w' : World} (evs : List Event)
    (ht : w'.trace = w.trace ++ evs)
    (hev : ∀ ev ∈ evs, ev ≠ Event.LoadResource ∧ ev ≠ Event.UnloadResource)
    (hd : w'.map.m_pMapDesc = w.map.m_pMapDesc)
    (htr : w'.map.m_isTransientMap = w.map.m_isTransientMap) : ResourceQuiet w w' := by
  refine ⟨?_, ?_, hd, htr⟩
  · rw [ht, List.count_append, List.count_eq_zero_of_not_mem (fun h => (hev _ h).1 rfl)]
    rfl
  · rw [ht, List.count_append, List.count_eq_zero_of_not_mem (fun h => (hev _ h).2 rfl)]
    rfl

theorem endEditing_rq {w w' : World} {p : EntityPtr}
    (h : ProcessEntityAdditionAndRemoval.endEditing w p = some w') : ResourceQuiet w w' := by
  unfold ProcessEntityAdditionAndRemoval.endEditing at h
  simp only [Option.bind_eq_bind, Option.bind_eq_some, Option.some.injEq] at h
  obtain ⟨_, _, _, _, rfl⟩ := h
  exact ResourceQuiet.of_events [Event.EndComponentEditing p] rfl (by simp) rfl rfl

theorem editedEntities_rq {w w' : World}
    (h : ProcessEntityAdditionAndRemoval.editedEntities w = some w') : ResourceQuiet w w' := by
  unfold ProcessEntityAdditionAndRemoval.editedEntities at h
  split at h
  · obtain ⟨w1, h1, rfl⟩ := Option.map_eq_some'.1 h
    have := foldlM_inv ProcessEntityAdditionAndRemoval.endEditing (ResourceQuiet w)
      (fun _ _ _ hb hs => hb.rq_trans (endEditing_rq hs)) _ _ _ (ResourceQuiet.rq_refl w) h1
    exact this.rq_trans (ResourceQuiet.of_events [] (by simp) (by simp) rfl rfl)
  · cases h
    exact ResourceQuiet.rq_refl w

theorem destroyIfRequested_rq {w w' : World} {r : RemovalRequest}
    (h : ProcessEntityAdditionAndRemoval.destroyIfRequested w r = some w') :
    ResourceQuiet w w' := by
  unfold ProcessEntityAdditionAndRemoval.destroyIfRequested at h
  split at h
  · obtain ⟨_, rfl⟩ := call_Delete_eq h
    exact ResourceQuiet.of_events [Event.Delete r.m_pEntity] rfl (by simp) rfl rfl
  · cases h
    exact ResourceQuiet.rq_refl w

theorem removeEntity_rq {w w' : World} {i : Nat} {r : RemovalRequest}
    (h : ProcessEntityAdditionAndRemoval.removeEntity w i r = some w') :
    ResourceQuiet w w' := by
  unfold ProcessEntityAdditionAndRemoval.removeEntity at h
  simp only [Option.bind_eq_bind, Option.bind_eq_some, Option.some.injEq] at h
  obtain ⟨w1, h1, w2, h2, rfl⟩ := h
  obtain ⟨_, rfl⟩ := call_UnloadComponents_eq h1
  have h3 := destroyIfRequested_rq h2
  refine ResourceQuiet.rq_trans (b := w2) (ResourceQuiet.rq_trans ?_ h3)
    (ResourceQuiet.of_events [] (by simp) (by simp) rfl rfl)
  exact ResourceQuiet.of_events [Event.UnloadComponents r.m_pEntity] rfl (by simp) rfl rfl

theorem removalStep_rq {w w' : World} {i : Nat}
    (h : ProcessEntityAdditionAndRemoval.removalStep w i = some w') : ResourceQuiet w w' := by
  unfold ProcessEntityAdditionAndRemoval.removalStep at h
  simp only [Option.bind_eq_bind, Option.bind_eq_some] at h
  obtain ⟨req, _, e, _, h⟩ := h
  split at h
  · obtain ⟨_, rfl⟩ := call_Deactivate_eq h
    exact ResourceQuiet.of_events [Event.Deactivate req.m_pEntity] rfl (by simp) rfl rfl
  · exact removeEntity_rq h

theorem removalLoop_rq {n : Nat} {w w' : World}
    (h : ProcessEntityAdditionAndRemoval.removalLoop n w = some w') : ResourceQuiet w w' := by
  induction n generalizing w with
  | zero =>
    simp only [ProcessEntityAdditionAndRemoval.removalLoop, Option.some.injEq] at h
    subst h
    exact ResourceQuiet.rq_refl w
  | succ n ih =>
    simp only [ProcessEntityAdditionAndRemoval.removalLoop, Option.bind_eq_bind,
      Option.bind_eq_some] at h
    obtain ⟨w1, h1, h2⟩ := h
    exact (removalStep_rq h1).rq_trans (ih h2)

theorem requestLoad_rq {w w' : World} {p : EntityPtr}
    (h : ProcessEntityAdditionAndRemoval.requestLoad w p = some w') : ResourceQuiet w w' := by
  unfold ProcessEntityAdditionAndRemoval.requestLoad at h
  simp only [Option.bind_eq_bind, Option.bind_eq_some, Option.some.injEq] at h
  obtain ⟨_, _, _, _, w1, h1, _, _, rfl⟩ := h
  obtain ⟨_, rfl⟩ := call_LoadComponents_eq h1
  exact ResourceQuiet.of_events [Event.LoadComponents p] rfl (by simp) rfl rfl

theorem loading_rq {w w' : World}
    (h : ProcessEntityAdditionAndRemoval.loading w = some w') : ResourceQuiet w w' := by
  unfold ProcessEntityAdditionAndRemoval.loading at h
  split at h
  · obtain ⟨w1, h1, rfl⟩ := Option.map_eq_some'.1 h
    have := foldlM_inv ProcessEntityAdditionAndRemoval.requestLoad (ResourceQuiet w)
      (fun _ _ _ hb hs => hb.rq_trans (requestLoad_rq hs)) _ _ _ (ResourceQuiet.rq_refl w) h1
    exact this.rq_trans (ResourceQuiet.of_events [] (by simp) (by simp) rfl rfl)
  · cases h
    exact ResourceQuiet.rq_refl w

theorem ProcessEntityAdditionAndRemoval_rq {w w' : World}
    (h : ProcessEntityAdditionAndRemoval w = some w') : ResourceQuiet w w' := by
  unfold ProcessEntityAdditionAndRemoval at h
  simp only [Option.bind_eq_bind, Option.bind_eq_some] at h
  obtain ⟨w1, h1, w2, h2, h3⟩ := h
  exact (editedEntities_rq h1).rq_trans ((removalLoop_rq h2).rq_trans (loading_rq h3))

theorem EntityLoadingTask.loadingItem_rq {ctx : EntityLoadingContext} {act : Bool}
    {acc acc' : World × List EntityPtr} {p : EntityPtr}
    (h : EntityLoadingTask.item ctx act acc p = some acc') : ResourceQuiet acc.1 acc'.1 := by
  unfold EntityLoadingTask.item at h
  simp only [Option.bind_eq_bind, Option.bind_eq_some] at h
  obtain ⟨e, _, h⟩ := h
  split at h
  · split at h
    · obtain ⟨w2, h2, rfl⟩ := Option.map_eq_some'.1 h
      obtain ⟨_, rfl⟩ := call_Activate_eq h2
      exact ResourceQuiet.of_events [Event.UpdateEntityState p, Event.Activate p]
        (by simp) (by simp) rfl rfl
    · cases h
      exact ResourceQuiet.of_events [Event.UpdateEntityState p] rfl (by simp) rfl rfl
  · cases h
    exact ResourceQuiet.of_events [Event.UpdateEntityState p] rfl (by simp) rfl rfl

theorem ProcessEntityLoadingAndActivation_rq {w w' : World} {ctx : EntityLoadingContext}
    {r : Bool} (h : ProcessEntityLoadingAndActivation w ctx = some (w', r)) :
    ResourceQuiet w w' := by
  unfold ProcessEntityLoadingAndActivation at h
  simp only [Option.bind_eq_bind, Option.bind_eq_some, Option.some.injEq, Prod.mk.injEq] at h
  obtain ⟨w1, h1, w2, h2, rfl, _⟩ := h
  have hb : ResourceQuiet w w1 := by
    unfold ProcessEntityLoadingAndActivation.batch at h1
    split at h1
    · cases h1
      exact ResourceQuiet.rq_refl w
    · obtain ⟨r1, hf, rfl⟩ := Option.map_eq_some'.1 h1
      have := foldlM_inv (EntityLoadingTask.item ctx w.map.IsActivated)
        (fun acc => ResourceQuiet w acc.1)
        (fun _ _ _ hb hs => hb.rq_trans (EntityLoadingTask.loadingItem_rq hs)) _ _ _
        (ResourceQuiet.rq_refl w) hf
      exact this.rq_trans (ResourceQuiet.of_events [] (by simp) (by simp) rfl rfl)
  refine hb.rq_trans ?_
  unfold ProcessEntityLoadingAndActivation.finish at h2
  split at h2
  · simp only [Option.bind_eq_bind, Option.bind_eq_some, Option.some.injEq] at h2
    obtain ⟨_, _, rfl⟩ := h2
    exact ResourceQuiet.of_events [] (by simp) (by simp) rfl rfl
  · cases h2
    exact ResourceQuiet.rq_refl w1

theorem processEntities_rq {w w' : World} {ctx : EntityLoadingContext} {r : Bool}
    (h : UpdateState.processEntities w ctx = some (w', r)) : ResourceQuiet w w' := by
  unfold UpdateState.processEntities at h
  simp only [Option.bind_eq_bind, Option.bind_eq_some] at h
  obtain ⟨w1, h1, h2⟩ := h
  exact (ProcessEntityAdditionAndRemoval_rq h1).rq_trans
    (ProcessEntityLoadingAndActivation_rq h2)

theorem EntityDeactivationTask.deactivationItem_rq {w w' : World} {p : EntityPtr}
    (h : EntityDeactivationTask.item w p = some w') : ResourceQuiet w w' := by
  unfold EntityDeactivationTask.item at h
  simp only [Option.bind_eq_bind, Option.bind_eq_some] at h
  obtain ⟨e, _, h⟩ := h
  split at h
  · obtain ⟨_, rfl⟩ := call_Deactivate_eq h
    exact ResourceQuiet.of_events [Event.Deactivate p] rfl (by simp) rfl rfl
  · cases h
    exact ResourceQuiet.rq_refl w

theorem EntityActivationTask.activationItem_rq {w w' : World} {p : EntityPtr}
    (h : EntityActivationTask.item w p = some w') : ResourceQuiet w w' := by
  unfold EntityActivationTask.item at h
  simp only [Option.bind_eq_bind, Option.bind_eq_some] at h
  obtain ⟨e, _, h⟩ := h
  split at h
  · obtain ⟨_, rfl⟩ := call_Activate_eq h
    exact ResourceQuiet.of_events [Event.Activate p] rfl (by simp) rfl rfl
  · cases h
    exact ResourceQuiet.rq_refl w

theorem Deactivate_rq {w w' : World} (h : Deactivate w = some w') : ResourceQuiet w w' := by
  unfold Deactivate at h
  simp only [Option.bind_eq_bind, Option.bind_eq_some, Option.some.injEq] at h
  obtain ⟨_, _, w1, h1, rfl⟩ := h
  have := foldlM_inv EntityDeactivationTask.item (ResourceQuiet w)
    (fun _ _ _ hb hs => hb.rq_trans (EntityDeactivationTask.deactivationItem_rq hs)) _ _ _
    (ResourceQuiet.rq_refl w) h1
  exact this.rq_trans (ResourceQuiet.of_events [] (by simp) (by simp) rfl rfl)

theorem Activate_rq {w w' : World} (h : Activate w = some w') : ResourceQuiet w w' := by
  unfold Activate at h
  simp only [Option.bind_eq_bind, Option.bind_eq_some, Option.some.injEq] at h
  obtain ⟨_, _, w1, h1, rfl⟩ := h
  have := foldlM_inv EntityActivationTask.item (ResourceQuiet w)
    (fun _ _ _ hb hs => hb.rq_trans (EntityActivationTask.activationItem_rq hs)) _ _ _
    (ResourceQuiet.rq_refl w) h1
  exact this.rq_trans (ResourceQuiet.of_events [] (by simp) (by simp) rfl rfl)

theorem unloadEntity_rq {w w' : World} {p : EntityPtr}
    (h : ProcessMapUnloadRequest.unloadEntity w p = some w') : ResourceQuiet w w' := by
  unfold ProcessMapUnloadRequest.unloadEntity at h
  simp only [Option.bind_eq_bind, Option.bind_eq_some] at h
  obtain ⟨_, _, _, _, h⟩ := h
  obtain ⟨_, rfl⟩ := call_UnloadComponents_eq h
  exact ResourceQuiet.of_events [Event.UnloadComponents p] rfl (by simp) rfl rfl

theorem deleteEntity_rq {w w' : World} {p : EntityPtr}
    (h : DestroyAllEntities.deleteEntity w p = some w') : ResourceQuiet w w' := by
  unfold DestroyAllEntities.deleteEntity at h
  simp only [Option.bind_eq_bind, Option.bind_eq_some] at h
  obtain ⟨_, _, _, _, h⟩ := h
  obtain ⟨_, rfl⟩ := call_Delete_eq h
  exact ResourceQuiet.of_events [Event.Delete p] rfl (by simp) rfl rfl

theorem DestroyAllEntities_rq {w w' : World} (h : DestroyAllEntities w = some w') :
    ResourceQuiet w w' := by
  unfold DestroyAllEntities at h
  simp only [Option.bind_eq_bind, Option.bind_eq_some, Option.some.injEq] at h
  obtain ⟨_, _, _, _, w1, h1, rfl⟩ := h
  have := foldlM_inv DestroyAllEntities.deleteEntity (ResourceQuiet w)
    (fun _ _ _ hb hs => hb.rq_trans (deleteEntity_rq hs)) _ _ _ (ResourceQuiet.rq_refl w) h1
  exact this.rq_trans (ResourceQuiet.of_events [] (by simp) (by simp) rfl rfl)

theorem unloadEntities_rq {w w' : World}
    (h : ProcessMapUnloadRequest.unloadEntities w = some w') : ResourceQuiet w w' := by
  unfold ProcessMapUnloadRequest.unloadEntities at h
  split at h
  · simp only [Option.bind_eq_bind, Option.bind_eq_some, Option.some.injEq] at h
    obtain ⟨w1, h1, rfl⟩ := h
    have hq1 : ResourceQuiet w w1 := by
      unfold ProcessMapUnloadRequest.destroyInstantiated at h1
      split at h1
      · simp only [Option.bind_eq_bind, Option.bind_eq_some, Option.some.injEq] at h1
        obtain ⟨w2, h2, w3, h3, rfl⟩ := h1
        have := foldlM_inv ProcessMapUnloadRequest.unloadEntity (ResourceQuiet w)
          (fun _ _ _ hb hs => hb.rq_trans (unloadEntity_rq hs)) _ _ _
          (ResourceQuiet.rq_refl w) h2
        exact (this.rq_trans (DestroyAllEntities_rq h3)).rq_trans
          (ResourceQuiet.of_events [] (by simp) (by simp) rfl rfl)
      · cases h1
        exact ResourceQuiet.rq_refl w
    exact hq1.rq_trans (ResourceQuiet.of_events [] (by simp) (by simp) rfl rfl)
  · cases h
    exact ResourceQuiet.rq_refl w

theorem AddEntity_rq {w w' : World} {p : EntityPtr} (h : AddEntity w p = some w') :
    ResourceQuiet w w' := by
  obtain ⟨e, name, _, _, _, _, _, _, rfl⟩ := AddEntity_eq h
  exact ResourceQuiet.of_events [] (by simp) (by simp) rfl rfl

theorem reparent_rq {w w' : World} {p : EntityPtr} {e : Entity}
    (h : RemoveEntityInternal.reparent w p e = some w') : ResourceQuiet w w' := by
  unfold RemoveEntityInternal.reparent at h
  split at h
  · cases h
    exact ResourceQuiet.rq_refl w
  · split at h
    · refine forEachAttached_inv p (RemoveEntityInternal.setParent p) (ResourceQuiet w)
        (fun b a b' hb hs => hb.rq_trans ?_) _ _ _ _ _ (ResourceQuiet.rq_refl w) h
      obtain ⟨_, pParent, _, _, hs⟩ := setParent_eq hs
      unfold call_SetSpatialParent at hs
      simp only [Option.bind_eq_bind, Option.bind_eq_some, Option.some.injEq] at hs
      obtain ⟨_, _, rfl⟩ := hs
      exact ResourceQuiet.of_events [Event.SetSpatialParent a pParent] rfl (by simp) rfl rfl
    · refine forEachAttached_inv p call_ClearSpatialParent (ResourceQuiet w)
        (fun b a b' hb hs => hb.rq_trans ?_) _ _ _ _ _ (ResourceQuiet.rq_refl w) h
      unfold call_ClearSpatialParent at hs
      simp only [Option.bind_eq_bind, Option.bind_eq_some, Option.some.injEq] at hs
      obtain ⟨_, _, rfl⟩ := hs
      exact ResourceQuiet.of_events [Event.ClearSpatialParent a] rfl (by simp) rfl rfl

theorem RemoveEntityInternal_rq {w w' : World} {id : EntityID} {d : Bool}
    {r : Option EntityPtr} (h : RemoveEntityInternal w id d = some (w', r)) :
    ResourceQuiet w w' := by
  have hid := RemoveEntityInternal_identity h
  obtain ⟨p, e, w1, e1, nl, _, _, hw1, _, _, _, hsched⟩ := RemoveEntityInternal_spec h
  have h1 := reparent_rq hw1
  obtain ⟨_, _, _, _, _, _, _, _, _, _, hcase⟩ := scheduleUnload_spec hsched
  have htrace : w'.trace.count Event.LoadResource = w1.trace.count Event.LoadResource
      ∧ w'.trace.count Event.UnloadResource = w1.trace.count Event.UnloadResource := by
    rcases hcase with ⟨idx, q, _, _, _, _, hd | hd⟩ | ⟨_, _, _, _, _, htr, _⟩
    · obtain ⟨_, _, _, htr, _⟩ := hd
      rw [htr]
      simp [List.count_append]
    · obtain ⟨_, _, htr, _⟩ := hd
      rw [htr]
      exact ⟨rfl, rfl⟩
    · rw [htr]
      exact ⟨rfl, rfl⟩
  refine ⟨htrace.1.trans h1.1, htrace.2.trans h1.2.1, ?_, hid.2⟩
  unfold RemoveEntityInternal.scheduleUnload at hsched
  split at hsched
  · unfold RemoveEntityInternal.cancelLoad at hsched
    simp only [Option.bind_eq_bind, Option.bind_eq_some] at hsched
    obtain ⟨q, _, hsched⟩ := hsched
    split at hsched
    · obtain ⟨w2, h2, h3⟩ := Option.map_eq_some'.1 hsched
      obtain ⟨_, rfl⟩ := call_Delete_eq h2
      simp only [Prod.mk.injEq] at h3
      obtain ⟨rfl, _⟩ := h3
      exact h1.2.2.1
    · simp only [Option.some.injEq, Prod.mk.injEq] at hsched
      obtain ⟨rfl, _⟩ := hsched
      exact h1.2.2.1
  · unfold RemoveEntityInternal.queueRemoval at hsched
    split at hsched
    · simp only [Option.some.injEq, Prod.mk.injEq] at hsched
      obtain ⟨rfl, _⟩ := hsched
      exact h1.2.2.1
    · cases hsched

theorem OnEntityStateUpdated_rq {w w' : World} {p : EntityPtr}
    (h : OnEntityStateUpdated w p = some w') : ResourceQuiet w w' := by
  unfold OnEntityStateUpdated at h
  simp only [Option.bind_eq_bind, Option.bind_eq_some] at h
  obtain ⟨e, _, h⟩ := h
  split at h
  · simp only [Option.bind_eq_bind, Option.bind_eq_some] at h
    obtain ⟨_, _, h⟩ := h
    split at h
    · cases h
      exact ResourceQuiet.rq_refl w
    · cases h
      exact ResourceQuiet.of_events [] (by simp) (by simp) rfl rfl
  · cases h
    exact ResourceQuiet.rq_refl w

theorem ResourceBalance.of_quiet {w0 w w' : World} (hb : ResourceBalance w0 w)
    (hq : ResourceQuiet w w')
    (hs : w'.map.m_status = EntityMap.Status.MapDescriptorLoading
      ↔ w.map.m_status = EntityMap.Status.MapDescriptorLoading) : ResourceBalance w0 w' := by
  obtain ⟨ht, hreq, l, u, hl, hu, hlu, htr⟩ := hb
  obtain ⟨q1, q2, q3, q4⟩ := hq
  refine ⟨q4.trans ht, ?_, l, u, q1.trans hl, q2.trans hu, ?_, ?_⟩
  · rw [q3, hs]
    exact hreq
  · rw [q3]
    exact hlu
  · rw [q4]
    exact htr

theorem ResourceBalance.of_fresh (w0 : World) (mapID : EntityMapID)
    (hfresh : w0.map = EntityMap.mkTransient mapID ∨ w0.map = EntityMap.mkFromResource mapID) :
    ResourceBalance w0 w0 := by
  refine ⟨rfl, ?_, 0, 0, rfl, rfl, ?_, fun _ => ⟨rfl, rfl⟩⟩
  · rcases hfresh with h | h <;> rw [h] <;>
      simp [EntityMap.mkTransient, EntityMap.mkFromResource, MapDescPtr.WasRequested]
  · rcases hfresh with h | h <;> rw [h] <;>
      simp [EntityMap.mkTransient, EntityMap.mkFromResource, MapDescPtr.WasRequested]

/-- The descriptor step, when it completes: one `UnloadResource` call is issued
and the descriptor is no longer requested. -/
theorem ProcessMapLoading_done {w w1 : World} {ctx : EntityLoadingContext}
    (h : ProcessMapLoading w ctx = some (w1, true)) :
    w1.trace = w.trace ++ [Event.UnloadResource]
    ∧ w1.map.m_pMapDesc.WasRequested = false
    ∧ w1.map.m_isTransientMap = w.map.m_isTransientMap
    ∧ w.map.m_isTransientMap = false
    ∧ w.map.m_status = EntityMap.Status.MapDescriptorLoading
    ∧ w1.map.m_status ≠ EntityMap.Status.MapDescriptorLoading := by
  have hid := ProcessMapLoading_identity h
  have hst := ProcessMapLoading_status h
  unfold ProcessMapLoading at h
  simp only [Option.bind_eq_bind, Option.bind_eq_some, EE_ASSERT_eq_some,
    decide_eq_true_eq] at h
  obtain ⟨_, hs, _, ht, h⟩ := h
  have ht' : w.map.m_isTransientMap = false := by simpa using ht
  refine ⟨?_, ?_, hid.2, ht', hs, ?_⟩
  · split at h
    · simp at h
    · obtain ⟨w2, h2, h3⟩ := Option.map_eq_some'.1 h
      simp only [Prod.mk.injEq, and_true] at h3
      subst h3
      show w2.trace ++ [Event.UnloadResource] = _
      have : w2.trace = w.trace := by
        unfold ProcessMapLoading.finish at h2
        split at h2
        · cases h2; rfl
        · split at h2
          · split at h2
            · unfold ProcessMapLoading.instantiate at h2
              simp only [Option.bind_eq_bind, Option.bind_eq_some, Option.some.injEq] at h2
              obtain ⟨heap, _, w3, h3, rfl⟩ := h2
              exact (AddEntities_ids (w := { w with heap := heap }) h3).1
            · cases h2; rfl
          · cases h2; rfl
      rw [this]
  · split at h
    · simp at h
    · obtain ⟨w2, h2, h3⟩ := Option.map_eq_some'.1 h
      simp only [Prod.mk.injEq, and_true] at h3
      subst h3
      rfl
  · rcases hst with hst | hst <;> rw [hst] <;> exact fun hc => by cases hc

theorem ProcessMapUnloadRequest_balance {w0 w w1 : World} {b : Bool}
    (hb : ResourceBalance w0 w) (h : ProcessMapUnloadRequest w = some (w1, b)) :
    ResourceBalance w0 w1 := by
  unfold ProcessMapUnloadRequest at h
  simp only [Option.bind_eq_bind, Option.bind_eq_some] at h
  obtain ⟨_, _, h⟩ := h
  split at h
  · rename_i hact
    obtain ⟨w2, hD, h3⟩ := Option.map_eq_some'.1 h
    simp only [Prod.mk.injEq] at h3
    obtain ⟨rfl, _⟩ := h3
    refine hb.of_quiet (Deactivate_rq hD) ?_
    have hs : w.map.m_status = EntityMap.Status.Activated := by
      simpa [EntityMap.IsActivated] using hact
    unfold Deactivate at hD
    simp only [Option.bind_eq_bind, Option.bind_eq_some, Option.some.injEq] at hD
    obtain ⟨_, _, w3, _, rfl⟩ := hD
    rw [hs]
    exact iff_of_false (fun hc => by cases hc) (fun hc => by cases hc)
  · obtain ⟨w2, h2, h3⟩ := Option.map_eq_some'.1 h
    simp only [Prod.mk.injEq] at h3
    obtain ⟨rfl, _⟩ := h3
    obtain ⟨q1, q2, q3, q4⟩ := unloadEntities_rq h2
    obtain ⟨ht, hreq, l, u, hl, hu, hlu, htr⟩ := hb
    unfold ProcessMapUnloadRequest.unloadResource
    by_cases hc : (!w2.map.m_isTransientMap && w2.map.m_pMapDesc.WasRequested) = true
    · rw [if_pos hc]
      simp only [Bool.and_eq_true, Bool.not_eq_true'] at hc
      have hreqw : w.map.m_pMapDesc.WasRequested = true := by rw [← q3]; exact hc.2
      rw [hreqw] at hlu
      simp only [if_true] at hlu
      refine ⟨q4.trans ht, ?_, l, u + 1, ?_, ?_, ?_, ?_⟩
      · exact iff_of_false (fun hx => by cases hx) (fun hx => by cases hx)
      · show (w2.trace ++ [Event.UnloadResource]).count Event.LoadResource = _
        rw [List.count_append, q1, hl]
        rfl
      · show (w2.trace ++ [Event.UnloadResource]).count Event.UnloadResource = _
        rw [List.count_append, q2, hu]
        rfl
      · show l = u + 1 + (if false = true then 1 else 0)
        simp only [Bool.false_eq_true, if_false]
        exact hlu
      · intro hx
        have hx' : w2.map.m_isTransientMap = true := hx
        rw [hc.1] at hx'
        cases hx'
    · rw [if_neg hc]
      have hnreq : w.map.m_pMapDesc.WasRequested = false := by
        cases hr : w.map.m_pMapDesc.WasRequested with
        | false => rfl
        | true =>
          cases htt : w.map.m_isTransientMap with
          | true =>
            have := (htr htt).1
            rw [hr, (htr htt).2] at hlu
            simp at hlu
            omega
          | false =>
            exfalso
            apply hc
            rw [q4, q3, htt, hr]
            rfl
      rw [hnreq] at hlu
      refine ⟨q4.trans ht, ?_, l, u, q1.trans hl, q2.trans hu, ?_, ?_⟩
      · show w2.map.m_pMapDesc.WasRequested = true ↔ EntityMap.Status.Unloaded = _
        rw [q3, hnreq]
        exact iff_of_false (fun hx => by cases hx) (fun hx => by cases hx)
      · show l = u + (if w2.map.m_pMapDesc.WasRequested = true then 1 else 0)
        rw [q3, hnreq]
        exact hlu
      · intro hx
        have hx' : w2.map.m_isTransientMap = true := hx
        rw [q4] at hx'
        exact htr hx'

theorem processEntities_balance {w0 w w' : World} {ctx : EntityLoadingContext} {r : Bool}
    (hb : ResourceBalance w0 w) (h : UpdateState.processEntities w ctx = some (w', r)) :
    ResourceBalance w0 w' := by
  refine hb.of_quiet (processEntities_rq h) ⟨processEntities_descriptorLoading h, ?_⟩
  intro hs
  obtain ⟨_, hst, _⟩ := processEntities_result h
  rcases hst with hst | ⟨hst, _⟩
  · rw [hst]
    exact hs
  · rw [hs] at hst
    cases hst

theorem processLoading_balance {w0 w w' : World} {ctx : EntityLoadingContext} {r : Bool}
    (hb : ResourceBalance w0 w) (h : UpdateState.processLoading w ctx = some (w', r)) :
    ResourceBalance w0 w' := by
  unfold UpdateState.processLoading at h
  split at h
  · simp only [Option.bind_eq_bind, Option.bind_eq_some] at h
    obtain ⟨⟨w1, b⟩, h1, h2⟩ := h
    cases b with
    | false =>
      simp only [Bool.false_eq_true, if_false, Option.some.injEq, Prod.mk.injEq] at h2
      obtain ⟨rfl, _⟩ := h2
      obtain ⟨rfl, _⟩ := ProcessMapLoading_waiting h1
      exact hb
    | true =>
      simp only [if_true] at h2
      refine processEntities_balance ?_ h2
      obtain ⟨htr1, hreq1, ht1, htf, hs, hs1⟩ := ProcessMapLoading_done h1
      obtain ⟨ht, hreq, l, u, hl, hu, hlu, htr⟩ := hb
      rw [hreq.2 hs] at hlu
      simp only [if_true] at hlu
      refine ⟨ht1.trans ht, ?_, l, u + 1, ?_, ?_, ?_, ?_⟩
      · rw [hreq1]
        exact iff_of_false (fun hx => by cases hx) hs1
      · rw [htr1, List.count_append, hl]
        rfl
      · rw [htr1, List.count_append, hu]
        rfl
      · rw [hreq1]
        simp only [Bool.false_eq_true, if_false]
        exact hlu
      · intro hx
        rw [ht1, htf] at hx
        cases hx
  · exact processEntities_balance hb h

theorem UpdateState_balance {w0 w w' : World} {ctx : EntityLoadingContext} {r : Bool}
    (hb : ResourceBalance w0 w) (h : UpdateState w ctx = some (w', r)) :
    ResourceBalance w0 w' := by
  unfold UpdateState at h
  simp only [Option.bind_eq_bind, Option.bind_eq_some] at h
  obtain ⟨_, _, h⟩ := h
  unfold UpdateState.processUnload at h
  split at h
  · simp only [Option.bind_eq_bind, Option.bind_eq_some] at h
    obtain ⟨⟨w1, b⟩, h1, h2⟩ := h
    have hb1 := ProcessMapUnloadRequest_balance hb h1
    cases b with
    | false =>
      simp only [Bool.false_eq_true, if_false, Option.some.injEq, Prod.mk.injEq] at h2
      obtain ⟨rfl, _⟩ := h2
      exact hb1
    | true =>
      simp only [if_true] at h2
      exact processLoading_balance hb1 h2
  · exact processLoading_balance hb h

theorem MapOp_run_balance {w0 w w' : World} {c : MapOp} (hb : ResourceBalance w0 w)
    (h : MapOp.run w c = some w') : ResourceBalance w0 w' := by
  cases c with
  | AddEntity p =>
    exact hb.of_quiet (AddEntity_rq h) (by rw [(AddEntity_status h).1])
  | RemoveEntity id =>
    simp only [MapOp.run, RemoveEntity, Option.bind_eq_bind, Option.map_eq_some',
      Option.bind_eq_some, Option.some.injEq] at h
    obtain ⟨⟨w1, p1⟩, ⟨⟨w2, r⟩, hr, _, _, h3⟩, rfl⟩ := h
    simp only [Prod.mk.injEq] at h3
    obtain ⟨rfl, _⟩ := h3
    exact hb.of_quiet (RemoveEntityInternal_rq hr) (by rw [(RemoveEntityInternal_status hr).1])
  | DestroyEntity id =>
    simp only [MapOp.run, DestroyEntity, Option.bind_eq_bind, Option.bind_eq_some,
      Option.some.injEq] at h
    obtain ⟨⟨w2, r⟩, hr, rfl⟩ := h
    exact hb.of_quiet (RemoveEntityInternal_rq hr) (by rw [(RemoveEntityInternal_status hr).1])
  | Load =>
    simp only [MapOp.run] at h
    unfold Load at h
    simp only [Option.bind_eq_bind, Option.bind_eq_some, EE_ASSERT_eq_some,
      decide_eq_true_eq] at h
    obtain ⟨_, hs, h⟩ := h
    obtain ⟨ht, hreq, l, u, hl, hu, hlu, htr⟩ := hb
    have hnreq : w.map.m_pMapDesc.WasRequested = false := by
      cases hr : w.map.m_pMapDesc.WasRequested with
      | false => rfl
      | true =>
        have := hreq.1 hr
        rw [hs] at this
        cases this
    rw [hnreq] at hlu
    split at h
    · cases h
      refine ⟨ht, ?_, l, u, hl, hu, ?_, htr⟩
      · show w.map.m_pMapDesc.WasRequested = true ↔ EntityMap.Status.Loaded = _
        rw [hnreq]
        exact iff_of_false (fun hx => by cases hx) (fun hx => by cases hx)
      · show l = u + (if w.map.m_pMapDesc.WasRequested = true then 1 else 0)
        rw [hnreq]
        exact hlu
    · rename_i hnt
      cases h
      refine ⟨ht, ⟨fun _ => rfl, fun _ => rfl⟩, l + 1, u, ?_, ?_, ?_, ?_⟩
      · show (w.trace ++ [Event.LoadResource]).count Event.LoadResource = _
        rw [List.count_append, hl]
        rfl
      · show (w.trace ++ [Event.LoadResource]).count Event.UnloadResource = _
        rw [List.count_append, hu]
        rfl
      · show l + 1 = u + (if true = true then 1 else 0)
        simp only [if_true]
        simp only [Bool.false_eq_true, if_false, Nat.add_zero] at hlu
        omega
      · intro hx
        exact absurd hx hnt
  | Unload =>
    simp only [MapOp.run] at h
    unfold Unload at h
    simp only [Option.bind_eq_bind, Option.bind_eq_some, Option.some.injEq] at h
    obtain ⟨_, _, rfl⟩ := h
    exact hb.of_quiet (ResourceQuiet.of_events [] (by simp) (by simp) rfl rfl) Iff.rfl
  | Activate =>
    simp only [MapOp.run] at h
    refine hb.of_quiet (Activate_rq h) ?_
    unfold Activate at h
    simp only [Option.bind_eq_bind, Option.bind_eq_some, Option.some.injEq, EE_ASSERT_eq_some,
      decide_eq_true_eq] at h
    obtain ⟨_, hs, w1, _, rfl⟩ := h
    rw [hs]
    exact iff_of_false (fun hc => by cases hc) (fun hc => by cases hc)
  | Deactivate =>
    simp only [MapOp.run] at h
    refine hb.of_quiet (Deactivate_rq h) ?_
    unfold Deactivate at h
    simp only [Option.bind_eq_bind, Option.bind_eq_some, Option.some.injEq, EE_ASSERT_eq_some,
      decide_eq_true_eq] at h
    obtain ⟨_, hs, w1, _, rfl⟩ := h
    rw [hs]
    exact iff_of_false (fun hc => by cases hc) (fun hc => by cases hc)
  | OnEntityStateUpdated p =>
    simp only [MapOp.run] at h
    refine hb.of_quiet (OnEntityStateUpdated_rq h) ?_
    unfold OnEntityStateUpdated at h
    simp only [Option.bind_eq_bind, Option.bind_eq_some] at h
    obtain ⟨e, _, h⟩ := h
    split at h
    · simp only [Option.bind_eq_bind, Option.bind_eq_some] at h
      obtain ⟨_, _, h⟩ := h
      split at h
      · cases h
        exact Iff.rfl
      · cases h
        exact Iff.rfl
    · cases h
      exact Iff.rfl
  | UpdateState ctx =>
    simp only [MapOp.run, Option.map_eq_some'] at h
    obtain ⟨⟨w1, r⟩, h1, rfl⟩ := h
    exact UpdateState_balance hb h1

/-- C38: descriptor requests and releases are balanced.  Start from a freshly
constructed map (either constructor) and run any sequence of `Load`, `Unload`,
`UpdateState` and the other operations of the map, each within its precondition.
Of the `l` calls of `LoadResource` and the `u` calls of `UnloadResource` issued
since, `u` never exceeds `l`; `l` is `u + 1` while the descriptor handle is
requested and `u` otherwise; the two are equal whenever the status is Unloaded;
and a transient map issues neither call. -/
theorem C38_resource_calls_are_balanced (w0 w : World) (mapID : EntityMapID)
    (ops : List MapOp)
    (hfresh : w0.map = EntityMap.mkTransient mapID ∨ w0.map = EntityMap.mkFromResource mapID)
    (hrun : runOps w0 ops = some w) :
    ∃ l u, w.trace.count Event.LoadResource = w0.trace.count Event.LoadResource + l
      ∧ w.trace.count Event.UnloadResource = w0.trace.count Event.UnloadResource + u
      ∧ u ≤ l
      ∧ l = u + (if w.map.m_pMapDesc.WasRequested then 1 else 0)
      ∧ (w.map.m_status = EntityMap.Status.Unloaded → u = l)
      ∧ (w0.map.m_isTransientMap = true → l = 0 ∧ u = 0) := by
  have hb : ResourceBalance w0 w :=
    foldlM_inv MapOp.run (ResourceBalance w0) (fun _ _ _ hb hs => MapOp_run_balance hb hs)
      ops w0 w (ResourceBalance.of_fresh w0 mapID hfresh) hrun
  obtain ⟨ht, hreq, l, u, hl, hu, hlu, htr⟩ := hb
  refine ⟨l, u, hl, hu, by omega, hlu, ?_, fun h0 => htr (ht.trans h0)⟩
  intro hs
  have hnreq : w.map.m_pMapDesc.WasRequested = false := by
    cases hr : w.map.m_pMapDesc.WasRequested with
    | false => rfl
    | true =>
      have := hreq.1 hr
      rw [hs] at this
      cases this
  rw [hnreq] at hlu
  simp only [Bool.false_eq_true, if_false, Nat.add_zero] at hlu
  exact hlu.symm

theorem C38_resource_calls_are_balanced_witness :
    (World.after (runOps exampleWorldFreshResource exampleLifecycleOps)).trace.count
        Event.LoadResource = 2
    ∧ (World.after (runOps exampleWorldFreshResource exampleLifecycleOps)).trace.count
        Event.UnloadResource = 1
    ∧ ∃ l u,
      (World.after (runOps exampleWorldFreshResource exampleLifecycleOps)).trace.count
          Event.LoadResource = exampleWorldFreshResource.trace.count Event.LoadResource + l
      ∧ (World.after (runOps exampleWorldFreshResource exampleLifecycleOps)).trace.count
          Event.UnloadResource = exampleWorldFreshResource.trace.count Event.UnloadResource + u
      ∧ u ≤ l
      ∧ l = u + (if (World.after (runOps exampleWorldFreshResource
            exampleLifecycleOps)).map.m_pMapDesc.WasRequested then 1 else 0)
      ∧ ((World.after (runOps exampleWorldFreshResource exampleLifecycleOps)).map.m_status
          = EntityMap.Status.Unloaded → u = l)
      ∧ (exampleWorldFreshResource.map.m_isTransientMap = true → l = 0 ∧ u = 0) :=
  ⟨by decide, by decide,
    C38_resource_calls_are_balanced exampleWorldFreshResource _ 7 exampleLifecycleOps
      (Or.inr rfl) (show runOps exampleWorldFreshResource exampleLifecycleOps
        = some (World.after (runOps exampleWorldFreshResource exampleLifecycleOps)) by rfl)⟩
/-! ## C8: deferred removals and the membership recorded on the entity -/

/-- One request of the removal pass: an entity that records no map keeps
recording none, the requests left for the next pass stay, and the request is
either left for the next pass or its entity records no map any more. -/
theorem removalPass_spec.request_cleared {acc acc' : World × List RemovalRequest}
    {r : RemovalRequest} (h : removalPass_spec.request acc r = some acc') :
    (∀ p, (∀ e, Heap.read acc.1.heap p = some e → e.m_mapID = 0) →
        ∀ e, Heap.read acc'.1.heap p = some e → e.m_mapID = 0)
    ∧ (r ∈ acc'.2 ∨ ∀ e, Heap.read acc'.1.heap r.m_pEntity = some e → e.m_mapID = 0)
    ∧ (∀ x ∈ acc.2, x ∈ acc'.2) := by
  unfold removalPass_spec.request at h
  simp only [Option.bind_eq_bind, Option.bind_eq_some] at h
  obtain ⟨e0, he0, h⟩ := h
  cases hact : e0.IsActivated with
  | true =>
    rw [hact] at h
    simp only [if_true, Option.bind_eq_bind, Option.bind_eq_some, Option.some.injEq] at h
    obtain ⟨w1, h1, rfl⟩ := h
    obtain ⟨_, rfl⟩ := call_Deactivate_eq h1
    refine ⟨?_, Or.inl (by simp), fun x hx => List.mem_append_left _ hx⟩
    intro p hp e he
    dsimp only at he
    rw [Entity.read_Deactivate] at he
    obtain ⟨e1, he1, rfl⟩ := Option.map_eq_some'.1 he
    have := hp e1 he1
    split <;> exact this
  | false =>
    rw [hact] at h
    have hmid : ∀ p e2, Heap.read (Heap.modify (Entity.UnloadComponents acc.1.heap r.m_pEntity)
        r.m_pEntity fun x => { x with m_mapID := 0 }) p = some e2 →
        e2.m_mapID = 0 ∨ (p ≠ r.m_pEntity ∧ Heap.read acc.1.heap p = some e2) := by
      intro p e2 he2
      rw [Heap.read_modify] at he2
      by_cases hp : p = r.m_pEntity
      · rw [if_pos hp] at he2
        obtain ⟨e3, _, rfl⟩ := Option.map_eq_some'.1 he2
        exact Or.inl rfl
      · rw [if_neg hp] at he2
        unfold Entity.UnloadComponents at he2
        rw [Heap.read_modify_ne _ _ hp] at he2
        exact Or.inr ⟨hp, he2⟩
    have key : (∀ p e, Heap.read acc'.1.heap p = some e →
        e.m_mapID = 0 ∨ (p ≠ r.m_pEntity ∧ Heap.read acc.1.heap p = some e))
        ∧ acc'.2 = acc.2 := by
      simp only [Bool.false_eq_true, if_false, Option.bind_eq_bind, Option.bind_eq_some] at h
      obtain ⟨w1, h1, h⟩ := h
      obtain ⟨_, rfl⟩ := call_UnloadComponents_eq h1
      cases hd : r.m_shouldDestroy with
      | true =>
        rw [hd] at h
        simp only [if_true, Option.bind_eq_some, Option.some.injEq] at h
        obtain ⟨w3, h3, rfl⟩ := h
        obtain ⟨_, rfl⟩ := call_Delete_eq h3
        refine ⟨fun p e he => ?_, rfl⟩
        dsimp only at he
        rw [Heap.read_free] at he
        split at he
        · cases he
        · exact hmid p e he
      | false =>
        rw [hd] at h
        simp only [Bool.false_eq_true, if_false, Option.some_bind, Option.some.injEq] at h
        subst h
        exact ⟨fun p e he => hmid p e he, rfl⟩
    obtain ⟨key, hacc⟩ := key
    refine ⟨?_, Or.inr ?_, fun x hx => hacc ▸ hx⟩
    · intro p hp e he
      rcases key p e he with h0 | ⟨_, hold⟩
      · exact h0
      · exact hp e hold
    · intro e he
      rcases key _ e he with h0 | ⟨hne, _⟩
      · exact h0
      · exact absurd rfl hne

/-- The removal pass over a list of requests: every request of the list is
either left for the next pass or its entity records no map any more. -/
theorem removalPass_spec.fold_cleared (L : List RemovalRequest) :
    ∀ acc acc' : World × List RemovalRequest,
      L.foldlM removalPass_spec.request acc = some acc' →
      (∀ p, (∀ e, Heap.read acc.1.heap p = some e → e.m_mapID = 0) →
          ∀ e, Heap.read acc'.1.heap p = some e → e.m_mapID = 0)
      ∧ (∀ r ∈ L, r ∈ acc'.2 ∨ ∀ e, Heap.read acc'.1.heap r.m_pEntity = some e → e.m_mapID = 0)
      ∧ (∀ x ∈ acc.2, x ∈ acc'.2) := by
  induction L with
  | nil =>
    intro acc acc' h
    simp only [List.foldlM_nil, Option.pure_def, Option.some.injEq] at h
    subst h
    exact ⟨fun _ hp => hp, fun r hr => absurd hr (List.not_mem_nil r), fun _ hx => hx⟩
  | cons a L ih =>
    intro acc acc' h
    simp only [List.foldlM_cons, Option.bind_eq_bind, Option.bind_eq_some] at h
    obtain ⟨acc1, h1, h2⟩ := h
    obtain ⟨hk1, ha1, hs1⟩ := removalPass_spec.request_cleared h1
    obtain ⟨hk2, hL2, hs2⟩ := ih acc1 acc' h2
    refine ⟨fun p hp => hk2 p (hk1 p hp), ?_, fun x hx => hs2 x (hs1 x hx)⟩
    intro r hr
    rcases List.mem_cons.1 hr with rfl | hr
    · rcases ha1 with hin | hcl
      · exact Or.inl (hs2 _ hin)
      · exact Or.inr (hk2 _ hcl)
    · exact hL2 r hr

/-- The removal loop of `ProcessEntityAdditionAndRemoval`: a request that the
loop does not leave in `toRemove` has an entity that is deleted or records no map
any more. -/
theorem removalLoop_cleared {w w' : World}
    (h : ProcessEntityAdditionAndRemoval.removalLoop w.map.m_entitiesToRemove.length w
      = some w') :
    ∀ r ∈ w.map.m_entitiesToRemove, r ∈ w'.map.m_entitiesToRemove
      ∨ ∀ e, Heap.read w'.heap r.m_pEntity = some e → e.m_mapID = 0 := by
  obtain ⟨retained, hfold, hperm⟩ := removalLoop_refines w.map.m_entitiesToRemove
    w.map.m_entitiesToRemove w w' [] [] (by simp) (List.Perm.refl _) h
  obtain ⟨_, hL, _⟩ := removalPass_spec.fold_cleared _ _ _ hfold
  intro r hr
  rcases hL r (List.mem_reverse.2 hr) with hin | hcl
  · exact Or.inl (hperm.mem_iff.2 hin)
  · exact Or.inr hcl

/-- The edited-entities block of a pass touches neither `toRemove` nor the heap. -/
theorem editedEntities_members {w w' : World}
    (h : ProcessEntityAdditionAndRemoval.editedEntities w = some w') :
    w'.map.m_entitiesToRemove = w.map.m_entitiesToRemove ∧ w'.heap = w.heap := by
  unfold ProcessEntityAdditionAndRemoval.editedEntities at h
  split at h
  · obtain ⟨w1, h1, rfl⟩ := Option.map_eq_some'.1 h
    have := foldlM_inv ProcessEntityAdditionAndRemoval.endEditing
      (fun x => x.map.m_entitiesToRemove = w.map.m_entitiesToRemove ∧ x.heap = w.heap)
      (fun b a b' hb hs => by
        unfold ProcessEntityAdditionAndRemoval.endEditing at hs
        simp only [Option.bind_eq_bind, Option.bind_eq_some, Option.some.injEq] at hs
        obtain ⟨_, _, _, _, rfl⟩ := hs
        exact hb)
      _ _ _ ⟨rfl, rfl⟩ h1
    exact this
  · cases h
    exact ⟨rfl, rfl⟩

/-- The loading block of a pass touches neither `toRemove` nor the ids recorded
on the entities. -/
theorem loading_members {w w' : World}
    (h : ProcessEntityAdditionAndRemoval.loading w = some w') :
    w'.map.m_entitiesToRemove = w.map.m_entitiesToRemove
    ∧ ∀ q, (Heap.read w'.heap q).map Entity.membership
        = (Heap.read w.heap q).map Entity.membership := by
  unfold ProcessEntityAdditionAndRemoval.loading at h
  split at h
  · obtain ⟨w1, h1, rfl⟩ := Option.map_eq_some'.1 h
    have := foldlM_inv ProcessEntityAdditionAndRemoval.requestLoad
      (fun x => x.map.m_entitiesToRemove = w.map.m_entitiesToRemove
        ∧ ∀ q, (Heap.read x.heap q).map Entity.membership
            = (Heap.read w.heap q).map Entity.membership)
      (fun b a b' hb hs => by
        obtain ⟨_, _, _, _, _, _, rfl⟩ := requestLoad_eq hs
        exact ⟨hb.1, fun q => (Heap.membership_LoadComponents _ _ q).trans (hb.2 q)⟩)
      _ _ _ ⟨rfl, fun _ => rfl⟩ h1
    exact this
  · cases h
    exact ⟨rfl, fun _ => rfl⟩

/-- The addition and removal stage of a pass: a request that the stage does not
leave in `toRemove` has an entity that is deleted or records no map any more. -/
theorem ProcessEntityAdditionAndRemoval_cleared {w w' : World}
    (h : ProcessEntityAdditionAndRemoval w = some w') :
    ∀ r ∈ w.map.m_entitiesToRemove, r ∈ w'.map.m_entitiesToRemove
      ∨ ∀ e, Heap.read w'.heap r.m_pEntity = some e → e.m_mapID = 0 := by
  unfold ProcessEntityAdditionAndRemoval at h
  simp only [Option.bind_eq_bind, Option.bind_eq_some] at h
  obtain ⟨w1, h1, w2, h2, h3⟩ := h
  obtain ⟨hr1, _⟩ := editedEntities_members h1
  obtain ⟨hr3, hm3⟩ := loading_members h3
  intro r hr
  rcases removalLoop_cleared h2 r (hr1 ▸ hr) with hin | hcl
  · exact Or.inl (hr3 ▸ hin)
  · refine Or.inr fun e he => ?_
    cases h2r : Heap.read w2.heap r.m_pEntity with
    | none =>
      have := hm3 r.m_pEntity
      rw [he, h2r] at this
      cases this
    | some e2 =>
      obtain ⟨e', he', _, hmap⟩ := Heap.read_of_membership (hm3 r.m_pEntity) h2r
      have : e' = e := Option.some.inj (he'.symm.trans he)
      subst this
      rw [hmap]
      exact hcl e2 h2r

/-- C8, amended: start from an empty map (either constructor) with a valid id and
run any sequence of `AddEntity`, `RemoveEntity`, `DestroyEntity`, `UpdateState`,
`Load`, `Unload`, `Activate`, `Deactivate` and state-update notifications that
each satisfy their precondition.  In the state after the sequence (hence after
each call) every entity found in the id lookup map is live, carries the id it is
found under and records this map's id, which is a valid id.  An entity whose
removal is queued in `toRemove` is no longer found in the id lookup map, yet it
is live and still records this map's id; the addition and removal stage of a
pass either leaves its request in `toRemove`, and the entity keeps recording this
map's id, or completes the request, and the entity is deleted or records no map
any more. -/
theorem C8_indexed_entities_record_the_map (w0 w : World) (mapID : EntityMapID)
    (ops : List MapOp)
    (hempty : w0.map = EntityMap.mkTransient mapID ∨ w0.map = EntityMap.mkFromResource mapID)
    (hvalid : mapID ≠ 0)
    (hrun : runOps w0 ops = some w) :
    (∀ id p, w.map.FindEntity id = some p →
      ∃ e, Heap.read w.heap p = some e ∧ e.m_ID = id ∧ e.m_mapID = w.map.m_ID)
    ∧ w.map.m_ID ≠ 0
    ∧ (∀ r ∈ w.map.m_entitiesToRemove,
        (∃ e, Heap.read w.heap r.m_pEntity = some e ∧ e.m_mapID = w.map.m_ID)
        ∧ ∀ id, w.map.FindEntity id ≠ some r.m_pEntity)
    ∧ (∀ w', ProcessEntityAdditionAndRemoval w = some w' →
        w'.map.m_ID = w.map.m_ID
        ∧ ∀ r ∈ w.map.m_entitiesToRemove,
          (r ∈ w'.map.m_entitiesToRemove
            ∧ ∃ e, Heap.read w'.heap r.m_pEntity = some e ∧ e.m_mapID = w'.map.m_ID)
          ∨ (r ∉ w'.map.m_entitiesToRemove
            ∧ ∀ e, Heap.read w'.heap r.m_pEntity = some e → e.m_mapID = 0)) := by
  have h0 : MembershipInv w0 := by
    rcases hempty with h | h <;>
      exact MembershipInv_of_empty (by rw [h]; exact hvalid) (by rw [h]; rfl) (by rw [h]; rfl)
  have hinv := runOps_membership h0 hrun
  obtain ⟨hid, ha, _, _, hc⟩ := hinv
  refine ⟨fun id p hf => ha id p (THashMap.mem_of_find hf), hid, ?_, ?_⟩
  · intro r hr
    obtain ⟨hlive, _, hni⟩ := hc r hr
    exact ⟨hlive, fun id hf => hni id (THashMap.mem_of_find hf)⟩
  · intro w' h
    have hinv' := ProcessEntityAdditionAndRemoval_membership (runOps_membership h0 hrun) h
    obtain ⟨hid', _, _, _, hc'⟩ := hinv'
    refine ⟨(ProcessEntityAdditionAndRemoval_fixed h).2.1, fun r hr => ?_⟩
    by_cases hin : r ∈ w'.map.m_entitiesToRemove
    · exact Or.inl ⟨hin, (hc' r hin).1⟩
    · refine Or.inr ⟨hin, ?_⟩
      rcases ProcessEntityAdditionAndRemoval_cleared h r hr with hin' | hcl
      · exact absurd hin' hin
      · exact hcl

theorem C8_indexed_entities_record_the_map_witness :
    (∀ id p, (World.after (runOps exampleWorldFresh exampleOps)).map.FindEntity id = some p →
      ∃ e, Heap.read (World.after (runOps exampleWorldFresh exampleOps)).heap p = some e
        ∧ e.m_ID = id
        ∧ e.m_mapID = (World.after (runOps exampleWorldFresh exampleOps)).map.m_ID)
    ∧ (∀ r ∈ (World.after (runOps exampleWorldFresh exampleOps)).map.m_entitiesToRemove,
        (∃ e, Heap.read (World.after (runOps exampleWorldFresh exampleOps)).heap r.m_pEntity
            = some e
          ∧ e.m_mapID = (World.after (runOps exampleWorldFresh exampleOps)).map.m_ID)
        ∧ ∀ id, (World.after (runOps exampleWorldFresh exampleOps)).map.FindEntity id
            ≠ some r.m_pEntity)
    ∧ (World.after (runOps exampleWorldFresh exampleOps)).map.m_entitiesToRemove
        = [{ m_pEntity := 2, m_shouldDestroy := false }]
    ∧ ((ProcessEntityAdditionAndRemoval (World.after (runOps exampleWorldFresh exampleOps))).map
        fun x => (x.map.m_entitiesToRemove, (Heap.read x.heap 2).map Entity.m_mapID))
        = some ([], some 0) :=
  ⟨(C8_indexed_entities_record_the_map exampleWorldFresh
      (World.after (runOps exampleWorldFresh exampleOps)) 7 exampleOps (Or.inl rfl) (by decide)
      (by decide)).1,
    (C8_indexed_entities_record_the_map exampleWorldFresh
      (World.after (runOps exampleWorldFresh exampleOps)) 7 exampleOps (Or.inl rfl) (by decide)
      (by decide)).2.2.1,
    by decide, by decide⟩
end EE.EntityModel
